import Mathlib

/-!
Span lifecycle core of the tracer (`ext/span.c`)

A shallow embedding of the span / span-stack bookkeeping of `ext/span.c`.

* Objects live in two heaps indexed by handles (`Nat`); a C pointer is an
  `Option Nat`, `none` being `NULL`.
* Every operation threads the process-wide state (`State`) explicitly and
  returns in `Except Fault`: `Fault.null_deref` is a read or write through a
  `NULL` pointer, `Fault.out_of_fuel` is a loop that did not finish within the
  given number of iterations.
* Reference counts (`GC_ADDREF`, `OBJ_RELEASE`, ...) and the string-valued
  span properties (name, service, type, meta) are ambient memory management
  and tagging; they are not part of the embedding.
* The 32-bit counters wrap modulo `2 ^ 32`, the 64-bit durations modulo
  `2 ^ 64`.
-/

set_option autoImplicit false

namespace DDTrace

/-- Ways in which a run of the C code fails to produce a state. -/
inductive Fault where
  | null_deref
  | out_of_fuel
  deriving DecidableEq, Repr

/-- Result of running a piece of the C code. -/
abbrev Res (α : Type) := Except Fault α

/-- The C enumeration `enum ddtrace_span_dataype`. -/
inductive ddtrace_span_dataype where
  | DDTRACE_INTERNAL_SPAN
  | DDTRACE_USER_SPAN
  | DDTRACE_AUTOROOT_SPAN
  | DDTRACE_SPAN_CLOSED
  deriving DecidableEq, Repr

open ddtrace_span_dataype

/-- The fields of `ddtrace_span_data` used by `span.c`. -/
structure ddtrace_span_data where
  span_id : Nat := 0
  trace_id : Nat := 0
  parent_id : Nat := 0
  start : Nat := 0
  duration_start : Nat := 0
  duration : Nat := 0
  type : ddtrace_span_dataype := DDTRACE_INTERNAL_SPAN
  parent : Option Nat := none
  stack : Option Nat := none
  next : Option Nat := none
  root : Option Nat := none
  sampling_priority : Option Int := none
  deriving DecidableEq, Repr

/-- The fields of `ddtrace_span_stack` used by `span.c`. -/
structure ddtrace_span_stack where
  active : Option Nat := none
  root_span : Option Nat := none
  root_stack : Option Nat := none
  parent_stack : Option Nat := none
  closed_ring : Option Nat := none
  closed_ring_flush : Option Nat := none
  next : Option Nat := none
  top_closed_stack : Option Nat := none
  deriving DecidableEq, Repr

/-- The module globals `DDTRACE_G(...)` read or written by `span.c`, the two
object heaps, and the inputs the code reads from its environment (the two
configuration flags, the clock readings, the stream of generated ids). -/
structure State where
  spans : Nat → ddtrace_span_data
  span_stacks : Nat → ddtrace_span_stack
  span_top : Nat
  stack_top : Nat
  active_stack : Option Nat
  top_closed_stack : Option Nat
  open_spans_count : Nat
  dropped_spans_count : Nat
  closed_spans_count : Nat
  traced_spans : Nat → Option (Nat × Nat)
  disable : Bool
  autofinish_spans : Bool
  auto_flush_enabled : Bool
  monotonic_clock : Nat
  realtime_clock : Nat
  id_stream : Nat → Nat
  id_pos : Nat
  sent : List Nat

/-- Pointwise overwrite of one heap cell. -/
def upd {α : Type} (f : Nat → α) (i : Nat) (v : α) : Nat → α :=
  fun j => if j = i then v else f j

/-- Dereference of a pointer: `NULL` faults. -/
def deref {α : Type} : Option α → Res α
  | some a => .ok a
  | none => .error Fault.null_deref

/-- Pre-increment of a `uint32_t` counter. -/
def incr32 (c : Nat) : Nat := (c + 1) % 2 ^ 32

/-- Pre-decrement of a `uint32_t` counter. -/
def decr32 (c : Nat) : Nat := (c + (2 ^ 32 - 1)) % 2 ^ 32

/-- Modelled from the spec: the sentinel `DDTRACE_DROPPED_SPAN` of the header
`span.h` (`-1ull`), the duration of a dropped span. -/
def DDTRACE_DROPPED_SPAN : Nat := 2 ^ 64 - 1

/-- Modelled from the spec: the sentinel `DDTRACE_SILENTLY_DROPPED_SPAN` of the
header `span.h` (`-2ull`), the duration of a silently dropped span. -/
def DDTRACE_SILENTLY_DROPPED_SPAN : Nat := 2 ^ 64 - 2

/-- Modelled from the spec: the sampling decision `PRIORITY_SAMPLING_USER_REJECT`
of `priority_sampling.h`. -/
def PRIORITY_SAMPLING_USER_REJECT : Int := -1

/-- Modelled from the spec: `ddtrace_span_is_dropped` of the header `span.h`,
a span whose duration is one of the two dropped sentinels. -/
def ddtrace_span_is_dropped (sp : ddtrace_span_data) : Bool :=
  sp.duration == DDTRACE_DROPPED_SPAN || sp.duration == DDTRACE_SILENTLY_DROPPED_SPAN

/-- Write of one span object. -/
def set_span (s : State) (i : Nat) (v : ddtrace_span_data) : State :=
  { s with spans := upd s.spans i v }

/-- Write of one span stack object. -/
def set_stack (s : State) (k : Nat) (v : ddtrace_span_stack) : State :=
  { s with span_stacks := upd s.span_stacks k v }

/-- The external hooks `ddtrace_peek_span_id` and `ddtrace_peek_trace_id` of
`random.c`, which `ddtrace_open_span` calls for the ids a span inherits. -/
structure Hooks where
  ddtrace_peek_span_id : State → Res Nat
  ddtrace_peek_trace_id : State → Res Nat

/-- A state with empty heaps, as at the start of a request, for the given
environment readings. -/
def fresh_state (autofinish auto_flush : Bool) (ids : Nat → Nat) : State :=
  { spans := fun _ => {}
    span_stacks := fun _ => {}
    span_top := 1
    stack_top := 1
    active_stack := none
    top_closed_stack := none
    open_spans_count := 0
    dropped_spans_count := 0
    closed_spans_count := 0
    traced_spans := fun _ => none
    disable := false
    autofinish_spans := autofinish
    auto_flush_enabled := auto_flush
    monotonic_clock := 0
    realtime_clock := 0
    id_stream := ids
    id_pos := 0
    sent := [] }

/-- `_get_nanoseconds`: the reading of the monotonic or of the realtime clock. -/
def _get_nanoseconds (s : State) (monotonic_clock : Bool) : Nat :=
  if monotonic_clock then s.monotonic_clock else s.realtime_clock

/-- `ddtrace_generate_span_id` of `random.c`: the next 64-bit id of the stream. -/
def ddtrace_generate_span_id (s : State) : Nat × State :=
  (s.id_stream s.id_pos % 2 ^ 64, { s with id_pos := s.id_pos + 1 })

/-- `dd_drop_span_nodestroy`. -/
def dd_drop_span_nodestroy (s : State) (span : Nat) (silent : Bool) : State :=
  set_span s span { s.spans span with
    duration := if silent then DDTRACE_SILENTLY_DROPPED_SPAN else DDTRACE_DROPPED_SPAN }

/-- `dd_drop_span`: marks the span dropped and releases it. -/
def dd_drop_span (s : State) (span : Nat) (silent : Bool) : State :=
  dd_drop_span_nodestroy s span silent

/-- `dd_alloc_span_stack`: a new zero-initialised span stack object. -/
def dd_alloc_span_stack (s : State) : Nat × State :=
  (s.stack_top, { s with span_stacks := upd s.span_stacks s.stack_top {}, stack_top := s.stack_top + 1 })

/-- `ddtrace_init_span`: a new span object of the given type. -/
def ddtrace_init_span (s : State) (type : ddtrace_span_dataype) : Nat × State :=
  (s.span_top, { s with spans := upd s.spans s.span_top { type := type },
                        span_top := s.span_top + 1 })

/-- `ddtrace_init_root_span_stack`. -/
def ddtrace_init_root_span_stack (s : State) : Nat × State :=
  let (span_stack, s1) := dd_alloc_span_stack s
  let st := s1.span_stacks span_stack
  let st1 : ddtrace_span_stack :=
    match s1.active_stack with
    | some a => { st with parent_stack := some a }
    | none => { st with parent_stack := none }
  (span_stack, set_stack s1 span_stack
    { st1 with active := none, root_stack := some span_stack, root_span := none })

/-- `ddtrace_init_span_stack`: a child stack of the active stack. -/
def ddtrace_init_span_stack (s : State) : Res (Nat × State) := do
  let (span_stack, s1) := dd_alloc_span_stack s
  let a ← deref s1.active_stack
  let act := s1.span_stacks a
  let st := s1.span_stacks span_stack
  pure (span_stack, set_stack s1 span_stack
    { st with parent_stack := some a, active := act.active,
              root_stack := act.root_stack, root_span := act.root_span })

/-- `ddtrace_switch_span_stack`. -/
def ddtrace_switch_span_stack (s : State) (target_stack : Nat) : Res State := do
  let _ ← deref s.active_stack
  pure { s with active_stack := some target_stack }

/-- `ddtrace_init_span_stacks`. -/
def ddtrace_init_span_stacks (s : State) : State :=
  let s1 := { s with active_stack := none }
  let (st, s2) := ddtrace_init_root_span_stack s1
  { s2 with active_stack := some st, top_closed_stack := none, open_spans_count := 0,
            dropped_spans_count := 0, closed_spans_count := 0 }

/-- `ddtrace_open_span`. -/
def ddtrace_open_span (H : Hooks) (s : State) (span : Nat) : Res State := do
  let stack0 ← deref s.active_stack
  let primary_stack : Bool := (s.span_stacks stack0).parent_stack == none
  let (stack, s) ← (if primary_stack then do
      let (st, s1) := ddtrace_init_root_span_stack s
      let s2 ← ddtrace_switch_span_stack s1 st
      pure (st, s2)
    else pure (stack0, s) : Res (Nat × State))
  let s := set_span s span { s.spans span with stack := some stack }
  let (id, s) := ddtrace_generate_span_id s
  let s := set_span s span { s.spans span with span_id := id }
  let active ← deref s.active_stack
  let root_span : Bool := (s.span_stacks active).root_span == none
  let s ← (if !root_span || primary_stack then do
      let pid ← H.ddtrace_peek_span_id s
      let s := set_span s span { s.spans span with parent_id := pid }
      let tid ← H.ddtrace_peek_trace_id s
      let s := set_span s span { s.spans span with trace_id := tid }
      pure (if (s.spans span).trace_id = 0
        then set_span s span { s.spans span with trace_id := (s.spans span).span_id }
        else s)
    else
      pure (set_span s span { s.spans span with
        parent_id := 0, trace_id := (s.spans span).span_id }) : Res State)
  let s := set_span s span { s.spans span with duration_start := _get_nanoseconds s true }
  let s := set_span s span { s.spans span with start := _get_nanoseconds s false }
  let parent_span := (s.span_stacks active).active
  let s := set_stack s active { s.span_stacks active with active := some span }
  let s := { s with open_spans_count := incr32 s.open_spans_count }
  let s ← (if root_span then
      pure (set_span (set_stack s active { s.span_stacks active with root_span := some span })
        span { s.spans span with parent := none })
    else do
      let p ← deref parent_span
      pure (set_span s span { s.spans span with parent := some p }) : Res State)
  pure (set_span s span { s.spans span with root := (s.span_stacks active).root_span })

/-- `dd_trace_stop_span_time`. -/
def dd_trace_stop_span_time (s : State) (span : Nat) : State :=
  set_span s span { s.spans span with
    duration := (_get_nanoseconds s true + (2 ^ 64 - (s.spans span).duration_start % 2 ^ 64))
      % 2 ^ 64 }

/-- The `while` loop of `ddtrace_has_top_internal_span`. -/
def has_top_loop (s : State) (end_ : Nat) : Nat → Option Nat → Res Bool
  | _, none => .ok false
  | 0, some _ => .error Fault.out_of_fuel
  | fuel + 1, some span =>
    if span = end_ then .ok true
    else if (s.spans span).type ≠ DDTRACE_USER_SPAN then .ok false
    else has_top_loop s end_ fuel (s.spans span).parent

/-- `ddtrace_has_top_internal_span`. -/
def ddtrace_has_top_internal_span (fuel : Nat) (s : State) (end_ : Nat) : Res Bool := do
  let stack ← deref (s.spans end_).stack
  has_top_loop s end_ fuel (s.span_stacks stack).active

/-- The innermost `do ... while (span != end)` of `ddtrace_serialize_closed_spans`:
every span of one staged ring goes to `ddtrace_serialize_span_to_array`. -/
def serialize_ring (s : State) (end_ : Option Nat) :
    Nat → Option Nat → List Nat → Res (List Nat)
  | 0, _, _ => .error Fault.out_of_fuel
  | fuel + 1, span, serialized => do
    let tmp ← deref span
    let span := (s.spans tmp).next
    let serialized := serialized ++ [tmp]
    if span ≠ end_ then serialize_ring s end_ fuel span serialized
    else pure serialized

/-- The middle `do ... while (stack)` of `ddtrace_serialize_closed_spans`: a
stack of the worklist and the stacks of its sub-list. -/
def serialize_stacks (ring_fuel : Nat) :
    Nat → State → Nat → Option Nat → List Nat → Res (List Nat × State)
  | 0, _, _, _, _ => .error Fault.out_of_fuel
  | fuel + 1, s, stack, next_stack, serialized => do
    let flush ← deref (s.span_stacks stack).closed_ring_flush
    let span := (s.spans flush).next
    let s := set_stack s stack { s.span_stacks stack with closed_ring_flush := none }
    let serialized ← serialize_ring s span ring_fuel span serialized
    match next_stack with
    | some stack => serialize_stacks ring_fuel fuel s stack (s.span_stacks stack).next serialized
    | none => pure (serialized, s)

/-- The outer `do ... while (rootstack)` of `ddtrace_serialize_closed_spans`. -/
def serialize_rootstacks (inner_fuel : Nat) :
    Nat → State → Nat → List Nat → Res (List Nat × State)
  | 0, _, _, _ => .error Fault.out_of_fuel
  | fuel + 1, s, rootstack, serialized => do
    let stack := rootstack
    let rootstack := (s.span_stacks rootstack).next
    let next_stack := (s.span_stacks stack).top_closed_stack
    let s := set_stack s stack { s.span_stacks stack with top_closed_stack := none }
    let (serialized, s) ← serialize_stacks inner_fuel inner_fuel s stack next_stack serialized
    match rootstack with
    | some r => serialize_rootstacks inner_fuel fuel s r serialized
    | none => pure (serialized, s)

/-- The `while (DDTRACE_G(top_closed_stack))` loop of
`ddtrace_serialize_closed_spans`. -/
def serialize_worklist (inner_fuel : Nat) : Nat → State → List Nat → Res (List Nat × State)
  | 0, _, _ => .error Fault.out_of_fuel
  | fuel + 1, s, serialized =>
    match s.top_closed_stack with
    | none => pure (serialized, s)
    | some rootstack => do
      let s := { s with top_closed_stack := none }
      let (serialized, s) ← serialize_rootstacks inner_fuel inner_fuel s rootstack serialized
      serialize_worklist inner_fuel fuel s serialized

/-- `ddtrace_serialize_closed_spans`: the array handed back holds the spans in
the order in which they went to `ddtrace_serialize_span_to_array`. -/
def ddtrace_serialize_closed_spans (fuel : Nat) (s : State) : Res (List Nat × State) :=
  serialize_worklist fuel fuel s []

/-- Modelled from the spec: `ddtrace_flush_tracer` of `auto_flush.c`, which
flushes everything currently staged: it drains the worklist with
`ddtrace_serialize_closed_spans` and hands the batch to the transport, here the
log `sent`. -/
def ddtrace_flush_tracer (fuel : Nat) (s : State) : Res State := do
  let (trace, s) ← ddtrace_serialize_closed_spans fuel s
  pure { s with sent := s.sent ++ trace }

/-- Modelled from the spec: `ddtrace_set_prioritySampling_on_root` of
`priority_sampling.c`, the sampling override on the root span of the active
stack. -/
def ddtrace_set_prioritySampling_on_root (s : State) (priority : Int) : State :=
  match s.active_stack with
  | none => s
  | some a =>
    match (s.span_stacks a).root_span with
    | none => s
    | some r => set_span s r { s.spans r with sampling_priority := some priority }

/-- Modelled from the spec: `ddtrace_fetch_prioritySampling_from_root` of
`priority_sampling.c`, the opaque decision function; it keeps an override and
changes none of the fields of the embedding. -/
def ddtrace_fetch_prioritySampling_from_root (s : State) : State := s

/-- `dd_mark_closed_spans_flushable`. -/
def dd_mark_closed_spans_flushable (s : State) (stack : Nat) : Res State :=
  match (s.span_stacks stack).closed_ring with
  | none => pure s
  | some ring => do
    let s ← (match (s.span_stacks stack).closed_ring_flush with
      | some flush =>
        let s := set_span s ring { s.spans ring with next := (s.spans flush).next }
        pure (set_span s flush { s.spans flush with next := some ring })
      | none => do
        let s := set_stack s stack { s.span_stacks stack with closed_ring_flush := some ring }
        let root_span ← deref (s.span_stacks stack).root_span
        if (s.spans root_span).stack = some stack
            ∨ (s.spans root_span).type = DDTRACE_SPAN_CLOSED then
          let s := set_stack s stack { s.span_stacks stack with next := s.top_closed_stack }
          pure { s with top_closed_stack := some stack }
        else do
          let root_stack ← deref (s.span_stacks stack).root_stack
          let s := set_stack s stack
            { s.span_stacks stack with next := (s.span_stacks root_stack).top_closed_stack }
          pure (set_stack s root_stack
            { s.span_stacks root_stack with top_closed_stack := some stack }) : Res State)
    pure (set_stack s stack { s.span_stacks stack with closed_ring := none })

/-- `dd_close_entry_span_of_stack`. -/
def dd_close_entry_span_of_stack (fuel : Nat) (s : State) (stack : Nat) : Res State := do
  let s ← dd_mark_closed_spans_flushable s stack
  let owns : Bool :=
    match (s.span_stacks stack).root_span with
    | none => true
    | some r => (s.spans r).stack == some stack
  if owns then do
    let s := ddtrace_fetch_prioritySampling_from_root s
    let s := set_stack s stack { s.span_stacks stack with root_span := none }
    let s ← (if (s.span_stacks stack).root_stack = some stack ∧ s.active_stack = some stack then do
        let parent ← deref (s.span_stacks stack).parent_stack
        ddtrace_switch_span_stack s parent
      else pure s : Res State)
    if s.auto_flush_enabled then ddtrace_flush_tracer fuel s else pure s
  else pure s

/-- `ddtrace_close_top_span_without_stack_swap`. -/
def ddtrace_close_top_span_without_stack_swap (fuel : Nat) (s : State) (span : Nat) :
    Res State := do
  let stack ← deref (s.spans span).stack
  let s := set_span s span { s.spans span with type := DDTRACE_SPAN_CLOSED }
  let s := set_stack s stack { s.span_stacks stack with active := (s.spans span).parent }
  let s := { s with closed_spans_count := incr32 s.closed_spans_count }
  let s := { s with open_spans_count := decr32 s.open_spans_count }
  let s := (match (s.span_stacks stack).closed_ring with
    | some ring =>
      let s := set_span s span { s.spans span with next := (s.spans ring).next }
      set_span s ring { s.spans ring with next := some span }
    | none =>
      let s := set_span s span { s.spans span with next := some span }
      set_stack s stack { s.span_stacks stack with closed_ring := some span })
  let emptied : Bool :=
    match (s.span_stacks stack).active with
    | none => true
    | some a => (s.spans a).stack != some stack
  if emptied then dd_close_entry_span_of_stack fuel s stack else pure s

/-- The part of `ddtrace_drop_span` after the root-span special case: the span
is popped, counted as dropped and marked with the dropped sentinel. -/
def drop_span_pop (fuel : Nat) (s : State) (span stack : Nat) : Res State := do
  let s := set_stack s stack { s.span_stacks stack with active := (s.spans span).parent }
  let s := { s with dropped_spans_count := incr32 s.dropped_spans_count }
  let s := { s with open_spans_count := decr32 s.open_spans_count }
  let emptied : Bool :=
    match (s.span_stacks stack).active with
    | none => true
    | some a => (s.spans a).stack != some stack
  let s ← (if emptied then dd_close_entry_span_of_stack fuel s stack else pure s : Res State)
  pure (dd_drop_span s span false)

mutual

/-- `ddtrace_close_span`. -/
def ddtrace_close_span : Nat → State → Option Nat → Res State
  | 0, _, _ => .error Fault.out_of_fuel
  | _ + 1, s, none => pure s
  | fuel + 1, s, some span => do
    let top ← ddtrace_has_top_internal_span (fuel + 1) s span
    if !top || (s.spans span).type == DDTRACE_SPAN_CLOSED then pure s
    else do
      let s ← (if (s.spans span).stack ≠ s.active_stack then do
          let st ← deref (s.spans span).stack
          ddtrace_switch_span_stack s st
        else pure s : Res State)
      let s ← ddtrace_close_userland_spans_until fuel s span
      ddtrace_close_top_span_without_stack_swap fuel s span

/-- `ddtrace_close_userland_spans_until`. -/
def ddtrace_close_userland_spans_until : Nat → State → Nat → Res State
  | 0, _, _ => .error Fault.out_of_fuel
  | fuel + 1, s, until_ => do
    let ustack ← deref (s.spans until_).stack
    match (s.span_stacks ustack).active with
    | none => pure s
    | some span =>
      if (s.spans span).stack = some ustack ∧ span ≠ until_
          ∧ (s.spans span).type ≠ DDTRACE_AUTOROOT_SPAN then do
        let s ← (if s.autofinish_spans then
            ddtrace_close_span fuel (dd_trace_stop_span_time s span) (some span)
          else ddtrace_drop_span fuel s span : Res State)
        ddtrace_close_userland_spans_until fuel s until_
      else pure s

/-- `ddtrace_drop_span`. -/
def ddtrace_drop_span : Nat → State → Nat → Res State
  | 0, _, _ => .error Fault.out_of_fuel
  | fuel + 1, s, span => do
    let stack ← deref (s.spans span).stack
    let s ← (if some stack ≠ s.active_stack then ddtrace_switch_span_stack s stack
      else pure s : Res State)
    if (s.span_stacks stack).root_span = some span then
      let s := ddtrace_set_prioritySampling_on_root s PRIORITY_SAMPLING_USER_REJECT
      let s := dd_trace_stop_span_time s span
      ddtrace_close_span fuel s (some span)
    else drop_span_pop fuel s span stack

end

/-- The `do ... while (stack != end)` loop of `ddtrace_active_span`. -/
def active_span_loop (s : State) (end_ : Option Nat) : Nat → Option Nat → Res (Option Nat)
  | 0, _ => .error Fault.out_of_fuel
  | fuel + 1, stack => do
    let st ← deref stack
    match (s.span_stacks st).active with
    | some a =>
      if (s.spans a).stack = some st then pure (some a)
      else
        let stack := (s.span_stacks st).parent_stack
        if stack ≠ end_ then active_span_loop s end_ fuel stack else pure none
    | none =>
      let stack := (s.span_stacks st).parent_stack
      if stack ≠ end_ then active_span_loop s end_ fuel stack else pure none

/-- `ddtrace_active_span`. -/
def ddtrace_active_span (fuel : Nat) (s : State) : Res (Option Nat) :=
  match s.active_stack with
  | none => pure none
  | some stack => do
    let root_stack ← deref (s.span_stacks stack).root_stack
    active_span_loop s (s.span_stacks root_stack).parent_stack fuel (some stack)

/-! ### Predicates and auxiliary functions used in the statements -/

/-- Following `next` from `a` visits the spans of `l` in order. -/
def next_path (sp : Nat → ddtrace_span_data) : Nat → List Nat → Prop
  | _, [] => True
  | a, x :: l => (sp a).next = some x ∧ next_path sp x l

/-- The ring with head `h`: following `next` from `h` visits the spans of `l`,
pairwise distinct, and ends on `h` again. -/
def is_ring (sp : Nat → ddtrace_span_data) (h : Nat) (l : List Nat) : Prop :=
  next_path sp h l ∧ l.getLast? = some h ∧ l.Nodup

/-- The state of `ddtrace_close_top_span_without_stack_swap` after the span was
moved to the closed ring of its stack `stack`, before the test for an emptied
chain. -/
def close_top_core (s : State) (span stack : Nat) : State :=
  let s := set_span s span { s.spans span with type := DDTRACE_SPAN_CLOSED }
  let s := set_stack s stack { s.span_stacks stack with active := (s.spans span).parent }
  let s := { s with closed_spans_count := incr32 s.closed_spans_count }
  let s := { s with open_spans_count := decr32 s.open_spans_count }
  match (s.span_stacks stack).closed_ring with
  | some ring =>
    let s := set_span s span { s.spans span with next := (s.spans ring).next }
    set_span s ring { s.spans ring with next := some span }
  | none =>
    let s := set_span s span { s.spans span with next := some span }
    set_stack s stack { s.span_stacks stack with closed_ring := some span }

/-- Whether the chain of open spans of `stack` is empty: `!stack->active ||
stack->active->stack != stack`. -/
def chain_emptied (s : State) (stack : Nat) : Bool :=
  match (s.span_stacks stack).active with
  | none => true
  | some a => (s.spans a).stack != some stack

/-- The stacks linked through `next` from the pointer `p`, up to `NULL`. -/
def stack_list (st : Nat → ddtrace_span_stack) : Option Nat → List Nat → Prop
  | p, [] => p = none
  | p, k :: ks => p = some k ∧ stack_list st (st k).next ks

/-- The staged ring of stack `k` is the well-formed ring `ring_of k`. -/
def flush_ring_ok (s : State) (ring_of : Nat → List Nat) (k : Nat) : Prop :=
  ∃ f, (s.span_stacks k).closed_ring_flush = some f ∧ is_ring s.spans f (ring_of k)

/-- What `s2` keeps of `s` when only staged rings and worklist links of stacks
may differ. -/
def drain_frame (s s2 : State) : Prop :=
  s2.spans = s.spans ∧ s2.span_top = s.span_top ∧ s2.stack_top = s.stack_top
  ∧ s2.active_stack = s.active_stack
  ∧ s2.open_spans_count = s.open_spans_count
  ∧ s2.dropped_spans_count = s.dropped_spans_count
  ∧ s2.closed_spans_count = s.closed_spans_count
  ∧ s2.traced_spans = s.traced_spans ∧ s2.disable = s.disable
  ∧ s2.autofinish_spans = s.autofinish_spans
  ∧ s2.auto_flush_enabled = s.auto_flush_enabled
  ∧ s2.monotonic_clock = s.monotonic_clock ∧ s2.realtime_clock = s.realtime_clock
  ∧ s2.id_stream = s.id_stream ∧ s2.id_pos = s.id_pos ∧ s2.sent = s.sent
  ∧ ∀ k, (s2.span_stacks k).active = (s.span_stacks k).active
      ∧ (s2.span_stacks k).root_span = (s.span_stacks k).root_span
      ∧ (s2.span_stacks k).root_stack = (s.span_stacks k).root_stack
      ∧ (s2.span_stacks k).parent_stack = (s.span_stacks k).parent_stack
      ∧ (s2.span_stacks k).closed_ring = (s.span_stacks k).closed_ring
      ∧ (s2.span_stacks k).next = (s.span_stacks k).next

/-- The spans the drain of the stacks `ks` hands over, in order. -/
def rings_of (ring_of : Nat → List Nat) (ks : List Nat) : List Nat :=
  ks.flatMap ring_of

/-- The stacks of a worklist description, each root followed by its sub-list. -/
def flat_stacks (D : List (Nat × List Nat)) : List Nat :=
  D.flatMap (fun e => e.1 :: e.2)

/-- The worklist hanging from the pointer `top` is the list of roots `D`, each
with its sub-list, every listed stack holds the staged ring `ring_of` gives it,
and no stack is listed twice. -/
def worklist_ok (s : State) (ring_of : Nat → List Nat) (top : Option Nat)
    (D : List (Nat × List Nat)) : Prop :=
  stack_list s.span_stacks top (D.map Prod.fst)
  ∧ (∀ e ∈ D, stack_list s.span_stacks (s.span_stacks e.1).top_closed_stack e.2)
  ∧ (∀ j ∈ flat_stacks D, flush_ring_ok s ring_of j)
  ∧ (flat_stacks D).Nodup

/-- The state of `ddtrace_drop_span` after the span was popped from its stack
`stack` and counted as dropped, before the test for an emptied chain. -/
def drop_pop_core (s : State) (span stack : Nat) : State :=
  let s := set_stack s stack { s.span_stacks stack with active := (s.spans span).parent }
  let s := { s with dropped_spans_count := incr32 s.dropped_spans_count }
  { s with open_spans_count := decr32 s.open_spans_count }

/-- How `ddtrace_close_userland_spans_until` finishes one unfinished span `u`
of stack `k` that has a parent on the same stack: closed when auto-finish is
enabled, dropped otherwise. -/
def finish_user (k : Nat) (s : State) (u : Nat) : State :=
  if s.autofinish_spans then close_top_core (dd_trace_stop_span_time s u) u k
  else dd_drop_span (drop_pop_core s u k) u false

/-- The spans `us`, all of type User and opened on stack `k`, lead from the
pointer `p` along `parent` to the span `t`. -/
def chain_above (s : State) (k : Nat) (t : Nat) : Option Nat → List Nat → Prop
  | p, [] => p = some t
  | p, u :: us => p = some u ∧ u ≠ t ∧ (s.spans u).stack = some k
      ∧ (s.spans u).type = DDTRACE_USER_SPAN ∧ chain_above s k t (s.spans u).parent us

/-- The fields of spans that closing, dropping and flushing never write. -/
def spans_static (s s2 : State) : Prop :=
  ∀ x, (s2.spans x).stack = (s.spans x).stack ∧ (s2.spans x).parent = (s.spans x).parent
    ∧ (s2.spans x).span_id = (s.spans x).span_id ∧ (s2.spans x).trace_id = (s.spans x).trace_id
    ∧ (s2.spans x).parent_id = (s.spans x).parent_id ∧ (s2.spans x).root = (s.spans x).root
    ∧ (s2.spans x).start = (s.spans x).start
    ∧ (s2.spans x).duration_start = (s.spans x).duration_start

/-- What finishing spans of the stack `k` keeps of a state: the static span
fields, the sampling overrides, the globals other than the three counters, and
of the stacks everything but the `active` and `closed_ring` of `k`. -/
def close_frame (k : Nat) (s s2 : State) : Prop :=
  spans_static s s2
  ∧ (∀ x, (s2.spans x).sampling_priority = (s.spans x).sampling_priority)
  ∧ s2.span_top = s.span_top ∧ s2.stack_top = s.stack_top
  ∧ s2.active_stack = s.active_stack ∧ s2.top_closed_stack = s.top_closed_stack
  ∧ s2.traced_spans = s.traced_spans ∧ s2.disable = s.disable
  ∧ s2.autofinish_spans = s.autofinish_spans
  ∧ s2.auto_flush_enabled = s.auto_flush_enabled
  ∧ s2.monotonic_clock = s.monotonic_clock ∧ s2.realtime_clock = s.realtime_clock
  ∧ s2.id_stream = s.id_stream ∧ s2.id_pos = s.id_pos ∧ s2.sent = s.sent
  ∧ ∀ j, (s2.span_stacks j).root_span = (s.span_stacks j).root_span
      ∧ (s2.span_stacks j).root_stack = (s.span_stacks j).root_stack
      ∧ (s2.span_stacks j).parent_stack = (s.span_stacks j).parent_stack
      ∧ (s2.span_stacks j).closed_ring_flush = (s.span_stacks j).closed_ring_flush
      ∧ (s2.span_stacks j).next = (s.span_stacks j).next
      ∧ (s2.span_stacks j).top_closed_stack = (s.span_stacks j).top_closed_stack
      ∧ (j ≠ k → (s2.span_stacks j).active = (s.span_stacks j).active
          ∧ (s2.span_stacks j).closed_ring = (s.span_stacks j).closed_ring)

/-- The state after the spans `us` of stack `k` were finished one after the
other, the first of the list first. -/
def finish_all (k : Nat) (s : State) (us : List Nat) : State :=
  us.foldl (finish_user k) s

/-- The state in which `ddtrace_close_span` leaves the chain of stack `k` when
it closes `t` below the unfinished spans `us`: the spans of `us` finished in
list order, the innermost first, then `t` moved to the closed ring. -/
def close_chain_core (k : Nat) (s : State) (us : List Nat) (t : Nat) : State :=
  close_top_core (finish_all k { s with active_stack := some k } us) t k

/-- The closed ring of stack `k` holds exactly the spans of `R`: no ring when
`R` is empty, else a well-formed ring listed from the span after its head. -/
def closed_ring_ok (s : State) (k : Nat) (R : List Nat) : Prop :=
  match (s.span_stacks k).closed_ring with
  | none => R = []
  | some h => is_ring s.spans h R

/-- The spans of the closed ring after the spans `us` were finished on top of
the ring `R`: auto-finished spans are spliced in, dropped spans are not. -/
def ring_after (auto : Bool) (us R : List Nat) : List Nat :=
  if auto then us.reverse ++ R else R

/-- What staging, the closure of a stack's entry span and a flush keep of a
state: every span field but `next`, the `active` span, root stack and parent
stack of every stack, the counters and the environment. -/
def entry_frame (s s2 : State) : Prop :=
  spans_static s s2
  ∧ (∀ x, (s2.spans x).type = (s.spans x).type ∧ (s2.spans x).duration = (s.spans x).duration
      ∧ (s2.spans x).sampling_priority = (s.spans x).sampling_priority)
  ∧ (∀ j, (s2.span_stacks j).active = (s.span_stacks j).active
      ∧ (s2.span_stacks j).root_stack = (s.span_stacks j).root_stack
      ∧ (s2.span_stacks j).parent_stack = (s.span_stacks j).parent_stack)
  ∧ s2.open_spans_count = s.open_spans_count
  ∧ s2.dropped_spans_count = s.dropped_spans_count
  ∧ s2.closed_spans_count = s.closed_spans_count
  ∧ s2.span_top = s.span_top ∧ s2.stack_top = s.stack_top
  ∧ s2.traced_spans = s.traced_spans ∧ s2.disable = s.disable
  ∧ s2.autofinish_spans = s.autofinish_spans
  ∧ s2.auto_flush_enabled = s.auto_flush_enabled
  ∧ s2.monotonic_clock = s.monotonic_clock ∧ s2.realtime_clock = s.realtime_clock
  ∧ s2.id_stream = s.id_stream ∧ s2.id_pos = s.id_pos

/-- Whether the stack owns its trace segment: `!stack->root_span ||
stack->root_span->stack == stack`. -/
def entry_owns (s : State) (stack : Nat) : Bool :=
  match (s.span_stacks stack).root_span with
  | none => true
  | some r => (s.spans r).stack == some stack

/-- The part of `dd_close_entry_span_of_stack` that clears the root span and
leaves a root stack that is the active one for its parent stack. -/
def entry_release (s : State) (stack : Nat) : Res State := do
  let s := ddtrace_fetch_prioritySampling_from_root s
  let s := set_stack s stack { s.span_stacks stack with root_span := none }
  if (s.span_stacks stack).root_stack = some stack ∧ s.active_stack = some stack then do
    let parent ← deref (s.span_stacks stack).parent_stack
    ddtrace_switch_span_stack s parent
  else pure s

/-- The ring description `ring_of` with the ring of stack `k` replaced by `R`. -/
def ring_of_upd (ring_of : Nat → List Nat) (k : Nat) (R : List Nat) : Nat → List Nat :=
  fun j => if j = k then R else ring_of j

/-- The conditions under which the closure of the entry span of stack `k` reads
no `NULL` pointer: a stack with nothing staged still has its root span and its
root stack, and a root stack has a parent stack to hand the context back to. -/
def entry_nofault (s : State) (k : Nat) : Prop :=
  ((s.span_stacks k).closed_ring_flush = none →
      (s.span_stacks k).root_span ≠ none ∧ (s.span_stacks k).root_stack ≠ none)
  ∧ ((s.span_stacks k).root_stack = some k → (s.span_stacks k).parent_stack ≠ none)

/-- The state after `dd_mark_closed_spans_flushable` installed the closed ring
with head `h` as the flush list of stack `k` and queued `k` on the global
worklist. -/
def stage_global (s : State) (k h : Nat) : State :=
  let s := set_stack s k { s.span_stacks k with closed_ring_flush := some h }
  let s := set_stack s k { s.span_stacks k with next := s.top_closed_stack }
  let s := { s with top_closed_stack := some k }
  set_stack s k { s.span_stacks k with closed_ring := none }

/-- Enough fuel to drain the worklist `D`. -/
def drain_fuel (fuel : Nat) (ring_of : Nat → List Nat) (D : List (Nat × List Nat)) : Prop :=
  2 ≤ fuel ∧ D.length ≤ fuel ∧ (∀ e ∈ D, e.2.length < fuel)
  ∧ ∀ j ∈ flat_stacks D, (ring_of j).length ≤ fuel

/-- Stack `k` has nothing staged, its closed ring holds the spans `R`, the
global worklist is `D`, the sub-list of `k` is `subs`, every listed stack has a
well-formed staged ring, and no stack is listed twice. -/
def drain_ready (s : State) (k : Nat) (R subs : List Nat) (ring_of : Nat → List Nat)
    (D : List (Nat × List Nat)) : Prop :=
  (s.span_stacks k).closed_ring_flush = none
  ∧ closed_ring_ok s k R
  ∧ worklist_ok s ring_of s.top_closed_stack D
  ∧ stack_list s.span_stacks (s.span_stacks k).top_closed_stack subs
  ∧ (∀ j ∈ subs, flush_ring_ok s ring_of j)
  ∧ (k :: subs ++ flat_stacks D).Nodup

/-- The state after `dd_close_entry_span_of_stack` cleared the root span of
stack `k` and, when `k` is a root stack and the active one, made its parent
stack the active one. -/
def release_state (s : State) (k : Nat) : State :=
  let s := set_stack s k { s.span_stacks k with root_span := none }
  if (s.span_stacks k).root_stack = some k ∧ s.active_stack = some k then
    { s with active_stack := (s.span_stacks k).parent_stack }
  else s

/-- The spans `touched` that a close is about to write, the closed ring `R` of
the stack and the staged rings of the stacks of `subs` and `D` are pairwise
apart. -/
def chain_separate (touched R subs : List Nat) (ring_of : Nat → List Nat)
    (D : List (Nat × List Nat)) : Prop :=
  (∀ x ∈ R, x ∉ touched)
  ∧ ∀ j ∈ subs ++ flat_stacks D, ∀ x ∈ ring_of j, x ∉ touched ∧ x ∉ R

/-- Whether `t` is the entry span of stack `k`: its parent is `NULL` or a span
of another stack, so that closing `t` empties the chain of `k`. -/
def is_entry_span (s : State) (k t : Nat) : Bool :=
  match (s.spans t).parent with
  | none => true
  | some p => (s.spans p).stack != some k

/-- Everything the auto flush at the end of the close of `t` below `us` needs:
a well-formed worklist, apart from the spans the close writes, and enough
fuel to drain it together with the ring of stack `k`. -/
def flush_ready (fuel : Nat) (s : State) (k t : Nat) (us R subs : List Nat)
    (ring_of : Nat → List Nat) (D : List (Nat × List Nat)) : Prop :=
  drain_ready s k R subs ring_of D
  ∧ chain_separate (us ++ [t]) R subs ring_of D
  ∧ drain_fuel fuel (ring_of_upd ring_of k (t :: ring_after s.autofinish_spans us R))
      ((k, subs) :: D)

/-- Modelled from the spec: `ddtrace_peek_span_id` of `random.c`, the id of the
span `ddtrace_active_span` returns, or the distributed parent id when there
is none. -/
def ddtrace_peek_span_id (fuel distributed_parent_trace_id : Nat) (s : State) : Res Nat := do
  let span ← ddtrace_active_span fuel s
  match span with
  | some sp => pure (s.spans sp).span_id
  | none => pure distributed_parent_trace_id

/-- Modelled from the spec: `ddtrace_peek_trace_id` of `random.c`, the trace id
of the span `ddtrace_active_span` returns, or the distributed trace id when
there is none. -/
def ddtrace_peek_trace_id (fuel trace_id : Nat) (s : State) : Res Nat := do
  let span ← ddtrace_active_span fuel s
  match span with
  | some sp => pure (s.spans sp).trace_id
  | none => pure trace_id

/-- The hooks of `ddtrace_open_span` that read `ddtrace_active_span`. -/
def active_span_hooks (fuel distributed_parent_trace_id trace_id : Nat) : Hooks :=
  { ddtrace_peek_span_id := ddtrace_peek_span_id fuel distributed_parent_trace_id
    ddtrace_peek_trace_id := ddtrace_peek_trace_id fuel trace_id }

/-- The state a run produced, or the given state when the run faulted. -/
def state_of (r : Res State) (dflt : State) : State :=
  match r with
  | .ok s => s
  | .error _ => dflt

/-- Allocation of a span of the given type followed by `ddtrace_open_span`, as
`ddtrace_push_root_span` and `ddtrace_alloc_execute_data_span` do. -/
def open_new_span (H : Hooks) (type : ddtrace_span_dataype) (s : State) : Res State :=
  let (span, s1) := ddtrace_init_span s type
  ddtrace_open_span H s1 span

instance next_path_decidable (sp : Nat → ddtrace_span_data) :
    ∀ (l : List Nat) (a : Nat), Decidable (next_path sp a l)
  | [], _ => isTrue trivial
  | x :: l, a =>
    have := next_path_decidable sp l x
    (inferInstance : Decidable ((sp a).next = some x ∧ next_path sp x l))

instance is_ring_decidable (sp : Nat → ddtrace_span_data) (h : Nat) (l : List Nat) :
    Decidable (is_ring sp h l) :=
  (inferInstance : Decidable (next_path sp h l ∧ l.getLast? = some h ∧ l.Nodup))

instance chain_above_decidable (s : State) (k t : Nat) :
    ∀ (us : List Nat) (p : Option Nat), Decidable (chain_above s k t p us)
  | [], p => (inferInstance : Decidable (p = some t))
  | u :: us, p =>
    have := chain_above_decidable s k t us (s.spans u).parent
    (inferInstance : Decidable (p = some u ∧ u ≠ t ∧ (s.spans u).stack = some k
      ∧ (s.spans u).type = DDTRACE_USER_SPAN ∧ chain_above s k t (s.spans u).parent us))

instance stack_list_decidable (st : Nat → ddtrace_span_stack) :
    ∀ (ks : List Nat) (p : Option Nat), Decidable (stack_list st p ks)
  | [], p => (inferInstance : Decidable (p = none))
  | k :: ks, p =>
    have := stack_list_decidable st ks (st k).next
    (inferInstance : Decidable (p = some k ∧ stack_list st (st k).next ks))

instance closed_ring_ok_decidable (s : State) (k : Nat) (R : List Nat) :
    Decidable (closed_ring_ok s k R) := by
  unfold closed_ring_ok
  cases (s.span_stacks k).closed_ring <;> infer_instance

instance flush_ring_ok_decidable (s : State) (ring_of : Nat → List Nat) (k : Nat) :
    Decidable (flush_ring_ok s ring_of k) :=
  match h : (s.span_stacks k).closed_ring_flush with
  | none => isFalse (fun ⟨f, hf, _⟩ => by rw [h] at hf; cases hf)
  | some f =>
    if hr : is_ring s.spans f (ring_of k) then isTrue ⟨f, h, hr⟩
    else isFalse (fun ⟨g, hg, hr2⟩ => by
      rw [h] at hg
      cases hg
      exact hr hr2)

instance worklist_ok_decidable (s : State) (ring_of : Nat → List Nat) (top : Option Nat)
    (D : List (Nat × List Nat)) : Decidable (worklist_ok s ring_of top D) := by
  unfold worklist_ok
  infer_instance

instance drain_ready_decidable (s : State) (k : Nat) (R subs : List Nat)
    (ring_of : Nat → List Nat) (D : List (Nat × List Nat)) :
    Decidable (drain_ready s k R subs ring_of D) := by
  unfold drain_ready
  infer_instance

instance chain_separate_decidable (touched R subs : List Nat) (ring_of : Nat → List Nat)
    (D : List (Nat × List Nat)) : Decidable (chain_separate touched R subs ring_of D) := by
  unfold chain_separate
  infer_instance

instance drain_fuel_decidable (fuel : Nat) (ring_of : Nat → List Nat)
    (D : List (Nat × List Nat)) : Decidable (drain_fuel fuel ring_of D) := by
  unfold drain_fuel
  infer_instance

instance flush_ready_decidable (fuel : Nat) (s : State) (k t : Nat) (us R subs : List Nat)
    (ring_of : Nat → List Nat) (D : List (Nat × List Nat)) :
    Decidable (flush_ready fuel s k t us R subs ring_of D) := by
  unfold flush_ready
  infer_instance

instance entry_nofault_decidable (s : State) (k : Nat) : Decidable (entry_nofault s k) := by
  unfold entry_nofault
  infer_instance

/-- A request with auto-finish and auto-flush enabled in which a root span (1)
and two userland spans (2, then 3) are open on the root stack 2. -/
def demo_chain : State :=
  state_of (do
    let s := ddtrace_init_span_stacks (fresh_state true true (fun i => i + 10))
    let s ← open_new_span (active_span_hooks 4 0 0) DDTRACE_AUTOROOT_SPAN s
    let s ← open_new_span (active_span_hooks 4 0 0) DDTRACE_USER_SPAN s
    open_new_span (active_span_hooks 4 0 0) DDTRACE_USER_SPAN s) (fresh_state true true id)

instance except_decidable_eq {ε α : Type} [DecidableEq ε] [DecidableEq α] :
    DecidableEq (Except ε α)
  | .ok a, .ok b =>
    if h : a = b then isTrue (by rw [h]) else isFalse (fun e => h (Except.ok.inj e))
  | .error a, .error b =>
    if h : a = b then isTrue (by rw [h]) else isFalse (fun e => h (Except.error.inj e))
  | .ok _, .error _ => isFalse (fun e => by cases e)
  | .error _, .ok _ => isFalse (fun e => by cases e)

/-- The state in which `ddtrace_drop_span` hands the root span `t` of stack `k`
to `ddtrace_close_span`: `k` is the active stack, the sampling override of `t`
is user-reject and its duration is stopped. -/
def drop_root_state (s : State) (k t : Nat) : State :=
  dd_trace_stop_span_time
    (ddtrace_set_prioritySampling_on_root { s with active_stack := some k }
      PRIORITY_SAMPLING_USER_REJECT) t

/-- A request in which a root span (1) and an internal span (2) above it are
open on the root stack 2. -/
def demo_internal : State :=
  state_of (do
    let s := ddtrace_init_span_stacks (fresh_state true false (fun i => i + 10))
    let s ← open_new_span (active_span_hooks 4 0 0) DDTRACE_AUTOROOT_SPAN s
    open_new_span (active_span_hooks 4 0 0) DDTRACE_INTERNAL_SPAN s) (fresh_state true false id)

/-- A request without auto-flush in which a root span A (1) and its child B (2)
are open on the root stack 2. -/
def demo_root_child : State :=
  state_of (do
    let s := ddtrace_init_span_stacks (fresh_state true false (fun i => i + 10))
    let s ← open_new_span (active_span_hooks 4 0 0) DDTRACE_AUTOROOT_SPAN s
    open_new_span (active_span_hooks 4 0 0) DDTRACE_USER_SPAN s) (fresh_state true false id)

/-- A request without auto-flush in which the root stack 2 already holds the
staged ring of a first trace (span 1, opened and closed), is the active stack
again, and a new root span (2) and a child (3) were opened on it. -/
def demo_restaged : State :=
  state_of (do
    let s := ddtrace_init_span_stacks (fresh_state true false (fun i => i + 10))
    let s ← open_new_span (active_span_hooks 4 0 0) DDTRACE_AUTOROOT_SPAN s
    let s ← ddtrace_close_span 4 s (some 1)
    let s ← ddtrace_switch_span_stack s 2
    let s ← open_new_span (active_span_hooks 4 0 0) DDTRACE_AUTOROOT_SPAN s
    open_new_span (active_span_hooks 4 0 0) DDTRACE_USER_SPAN s) (fresh_state true false id)

/-- The state `demo_restaged` after a further child (4) was opened and the
spans 4 and 3 were closed in that order: the closed ring of stack 2 holds the
two spans 4 and 3, its staged ring holds span 1, and span 2 is still open. -/
def demo_two_rings : State :=
  state_of (do
    let s ← open_new_span (active_span_hooks 4 0 0) DDTRACE_USER_SPAN demo_restaged
    let s ← ddtrace_close_span 4 s (some 4)
    ddtrace_close_span 4 s (some 3)) (fresh_state true false id)

/-- The state `demo_restaged` after the child 3 was closed: span 2 is the
active span of stack 2, whose closed ring holds span 3 and whose staged ring
holds span 1. -/
def demo_last_open : State :=
  state_of (ddtrace_close_span 4 demo_restaged (some 3)) (fresh_state true false id)

/-- The walk of `ddtrace_has_top_internal_span` for `t` from the pointer `p`
passes the spans `us`, all of type User and none of them `t`, and then stops
without having met `t`: on `NULL` or on a span of another type. -/
def blocked_path (s : State) (t : Nat) : Option Nat → List Nat → Prop
  | p, [] =>
    match p with
    | none => True
    | some q => q ≠ t ∧ (s.spans q).type ≠ DDTRACE_USER_SPAN
  | p, u :: us => p = some u ∧ u ≠ t ∧ (s.spans u).type = DDTRACE_USER_SPAN
      ∧ blocked_path s t (s.spans u).parent us

instance blocked_path_decidable (s : State) (t : Nat) :
    ∀ (us : List Nat) (p : Option Nat), Decidable (blocked_path s t p us)
  | [], none => isTrue trivial
  | [], some q => (inferInstance : Decidable (q ≠ t ∧ (s.spans q).type ≠ DDTRACE_USER_SPAN))
  | u :: us, p =>
    have := blocked_path_decidable s t us (s.spans u).parent
    (inferInstance : Decidable (p = some u ∧ u ≠ t ∧ (s.spans u).type = DDTRACE_USER_SPAN
      ∧ blocked_path s t (s.spans u).parent us))

/-- The cases in which `ddtrace_close_span` is to do nothing: the span is
`NULL`; it is not reached by the walk from the active span of its stack through
spans of type User; or the walk terminates and the span is already Closed, be
it because `s` is the state an earlier close of the same span produced. -/
def close_rejected (fuel : Nat) (s : State) : Option Nat → Prop
  | none => True
  | some sp =>
    (∃ k us, (s.spans sp).stack = some k
        ∧ blocked_path s sp (s.span_stacks k).active us ∧ us.length ≤ fuel)
    ∨ ((∃ b, ddtrace_has_top_internal_span (fuel + 1) s sp = .ok b)
        ∧ ((s.spans sp).type = DDTRACE_SPAN_CLOSED
          ∨ ∃ f0 s0, ddtrace_close_span f0 s0 (some sp) = .ok s))

/-- Whether a run produced a state. -/
def is_ok {α : Type} : Res α → Bool
  | .ok _ => true
  | .error _ => false

/-- The state `demo_root_child` after its child span 2 was closed. -/
def demo_child_closed : State :=
  state_of (ddtrace_close_span 4 demo_root_child (some 2)) (fresh_state true false id)

/-- The state `demo_root_child` after its child span 2 was dropped. -/
def demo_child_dropped : State :=
  state_of (ddtrace_drop_span 4 demo_root_child 2) (fresh_state true false id)

/-- The stack `ddtrace_open_span` attaches the span to, and the state after the
fresh root stack, if the active stack `k` is primary, was created and made the
active one. -/
def open_span_enter (s : State) (k : Nat) : Nat × State :=
  if (s.span_stacks k).parent_stack = none then
    ((ddtrace_init_root_span_stack s).1,
      { (ddtrace_init_root_span_stack s).2 with
        active_stack := some (ddtrace_init_root_span_stack s).1 })
  else (k, s)

/-- The state in which `ddtrace_open_span` calls `ddtrace_peek_span_id`: the
span is attached to `stack` and has its generated `span_id`. -/
def open_span_ids_state (s : State) (stack span : Nat) : State :=
  let s := set_span s span { s.spans span with stack := some stack }
  let p := ddtrace_generate_span_id s
  set_span p.2 span { p.2.spans span with span_id := p.1 }

/-- The state in which `ddtrace_open_span` calls `ddtrace_peek_trace_id`: the
span has its inherited `parent_id`. -/
def open_span_trace_state (s : State) (stack span pid : Nat) : State :=
  set_span (open_span_ids_state s stack span) span
    { (open_span_ids_state s stack span).spans span with parent_id := pid }

/-- The start of a request that continues a distributed trace: the hooks yield
the distributed parent id 7 and trace id 9 while no span is active, the active
stack is the primary stack 1, and span 1 is allocated but not yet opened. -/
def demo_request_start : State :=
  (ddtrace_init_span (ddtrace_init_span_stacks (fresh_state true false (fun i => i + 10)))
    DDTRACE_AUTOROOT_SPAN).2

/-- The state `demo_root_child` with a further span (3) allocated but not yet
opened. -/
def demo_before_open : State :=
  (ddtrace_init_span demo_root_child DDTRACE_INTERNAL_SPAN).2

/-- What every operation other than opening a span keeps: the static span
fields, the span handle counter and the id stream; and the active span a stack
has afterwards was the active span of a stack or the parent of a span
before. -/
def ids_frame (s s2 : State) : Prop :=
  spans_static s s2 ∧ s2.span_top = s.span_top ∧ s2.id_stream = s.id_stream
  ∧ ∀ k a, (s2.span_stacks k).active = some a →
      (∃ j, (s.span_stacks j).active = some a) ∨ ∃ x, (s.spans x).parent = some a

/-- The operations on spans and span stacks: creation of a root stack and of a
child stack, a context switch, the opening of a new span (with the hooks that
read `ddtrace_active_span`, for the given distributed ids), close and drop. -/
inductive span_op where
  | init_root_span_stack
  | init_span_stack
  | switch_span_stack (target_stack : Nat)
  | open_span (type : ddtrace_span_dataype) (fuel distributed_parent_trace_id trace_id : Nat)
  | close_span (fuel span : Nat)
  | drop_span (fuel span : Nat)

/-- One operation on a state. -/
def apply_op (s : State) : span_op → Res State
  | .init_root_span_stack => .ok (ddtrace_init_root_span_stack s).2
  | .init_span_stack => (ddtrace_init_span_stack s).map Prod.snd
  | .switch_span_stack target_stack => ddtrace_switch_span_stack s target_stack
  | .open_span type fuel distributed_parent_trace_id trace_id =>
    open_new_span (active_span_hooks fuel distributed_parent_trace_id trace_id) type s
  | .close_span fuel span => ddtrace_close_span fuel s (some span)
  | .drop_span fuel span => ddtrace_drop_span fuel s span

/-- A sequence of operations, from left to right. -/
def run_ops : List span_op → State → Res State
  | [], s => .ok s
  | op :: ops, s => apply_op s op >>= run_ops ops

/-- The invariant behind trace integrity: generated ids are not zero, parent
and active pointers refer to allocated spans, an opened span has a `trace_id`
other than zero, and a span whose parent was opened on the same stack has the
`trace_id` of its parent and the `span_id` of its parent as `parent_id`. -/
def trace_inv (s : State) : Prop :=
  (∀ i, s.id_stream i % 2 ^ 64 ≠ 0)
  ∧ (∀ x p, (s.spans x).parent = some p → p < s.span_top)
  ∧ (∀ k a, (s.span_stacks k).active = some a → a < s.span_top)
  ∧ (∀ x, (s.spans x).stack ≠ none → (s.spans x).trace_id ≠ 0)
  ∧ ∀ x p, (s.spans x).parent = some p → (s.spans p).stack = (s.spans x).stack →
      (s.spans x).trace_id = (s.spans p).trace_id
      ∧ (s.spans x).parent_id = (s.spans p).span_id

/-- A run in which a child stack (3) is created while the root span A (1) is
the active span of the root stack 2, A is closed, and a span X (2) is opened
on the child stack: the child stack still holds A as its active span. -/
def demo_foreign_parent_ops : List span_op :=
  [.open_span DDTRACE_AUTOROOT_SPAN 4 0 0, .init_span_stack, .close_span 4 1,
    .switch_span_stack 3, .open_span DDTRACE_USER_SPAN 4 0 0]

/-- The `do ... while (cur != span)` loop of `dd_free_span_ring`, which walks
a ring once along `next` and releases each span; the release is memory
management and leaves the fields of the embedding alone. -/
def free_ring_loop (s : State) (span : Nat) : Nat → Option Nat → Res Unit
  | 0, _ => .error Fault.out_of_fuel
  | fuel + 1, cur => do
    let tmp ← deref cur
    let cur := (s.spans tmp).next
    if cur ≠ some span then free_ring_loop s span fuel cur else pure ()

/-- `dd_free_span_ring`. -/
def dd_free_span_ring (fuel : Nat) (s : State) (span : Option Nat) : Res Unit :=
  match span with
  | none => pure ()
  | some sp => free_ring_loop s sp fuel (some sp)

/-- The loop `while (span && span->stack == stack)` of
`ddtrace_free_span_stacks`: the spans of the stack below its active span are
marked dropped; the result carries the span the walk stopped on. -/
def free_drop_chain (stack : Nat) (silent : Bool) :
    Nat → State → Option Nat → Res (State × Option Nat)
  | _, s, none => pure (s, none)
  | 0, _, some _ => .error Fault.out_of_fuel
  | fuel + 1, s, some span =>
    if (s.spans span).stack = some stack then
      let s := dd_drop_span_nodestroy s span silent
      free_drop_chain stack silent fuel s (s.spans span).parent
    else pure (s, some span)

/-- The body of the loop of `ddtrace_free_span_stacks` for one span stack
object. -/
def free_span_stack (fuel : Nat) (silent : Bool) (s : State) (stack : Nat) : Res State := do
  let s ← (match (s.span_stacks stack).active with
    | some active_span =>
      if (s.spans active_span).stack = some stack then do
        let s := set_stack s stack { s.span_stacks stack with root_span := none }
        let (s, span) ← free_drop_chain stack silent fuel s (s.spans active_span).parent
        let s := set_stack s stack { s.span_stacks stack with active := span }
        pure (dd_drop_span s active_span silent)
      else pure s
    | none => pure s : Res State)
  dd_free_span_ring fuel s (s.span_stacks stack).closed_ring
  let s := set_stack s stack { s.span_stacks stack with closed_ring := none }
  dd_free_span_ring fuel s (s.span_stacks stack).closed_ring_flush
  pure (set_stack s stack { s.span_stacks stack with closed_ring_flush := none })

/-- The walk of `ddtrace_free_span_stacks` over the object store, from the
newest object to the oldest; the span stacks are the objects with the handles
`1 .. stack_top - 1`. -/
def free_span_stacks_loop (fuel : Nat) (silent : Bool) : Nat → State → Res State
  | 0, s => pure s
  | n + 1, s => do
    let s ← free_span_stack fuel silent s (n + 1)
    free_span_stacks_loop fuel silent n s

/-- `ddtrace_free_span_stacks`; the release of the active stack at its start
reads the object behind `active_stack`. -/
def ddtrace_free_span_stacks (fuel : Nat) (s : State) (silent : Bool) : Res State := do
  let _ ← deref s.active_stack
  let s ← free_span_stacks_loop fuel silent (s.stack_top - 1) s
  pure { s with open_spans_count := 0, dropped_spans_count := 0, closed_spans_count := 0,
                active_stack := none, top_closed_stack := none }

/-- `ddtrace_push_root_span`. -/
def ddtrace_push_root_span (H : Hooks) (s : State) : Res State :=
  let (span, s) := ddtrace_init_span s DDTRACE_AUTOROOT_SPAN
  ddtrace_open_span H s span

/-- The zval type tag `IS_FALSE` of the engine header `zend_types.h`. -/
def IS_FALSE : Nat := 2

/-- `ddtrace_span_alter_root_span_config`; of the two zvals only the type tags
are read. -/
def ddtrace_span_alter_root_span_config (fuel : Nat) (H : Hooks) (s : State)
    (old_value new_value : Nat) : Res (Bool × State) :=
  if old_value = new_value ∨ s.disable = true then pure (true, s)
  else if old_value = IS_FALSE then
    match s.active_stack with
    | none => do
      let s ← ddtrace_push_root_span H s
      pure (true, s)
    | some _ => pure (false, s)
  else do
    let a ← deref s.active_stack
    if (s.span_stacks a).root_span = none then pure (true, s)
    else if (s.span_stacks a).active = (s.span_stacks a).root_span
        ∧ (s.span_stacks a).closed_ring = none then do
      let span ← deref (s.span_stacks a).root_span
      let s := set_stack s a { s.span_stacks a with root_span := none }
      let s ← ddtrace_drop_span fuel s span
      pure (true, s)
    else pure (false, s)

/-- `ddtrace_alloc_execute_data_span`; an entry of the table `traced_spans`
is the span and the use count kept in the type info of the zval, which starts
at 2. -/
def ddtrace_alloc_execute_data_span (H : Hooks) (s : State) (index : Nat) :
    Res (Nat × State) :=
  match s.traced_spans index with
  | some (span, info) =>
    pure (span, { s with traced_spans := upd s.traced_spans index (some (span, incr32 info)) })
  | none => do
    let (span, s) := ddtrace_init_span s DDTRACE_INTERNAL_SPAN
    let s ← ddtrace_open_span H s span
    pure (span, { s with traced_spans := upd s.traced_spans index (some (span, 2)) })

/-- `ddtrace_clear_execute_data_span`. -/
def ddtrace_clear_execute_data_span (fuel : Nat) (s : State) (index : Nat) (keep : Bool) :
    Res State := do
  let (span, info) ← deref (s.traced_spans index)
  let info := decr32 info
  let s := { s with traced_spans := upd s.traced_spans index (some (span, info)) }
  let s ← (if info = 1 ∨ keep = false then
      if ddtrace_span_is_dropped (s.spans span) = false then
        if keep then ddtrace_close_span fuel s (some span)
        else do
          let s ← ddtrace_drop_span fuel s span
          pure (set_span s span { s.spans span with duration := DDTRACE_SILENTLY_DROPPED_SPAN })
      else pure s
    else pure s : Res State)
  if (s.traced_spans index).map Prod.snd = some 1 then
    pure { s with traced_spans := upd s.traced_spans index none }
  else pure s

/-- The `while ((span = stack->active) && span->stack == stack)` loop of
`ddtrace_close_all_open_spans` for one span stack object. -/
def close_open_spans_of_stack (fuel : Nat) (force_close_root_span : Bool) (stack : Nat) :
    Nat → State → Res State
  | 0, _ => .error Fault.out_of_fuel
  | n + 1, s =>
    match (s.span_stacks stack).active with
    | none => pure s
    | some span =>
      if (s.spans span).stack = some stack then do
        let s ← (if s.autofinish_spans
              ∨ (force_close_root_span ∧ (s.spans span).type = DDTRACE_AUTOROOT_SPAN) then
            ddtrace_close_span fuel (dd_trace_stop_span_time s span) (some span)
          else ddtrace_drop_span fuel s span : Res State)
        close_open_spans_of_stack fuel force_close_root_span stack n s
      else pure s

/-- The walk of `ddtrace_close_all_open_spans` over the object store, from the
newest object to the oldest. -/
def close_all_loop (fuel : Nat) (force_close_root_span : Bool) : Nat → State → Res State
  | 0, s => pure s
  | n + 1, s => do
    let s ← close_open_spans_of_stack fuel force_close_root_span (n + 1) fuel s
    close_all_loop fuel force_close_root_span n s

/-- `ddtrace_close_all_open_spans`. -/
def ddtrace_close_all_open_spans (fuel : Nat) (s : State) (force_close_root_span : Bool) :
    Res State :=
  close_all_loop fuel force_close_root_span (s.stack_top - 1) s

/-- The walk of `ddtrace_mark_all_span_stacks_flushable` over the object
store, from the newest object to the oldest. -/
def mark_all_loop : Nat → State → Res State
  | 0, s => pure s
  | n + 1, s => do
    let s ← dd_mark_closed_spans_flushable s (n + 1)
    mark_all_loop n s

/-- `ddtrace_mark_all_span_stacks_flushable`. -/
def ddtrace_mark_all_span_stacks_flushable (s : State) : Res State :=
  mark_all_loop (s.stack_top - 1) s

/-- What `ddtrace_open_span` keeps: of every span the type, the ring link, the
duration and the sampling override; the globals other than the active stack,
the open counter, the id position and the stack handle counter; and of every
stack the links and rings it has once the fresh root stack, if any, was
created. -/
def open_keeps (s s2 : State) (k : Nat) : Prop :=
  (∀ x, (s2.spans x).type = (s.spans x).type ∧ (s2.spans x).next = (s.spans x).next
    ∧ (s2.spans x).duration = (s.spans x).duration
    ∧ (s2.spans x).sampling_priority = (s.spans x).sampling_priority)
  ∧ (s2.top_closed_stack = s.top_closed_stack ∧ s2.traced_spans = s.traced_spans
    ∧ s2.disable = s.disable ∧ s2.autofinish_spans = s.autofinish_spans
    ∧ s2.auto_flush_enabled = s.auto_flush_enabled ∧ s2.monotonic_clock = s.monotonic_clock
    ∧ s2.realtime_clock = s.realtime_clock ∧ s2.sent = s.sent
    ∧ s2.stack_top = (open_span_enter s k).2.stack_top)
  ∧ ∀ j, (s2.span_stacks j).root_stack = ((open_span_enter s k).2.span_stacks j).root_stack
    ∧ (s2.span_stacks j).parent_stack = ((open_span_enter s k).2.span_stacks j).parent_stack
    ∧ (s2.span_stacks j).closed_ring = ((open_span_enter s k).2.span_stacks j).closed_ring
    ∧ (s2.span_stacks j).closed_ring_flush
        = ((open_span_enter s k).2.span_stacks j).closed_ring_flush
    ∧ (s2.span_stacks j).next = ((open_span_enter s k).2.span_stacks j).next
    ∧ (s2.span_stacks j).top_closed_stack
        = ((open_span_enter s k).2.span_stacks j).top_closed_stack

/-- A request in which the root span 1 is open on the root stack 2 and the
active stack is the child stack 3 of stack 2, which inherited span 1 both as
its active span and as its root span. -/
def demo_child_stack_active : State :=
  state_of (run_ops
    [.open_span DDTRACE_AUTOROOT_SPAN 6 0 0, .init_span_stack, .switch_span_stack 3]
    (ddtrace_init_span_stacks (fresh_state true false (fun i => i % 100 + 10))))
    (fresh_state true false id)

/-- A request with auto-finish enabled in which the spans 1, 2 and 3 were opened
on the root stack 2, the spans 3 and 2 were closed, and the closed span 3 was
then dropped: the drop made its parent, the closed span 2, the active span of
the stack again. -/
def demo_closed_active : State :=
  state_of (run_ops
    [.open_span DDTRACE_AUTOROOT_SPAN 6 0 0, .open_span DDTRACE_USER_SPAN 6 0 0,
      .open_span DDTRACE_USER_SPAN 6 0 0, .close_span 6 3, .close_span 6 2, .drop_span 6 3]
    (ddtrace_init_span_stacks (fresh_state true false (fun i => i % 100 + 10))))
    (fresh_state true false id)

/-- The drain only clears: the staged ring and the sub-list head of a stack
are afterwards what they were or `NULL`. -/
def drain_clears (s s2 : State) : Prop :=
  ∀ j, ((s2.span_stacks j).top_closed_stack = (s.span_stacks j).top_closed_stack
      ∨ (s2.span_stacks j).top_closed_stack = none)
    ∧ ((s2.span_stacks j).closed_ring_flush = (s.span_stacks j).closed_ring_flush
      ∨ (s2.span_stacks j).closed_ring_flush = none)

/-- Two independent root stacks, 2 and 3, each holding one closed span (1 and
2) staged on the global worklist: the root spans 1 and 2 were opened one after
the other from the primary stack and then closed, without auto-flush. -/
def demo_two_roots : State :=
  state_of (run_ops
    [.open_span DDTRACE_AUTOROOT_SPAN 6 0 0, .switch_span_stack 1,
      .open_span DDTRACE_AUTOROOT_SPAN 6 0 0, .close_span 6 1, .close_span 6 2]
    (ddtrace_init_span_stacks (fresh_state true false (fun i => i % 100 + 10))))
    (fresh_state true false id)

/-- The staged rings of `demo_two_roots`. -/
def demo_two_roots_rings : Nat → List Nat :=
  fun j => if j = 3 then [2] else if j = 2 then [1] else []

/-- The state after `dd_mark_closed_spans_flushable` installed the closed ring
with head `h` as the flush list of stack `k` and attached `k` to the sub-list
of its root stack `R`. -/
def stage_sub (s : State) (k h R : Nat) : State :=
  let s := set_stack s k { s.span_stacks k with closed_ring_flush := some h }
  let s := set_stack s k { s.span_stacks k with next := (s.span_stacks R).top_closed_stack }
  let s := set_stack s R { s.span_stacks R with top_closed_stack := some k }
  set_stack s k { s.span_stacks k with closed_ring := none }

/-- The state after `dd_mark_closed_spans_flushable` spliced the closed ring
with head `ring` into the flush list with head `flush` of stack `k`. -/
def splice_state (s : State) (k ring flush : Nat) : State :=
  let s := set_span s ring { s.spans ring with next := (s.spans flush).next }
  let s := set_span s flush { s.spans flush with next := some ring }
  set_stack s k { s.span_stacks k with closed_ring := none }

/-- A request without auto-flush in which the root span A (1) is open on the
root stack 2, the span X (2) was opened and closed on the child stack 3 of
stack 2, the span B (3) was opened and closed on stack 2, and
`ddtrace_mark_all_span_stacks_flushable` was called: stack 2 is staged on the
global worklist although its root span is open, and stack 3 hangs in its
sub-list. -/
def demo_forced_stage : State :=
  state_of (do
    let s ← run_ops
      [.open_span DDTRACE_AUTOROOT_SPAN 6 0 0, .init_span_stack, .switch_span_stack 3,
        .open_span DDTRACE_USER_SPAN 6 0 0, .close_span 6 2, .switch_span_stack 2,
        .open_span DDTRACE_USER_SPAN 6 0 0, .close_span 6 3]
      (ddtrace_init_span_stacks (fresh_state true false (fun i => i % 100 + 10)))
    ddtrace_mark_all_span_stacks_flushable s) (fresh_state true false id)

/-- A request in which the root span 1 is open on the root stack 2 and the
span 2, opened on the child stack 3 of stack 2, has just been moved to the
closed ring of stack 3 by `ddtrace_close_top_span_without_stack_swap`: the state
in which `dd_close_entry_span_of_stack` stages stack 3. -/
def demo_child_ring : State :=
  close_top_core (state_of (run_ops
      [.open_span DDTRACE_AUTOROOT_SPAN 6 0 0, .init_span_stack, .switch_span_stack 3,
        .open_span DDTRACE_USER_SPAN 6 0 0]
      (ddtrace_init_span_stacks (fresh_state true false (fun i => i % 100 + 10))))
    (fresh_state true false id)) 2 3

/-- A stack whose chain of own open spans is empty has no closed ring. -/
def emptied_unringed (s : State) : Prop :=
  ∀ k, chain_emptied s k = true → (s.span_stacks k).closed_ring = none

/-- The public operations on spans and span stacks: those of `span_op`, the
staging of all stacks and the drain of the worklist. -/
inductive stack_op where
  | span (op : span_op)
  | mark_all_span_stacks_flushable
  | serialize_closed_spans (fuel : Nat)

/-- One public operation on a state; the array a drain hands back is left
out. -/
def apply_stack_op (s : State) : stack_op → Res State
  | .span op => apply_op s op
  | .mark_all_span_stacks_flushable => ddtrace_mark_all_span_stacks_flushable s
  | .serialize_closed_spans fuel => (ddtrace_serialize_closed_spans fuel s).map Prod.snd

/-- A sequence of public operations, from left to right. -/
def run_stack_ops : List stack_op → State → Res State
  | [], s => .ok s
  | op :: ops, s => apply_stack_op s op >>= run_stack_ops ops

/-- Parent pointers and active spans refer to allocated spans. -/
def handles_ok (s : State) : Prop :=
  (∀ x p, (s.spans x).parent = some p → p < s.span_top)
  ∧ ∀ k a, (s.span_stacks k).active = some a → a < s.span_top

/-- What `ddtrace_open_span` makes of the state `s` when it opens `span` with
the active stack `k`. -/
def open_facts (s s2 : State) (span k : Nat) : Prop :=
  (s2.spans span).stack = some (open_span_enter s k).1
  ∧ (s2.span_stacks (open_span_enter s k).1).active = some span
  ∧ s2.active_stack = some (open_span_enter s k).1
  ∧ (s2.span_stacks (open_span_enter s k).1).root_span
      = (match ((open_span_enter s k).2.span_stacks (open_span_enter s k).1).root_span with
        | some r => some r
        | none => some span)
  ∧ (s2.spans span).root = (s2.span_stacks (open_span_enter s k).1).root_span
  ∧ (s2.spans span).parent
      = (if ((open_span_enter s k).2.span_stacks (open_span_enter s k).1).root_span = none
        then none
        else ((open_span_enter s k).2.span_stacks (open_span_enter s k).1).active)
  ∧ (∀ x, x ≠ span → s2.spans x = s.spans x)
  ∧ (∀ j, j ≠ (open_span_enter s k).1 →
      s2.span_stacks j = (open_span_enter s k).2.span_stacks j)
  ∧ s2.open_spans_count = incr32 s.open_spans_count
  ∧ s2.closed_spans_count = s.closed_spans_count
  ∧ s2.dropped_spans_count = s.dropped_spans_count
  ∧ s2.span_top = s.span_top ∧ s2.id_stream = s.id_stream
  ∧ open_keeps s s2 k

/-- The invariant of the public operations used for the closed rings: handles
are allocated and a stack without own open spans has no closed ring. -/
def ring_inv (s : State) : Prop :=
  handles_ok s ∧ emptied_unringed s

/-- A run in which a root span (1) and a child (2) are opened and the child is
closed. -/
def demo_child_closed_ops : List stack_op :=
  [.span (.open_span DDTRACE_AUTOROOT_SPAN 6 0 0), .span (.open_span DDTRACE_USER_SPAN 6 0 0),
    .span (.close_span 6 2)]

/-- The state the run `demo_child_closed_ops` ends in: the closed ring of
stack 2 holds span 2, the root span 1 is its active span. -/
def demo_ring_pending : State :=
  state_of (run_stack_ops demo_child_closed_ops
    (ddtrace_init_span_stacks (fresh_state true false (fun i => i % 100 + 10))))
    (fresh_state true false id)

/-- The state `demo_ring_pending` after its root span 1 was closed. -/
def demo_ring_staged : State :=
  state_of (ddtrace_close_span 6 demo_ring_pending (some 1)) (fresh_state true false id)

/-- The state at the start of a request with automatic flushing enabled and the
first span (1) allocated but not yet opened. -/
def demo_request_start_flush : State :=
  (ddtrace_init_span (ddtrace_init_span_stacks (fresh_state true true (fun i => i + 10)))
    DDTRACE_AUTOROOT_SPAN).2

/-- The spans of stack `k` reached along `parent` from `p` are those of `us`,
in order, and the walk ends on no span or on a span that is not of stack
`k`. -/
def own_chain (s : State) (k : Nat) : Option Nat → List Nat → Prop
  | p, [] => ∀ x, p = some x → (s.spans x).stack ≠ some k
  | p, u :: us => p = some u ∧ (s.spans u).stack = some k ∧ own_chain s k (s.spans u).parent us

/-- What the walks of `ddtrace_free_span_stacks` over stack `k` need to come
to an end within `fuel` steps: below an own active span the own spans form a
finite chain, and the pending and the staged ring are rings. -/
def teardown_ready (fuel : Nat) (s : State) (k : Nat) : Prop :=
  (∀ a, (s.span_stacks k).active = some a → (s.spans a).stack = some k →
    ∃ us, own_chain s k (s.spans a).parent us ∧ us.length < fuel)
  ∧ (∀ h, (s.span_stacks k).closed_ring = some h →
    ∃ R, is_ring s.spans h R ∧ R.length ≤ fuel)
  ∧ (∀ f, (s.span_stacks k).closed_ring_flush = some f →
    ∃ R, is_ring s.spans f R ∧ R.length ≤ fuel)

/-- Stack `k` after the teardown: no pending ring, no staged ring, and an
active span, if any, that is not of stack `k`. -/
def torn_down (s : State) (k : Nat) : Prop :=
  (s.span_stacks k).closed_ring = none ∧ (s.span_stacks k).closed_ring_flush = none
  ∧ ∀ a, (s.span_stacks k).active = some a → (s.spans a).stack ≠ some k

/-- What the teardown of a stack keeps: the links of every span, the handle
counters and the serialized spans. -/
def free_frame (s s2 : State) : Prop :=
  (∀ x, (s2.spans x).stack = (s.spans x).stack ∧ (s2.spans x).parent = (s.spans x).parent
    ∧ (s2.spans x).next = (s.spans x).next)
  ∧ s2.sent = s.sent ∧ s2.stack_top = s.stack_top ∧ s2.span_top = s.span_top

/-- A request that ended with work left over: the root span 1 and its child 2
are open on the root stack 2, and their descendant 3 was closed and waits in
the pending ring of that stack. -/
def demo_teardown : State :=
  state_of (run_ops [.open_span DDTRACE_AUTOROOT_SPAN 6 0 0, .open_span DDTRACE_USER_SPAN 6 0 0,
      .open_span DDTRACE_USER_SPAN 6 0 0, .close_span 6 3]
    (ddtrace_init_span_stacks (fresh_state true false (fun i => i % 100 + 10))))
    (fresh_state true false id)

/-- The spans returned by `n` successive calls of
`ddtrace_alloc_execute_data_span` on one index, in order, and the state they
leave. -/
def alloc_execute_data_span_calls (H : Hooks) (index : Nat) :
    Nat → State → Res (List Nat × State)
  | 0, s => pure ([], s)
  | n + 1, s => do
    let (span, s) ← ddtrace_alloc_execute_data_span H s index
    let (spans, s) ← alloc_execute_data_span_calls H index n s
    pure (span :: spans, s)

/-- Successive calls of `ddtrace_clear_execute_data_span` on one index, one for
each `keep` flag of the list. -/
def clear_execute_data_span_calls (fuel : Nat) (index : Nat) : List Bool → State → Res State
  | [], s => pure s
  | keep :: keeps, s => do
    let s ← ddtrace_clear_execute_data_span fuel s index keep
    clear_execute_data_span_calls fuel index keeps s

/-- The state `s` with the entry of `index` in the table `traced_spans`
replaced. -/
def with_entry (s : State) (index : Nat) (e : Option (Nat × Nat)) : State :=
  { s with traced_spans := upd s.traced_spans index e }

/-- The span `t` with the duration of a silently dropped span. -/
def mark_silently_dropped (s : State) (t : Nat) : State :=
  set_span s t { s.spans t with duration := DDTRACE_SILENTLY_DROPPED_SPAN }

/-- What `ddtrace_close_span` and `ddtrace_drop_span` of the top span `t` need
to return when the chain of its stack becomes empty: the closure of the entry
span reads no null pointer, and with automatic flushing the worklist is well
formed and the fuel suffices to drain it. -/
def top_span_ready (fuel : Nat) (s : State) (t : Nat) : Prop :=
  ∃ k R subs ring_of D, (s.spans t).stack = some k ∧ entry_nofault s k
    ∧ (s.auto_flush_enabled = true → entry_owns s k = true → is_entry_span s k t = true →
      flush_ready fuel s k t [] R subs ring_of D)

/-- The part of `ddtrace_clear_execute_data_span` after the lookup of the table
entry and the decrement of its use count to `info`. -/
def clear_entry (fuel : Nat) (s : State) (index span info : Nat) (keep : Bool) : Res State := do
  let s ← (if info = 1 ∨ keep = false then
      if ddtrace_span_is_dropped (s.spans span) = false then
        if keep then ddtrace_close_span fuel s (some span)
        else do
          let s ← ddtrace_drop_span fuel s span
          pure (set_span s span { s.spans span with duration := DDTRACE_SILENTLY_DROPPED_SPAN })
      else pure s
    else pure s : Res State)
  if (s.traced_spans index).map Prod.snd = some 1 then
    pure { s with traced_spans := upd s.traced_spans index none }
  else pure s

/-- The flush worklist of the state `s` is described by `G` and `sub`: the
global list from `top_closed_stack` along `next` holds the stacks of `G`, the
sub-list from the `top_closed_stack` of a stack `r` holds the stacks of
`sub r`, no stack is listed twice, and a stack is listed exactly when its
`closed_ring_flush` is not null. -/
def worklist_members (s : State) (G : List Nat) (sub : Nat → List Nat) : Prop :=
  stack_list s.span_stacks s.top_closed_stack G
  ∧ (∀ r, stack_list s.span_stacks (s.span_stacks r).top_closed_stack (sub r))
  ∧ G.Nodup ∧ (∀ r, (sub r).Nodup)
  ∧ (∀ r j, j ∈ sub r → j ∉ G)
  ∧ (∀ r r2 j, j ∈ sub r → j ∈ sub r2 → r = r2)
  ∧ ∀ j, (s.span_stacks j).closed_ring_flush ≠ none ↔ (j ∈ G ∨ ∃ r, j ∈ sub r)

/-- The listed stacks and the stacks that have a sub-list are allocated. -/
def worklist_allocated (s : State) (G : List Nat) (sub : Nat → List Nat) : Prop :=
  (∀ j ∈ G, j < s.stack_top) ∧ ∀ r j, j ∈ sub r → j < s.stack_top ∧ r < s.stack_top

/-- Stack pointers refer to allocated stacks: the stack of a span, the root
stack and the parent stack of a stack, and the active stack. -/
def stack_handles_ok (s : State) : Prop :=
  (∀ x k, (s.spans x).stack = some k → k < s.stack_top)
  ∧ (∀ k R, (s.span_stacks k).root_stack = some R → R < s.stack_top)
  ∧ (∀ k p, (s.span_stacks k).parent_stack = some p → p < s.stack_top)
  ∧ ∀ a, s.active_stack = some a → a < s.stack_top

/-- The invariant behind the flush worklist. -/
def flush_inv (s : State) : Prop :=
  stack_handles_ok s ∧ ∃ G sub, worklist_members s G sub ∧ worklist_allocated s G sub

/-- The effect of a drain on the staged rings and the sub-list heads: the
stacks of `C` have no staged ring any more, the stacks of `Hs` no sub-list, and
the other stacks have what they had. -/
def drained (s s2 : State) (C Hs : List Nat) : Prop :=
  (∀ j ∈ C, (s2.span_stacks j).closed_ring_flush = none)
  ∧ (∀ j, j ∉ C → (s2.span_stacks j).closed_ring_flush = (s.span_stacks j).closed_ring_flush)
  ∧ (∀ j ∈ Hs, (s2.span_stacks j).top_closed_stack = none)
  ∧ ∀ j, j ∉ Hs → (s2.span_stacks j).top_closed_stack = (s.span_stacks j).top_closed_stack

/-- Whether the target of a switch of the active stack is a live span stack;
every other operation passes. -/
def switch_target_live (s : State) : stack_op → Bool
  | .span (.switch_span_stack target_stack) =>
    decide (1 ≤ target_stack ∧ target_stack < s.stack_top)
  | _ => true

/-- Whether every switch of the active stack in the run of `ops` from `s` has
a live span stack as its target. -/
def live_run : List stack_op → State → Bool
  | [], _ => true
  | op :: ops, s =>
    switch_target_live s op
      && (match apply_stack_op s op with
          | .ok s2 => live_run ops s2
          | .error _ => true)

/-- A run in which the span X (2) is opened and closed on the child stack 3 of
the root stack 2 while the root span A (1) of stack 2 is open: stack 3 is
staged in the sub-list of stack 2. -/
def demo_sub_list_ops : List stack_op :=
  [.span (.open_span DDTRACE_AUTOROOT_SPAN 6 0 0), .span .init_span_stack,
    .span (.switch_span_stack 3), .span (.open_span DDTRACE_USER_SPAN 6 0 0),
    .span (.close_span 6 2)]

/-- The state the run `demo_sub_list_ops` ends in. -/
def demo_sub_list : State :=
  state_of (run_stack_ops demo_sub_list_ops
    (ddtrace_init_span_stacks (fresh_state true false (fun i => i % 100 + 10))))
    (fresh_state true false id)

/-- The operations of a request: the public operations of `stack_op` and
`ddtrace_close_all_open_spans`. -/
inductive request_op where
  | stack (op : stack_op)
  | close_all_open_spans (fuel : Nat) (force_close_root_span : Bool)

/-- One operation of a request on a state. -/
def apply_request_op (s : State) : request_op → Res State
  | .stack op => apply_stack_op s op
  | .close_all_open_spans fuel force_close_root_span =>
    ddtrace_close_all_open_spans fuel s force_close_root_span

/-- A sequence of operations of a request, from left to right. -/
def run_request_ops : List request_op → State → Res State
  | [], s => .ok s
  | op :: ops, s => apply_request_op s op >>= run_request_ops ops

/-- The number of `ddtrace_open_span` calls of a run. -/
def open_calls : List request_op → Nat
  | [] => 0
  | .stack (.span (.open_span _ _ _ _)) :: ops => open_calls ops + 1
  | _ :: ops => open_calls ops

/-- The sum of the three span counters as a `uint32_t`. -/
def counter_sum (s : State) : Nat :=
  (s.open_spans_count + s.closed_spans_count + s.dropped_spans_count) % 2 ^ 32

/-- A request that opens three spans, closes one, drops one and then closes
all open spans. -/
def demo_counted_ops : List request_op :=
  [.stack (.span (.open_span DDTRACE_AUTOROOT_SPAN 6 0 0)),
    .stack (.span (.open_span DDTRACE_INTERNAL_SPAN 6 0 0)),
    .stack (.span (.open_span DDTRACE_USER_SPAN 6 0 0)),
    .stack (.span (.close_span 6 3)), .stack (.span (.drop_span 6 2)),
    .close_all_open_spans 6 true, .stack (.serialize_closed_spans 6)]

/-- The state the run `demo_counted_ops` ends in. -/
def demo_counted : State :=
  state_of (run_request_ops demo_counted_ops
    (ddtrace_init_span_stacks (fresh_state true false (fun i => i % 100 + 10))))
    (fresh_state true false id)

/-- A run in which span 2 is dropped while span 3 is open above it, the root
span 1 is closed, and then span 3 is dropped and span 2 closed: the two stray
drops leave the closed span 2 in the closed ring of stack 2 after the root span
of the stack was released and its staged ring flushed. -/
def demo_stray_drop_ops : List stack_op :=
  [.span (.open_span DDTRACE_AUTOROOT_SPAN 6 0 0), .span (.open_span DDTRACE_INTERNAL_SPAN 6 0 0),
    .span (.open_span DDTRACE_INTERNAL_SPAN 6 0 0), .span (.drop_span 6 2),
    .span (.close_span 6 1), .span (.drop_span 6 3), .span (.close_span 6 2)]

/-- The state the run `demo_stray_drop_ops` ends in, with automatic flushing
enabled. -/
def demo_stray_drop : State :=
  state_of (run_stack_ops demo_stray_drop_ops
    (ddtrace_init_span_stacks (fresh_state true true (fun i => i % 100 + 10))))
    (fresh_state true false id)

/-- Whether the list is the walk along the `parent_stack` links from its first
stack up to and including the stack `r`: every stack but the last is not `r`
and has the next stack of the list as its `parent_stack`, and the last stack
is `r`. -/
def is_parent_path (s : State) (r : Nat) : List Nat → Bool
  | [] => false
  | [x] => x == r
  | x :: y :: rest =>
    x != r && (s.span_stacks x).parent_stack == some y && is_parent_path s r (y :: rest)

/-- The active span of the first stack of the list whose active span belongs
to that stack itself, `none` when the list has no such stack. -/
def first_own_active (s : State) : List Nat → Option Nat
  | [] => none
  | k :: rest =>
    match (s.span_stacks k).active with
    | some a => if (s.spans a).stack = some k then some a else first_own_active s rest
    | none => first_own_active s rest

/-- The shape of the span stacks: there is an active stack and it is
allocated, the stack of a span is allocated, and an allocated stack `k` has a
root stack `r` with `r ≤ k`, a parent stack, if any, that was allocated before
`k`, and is either its own root stack or has a parent stack with the same root
stack. -/
def stack_tree (s : State) : Prop :=
  (∃ a, s.active_stack = some a ∧ 1 ≤ a ∧ a < s.stack_top)
  ∧ (∀ x k, (s.spans x).stack = some k → 1 ≤ k ∧ k < s.stack_top)
  ∧ ∀ k, 1 ≤ k → k < s.stack_top →
      ∃ r, (s.span_stacks k).root_stack = some r ∧ 1 ≤ r ∧ r ≤ k
        ∧ (∀ e, (s.span_stacks k).parent_stack = some e → 1 ≤ e ∧ e < k)
        ∧ (r = k ∨ ∃ p, (s.span_stacks k).parent_stack = some p
            ∧ (s.span_stacks p).root_stack = some r)

/-- The invariant of the closed rings, for the list `ring_of j` of the spans
closed on stack `j` since its last staging, the last closed first: the closed
ring of every allocated stack `j` is no ring when `ring_of j` is empty and
else a simple cycle under `next` through exactly the spans of `ring_of j`
whose head is the last span of the list; the listed spans are Closed; no span
is listed for two stacks; and the head of a staged ring is a Closed span that
is listed for no stack. -/
def rings_ok (s : State) (ring_of : Nat → List Nat) : Prop :=
  (∀ j, j < s.stack_top → closed_ring_ok s j (ring_of j))
  ∧ (∀ j, j < s.stack_top → ∀ x ∈ ring_of j, (s.spans x).type = DDTRACE_SPAN_CLOSED)
  ∧ (∀ i, i < s.stack_top → ∀ j, j < s.stack_top → ∀ x ∈ ring_of i, x ∈ ring_of j → i = j)
  ∧ ∀ j, j < s.stack_top → ∀ f ∈ (s.span_stacks j).closed_ring_flush,
      (s.spans f).type = DDTRACE_SPAN_CLOSED ∧ ∀ i, i < s.stack_top → f ∉ ring_of i

instance rings_ok_decidable (s : State) (ring_of : Nat → List Nat) :
    Decidable (rings_ok s ring_of) := by
  unfold rings_ok
  infer_instance

/-- The state `demo_chain` after its innermost span 3 was closed: the closed
ring of stack 2 holds span 3, the spans 1 and 2 are open. -/
def demo_ring_one : State :=
  state_of (ddtrace_close_top_span_without_stack_swap 6 demo_chain 3) (fresh_state true true id)

/-- The spans closed since the last staging in `demo_ring_one`: span 3 on
stack 2. -/
def demo_ring_one_lists (j : Nat) : List Nat :=
  if j = 2 then [3] else []

/-- A run without auto-flush on the root stack 2: the root span 1 and a child 2
are opened, the child is closed and staged by
`ddtrace_mark_all_span_stacks_flushable`, then a second child 3 is opened and
closed. -/
def demo_staged_child_ops : List stack_op :=
  [.span (.open_span DDTRACE_AUTOROOT_SPAN 6 0 0), .span (.open_span DDTRACE_INTERNAL_SPAN 6 0 0),
    .span (.close_span 6 2), .mark_all_span_stacks_flushable,
    .span (.open_span DDTRACE_INTERNAL_SPAN 6 0 0), .span (.close_span 6 3)]

/-- The state the run `demo_staged_child_ops` ends in: the root span 1 is the
active span of stack 2, the closed ring of the stack holds span 3 and its
staged ring holds span 2. -/
def demo_staged_child : State :=
  state_of (run_stack_ops demo_staged_child_ops
    (ddtrace_init_span_stacks (fresh_state true false (fun i => i % 100 + 10))))
    (fresh_state true false id)

/-- The first traced call of a request: index 7 is entered on the primary
stack, so its span 1 becomes the root span of the fresh root stack 2. -/
def demo_first_traced_call : State :=
  state_of ((ddtrace_alloc_execute_data_span (active_span_hooks 4 0 0)
      (ddtrace_init_span_stacks (fresh_state true false (fun i => i % 100 + 10))) 7).map
    Prod.snd) (fresh_state true false id)

/-- A run in which a child stack (3) is created while the root span A (1) is
the active span of the root stack 2, a child B (2) of A is opened on stack 2,
and then a span X (3) is opened on the child stack: the child stack still
holds A as its active span, and A is still open. -/
def demo_foreign_open_parent_ops : List span_op :=
  [.open_span DDTRACE_AUTOROOT_SPAN 4 0 0, .init_span_stack, .open_span DDTRACE_USER_SPAN 4 0 0,
    .switch_span_stack 3, .open_span DDTRACE_USER_SPAN 4 0 0]

/-- A run that opens the root span A (1) on the root stack 2, creates the child
stack 3, which inherits A as its active span, and makes it the active
stack. -/
def demo_inherited_parent_ops : List span_op :=
  [.open_span DDTRACE_AUTOROOT_SPAN 4 0 0, .init_span_stack, .switch_span_stack 3]

/-- The state the run `demo_inherited_parent_ops` ends in. -/
def demo_inherited_parent : State :=
  state_of (run_ops demo_inherited_parent_ops
    (ddtrace_init_span_stacks (fresh_state true false (fun i => i % 100 + 10))))
    (fresh_state true false id)

/-- The state `demo_inherited_parent` after the span X (2) was opened on the
child stack 3. -/
def demo_inherited_parent_opened : State :=
  state_of (apply_op demo_inherited_parent (.open_span DDTRACE_USER_SPAN 4 0 0))
    (fresh_state true false id)

/-- The state `demo_inherited_parent_opened` after X was closed. -/
def demo_inherited_parent_closed : State :=
  state_of (run_ops [.close_span 4 2] demo_inherited_parent_opened) (fresh_state true false id)

/-- The spans of `l` are the topmost spans of the chain hanging from the
pointer `p`, innermost first: each lies on stack `k`, is not closed, and is the
parent of the one before it. Nothing is asked of the spans below them. -/
def open_segment (s : State) (k : Nat) : Option Nat → List Nat → Prop
  | _, [] => True
  | p, x :: l => p = some x ∧ (s.spans x).stack = some k
      ∧ (s.spans x).type ≠ DDTRACE_SPAN_CLOSED ∧ open_segment s k (s.spans x).parent l

instance open_segment_decidable (s : State) (k : Nat) :
    ∀ (l : List Nat) (p : Option Nat), Decidable (open_segment s k p l)
  | [], _ => isTrue trivial
  | x :: l, p => by
    have := open_segment_decidable s k l (s.spans x).parent
    exact (inferInstance : Decidable (p = some x ∧ (s.spans x).stack = some k
      ∧ (s.spans x).type ≠ DDTRACE_SPAN_CLOSED ∧ open_segment s k (s.spans x).parent l))

/-- The closed spans `B` of stack `k` are staged in the state `m` and go to the
serializer en bloc and in the order of `B`: the closed ring of `k` is empty,
its staged ring is the ring that lists `B`, and the drain of `m` with
`ddtrace_serialize_closed_spans` returns `B` at the place of `k` in the
worklist. With `r` the root span of `k` in the state `s` before the staging:
when `r` lies on `k` or is closed, `k` went to the head of the global list `D`
and `B` comes first, followed by the rings of the sub-list `subs` of `k` and
those of `D`; otherwise `k` went to the head of the sub-list of its root stack
`Rt`, and when `Rt` is on the global list, `B` comes right after the ring of
`Rt`. -/
def hands_over_batch (fuel : Nat) (s m : State) (k : Nat) (B subs : List Nat)
    (ring_of : Nat → List Nat) (D : List (Nat × List Nat)) : Prop :=
  (m.span_stacks k).closed_ring = none
  ∧ (∃ f, (m.span_stacks k).closed_ring_flush = some f ∧ is_ring m.spans f B)
  ∧ (∀ r, (s.span_stacks k).root_span = some r →
      ((s.spans r).stack = some k ∨ (s.spans r).type = DDTRACE_SPAN_CLOSED) →
      ∃ s3, ddtrace_serialize_closed_spans fuel m
        = .ok (B ++ rings_of ring_of subs ++ rings_of ring_of (flat_stacks D), s3))
  ∧ ∀ r Rt D1 sR D2, (s.span_stacks k).root_span = some r →
      ¬ ((s.spans r).stack = some k ∨ (s.spans r).type = DDTRACE_SPAN_CLOSED) →
      (s.span_stacks k).root_stack = some Rt → D = D1 ++ (Rt, sR) :: D2 →
      ∃ s3, ddtrace_serialize_closed_spans fuel m
        = .ok (rings_of ring_of (flat_stacks D1) ++ ring_of Rt ++ B ++ rings_of ring_of sR
            ++ rings_of ring_of (flat_stacks D2), s3)

/-- A request without auto-flush in which, on the root stack 2, the root span
(1) is open, a first child (2) was opened and closed, and a second child (3)
and a child of it (4) are open: the closed ring of the stack holds span 2. -/
def demo_closed_sibling : State :=
  state_of (do
    let s := ddtrace_init_span_stacks (fresh_state true false (fun i => i + 10))
    let s ← open_new_span (active_span_hooks 4 0 0) DDTRACE_AUTOROOT_SPAN s
    let s ← open_new_span (active_span_hooks 4 0 0) DDTRACE_USER_SPAN s
    let s ← ddtrace_close_span 4 s (some 2)
    let s ← open_new_span (active_span_hooks 4 0 0) DDTRACE_USER_SPAN s
    open_new_span (active_span_hooks 4 0 0) DDTRACE_USER_SPAN s) (fresh_state true false id)

/-- A run without auto-flush: on the root stack 2 the root span 1 and a child
2 are opened, the child is closed and the stack staged by
`ddtrace_mark_all_span_stacks_flushable`; then the child stack 3 is created,
made the active stack, and a span 3 is opened on it below the inherited,
still open root span 1. -/
def demo_child_batch_ops : List stack_op :=
  [.span (.open_span DDTRACE_AUTOROOT_SPAN 4 0 0), .span (.open_span DDTRACE_USER_SPAN 4 0 0),
    .span (.close_span 4 2), .mark_all_span_stacks_flushable, .span .init_span_stack,
    .span (.switch_span_stack 3), .span (.open_span DDTRACE_USER_SPAN 4 0 0)]

/-- The state the run `demo_child_batch_ops` ends in. -/
def demo_child_batch : State :=
  state_of (run_stack_ops demo_child_batch_ops
    (ddtrace_init_span_stacks (fresh_state true false (fun i => i + 10))))
    (fresh_state true false id)

/-- The staged rings of `demo_child_batch`: span 2 on the root stack 2. -/
def demo_child_batch_rings (j : Nat) : List Nat :=
  if j = 2 then [2] else []

/-! ### Lemmas -/

@[simp] theorem upd_same {α : Type} (f : Nat → α) (i : Nat) (v : α) : upd f i v i = v := by
  simp [upd]

@[simp] theorem upd_ne {α : Type} (f : Nat → α) {i j : Nat} (v : α) (h : j ≠ i) :
    upd f i v j = f j := by
  simp [upd, h]

theorem upd_apply {α : Type} (f : Nat → α) (i j : Nat) (v : α) :
    upd f i v j = if j = i then v else f j := rfl

theorem next_path_congr (sp sp2 : Nat → ddtrace_span_data) :
    ∀ (l : List Nat) (a : Nat), (∀ x ∈ (a :: l).dropLast, (sp2 x).next = (sp x).next) →
      next_path sp a l → next_path sp2 a l
  | [], _, _, _ => trivial
  | x :: l, a, h, hp => by
    obtain ⟨h1, h2⟩ := hp
    refine ⟨?_, next_path_congr sp sp2 l x ?_ h2⟩
    · rw [h a (by simp [List.dropLast])]; exact h1
    · intro y hy
      apply h
      simp only [List.dropLast_cons₂, List.mem_cons]
      exact Or.inr hy

theorem serialize_ring_path (s : State) (e : Nat) :
    ∀ (l : List Nat) (y : Nat) (acc : List Nat) (fuel : Nat),
      next_path s.spans y l → (∀ z ∈ l, z ≠ e) →
      (∃ h, (y :: l).getLast? = some h ∧ (s.spans h).next = some e) → l.length < fuel →
      serialize_ring s (some e) fuel (some y) acc = .ok (acc ++ y :: l)
  | [], y, acc, fuel, _, _, hl, hf => by
    obtain ⟨h, h1, h2⟩ := hl
    simp at h1
    subst h1
    obtain ⟨f, rfl⟩ : ∃ f, fuel = f + 1 := ⟨fuel - 1, by simp at hf; omega⟩
    simp [serialize_ring, deref, h2, bind, Except.bind, pure, Except.pure]
  | x :: l, y, acc, fuel, hp, hne, hl, hf => by
    obtain ⟨h, h1, h2⟩ := hl
    obtain ⟨f, rfl⟩ : ∃ f, fuel = f + 1 := ⟨fuel - 1, by simp at hf; omega⟩
    obtain ⟨hp1, hp2⟩ := hp
    have hx : x ≠ e := hne x (by simp)
    have ih := serialize_ring_path s e l x (acc ++ [y]) f hp2
      (fun z hz => hne z (by simp [hz])) ⟨h, by simpa using h1, h2⟩ (by simp at hf; omega)
    simp [serialize_ring, deref, hp1, hx, bind, Except.bind, ih]

theorem serialize_ring_is_ring (s : State) (h : Nat) (x : Nat) (l : List Nat) (acc : List Nat)
    (fuel : Nat) (hr : is_ring s.spans h (x :: l)) (hf : l.length < fuel) :
    serialize_ring s (some x) fuel (some x) acc = .ok (acc ++ x :: l) := by
  obtain ⟨hp, hl, hn⟩ := hr
  obtain ⟨hp1, hp2⟩ := hp
  exact serialize_ring_path s x l x acc fuel hp2
    (fun z hz hzx => by subst hzx; exact (List.nodup_cons.1 hn).1 hz) ⟨h, hl, hp1⟩ hf

theorem close_top_eq (fuel : Nat) (s : State) (span stack : Nat)
    (hs : (s.spans span).stack = some stack) :
    ddtrace_close_top_span_without_stack_swap fuel s span =
      if chain_emptied (close_top_core s span stack) stack then
        dd_close_entry_span_of_stack fuel (close_top_core s span stack) stack
      else .ok (close_top_core s span stack) := by
  unfold ddtrace_close_top_span_without_stack_swap
  have hd : deref (s.spans span).stack = Except.ok stack := by rw [hs]; rfl
  rw [hd]
  rfl

theorem close_span_top (fuel : Nat) (s : State) (span stack a : Nat)
    (ha : s.active_stack = some a)
    (hs : (s.spans span).stack = some stack)
    (hact : (s.span_stacks stack).active = some span)
    (hty : (s.spans span).type ≠ DDTRACE_SPAN_CLOSED) :
    ddtrace_close_span (fuel + 2) s (some span) =
      ddtrace_close_top_span_without_stack_swap (fuel + 1)
        { s with active_stack := some stack } span := by
  rw [ddtrace_close_span]
  simp only [ddtrace_has_top_internal_span, hs, deref, hact, has_top_loop, bind, Except.bind,
    if_true]
  by_cases hst : stack = a
  · subst hst
    simp [hty, ha, ddtrace_close_userland_spans_until, hs, deref, hact, bind, Except.bind,
      pure, Except.pure]
    cases s; simp_all
  · simp [hty, ha, hst, ddtrace_switch_span_stack, ddtrace_close_userland_spans_until, hs, deref,
      hact, bind, Except.bind, pure, Except.pure]

theorem drain_frame_refl (s : State) : drain_frame s s := by
  simp [drain_frame]

theorem drain_frame_trans {s s2 s3 : State} (h1 : drain_frame s s2) (h2 : drain_frame s2 s3) :
    drain_frame s s3 := by
  simp only [drain_frame] at *
  obtain ⟨a1, a2, a3, a4, a5, a6, a7, a8, a9, a10, a11, a12, a13, a14, a15, a17, a16⟩ := h1
  obtain ⟨b1, b2, b3, b4, b5, b6, b7, b8, b9, b10, b11, b12, b13, b14, b15, b17, b16⟩ := h2
  refine ⟨by rw [b1, a1], by rw [b2, a2], by rw [b3, a3], by rw [b4, a4], by rw [b5, a5],
    by rw [b6, a6], by rw [b7, a7], by rw [b8, a8], by rw [b9, a9], by rw [b10, a10],
    by rw [b11, a11], by rw [b12, a12], by rw [b13, a13], by rw [b14, a14], by rw [b15, a15],
    by rw [b17, a17],
    fun k => ?_⟩
  obtain ⟨c1, c2, c3, c4, c5, c6⟩ := a16 k
  obtain ⟨d1, d2, d3, d4, d5, d6⟩ := b16 k
  exact ⟨by rw [d1, c1], by rw [d2, c2], by rw [d3, c3], by rw [d4, c4], by rw [d5, c5],
    by rw [d6, c6]⟩

theorem drain_frame_set_flush (s : State) (k : Nat) (v : Option Nat) :
    drain_frame s (set_stack s k { s.span_stacks k with closed_ring_flush := v }) := by
  simp only [drain_frame, set_stack, true_and]
  intro j
  by_cases h : j = k
  · subst h; simp
  · simp [h]

theorem drain_frame_set_top (s : State) (k : Nat) (v : Option Nat) :
    drain_frame s (set_stack s k { s.span_stacks k with top_closed_stack := v }) := by
  simp only [drain_frame, set_stack, true_and]
  intro j
  by_cases h : j = k
  · subst h; simp
  · simp [h]

theorem serialize_stacks_frame (rf : Nat) :
    ∀ (fuel : Nat) (s : State) (stack : Nat) (nx : Option Nat) (acc : List Nat)
      (r : List Nat × State),
      serialize_stacks rf fuel s stack nx acc = .ok r → drain_frame s r.2
  | 0, _, _, _, _, _, h => by simp [serialize_stacks] at h
  | fuel + 1, s, stack, nx, acc, r, h => by
    rw [serialize_stacks] at h
    cases hf : (s.span_stacks stack).closed_ring_flush with
    | none => simp [hf, deref, bind, Except.bind] at h
    | some f =>
      simp only [hf, deref, bind, Except.bind] at h
      split at h
      · simp at h
      · rename_i out hout
        have hfr := drain_frame_set_flush s stack none
        cases nx with
        | none =>
          simp only [pure, Except.pure] at h
          cases h
          exact hfr
        | some st =>
          simp only at h
          exact drain_frame_trans hfr (serialize_stacks_frame rf fuel _ _ _ _ _ h)

theorem serialize_rootstacks_frame (inf : Nat) :
    ∀ (fuel : Nat) (s : State) (r : Nat) (acc : List Nat) (res : List Nat × State),
      serialize_rootstacks inf fuel s r acc = .ok res → drain_frame s res.2
  | 0, _, _, _, _, h => by simp [serialize_rootstacks] at h
  | fuel + 1, s, r, acc, res, h => by
    rw [serialize_rootstacks] at h
    simp only [bind, Except.bind] at h
    split at h
    · simp at h
    · rename_i v hv
      have h1 := drain_frame_trans (drain_frame_set_top s r none)
        (serialize_stacks_frame inf inf _ _ _ _ _ hv)
      cases hn : (s.span_stacks r).next with
      | none =>
        simp only [hn, pure, Except.pure] at h
        cases h
        exact h1
      | some r2 =>
        simp only [hn] at h
        exact drain_frame_trans h1 (serialize_rootstacks_frame inf fuel _ _ _ _ h)

theorem drain_frame_set_global (s : State) (v : Option Nat) :
    drain_frame s { s with top_closed_stack := v } := by
  simp [drain_frame]

theorem serialize_worklist_frame (inf : Nat) :
    ∀ (fuel : Nat) (s : State) (acc : List Nat) (res : List Nat × State),
      serialize_worklist inf fuel s acc = .ok res → drain_frame s res.2
  | 0, _, _, _, h => by simp [serialize_worklist] at h
  | fuel + 1, s, acc, res, h => by
    rw [serialize_worklist] at h
    cases ht : s.top_closed_stack with
    | none =>
      simp only [ht, pure, Except.pure] at h
      cases h
      exact drain_frame_refl s
    | some r =>
      simp only [ht, bind, Except.bind] at h
      split at h
      · simp at h
      · rename_i v hv
        exact drain_frame_trans (drain_frame_trans (drain_frame_set_global s none)
          (serialize_rootstacks_frame inf inf _ _ _ _ hv))
          (serialize_worklist_frame inf fuel _ _ _ h)

theorem serialize_closed_spans_frame (fuel : Nat) (s : State) (res : List Nat × State)
    (h : ddtrace_serialize_closed_spans fuel s = .ok res) : drain_frame s res.2 :=
  serialize_worklist_frame fuel fuel s [] res h

theorem serialize_stacks_top (rf : Nat) :
    ∀ (fuel : Nat) (s : State) (stack : Nat) (nx : Option Nat) (acc : List Nat)
      (r : List Nat × State),
      serialize_stacks rf fuel s stack nx acc = .ok r → r.2.top_closed_stack = s.top_closed_stack
  | 0, _, _, _, _, _, h => by simp [serialize_stacks] at h
  | fuel + 1, s, stack, nx, acc, r, h => by
    rw [serialize_stacks] at h
    cases hf : (s.span_stacks stack).closed_ring_flush with
    | none => simp [hf, deref, bind, Except.bind] at h
    | some f =>
      simp only [hf, deref, bind, Except.bind] at h
      split at h
      · simp at h
      · cases nx with
        | none =>
          simp only [pure, Except.pure] at h
          cases h
          rfl
        | some st =>
          simp only at h
          rw [serialize_stacks_top rf fuel _ _ _ _ _ h]
          rfl

theorem serialize_rootstacks_top (inf : Nat) :
    ∀ (fuel : Nat) (s : State) (r : Nat) (acc : List Nat) (res : List Nat × State),
      serialize_rootstacks inf fuel s r acc = .ok res →
      res.2.top_closed_stack = s.top_closed_stack
  | 0, _, _, _, _, h => by simp [serialize_rootstacks] at h
  | fuel + 1, s, r, acc, res, h => by
    rw [serialize_rootstacks] at h
    simp only [bind, Except.bind] at h
    split at h
    · simp at h
    · rename_i v hv
      have h1 := serialize_stacks_top inf inf _ _ _ _ _ hv
      cases hn : (s.span_stacks r).next with
      | none =>
        simp only [hn, pure, Except.pure] at h
        cases h
        exact h1
      | some r2 =>
        simp only [hn] at h
        rw [serialize_rootstacks_top inf fuel _ _ _ _ h, h1]
        rfl

theorem stack_list_congr (st st2 : Nat → ddtrace_span_stack)
    (h : ∀ j, (st2 j).next = (st j).next) :
    ∀ (ks : List Nat) (p : Option Nat), stack_list st p ks → stack_list st2 p ks
  | [], _, hp => hp
  | k :: ks, _, hp => ⟨hp.1, by rw [h k]; exact stack_list_congr st st2 h ks _ hp.2⟩

theorem serialize_stacks_ok (ring_of : Nat → List Nat) (rf : Nat) :
    ∀ (ks : List Nat) (fuel : Nat) (s : State) (k : Nat) (nx : Option Nat) (acc : List Nat),
      stack_list s.span_stacks nx ks → (k :: ks).Nodup →
      (∀ j ∈ k :: ks, flush_ring_ok s ring_of j) → ks.length < fuel →
      (∀ j ∈ k :: ks, (ring_of j).length ≤ rf) →
      ∃ s2, serialize_stacks rf fuel s k nx acc = .ok (acc ++ rings_of ring_of (k :: ks), s2)
        ∧ drain_frame s s2
        ∧ (∀ j ∈ k :: ks, (s2.span_stacks j).closed_ring_flush = none)
        ∧ (∀ j, j ∉ k :: ks → s2.span_stacks j = s.span_stacks j)
        ∧ (∀ j, (s2.span_stacks j).top_closed_stack = (s.span_stacks j).top_closed_stack)
  | ks, 0, _, _, _, _, _, _, _, hf, _ => by simp at hf
  | ks, fuel + 1, s, k, nx, acc, hl, hnd, hr, hf, hrf => by
    obtain ⟨f, hfl, hring⟩ := hr k (by simp)
    cases hrk : ring_of k with
    | nil => rw [hrk] at hring; simp [is_ring] at hring
    | cons x l =>
      rw [hrk] at hring
      have hx : (s.spans f).next = some x := hring.1.1
      have hlen : l.length < rf := by
        have := hrf k (by simp)
        rw [hrk] at this
        simpa using this
      have hser := serialize_ring_is_ring
        (set_stack s k { s.span_stacks k with closed_ring_flush := none }) f x l acc rf
        hring hlen
      rw [serialize_stacks]
      cases ks with
      | nil =>
        have hnx : nx = none := hl
        subst hnx
        refine ⟨set_stack s k { s.span_stacks k with closed_ring_flush := none }, ?_,
          drain_frame_set_flush s k none, ?_, ?_, ?_⟩
        · simp [hfl, deref, bind, Except.bind, hx, hser, rings_of, hrk, pure, Except.pure]
        · intro j hj
          simp at hj
          subst hj
          simp [set_stack]
        · intro j hj
          simp at hj
          simp [set_stack, hj]
        · intro j
          by_cases hjk : j = k
          · subst hjk; simp [set_stack]
          · simp [set_stack, hjk]
      | cons k2 ks2 =>
        obtain ⟨hnx, hl2⟩ := hl
        subst hnx
        have hk2 : k2 ≠ k := by
          intro h
          subst h
          simp at hnd
        have ih := serialize_stacks_ok ring_of rf ks2 fuel
          (set_stack s k { s.span_stacks k with closed_ring_flush := none }) k2
          ((s.span_stacks k2).next) (acc ++ x :: l)
          (stack_list_congr _ _ (fun j => by
            by_cases hjk : j = k
            · subst hjk; simp [set_stack]
            · simp [set_stack, hjk]) _ _ hl2)
          (List.nodup_cons.1 hnd).2
          (fun j hj => by
            have hjk : j ≠ k := by
              intro h
              subst h
              exact (List.nodup_cons.1 hnd).1 hj
            obtain ⟨g, hg1, hg2⟩ := hr j (List.mem_cons_of_mem _ hj)
            exact ⟨g, by simp [set_stack, hjk, hg1], hg2⟩)
          (by simp at hf; omega)
          (fun j hj => hrf j (List.mem_cons_of_mem _ hj))
        obtain ⟨s2, e1, e2, e3, e4, e5⟩ := ih
        refine ⟨s2, ?_, drain_frame_trans (drain_frame_set_flush s k none) e2, ?_, ?_, ?_⟩
        · simp only [hfl, deref, bind, Except.bind, hx, hser]
          have hn2 : ((set_stack s k { s.span_stacks k with closed_ring_flush := none }).span_stacks
              k2).next = (s.span_stacks k2).next := by simp [set_stack, hk2]
          rw [hn2, e1]
          simp [rings_of, hrk]
        · intro j hj
          rcases List.mem_cons.1 hj with h | h
          · subst h
            rw [e4 j (List.nodup_cons.1 hnd).1]
            simp [set_stack]
          · exact e3 j h
        · intro j hj
          have hjk : j ≠ k := fun h => hj (by simp [h])
          rw [e4 j (fun h => hj (List.mem_cons_of_mem _ h))]
          simp [set_stack, hjk]
        · intro j
          rw [e5 j]
          by_cases hjk : j = k
          · subst hjk; simp [set_stack]
          · simp [set_stack, hjk]

theorem flush_ring_ok_congr {s s2 : State} {ring_of : Nat → List Nat} {j : Nat}
    (hsp : s2.spans = s.spans)
    (hst : (s2.span_stacks j).closed_ring_flush = (s.span_stacks j).closed_ring_flush)
    (h : flush_ring_ok s ring_of j) : flush_ring_ok s2 ring_of j := by
  obtain ⟨f, h1, h2⟩ := h
  exact ⟨f, by rw [hst, h1], by rw [hsp]; exact h2⟩

theorem serialize_rootstacks_ok (ring_of : Nat → List Nat) (inf : Nat) :
    ∀ (D : List (Nat × List Nat)) (fuel : Nat) (s : State) (r : Nat) (subs : List Nat)
      (acc : List Nat),
      stack_list s.span_stacks (s.span_stacks r).next (D.map Prod.fst) →
      (∀ e ∈ (r, subs) :: D, stack_list s.span_stacks (s.span_stacks e.1).top_closed_stack e.2) →
      (∀ j ∈ flat_stacks ((r, subs) :: D), flush_ring_ok s ring_of j) →
      (flat_stacks ((r, subs) :: D)).Nodup → D.length < fuel →
      (∀ e ∈ (r, subs) :: D, e.2.length < inf) →
      (∀ j ∈ flat_stacks ((r, subs) :: D), (ring_of j).length ≤ inf) →
      ∃ s2, serialize_rootstacks inf fuel s r acc
          = .ok (acc ++ rings_of ring_of (flat_stacks ((r, subs) :: D)), s2)
        ∧ drain_frame s s2
        ∧ (∀ j ∈ flat_stacks ((r, subs) :: D), (s2.span_stacks j).closed_ring_flush = none)
        ∧ (∀ e ∈ (r, subs) :: D, (s2.span_stacks e.1).top_closed_stack = none)
        ∧ (∀ j, j ∉ flat_stacks ((r, subs) :: D) → s2.span_stacks j = s.span_stacks j)
  | _, 0, _, _, _, _, _, _, _, _, hf, _, _ => by simp at hf
  | D, fuel + 1, s, r, subs, acc, hl, hsub, hr, hnd, hf, hinf, hrf => by
    have hflat : flat_stacks ((r, subs) :: D) = (r :: subs) ++ flat_stacks D := by
      simp [flat_stacks]
    rw [hflat] at hr hnd hrf ⊢
    have hnd1 : (r :: subs).Nodup := (List.nodup_append.1 hnd).1
    have hnd2 : (flat_stacks D).Nodup := (List.nodup_append.1 hnd).2.1
    have hdis : ∀ j, j ∈ r :: subs → j ∉ flat_stacks D := fun j hj hj2 =>
      List.disjoint_of_nodup_append hnd hj hj2
    have hs1next : ∀ j, ((set_stack s r { s.span_stacks r with top_closed_stack := none }).span_stacks
        j).next = (s.span_stacks j).next := by
      intro j
      by_cases hjr : j = r
      · subst hjr; simp [set_stack]
      · simp [set_stack, hjr]
    have hs1fl : ∀ j, ((set_stack s r { s.span_stacks r with top_closed_stack := none }).span_stacks
        j).closed_ring_flush = (s.span_stacks j).closed_ring_flush := by
      intro j
      by_cases hjr : j = r
      · subst hjr; simp [set_stack]
      · simp [set_stack, hjr]
    obtain ⟨s2, e1, e2, e3, e4, e5⟩ := serialize_stacks_ok ring_of inf subs inf
      (set_stack s r { s.span_stacks r with top_closed_stack := none }) r
      (s.span_stacks r).top_closed_stack acc
      (stack_list_congr _ _ hs1next _ _ (hsub (r, subs) (by simp)))
      hnd1
      (fun j hj => @flush_ring_ok_congr s _ ring_of j rfl (hs1fl j)
        (hr j (List.mem_append_left _ hj)))
      (hinf (r, subs) (by simp))
      (fun j hj => hrf j (List.mem_append_left _ hj))
    have hfr := drain_frame_trans (drain_frame_set_top s r none) e2
    rw [serialize_rootstacks]
    simp only [bind, Except.bind, e1]
    cases D with
    | nil =>
      have hnone : (s.span_stacks r).next = none := hl
      refine ⟨s2, ?_, hfr, ?_, ?_, ?_⟩
      · simp [hnone, pure, Except.pure, flat_stacks]
      · intro j hj
        simp [flat_stacks] at hj
        exact e3 j (by simp; tauto)
      · intro e he
        simp at he
        subst he
        rw [e5 r]
        simp [set_stack]
      · intro j hj
        simp [flat_stacks] at hj
        rw [e4 j (by simp; tauto)]
        simp [set_stack, hj.1]
    | cons e2nd D2 =>
      obtain ⟨r2, subs2⟩ := e2nd
      obtain ⟨hnx, hl2⟩ := hl
      simp only [List.map_cons] at hnx hl2
      have hs2st : ∀ j, j ∈ flat_stacks ((r2, subs2) :: D2) → s2.span_stacks j = s.span_stacks j := by
        intro j hj
        have hj1 : j ∉ r :: subs := fun h => hdis j h hj
        rw [e4 j hj1]
        have : j ≠ r := fun h => hj1 (by simp [h])
        simp [set_stack, this]
      have hnext2 : ∀ j, (s2.span_stacks j).next = (s.span_stacks j).next := fun j =>
        (hfr.2.2.2.2.2.2.2.2.2.2.2.2.2.2.2.2 j).2.2.2.2.2
      obtain ⟨s3, g1, g2, g3, g4, g5⟩ := serialize_rootstacks_ok ring_of inf D2 fuel s2 r2 subs2
        (acc ++ rings_of ring_of (r :: subs))
        (by rw [hnext2 r2]; exact stack_list_congr _ _ hnext2 _ _ hl2)
        (fun e he => by
          have hmem : e.1 ∈ flat_stacks ((r2, subs2) :: D2) := by
            simp only [flat_stacks, List.mem_flatMap]
            exact ⟨e, he, by simp⟩
          rw [hs2st e.1 hmem]
          exact stack_list_congr _ _ hnext2 _ _ (hsub e (List.mem_cons_of_mem _ he)))
        (fun j hj => flush_ring_ok_congr hfr.1 (by rw [hs2st j hj])
          (hr j (List.mem_append_right _ hj)))
        hnd2 (by simp at hf; omega)
        (fun e he => hinf e (List.mem_cons_of_mem _ he))
        (fun j hj => hrf j (List.mem_append_right _ hj))
      refine ⟨s3, ?_, drain_frame_trans hfr g2, ?_, ?_, ?_⟩
      · simp only [hnx, g1]
        simp [rings_of, flat_stacks]
      · intro j hj
        rcases List.mem_append.1 hj with h | h
        · rw [g5 j (hdis j h)]
          exact e3 j h
        · exact g3 j h
      · intro e he
        rcases List.mem_cons.1 he with h | h
        · subst h
          rw [g5 r (hdis r (by simp)), e5 r]
          simp [set_stack]
        · exact g4 e h
      · intro j hj
        rw [g5 j (fun h => hj (List.mem_append_right _ h)),
          e4 j (fun h => hj (List.mem_append_left _ h))]
        have : j ≠ r := fun h => hj (by simp [h])
        simp [set_stack, this]

theorem serialize_closed_spans_ok (ring_of : Nat → List Nat) (D : List (Nat × List Nat))
    (fuel : Nat) (s : State) (hw : worklist_ok s ring_of s.top_closed_stack D)
    (hf2 : 2 ≤ fuel) (hfD : D.length ≤ fuel) (hfs : ∀ e ∈ D, e.2.length < fuel)
    (hfr : ∀ j ∈ flat_stacks D, (ring_of j).length ≤ fuel) :
    ∃ s2, ddtrace_serialize_closed_spans fuel s = .ok (rings_of ring_of (flat_stacks D), s2)
      ∧ drain_frame s s2 ∧ s2.top_closed_stack = none
      ∧ (∀ j ∈ flat_stacks D, (s2.span_stacks j).closed_ring_flush = none)
      ∧ (∀ e ∈ D, (s2.span_stacks e.1).top_closed_stack = none)
      ∧ (∀ j, j ∉ flat_stacks D → s2.span_stacks j = s.span_stacks j) := by
  obtain ⟨f, rfl⟩ : ∃ f, fuel = f + 2 := ⟨fuel - 2, by omega⟩
  obtain ⟨h1, h2, h3, h4⟩ := hw
  unfold ddtrace_serialize_closed_spans
  rw [serialize_worklist]
  cases D with
  | nil =>
    have ht : s.top_closed_stack = none := h1
    refine ⟨s, ?_, drain_frame_refl s, ht, ?_, ?_, ?_⟩
    · simp [ht, pure, Except.pure, rings_of, flat_stacks]
    · intro j hj; simp [flat_stacks] at hj
    · intro e he; simp at he
    · intro j _; rfl
  | cons e D2 =>
    obtain ⟨r, subs⟩ := e
    obtain ⟨ht, hl⟩ := h1
    simp only [List.map_cons] at ht hl
    obtain ⟨s2, e1, e2, e3, e4, e5⟩ := serialize_rootstacks_ok ring_of (f + 2) D2 (f + 2)
      { s with top_closed_stack := none } r subs [] hl h2
      (fun j hj => @flush_ring_ok_congr s _ ring_of j rfl rfl (h3 j hj)) h4
      (by simp at hfD; omega) hfs hfr
    have hfr2 := drain_frame_trans (drain_frame_set_global s none) e2
    have htop : s2.top_closed_stack = none := by
      have := serialize_rootstacks_top (f + 2) (f + 2) _ _ _ _ e1
      simpa using this
    refine ⟨s2, ?_, hfr2, htop, e3, e4, e5⟩
    simp only [ht, bind, Except.bind, e1]
    rw [serialize_worklist]
    simp [htop, pure, Except.pure]

theorem set_active_same (s : State) (k : Nat) (h : s.active_stack = some k) :
    { s with active_stack := some k } = s := by
  cases s
  simp_all

theorem close_top_core_static (s : State) (t k : Nat) : spans_static s (close_top_core s t k) := by
  intro x
  unfold close_top_core
  cases h : (s.span_stacks k).closed_ring <;>
    simp [set_span, set_stack, h, upd_apply] <;> split_ifs <;> simp_all

theorem close_top_core_type (s : State) (t k x : Nat) :
    ((close_top_core s t k).spans x).type
      = if x = t then DDTRACE_SPAN_CLOSED else (s.spans x).type := by
  unfold close_top_core
  cases h : (s.span_stacks k).closed_ring <;>
    simp [set_span, set_stack, h, upd_apply] <;> split_ifs <;> simp_all

theorem close_top_core_duration (s : State) (t k x : Nat) :
    ((close_top_core s t k).spans x).duration = (s.spans x).duration := by
  unfold close_top_core
  cases h : (s.span_stacks k).closed_ring <;>
    simp [set_span, set_stack, h, upd_apply] <;> split_ifs <;> simp_all

theorem close_top_core_sampling (s : State) (t k x : Nat) :
    ((close_top_core s t k).spans x).sampling_priority = (s.spans x).sampling_priority := by
  unfold close_top_core
  cases h : (s.span_stacks k).closed_ring <;>
    simp [set_span, set_stack, h, upd_apply] <;> split_ifs <;> simp_all

theorem close_top_core_active (s : State) (t k j : Nat) :
    ((close_top_core s t k).span_stacks j).active
      = if j = k then (s.spans t).parent else (s.span_stacks j).active := by
  unfold close_top_core
  cases h : (s.span_stacks k).closed_ring <;>
    simp [set_span, set_stack, h, upd_apply] <;> split_ifs <;> simp_all

theorem spans_static_refl (s : State) : spans_static s s := fun _ => by simp

theorem spans_static_trans {s s2 s3 : State} (h1 : spans_static s s2) (h2 : spans_static s2 s3) :
    spans_static s s3 := by
  intro x
  obtain ⟨a1, a2, a3, a4, a5, a6, a7, a8⟩ := h1 x
  obtain ⟨b1, b2, b3, b4, b5, b6, b7, b8⟩ := h2 x
  exact ⟨by rw [b1, a1], by rw [b2, a2], by rw [b3, a3], by rw [b4, a4], by rw [b5, a5],
    by rw [b6, a6], by rw [b7, a7], by rw [b8, a8]⟩

theorem close_frame_refl (k : Nat) (s : State) : close_frame k s s := by
  simp [close_frame, spans_static_refl]

theorem close_frame_trans {k : Nat} {s s2 s3 : State} (h1 : close_frame k s s2)
    (h2 : close_frame k s2 s3) : close_frame k s s3 := by
  obtain ⟨a0, a1, a2, a3, a4, a5, a6, a7, a8, a9, a10, a11, a12, a13, a14, a15⟩ := h1
  obtain ⟨b0, b1, b2, b3, b4, b5, b6, b7, b8, b9, b10, b11, b12, b13, b14, b15⟩ := h2
  refine ⟨spans_static_trans a0 b0, fun x => by rw [b1, a1], by rw [b2, a2], by rw [b3, a3],
    by rw [b4, a4], by rw [b5, a5], by rw [b6, a6], by rw [b7, a7], by rw [b8, a8],
    by rw [b9, a9], by rw [b10, a10], by rw [b11, a11], by rw [b12, a12], by rw [b13, a13],
    by rw [b14, a14], fun j => ?_⟩
  obtain ⟨c1, c2, c3, c4, c5, c6, c7⟩ := a15 j
  obtain ⟨d1, d2, d3, d4, d5, d6, d7⟩ := b15 j
  exact ⟨by rw [d1, c1], by rw [d2, c2], by rw [d3, c3], by rw [d4, c4], by rw [d5, c5],
    by rw [d6, c6], fun h => ⟨by rw [(d7 h).1, (c7 h).1], by rw [(d7 h).2, (c7 h).2]⟩⟩

theorem close_top_core_frame (s : State) (t k : Nat) : close_frame k s (close_top_core s t k) := by
  refine ⟨close_top_core_static s t k, close_top_core_sampling s t k, ?_⟩
  unfold close_top_core
  cases h : (s.span_stacks k).closed_ring <;>
    simp [set_span, set_stack, h, upd_apply] <;> intro j <;> split_ifs <;> simp_all

theorem stop_time_frame (s : State) (u k : Nat) : close_frame k s (dd_trace_stop_span_time s u) := by
  unfold dd_trace_stop_span_time close_frame spans_static
  simp [set_span, upd_apply]
  constructor <;> intro x <;> split_ifs <;> simp_all

theorem drop_core_frame (s : State) (u k : Nat) :
    close_frame k s (dd_drop_span (drop_pop_core s u k) u false) := by
  unfold dd_drop_span dd_drop_span_nodestroy drop_pop_core close_frame spans_static
  simp [set_span, set_stack, upd_apply]
  refine ⟨?_, ?_, ?_⟩ <;> intro x <;> split_ifs <;> simp_all

theorem finish_user_frame (k : Nat) (s : State) (u : Nat) : close_frame k s (finish_user k s u) := by
  unfold finish_user
  split_ifs
  · exact close_frame_trans (stop_time_frame s u k) (close_top_core_frame _ u k)
  · exact drop_core_frame s u k

theorem chain_above_congr (s s2 : State) (k t : Nat) :
    ∀ (us : List Nat) (p : Option Nat),
      (∀ x ∈ us, (s2.spans x).stack = (s.spans x).stack ∧ (s2.spans x).type = (s.spans x).type
        ∧ (s2.spans x).parent = (s.spans x).parent) →
      chain_above s k t p us → chain_above s2 k t p us
  | [], _, _, h => h
  | u :: us, _, hx, h => by
    obtain ⟨h1, h2, h3, h4, h5⟩ := h
    obtain ⟨e1, e2, e3⟩ := hx u (by simp)
    exact ⟨h1, h2, by rw [e1, h3], by rw [e2, h4], by
      rw [e3]
      exact chain_above_congr s s2 k t us _ (fun x hx2 => hx x (List.mem_cons_of_mem _ hx2)) h5⟩

theorem chain_above_unique (s : State) (k t : Nat) :
    ∀ (l1 l2 : List Nat) (p : Option Nat),
      chain_above s k t p l1 → chain_above s k t p l2 → l1 = l2
  | [], [], _, _, _ => rfl
  | [], u :: us, _, h1, h2 => by
    have h1 : _ = some t := h1
    obtain ⟨e1, e2, _⟩ := h2
    rw [h1] at e1
    exact absurd (Option.some.inj e1).symm e2
  | u :: us, [], _, h1, h2 => by
    have h2 : _ = some t := h2
    obtain ⟨e1, e2, _⟩ := h1
    rw [h2] at e1
    exact absurd (Option.some.inj e1).symm e2
  | u :: us, v :: vs, _, h1, h2 => by
    obtain ⟨e1, _, _, _, e5⟩ := h1
    obtain ⟨g1, _, _, _, g5⟩ := h2
    rw [e1] at g1
    cases g1
    rw [chain_above_unique s k t us vs _ e5 g5]

theorem chain_above_suffix (s : State) (k t : Nat) :
    ∀ (a l : List Nat) (p : Option Nat),
      chain_above s k t p (a ++ l) → ∃ q, chain_above s k t q l
  | [], _, p, h => ⟨p, h⟩
  | _ :: a, l, _, h => chain_above_suffix s k t a l _ h.2.2.2.2

theorem chain_above_head_not_mem (s : State) (k t u : Nat) (us : List Nat) (p : Option Nat)
    (h : chain_above s k t p (u :: us)) : u ∉ us := by
  intro hmem
  obtain ⟨a, b, hab⟩ := List.append_of_mem hmem
  have h5 := h.2.2.2.2
  rw [hab] at h5
  obtain ⟨q, hq⟩ := chain_above_suffix s k t a (u :: b) _ h5
  have hb := hq.2.2.2.2
  rw [← hab] at h5
  have := chain_above_unique s k t _ _ _ hb h5
  rw [hab] at this
  have hl := congrArg List.length this
  simp at hl
  omega

theorem chain_above_not_mem (s : State) (k t : Nat) :
    ∀ (us : List Nat) (p : Option Nat), chain_above s k t p us → t ∉ us
  | [], _, _ => by simp
  | u :: us, _, h => by
    intro hm
    rcases List.mem_cons.1 hm with e | e
    · exact h.2.1 e.symm
    · exact chain_above_not_mem s k t us _ h.2.2.2.2 e

theorem chain_above_nodup (s : State) (k t : Nat) :
    ∀ (us : List Nat) (p : Option Nat), chain_above s k t p us → us.Nodup
  | [], _, _ => List.nodup_nil
  | u :: us, p, h =>
    List.nodup_cons.2 ⟨chain_above_head_not_mem s k t u us p h,
      chain_above_nodup s k t us _ h.2.2.2.2⟩

theorem chain_above_stack (s : State) (k t : Nat) (ht : (s.spans t).stack = some k) :
    ∀ (us : List Nat) (p : Option Nat), chain_above s k t p us →
      ∃ a, p = some a ∧ (s.spans a).stack = some k
  | [], _, h => ⟨t, h, ht⟩
  | u :: _, _, h => ⟨u, h.1, h.2.2.1⟩

theorem chain_emptied_false (s : State) (k p : Nat) (h1 : (s.span_stacks k).active = some p)
    (h2 : (s.spans p).stack = some k) : chain_emptied s k = false := by
  simp [chain_emptied, h1, h2]

theorem close_span_inner (fuel : Nat) (s : State) (u k p : Nat)
    (ha : s.active_stack = some k) (hs : (s.spans u).stack = some k)
    (hact : (s.span_stacks k).active = some u)
    (hty : (s.spans u).type ≠ DDTRACE_SPAN_CLOSED)
    (hp : (s.spans u).parent = some p) (hps : (s.spans p).stack = some k) :
    ddtrace_close_span (fuel + 2) s (some u) = .ok (close_top_core s u k) := by
  rw [close_span_top fuel s u k k ha hs hact hty, set_active_same s k ha,
    close_top_eq (fuel + 1) s u k hs]
  have h1 : ((close_top_core s u k).span_stacks k).active = some p := by
    rw [close_top_core_active]; simp [hp]
  have h2 : ((close_top_core s u k).spans p).stack = some k := by
    rw [(close_top_core_static s u k p).1, hps]
  rw [chain_emptied_false _ k p h1 h2]
  simp

theorem drop_span_inner (fuel : Nat) (s : State) (u k p : Nat)
    (ha : s.active_stack = some k) (hs : (s.spans u).stack = some k)
    (hroot : (s.span_stacks k).root_span ≠ some u)
    (hp : (s.spans u).parent = some p) (hps : (s.spans p).stack = some k) :
    ddtrace_drop_span (fuel + 1) s u = .ok (dd_drop_span (drop_pop_core s u k) u false) := by
  rw [ddtrace_drop_span]
  simp only [hs, deref, ha, bind, Except.bind, ne_eq, not_true_eq_false, if_false, hroot,
    pure, Except.pure]
  unfold drop_span_pop
  simp [set_stack, hp, hps, drop_pop_core, bind, Except.bind, pure, Except.pure]

theorem finish_user_type_ne (k : Nat) (s : State) (u x : Nat) (h : x ≠ u) :
    ((finish_user k s u).spans x).type = (s.spans x).type := by
  unfold finish_user
  split_ifs
  · rw [close_top_core_type]
    simp [h, dd_trace_stop_span_time, set_span]
  · simp [dd_drop_span, dd_drop_span_nodestroy, drop_pop_core, set_span, set_stack, h]

theorem finish_user_active (k : Nat) (s : State) (u : Nat) :
    ((finish_user k s u).span_stacks k).active = (s.spans u).parent := by
  unfold finish_user
  split_ifs
  · rw [close_top_core_active]
    simp [dd_trace_stop_span_time, set_span]
  · simp [dd_drop_span, dd_drop_span_nodestroy, drop_pop_core, set_span, set_stack]

theorem close_until_chain (k t : Nat) :
    ∀ (us : List Nat) (fuel : Nat) (s : State),
      s.active_stack = some k → (s.spans t).stack = some k →
      chain_above s k t (s.span_stacks k).active us →
      (s.autofinish_spans = false → ∀ u ∈ us, (s.span_stacks k).root_span ≠ some u) →
      us.length + 2 ≤ fuel →
      ddtrace_close_userland_spans_until fuel s t = .ok (finish_all k s us)
  | [], fuel, s, _, ht, hc, _, hf => by
    obtain ⟨f, rfl⟩ : ∃ f, fuel = f + 1 := ⟨fuel - 1, by simp at hf; omega⟩
    have hc : (s.span_stacks k).active = some t := hc
    rw [ddtrace_close_userland_spans_until]
    simp [ht, deref, hc, bind, Except.bind, pure, Except.pure, finish_all]
  | u :: us, fuel, s, ha, ht, hc, hroot, hf => by
    obtain ⟨f, rfl⟩ : ∃ f, fuel = f + 3 := ⟨fuel - 3, by simp at hf; omega⟩
    have hnm := chain_above_head_not_mem s k t u us _ hc
    obtain ⟨hact, hut, hus, huty, hrest⟩ := hc
    obtain ⟨p, hp, hps⟩ := chain_above_stack s k t ht us _ hrest
    have hstep : (if s.autofinish_spans = true then
          ddtrace_close_span (f + 2) (dd_trace_stop_span_time s u) (some u)
        else ddtrace_drop_span (f + 2) s u) = .ok (finish_user k s u) := by
      unfold finish_user
      split_ifs with hauto
      · have hfr := stop_time_frame s u k
        exact close_span_inner f _ u k p (by rw [hfr.2.2.2.2.1, ha])
          (by rw [(hfr.1 u).1, hus])
          (by simp [dd_trace_stop_span_time, set_span, hact])
          (by simp [dd_trace_stop_span_time, set_span, huty])
          (by rw [(hfr.1 u).2.1, hp]) (by rw [(hfr.1 p).1, hps])
      · exact drop_span_inner (f + 1) s u k p ha hus
          (hroot (by simpa using hauto) u (by simp)) hp hps
    have hfr := finish_user_frame k s u
    have ih := close_until_chain k t us (f + 2) (finish_user k s u)
      (by rw [hfr.2.2.2.2.1, ha]) (by rw [(hfr.1 t).1, ht])
      (by
        rw [finish_user_active]
        exact chain_above_congr s _ k t us _ (fun x hx => by
          have hxu : x ≠ u := fun h => hnm (h ▸ hx)
          exact ⟨(hfr.1 x).1, finish_user_type_ne k s u x hxu, (hfr.1 x).2.1⟩) hrest)
      (by
        intro hauto v hv
        rw [(hfr.2.2.2.2.2.2.2.2.2.2.2.2.2.2.2 k).1]
        exact hroot (by rw [← hfr.2.2.2.2.2.2.2.2.1]; exact hauto) v (List.mem_cons_of_mem _ hv))
      (by simp at hf ⊢; omega)
    rw [ddtrace_close_userland_spans_until]
    simp only [ht, deref, hact, bind, Except.bind, hus, hut, huty]
    simp only [ne_eq, not_false_eq_true, and_self, if_true, reduceCtorEq]
    rw [hstep]
    simp [ih, finish_all, hut]

theorem finish_all_frame (k : Nat) :
    ∀ (us : List Nat) (s : State), close_frame k s (finish_all k s us)
  | [], s => close_frame_refl k s
  | u :: us, s => close_frame_trans (finish_user_frame k s u) (finish_all_frame k us _)

theorem has_top_loop_chain (s : State) (k t : Nat) :
    ∀ (us : List Nat) (fuel : Nat) (p : Option Nat),
      chain_above s k t p us → us.length < fuel → has_top_loop s t fuel p = .ok true
  | [], fuel, p, h, hf => by
    obtain ⟨f, rfl⟩ : ∃ f, fuel = f + 1 := ⟨fuel - 1, by simp at hf; omega⟩
    have h : p = some t := h
    subst h
    simp [has_top_loop]
  | u :: us, fuel, p, h, hf => by
    obtain ⟨f, rfl⟩ : ∃ f, fuel = f + 1 := ⟨fuel - 1, by simp at hf; omega⟩
    obtain ⟨h1, h2, _, h4, h5⟩ := h
    subst h1
    simp only [has_top_loop, h2, if_false, h4, ne_eq, not_true_eq_false]
    exact has_top_loop_chain s k t us f _ h5 (by simp at hf; omega)

theorem close_span_chain (fuel : Nat) (s : State) (k t a : Nat) (us : List Nat)
    (ha : s.active_stack = some a) (ht : (s.spans t).stack = some k)
    (hty : (s.spans t).type ≠ DDTRACE_SPAN_CLOSED)
    (hc : chain_above s k t (s.span_stacks k).active us)
    (hroot : s.autofinish_spans = false → ∀ u ∈ us, (s.span_stacks k).root_span ≠ some u)
    (hf : us.length + 2 ≤ fuel) :
    ddtrace_close_span (fuel + 1) s (some t) =
      if chain_emptied (close_chain_core k s us t) k then
        dd_close_entry_span_of_stack fuel (close_chain_core k s us t) k
      else .ok (close_chain_core k s us t) := by
  have htop : ddtrace_has_top_internal_span (fuel + 1) s t = .ok true := by
    unfold ddtrace_has_top_internal_span
    simp only [ht, deref, bind, Except.bind]
    exact has_top_loop_chain s k t us (fuel + 1) _ hc (by omega)
  have hun := close_until_chain k t us fuel { s with active_stack := some k } rfl ht
    (chain_above_congr s _ k t us _ (fun x _ => ⟨rfl, rfl, rfl⟩) hc) hroot hf
  have hfr := finish_all_frame k us { s with active_stack := some k }
  have hst : ((finish_all k { s with active_stack := some k } us).spans t).stack = some k := by
    rw [(hfr.1 t).1]; exact ht
  have hct := close_top_eq fuel _ t k hst
  rw [ddtrace_close_span]
  simp only [htop, bind, Except.bind, Bool.not_true, Bool.false_or, beq_iff_eq, hty, if_false]
  by_cases hka : k = a
  · subst hka
    rw [set_active_same s k ha] at hun hct
    simp only [ht, ha, ne_eq, not_true_eq_false, if_false, pure, Except.pure, hun, hct,
      close_chain_core, set_active_same s k ha]
  · have hne : ¬ (some k = some a) := fun h => hka (Option.some.inj h)
    simp only [ht, ha, ne_eq, hne, not_false_eq_true, if_true, deref, ddtrace_switch_span_stack,
      pure, Except.pure, hun, hct, close_chain_core, bind, Except.bind]

theorem next_path_congr_mem (sp sp2 : Nat → ddtrace_span_data) (l : List Nat) (a : Nat)
    (h : ∀ x ∈ a :: l, (sp2 x).next = (sp x).next) (hp : next_path sp a l) :
    next_path sp2 a l :=
  next_path_congr sp sp2 l a (fun x hx => h x (List.mem_of_mem_dropLast hx)) hp

theorem is_ring_head_mem {sp : Nat → ddtrace_span_data} {h : Nat} {l : List Nat}
    (hr : is_ring sp h l) : h ∈ l :=
  List.mem_of_getLast?_eq_some hr.2.1

theorem is_ring_congr (sp sp2 : Nat → ddtrace_span_data) (h : Nat) (l : List Nat)
    (hx : ∀ x ∈ l, (sp2 x).next = (sp x).next) (hr : is_ring sp h l) : is_ring sp2 h l := by
  refine ⟨next_path_congr_mem sp sp2 l h (fun x hx2 => ?_) hr.1, hr.2.1, hr.2.2⟩
  rcases List.mem_cons.1 hx2 with e | e
  · subst e; exact hx _ (is_ring_head_mem hr)
  · exact hx x e

theorem last_not_mem_dropLast :
    ∀ (l : List Nat) (h : Nat), l.Nodup → l.getLast? = some h → h ∉ l.dropLast
  | [], _, _, hl => by simp at hl
  | [x], h, _, _ => by simp
  | x :: y :: l, h, hn, hl => by
    have hl2 : (y :: l).getLast? = some h := by simpa [List.getLast?_cons_cons] using hl
    have hn2 := (List.nodup_cons.1 hn)
    simp only [List.dropLast_cons₂, List.mem_cons, not_or]
    refine ⟨?_, last_not_mem_dropLast (y :: l) h hn2.2 hl2⟩
    intro e
    subst e
    exact hn2.1 (List.mem_of_getLast?_eq_some hl2)

theorem is_ring_insert (sp : Nat → ddtrace_span_data) (h t : Nat) (R : List Nat)
    (v w : ddtrace_span_data) (hr : is_ring sp h R) (ht : t ∉ R)
    (hv : v.next = (sp h).next) (hw : w.next = some t) :
    is_ring (upd (upd sp t v) h w) h (t :: R) := by
  have hth : h ≠ t := fun e => ht (e ▸ is_ring_head_mem hr)
  cases R with
  | nil => simp [is_ring] at hr
  | cons x rest =>
    obtain ⟨⟨h1, h2⟩, h3, h4⟩ := hr
    refine ⟨⟨by simp [hw], ?_, ?_⟩, ?_, List.nodup_cons.2 ⟨ht, h4⟩⟩
    · simp [upd_apply, hth.symm, hv, h1]
    · apply next_path_congr sp _ rest x _ h2
      intro y hy
      have hyh : y ≠ h := fun e => last_not_mem_dropLast (x :: rest) h h4 h3 (e ▸ hy)
      have hyt : y ≠ t := fun e => ht (e ▸ List.mem_of_mem_dropLast hy)
      simp [upd_apply, hyh, hyt]
    · simpa [List.getLast?_cons_cons] using h3

theorem close_top_core_ring (s : State) (t k : Nat) (R : List Nat)
    (hr : closed_ring_ok s k R) (ht : t ∉ R) :
    closed_ring_ok (close_top_core s t k) k (t :: R) := by
  unfold closed_ring_ok at hr ⊢
  unfold close_top_core
  cases hc : (s.span_stacks k).closed_ring with
  | none =>
    rw [hc] at hr
    subst hr
    simp [set_span, set_stack, hc, is_ring, next_path]
  | some h =>
    rw [hc] at hr
    simp only [set_span, set_stack, upd_same, hc]
    apply is_ring_insert _ h t R _ _ _ ht
    · have hth : h ≠ t := fun e => ht (e ▸ is_ring_head_mem hr)
      simp [upd_apply, hth]
    · rfl
    · apply is_ring_congr s.spans _ h R _ hr
      intro x hx
      by_cases e : x = t
      · subst e; exact absurd hx ht
      · simp [upd_apply, e]

theorem close_top_core_next (s : State) (t k : Nat) (R : List Nat) (x : Nat)
    (hr : closed_ring_ok s k R) (hxt : x ≠ t) (hx : x ∉ R) :
    ((close_top_core s t k).spans x).next = (s.spans x).next := by
  unfold closed_ring_ok at hr
  unfold close_top_core
  cases hc : (s.span_stacks k).closed_ring with
  | none => simp [set_span, set_stack, hc, upd_apply, hxt]
  | some h =>
    rw [hc] at hr
    have hxh : x ≠ h := fun e => hx (e ▸ is_ring_head_mem hr)
    simp [set_span, set_stack, hc, upd_apply, hxt, hxh]

theorem closed_ring_ok_congr (s s2 : State) (k : Nat) (R : List Nat)
    (hc : (s2.span_stacks k).closed_ring = (s.span_stacks k).closed_ring)
    (hx : ∀ x ∈ R, (s2.spans x).next = (s.spans x).next) (hr : closed_ring_ok s k R) :
    closed_ring_ok s2 k R := by
  unfold closed_ring_ok at hr ⊢
  rw [hc]
  cases h : (s.span_stacks k).closed_ring with
  | none => rw [h] at hr; exact hr
  | some r => rw [h] at hr; exact is_ring_congr _ _ r R hx hr

theorem stop_time_next (s : State) (u x : Nat) :
    ((dd_trace_stop_span_time s u).spans x).next = (s.spans x).next := by
  unfold dd_trace_stop_span_time
  by_cases e : x = u
  · subst e; simp [set_span]
  · simp [set_span, e]

theorem drop_core_next (s : State) (u k x : Nat) :
    ((dd_drop_span (drop_pop_core s u k) u false).spans x).next = (s.spans x).next := by
  unfold dd_drop_span dd_drop_span_nodestroy drop_pop_core
  by_cases e : x = u
  · subst e; simp [set_span, set_stack]
  · simp [set_span, set_stack, e]

theorem drop_core_closed_ring (s : State) (u k : Nat) :
    ((dd_drop_span (drop_pop_core s u k) u false).span_stacks k).closed_ring
      = (s.span_stacks k).closed_ring := by
  simp [dd_drop_span, dd_drop_span_nodestroy, drop_pop_core, set_span, set_stack]

theorem finish_user_ring (k : Nat) (s : State) (u : Nat) (R : List Nat)
    (hr : closed_ring_ok s k R) (hu : u ∉ R) :
    closed_ring_ok (finish_user k s u) k (ring_after s.autofinish_spans [u] R) := by
  unfold finish_user ring_after
  split_ifs with hauto
  · exact close_top_core_ring _ u k R
      (closed_ring_ok_congr s _ k R (by simp [dd_trace_stop_span_time, set_span])
        (fun x _ => stop_time_next s u x) hr) hu
  · exact closed_ring_ok_congr s _ k R (drop_core_closed_ring s u k)
      (fun x _ => drop_core_next s u k x) hr

theorem finish_user_next (k : Nat) (s : State) (u : Nat) (R : List Nat) (x : Nat)
    (hr : closed_ring_ok s k R) (hxu : x ≠ u) (hx : x ∉ R) :
    ((finish_user k s u).spans x).next = (s.spans x).next := by
  unfold finish_user
  split_ifs
  · rw [close_top_core_next _ u k R x
      (closed_ring_ok_congr s _ k R (by simp [dd_trace_stop_span_time, set_span])
        (fun y _ => stop_time_next s u y) hr) hxu hx, stop_time_next]
  · exact drop_core_next s u k x

theorem finish_all_ring (k : Nat) :
    ∀ (us : List Nat) (s : State) (R : List Nat),
      closed_ring_ok s k R → (∀ u ∈ us, u ∉ R) → us.Nodup →
      closed_ring_ok (finish_all k s us) k (ring_after s.autofinish_spans us R)
        ∧ ∀ x, x ∉ us → x ∉ R → ((finish_all k s us).spans x).next = (s.spans x).next
  | [], s, R, hr, _, _ => by
    refine ⟨?_, fun x _ _ => rfl⟩
    unfold ring_after
    split_ifs <;> simpa [finish_all] using hr
  | u :: us, s, R, hr, hu, hn => by
    have h1 := finish_user_ring k s u R hr (hu u (by simp))
    have hauto : (finish_user k s u).autofinish_spans = s.autofinish_spans :=
      (finish_user_frame k s u).2.2.2.2.2.2.2.2.1
    have hn2 := List.nodup_cons.1 hn
    obtain ⟨ih1, ih2⟩ := finish_all_ring k us (finish_user k s u)
      (ring_after s.autofinish_spans [u] R) h1
      (fun v hv => by
        unfold ring_after
        split_ifs
        · simp only [List.reverse_cons, List.reverse_nil, List.nil_append, List.singleton_append,
            List.mem_cons, not_or]
          exact ⟨fun e => hn2.1 (e ▸ hv), hu v (List.mem_cons_of_mem _ hv)⟩
        · exact hu v (List.mem_cons_of_mem _ hv)) hn2.2
    refine ⟨?_, ?_⟩
    · have : ring_after s.autofinish_spans (u :: us) R
          = ring_after (finish_user k s u).autofinish_spans us
              (ring_after s.autofinish_spans [u] R) := by
        rw [hauto]
        unfold ring_after
        split_ifs <;> simp
      rw [this]
      exact ih1
    · intro x hx hxR
      simp only [List.mem_cons, not_or] at hx
      have : x ∉ ring_after s.autofinish_spans [u] R := by
        unfold ring_after
        split_ifs
        · simp [hx.1, hxR]
        · exact hxR
      have e := ih2 x hx.2 this
      simp only [finish_all, List.foldl_cons] at e ⊢
      rw [e, finish_user_next k s u R x hr hx.1 hxR]

theorem finish_user_type_self (k : Nat) (s : State) (u : Nat) :
    ((finish_user k s u).spans u).type
      = if s.autofinish_spans then DDTRACE_SPAN_CLOSED else (s.spans u).type := by
  unfold finish_user
  split_ifs
  · rw [close_top_core_type]; simp
  · simp [dd_drop_span, dd_drop_span_nodestroy, drop_pop_core, set_span, set_stack]

theorem finish_user_type_closed (k : Nat) (s : State) (u x : Nat)
    (h : (s.spans x).type = DDTRACE_SPAN_CLOSED) :
    ((finish_user k s u).spans x).type = DDTRACE_SPAN_CLOSED := by
  by_cases e : x = u
  · subst e
    rw [finish_user_type_self]
    split_ifs <;> simp [h]
  · rw [finish_user_type_ne k s u x e, h]

theorem finish_user_type_drop (k : Nat) (s : State) (u x : Nat)
    (h : s.autofinish_spans = false) :
    ((finish_user k s u).spans x).type = (s.spans x).type := by
  by_cases e : x = u
  · subst e
    rw [finish_user_type_self]
    simp [h]
  · exact finish_user_type_ne k s u x e

theorem finish_user_duration_self (k : Nat) (s : State) (u : Nat)
    (h : s.autofinish_spans = false) :
    ((finish_user k s u).spans u).duration = DDTRACE_DROPPED_SPAN := by
  simp [finish_user, h, dd_drop_span, dd_drop_span_nodestroy, drop_pop_core, set_span, set_stack]

theorem finish_user_duration_keep (k : Nat) (s : State) (u x : Nat)
    (h : s.autofinish_spans = false) (hx : (s.spans x).duration = DDTRACE_DROPPED_SPAN) :
    ((finish_user k s u).spans x).duration = DDTRACE_DROPPED_SPAN := by
  by_cases e : x = u
  · subst e; exact finish_user_duration_self k s x h
  · simp [finish_user, h, dd_drop_span, dd_drop_span_nodestroy, drop_pop_core, set_span,
      set_stack, e, hx]

theorem finish_user_duration_ne (k : Nat) (s : State) (u x : Nat) (e : x ≠ u) :
    ((finish_user k s u).spans x).duration = (s.spans x).duration := by
  unfold finish_user
  split_ifs
  · rw [close_top_core_duration]
    simp [dd_trace_stop_span_time, set_span, e]
  · simp [dd_drop_span, dd_drop_span_nodestroy, drop_pop_core, set_span, set_stack, e]

theorem finish_user_counts (k : Nat) (s : State) (u : Nat) :
    (finish_user k s u).closed_spans_count
        = (if s.autofinish_spans then incr32 s.closed_spans_count else s.closed_spans_count)
      ∧ (finish_user k s u).dropped_spans_count
        = (if s.autofinish_spans then s.dropped_spans_count else incr32 s.dropped_spans_count)
      ∧ (finish_user k s u).open_spans_count = decr32 s.open_spans_count := by
  unfold finish_user close_top_core
  split_ifs
  · cases h : (s.span_stacks k).closed_ring <;>
      simp [dd_trace_stop_span_time, set_span, set_stack, h]
  · simp [dd_drop_span, dd_drop_span_nodestroy, drop_pop_core, set_span, set_stack]

theorem finish_all_types (k : Nat) :
    ∀ (us : List Nat) (s : State),
      (∀ x, x ∉ us → ((finish_all k s us).spans x).type = (s.spans x).type)
      ∧ (∀ x, (s.spans x).type = DDTRACE_SPAN_CLOSED →
          ((finish_all k s us).spans x).type = DDTRACE_SPAN_CLOSED)
      ∧ (s.autofinish_spans = true → ∀ x ∈ us,
          ((finish_all k s us).spans x).type = DDTRACE_SPAN_CLOSED)
      ∧ (s.autofinish_spans = false → ∀ x,
          ((finish_all k s us).spans x).type = (s.spans x).type)
  | [], s => by simp [finish_all]
  | u :: us, s => by
    obtain ⟨i1, i2, i3, i4⟩ := finish_all_types k us (finish_user k s u)
    have hauto : (finish_user k s u).autofinish_spans = s.autofinish_spans :=
      (finish_user_frame k s u).2.2.2.2.2.2.2.2.1
    simp only [finish_all, List.foldl_cons] at i1 i2 i3 i4 ⊢
    refine ⟨?_, ?_, ?_, ?_⟩
    · intro x hx
      simp only [List.mem_cons, not_or] at hx
      rw [i1 x hx.2, finish_user_type_ne k s u x hx.1]
    · intro x hx
      exact i2 x (finish_user_type_closed k s u x hx)
    · intro ha x hx
      rcases List.mem_cons.1 hx with e | e
      · subst e
        exact i2 x (by rw [finish_user_type_self]; simp [ha])
      · exact i3 (by rw [hauto, ha]) x e
    · intro ha x
      rw [i4 (by rw [hauto, ha]) x, finish_user_type_drop k s u x ha]

theorem finish_all_duration (k : Nat) :
    ∀ (us : List Nat) (s : State),
      (∀ x, x ∉ us → ((finish_all k s us).spans x).duration = (s.spans x).duration)
      ∧ (s.autofinish_spans = false → ∀ x,
          (x ∈ us ∨ (s.spans x).duration = DDTRACE_DROPPED_SPAN) →
          ((finish_all k s us).spans x).duration = DDTRACE_DROPPED_SPAN)
  | [], s => by simp [finish_all]
  | u :: us, s => by
    obtain ⟨i1, i2⟩ := finish_all_duration k us (finish_user k s u)
    have hauto : (finish_user k s u).autofinish_spans = s.autofinish_spans :=
      (finish_user_frame k s u).2.2.2.2.2.2.2.2.1
    simp only [finish_all, List.foldl_cons] at i1 i2 ⊢
    refine ⟨?_, ?_⟩
    · intro x hx
      simp only [List.mem_cons, not_or] at hx
      rw [i1 x hx.2, finish_user_duration_ne k s u x hx.1]
    · intro ha x hx
      apply i2 (by rw [hauto, ha]) x
      rcases hx with hx | hx
      · rcases List.mem_cons.1 hx with e | e
        · subst e; exact Or.inr (finish_user_duration_self k s x ha)
        · exact Or.inl e
      · exact Or.inr (finish_user_duration_keep k s u x ha hx)

theorem finish_all_counts (k : Nat) (us : List Nat) :
    ∀ (s : State),
      (finish_all k s us).closed_spans_count
        = incr32^[if s.autofinish_spans then us.length else 0] s.closed_spans_count
      ∧ (finish_all k s us).dropped_spans_count
        = incr32^[if s.autofinish_spans then 0 else us.length] s.dropped_spans_count
      ∧ (finish_all k s us).open_spans_count = decr32^[us.length] s.open_spans_count := by
  induction us with
  | nil =>
    intro s
    refine ⟨?_, ?_, ?_⟩
    · show s.closed_spans_count = _
      split_ifs <;> rfl
    · show s.dropped_spans_count = _
      split_ifs <;> rfl
    · rfl
  | cons u us ih =>
    intro s
    obtain ⟨i1, i2, i3⟩ := ih (finish_user k s u)
    obtain ⟨c1, c2, c3⟩ := finish_user_counts k s u
    have hauto : (finish_user k s u).autofinish_spans = s.autofinish_spans :=
      (finish_user_frame k s u).2.2.2.2.2.2.2.2.1
    have e : finish_all k s (u :: us) = finish_all k (finish_user k s u) us := rfl
    rw [e, i1, i2, i3, c1, c2, c3, hauto, List.length_cons]
    cases s.autofinish_spans
    · simp only [Bool.false_eq_true, if_false]
      exact ⟨trivial, by rw [Function.iterate_succ_apply], by rw [Function.iterate_succ_apply]⟩
    · simp only [if_true]
      exact ⟨by rw [Function.iterate_succ_apply], trivial, by rw [Function.iterate_succ_apply]⟩

theorem finish_all_active (k t : Nat) :
    ∀ (us : List Nat) (s : State), chain_above s k t (s.span_stacks k).active us →
      ((finish_all k s us).span_stacks k).active = some t
  | [], s, h => h
  | u :: us, s, h => by
    have hnm := chain_above_head_not_mem s k t u us _ h
    have hfr := finish_user_frame k s u
    simp only [finish_all, List.foldl_cons]
    apply finish_all_active k t us (finish_user k s u)
    rw [finish_user_active]
    exact chain_above_congr s _ k t us _ (fun x hx => by
      have hxu : x ≠ u := fun e => hnm (e ▸ hx)
      exact ⟨(hfr.1 x).1, finish_user_type_ne k s u x hxu, (hfr.1 x).2.1⟩) h.2.2.2.2

theorem entry_frame_refl (s : State) : entry_frame s s := by
  simp [entry_frame, spans_static_refl]

theorem entry_frame_trans {s s2 s3 : State} (h1 : entry_frame s s2) (h2 : entry_frame s2 s3) :
    entry_frame s s3 := by
  obtain ⟨a0, a1, a2, a3, a4, a5, a6, a7, a8, a9, a10, a11, a12, a13, a14, a15⟩ := h1
  obtain ⟨b0, b1, b2, b3, b4, b5, b6, b7, b8, b9, b10, b11, b12, b13, b14, b15⟩ := h2
  refine ⟨spans_static_trans a0 b0, fun x => ?_, fun j => ?_, by rw [b3, a3], by rw [b4, a4],
    by rw [b5, a5], by rw [b6, a6], by rw [b7, a7], by rw [b8, a8], by rw [b9, a9],
    by rw [b10, a10], by rw [b11, a11], by rw [b12, a12], by rw [b13, a13], by rw [b14, a14],
    by rw [b15, a15]⟩
  · obtain ⟨c1, c2, c3⟩ := a1 x
    obtain ⟨d1, d2, d3⟩ := b1 x
    exact ⟨by rw [d1, c1], by rw [d2, c2], by rw [d3, c3]⟩
  · obtain ⟨c1, c2, c3⟩ := a2 j
    obtain ⟨d1, d2, d3⟩ := b2 j
    exact ⟨by rw [d1, c1], by rw [d2, c2], by rw [d3, c3]⟩

theorem entry_frame_of_drain {s s2 : State} (h : drain_frame s s2) : entry_frame s s2 := by
  obtain ⟨a1, a2, a3, a4, a5, a6, a7, a8, a9, a10, a11, a12, a13, a14, a15, a16, a17⟩ := h
  refine ⟨fun x => by rw [a1]; simp, fun x => by rw [a1]; simp,
    fun j => ⟨(a17 j).1, (a17 j).2.2.1, (a17 j).2.2.2.1⟩, a5, a6, a7, a2, a3, a8, a9, a10, a11,
    a12, a13, a14, a15⟩

theorem entry_frame_set_next (s : State) (x : Nat) (v : Option Nat) :
    entry_frame s (set_span s x { s.spans x with next := v }) := by
  unfold entry_frame spans_static
  simp only [set_span, upd_apply, and_true, true_and]
  refine ⟨?_, ?_, ?_⟩
  all_goals (intro y; by_cases e : y = x <;> simp [e])

theorem entry_frame_set_stack (s : State) (k : Nat) (v : ddtrace_span_stack)
    (h1 : v.active = (s.span_stacks k).active) (h2 : v.root_stack = (s.span_stacks k).root_stack)
    (h3 : v.parent_stack = (s.span_stacks k).parent_stack) :
    entry_frame s (set_stack s k v) := by
  unfold entry_frame spans_static
  simp only [set_stack, upd_apply, and_true, true_and, implies_true]
  intro j
  split_ifs with e
  · subst e; exact ⟨h1, h2, h3⟩
  · simp

theorem entry_frame_set_globals (s : State) (a t : Option Nat) (l : List Nat) :
    entry_frame s { s with active_stack := a, top_closed_stack := t, sent := l } := by
  simp [entry_frame, spans_static]

theorem mark_frame (s : State) (k : Nat) (s2 : State)
    (h : dd_mark_closed_spans_flushable s k = .ok s2) : entry_frame s s2 := by
  unfold dd_mark_closed_spans_flushable at h
  cases hc : (s.span_stacks k).closed_ring with
  | none =>
    simp only [hc, pure, Except.pure] at h
    cases h
    exact entry_frame_refl s
  | some ring =>
    simp only [hc, bind, Except.bind] at h
    split at h
    · simp at h
    · rename_i m hm
      simp only [pure, Except.pure] at h
      cases h
      refine entry_frame_trans ?_ (entry_frame_set_stack m k _ rfl rfl rfl)
      cases hf : (s.span_stacks k).closed_ring_flush with
      | some flush =>
        simp only [hf, pure, Except.pure] at hm
        cases hm
        exact entry_frame_trans (entry_frame_set_next s ring _) (entry_frame_set_next _ flush _)
      | none =>
        simp only [hf, bind, Except.bind] at hm
        split at hm
        · simp at hm
        · rename_i r hr
          split_ifs at hm
          · simp only [pure, Except.pure] at hm
            cases hm
            unfold entry_frame spans_static
            simp only [set_stack, upd_apply, and_true, true_and, implies_true]
            intro j
            split_ifs with e
            · subst e; simp
            · simp
          · split at hm
            · simp at hm
            · rename_i rs hrs
              simp only [pure, Except.pure] at hm
              cases hm
              unfold entry_frame spans_static
              simp only [set_stack, upd_apply, and_true, true_and, implies_true]
              intro j
              split_ifs with e1 e2 e2
              all_goals (try subst e1); (try subst e2); simp

theorem flush_tracer_frame (fuel : Nat) (s s2 : State)
    (h : ddtrace_flush_tracer fuel s = .ok s2) : entry_frame s s2 := by
  unfold ddtrace_flush_tracer at h
  simp only [bind, Except.bind] at h
  split at h
  · simp at h
  · rename_i r hr
    simp only [pure, Except.pure] at h
    cases h
    exact entry_frame_trans (entry_frame_of_drain (serialize_closed_spans_frame fuel s r hr))
      (entry_frame_set_globals _ _ _ _)

theorem close_entry_eq (fuel : Nat) (s : State) (k : Nat) :
    dd_close_entry_span_of_stack fuel s k =
      (dd_mark_closed_spans_flushable s k >>= fun m =>
        if entry_owns m k then
          entry_release m k >>= fun m2 =>
            if m2.auto_flush_enabled then ddtrace_flush_tracer fuel m2 else pure m2
        else pure m) := rfl

theorem entry_release_frame (s : State) (k : Nat) (s2 : State)
    (h : entry_release s k = .ok s2) : entry_frame s s2 := by
  unfold entry_release at h
  have h2 := entry_frame_set_stack s k { s.span_stacks k with root_span := none } rfl rfl rfl
  simp only [ddtrace_fetch_prioritySampling_from_root] at h
  split_ifs at h
  · simp only [bind, Except.bind] at h
    split at h
    · simp at h
    · simp only [ddtrace_switch_span_stack, bind, Except.bind] at h
      split at h
      · simp at h
      · simp only [pure, Except.pure] at h
        cases h
        exact entry_frame_trans h2 (entry_frame_set_globals _ _ _ _)
  · simp only [pure, Except.pure] at h
    cases h
    exact h2

theorem close_entry_frame (fuel : Nat) (s : State) (k : Nat) (s2 : State)
    (h : dd_close_entry_span_of_stack fuel s k = .ok s2) : entry_frame s s2 := by
  rw [close_entry_eq] at h
  simp only [bind, Except.bind] at h
  split at h
  · simp at h
  · rename_i m hm
    have h1 := mark_frame s k m hm
    split_ifs at h with ho
    · split at h
      · simp at h
      · rename_i m2 hm2
        have h3 := entry_release_frame m k m2 hm2
        split_ifs at h
        · exact entry_frame_trans h1 (entry_frame_trans h3 (flush_tracer_frame fuel _ _ h))
        · simp only [pure, Except.pure] at h
          cases h
          exact entry_frame_trans h1 h3
    · simp only [pure, Except.pure] at h
      cases h
      exact h1

theorem stack_list_congr_mem (st st2 : Nat → ddtrace_span_stack) :
    ∀ (ks : List Nat) (p : Option Nat), (∀ j ∈ ks, (st2 j).next = (st j).next) →
      stack_list st p ks → stack_list st2 p ks
  | [], _, _, hp => hp
  | k :: ks, _, h, hp => ⟨hp.1, by
      rw [h k (by simp)]
      exact stack_list_congr_mem st st2 ks _ (fun j hj => h j (List.mem_cons_of_mem _ hj)) hp.2⟩

theorem flush_ring_ok_congr_next {s s2 : State} {ring_of : Nat → List Nat} {j : Nat}
    (hst : (s2.span_stacks j).closed_ring_flush = (s.span_stacks j).closed_ring_flush)
    (hx : ∀ x ∈ ring_of j, (s2.spans x).next = (s.spans x).next)
    (h : flush_ring_ok s ring_of j) : flush_ring_ok s2 ring_of j := by
  obtain ⟨f, h1, h2⟩ := h
  exact ⟨f, by rw [hst, h1], is_ring_congr _ _ f _ hx h2⟩

theorem mem_flat_stacks_fst {D : List (Nat × List Nat)} {e : Nat × List Nat} (he : e ∈ D) :
    e.1 ∈ flat_stacks D := by
  simp only [flat_stacks, List.mem_flatMap]
  exact ⟨e, he, by simp⟩

theorem mem_flat_stacks_snd {D : List (Nat × List Nat)} {e : Nat × List Nat} (he : e ∈ D)
    {j : Nat} (hj : j ∈ e.2) : j ∈ flat_stacks D := by
  simp only [flat_stacks, List.mem_flatMap]
  exact ⟨e, he, by simp [hj]⟩

theorem worklist_ok_congr (s s2 : State) (ring_of : Nat → List Nat) (top : Option Nat)
    (D : List (Nat × List Nat))
    (hst : ∀ j ∈ flat_stacks D, (s2.span_stacks j).next = (s.span_stacks j).next
      ∧ (s2.span_stacks j).top_closed_stack = (s.span_stacks j).top_closed_stack
      ∧ (s2.span_stacks j).closed_ring_flush = (s.span_stacks j).closed_ring_flush)
    (hx : ∀ j ∈ flat_stacks D, ∀ x ∈ ring_of j, (s2.spans x).next = (s.spans x).next)
    (h : worklist_ok s ring_of top D) : worklist_ok s2 ring_of top D := by
  obtain ⟨h1, h2, h3, h4⟩ := h
  refine ⟨?_, ?_, ?_, h4⟩
  · apply stack_list_congr_mem _ _ _ _ _ h1
    intro j hj
    obtain ⟨e, he, rfl⟩ := List.mem_map.1 hj
    exact (hst _ (mem_flat_stacks_fst he)).1
  · intro e he
    rw [(hst _ (mem_flat_stacks_fst he)).2.1]
    apply stack_list_congr_mem _ _ _ _ _ (h2 e he)
    intro j hj
    exact (hst _ (mem_flat_stacks_snd he hj)).1
  · intro j hj
    exact flush_ring_ok_congr_next (hst j hj).2.2 (hx j hj) (h3 j hj)

theorem worklist_ok_push (s s2 : State) (ring_of : Nat → List Nat) (D : List (Nat × List Nat))
    (k h : Nat) (subs R : List Nat)
    (hw : worklist_ok s ring_of s.top_closed_stack D)
    (hsub : stack_list s.span_stacks (s.span_stacks k).top_closed_stack subs)
    (hsr : ∀ j ∈ subs, flush_ring_ok s ring_of j)
    (hnd : (k :: subs ++ flat_stacks D).Nodup)
    (hring : is_ring s2.spans h R)
    (hk : (s2.span_stacks k).next = s.top_closed_stack
      ∧ (s2.span_stacks k).top_closed_stack = (s.span_stacks k).top_closed_stack
      ∧ (s2.span_stacks k).closed_ring_flush = some h)
    (hst : ∀ j, j ≠ k → (s2.span_stacks j).next = (s.span_stacks j).next
      ∧ (s2.span_stacks j).top_closed_stack = (s.span_stacks j).top_closed_stack
      ∧ (s2.span_stacks j).closed_ring_flush = (s.span_stacks j).closed_ring_flush)
    (hx : ∀ j ∈ subs ++ flat_stacks D, ∀ x ∈ ring_of j, (s2.spans x).next = (s.spans x).next) :
    worklist_ok s2 (ring_of_upd ring_of k R) (some k) ((k, subs) :: D) := by
  have hflat : flat_stacks ((k, subs) :: D) = k :: subs ++ flat_stacks D := by
    simp [flat_stacks]
  have hnd' := List.nodup_cons.1 hnd
  have hkD : ∀ j ∈ flat_stacks D, j ≠ k := fun j hj e =>
    hnd'.1 (e ▸ List.mem_append_right _ hj)
  have hks : ∀ j ∈ subs, j ≠ k := fun j hj e => hnd'.1 (e ▸ List.mem_append_left _ hj)
  have hwD := worklist_ok_congr s s2 ring_of s.top_closed_stack D
    (fun j hj => hst j (hkD j hj)) (fun j hj => hx j (List.mem_append_right _ hj)) hw
  obtain ⟨h1, h2, h3, h4⟩ := hwD
  refine ⟨⟨rfl, by rw [hk.1]; exact h1⟩, ?_, ?_, by rw [hflat]; exact hnd⟩
  · intro e he
    rcases List.mem_cons.1 he with e1 | e1
    · subst e1
      rw [hk.2.1]
      exact stack_list_congr_mem _ _ _ _ (fun j hj => (hst j (hks j hj)).1) hsub
    · exact h2 e e1
  · intro j hj
    rw [hflat] at hj
    rcases List.mem_cons.1 hj with e1 | e1
    · subst e1
      exact ⟨h, hk.2.2, by simp [ring_of_upd, hring]⟩
    · have hjk : j ≠ k := by
        rcases List.mem_append.1 e1 with e2 | e2
        · exact hks j e2
        · exact hkD j e2
      have hr : flush_ring_ok s2 ring_of j := by
        rcases List.mem_append.1 e1 with e2 | e2
        · exact flush_ring_ok_congr_next (hst j hjk).2.2 (hx j e1) (hsr j e2)
        · exact h3 j e2
      obtain ⟨f, f1, f2⟩ := hr
      exact ⟨f, f1, by simp [ring_of_upd, hjk, f2]⟩

theorem mark_keeps (s : State) (k : Nat) (s2 : State)
    (h : dd_mark_closed_spans_flushable s k = .ok s2) :
    s2.active_stack = s.active_stack ∧ s2.sent = s.sent
      ∧ ∀ j, (s2.span_stacks j).root_span = (s.span_stacks j).root_span := by
  unfold dd_mark_closed_spans_flushable at h
  cases hc : (s.span_stacks k).closed_ring with
  | none =>
    simp only [hc, pure, Except.pure] at h
    cases h
    simp
  | some ring =>
    simp only [hc, bind, Except.bind] at h
    cases hf : (s.span_stacks k).closed_ring_flush with
    | some flush =>
      simp only [hf, pure, Except.pure] at h
      cases h
      simp only [set_span, set_stack, upd_apply, true_and]
      intro j
      split_ifs with e
      · subst e; rfl
      · rfl
    | none =>
      simp only [hf, bind, Except.bind] at h
      cases hr : (s.span_stacks k).root_span with
      | none => simp [hr, set_stack, deref] at h
      | some r =>
        simp only [hr, set_stack, deref, upd_same] at h
        split_ifs at h
        · simp only [pure, Except.pure] at h
          cases h
          simp only [upd_apply, true_and]
          intro j
          split_ifs with e
          · subst e; simp [hr]
          · rfl
        · cases hrs : (s.span_stacks k).root_stack with
          | none => simp [hrs] at h
          | some rs =>
            simp only [hrs, pure, Except.pure] at h
            cases h
            simp only [true_and]
            intro j
            by_cases e1 : j = rs
            · subst e1
              by_cases e2 : j = k
              · subst e2; simp [hr]
              · simp [e2]
            · by_cases e2 : j = k
              · subst e2; simp [e1, hr]
              · simp [e1, e2]

theorem mark_total (s : State) (k h : Nat) (hc : (s.span_stacks k).closed_ring = some h)
    (hn : entry_nofault s k) : ∃ s2, dd_mark_closed_spans_flushable s k = .ok s2 := by
  unfold dd_mark_closed_spans_flushable
  simp only [hc, bind, Except.bind]
  cases hf : (s.span_stacks k).closed_ring_flush with
  | some flush => simp [pure, Except.pure]
  | none =>
    obtain ⟨h1, h2⟩ := hn.1 hf
    obtain ⟨r, hr⟩ := Option.ne_none_iff_exists'.1 h1
    obtain ⟨rs, hrs⟩ := Option.ne_none_iff_exists'.1 h2
    simp only [hr, hrs, set_stack, deref, upd_same, bind, Except.bind]
    split_ifs <;> simp [pure, Except.pure]

theorem mark_stage_global (s : State) (k h r : Nat)
    (hc : (s.span_stacks k).closed_ring = some h)
    (hf : (s.span_stacks k).closed_ring_flush = none)
    (hr : (s.span_stacks k).root_span = some r) (hrs : (s.spans r).stack = some k) :
    dd_mark_closed_spans_flushable s k = .ok (stage_global s k h) := by
  unfold dd_mark_closed_spans_flushable
  simp [hc, hf, bind, Except.bind, set_stack, hr, deref, hrs, pure, Except.pure, stage_global]

theorem entry_release_eq (s : State) (k a : Nat) (ha : s.active_stack = some a)
    (hp : (s.span_stacks k).root_stack = some k → (s.span_stacks k).parent_stack ≠ none) :
    entry_release s k = .ok (release_state s k) := by
  unfold entry_release release_state
  simp only [ddtrace_fetch_prioritySampling_from_root, set_stack, upd_same]
  split_ifs with hc
  · obtain ⟨p, hpp⟩ := Option.ne_none_iff_exists'.1 (hp hc.1)
    simp [hpp, deref, ddtrace_switch_span_stack, ha, bind, Except.bind, pure, Except.pure]
  · rfl

theorem entry_owns_congr (s s2 : State) (k : Nat)
    (h1 : (s2.span_stacks k).root_span = (s.span_stacks k).root_span)
    (h2 : ∀ x, (s2.spans x).stack = (s.spans x).stack) : entry_owns s2 k = entry_owns s k := by
  unfold entry_owns
  rw [h1]
  cases (s.span_stacks k).root_span with
  | none => rfl
  | some r => simp [h2 r]

theorem close_entry_owner (fuel : Nat) (s : State) (k h r a : Nat)
    (hc : (s.span_stacks k).closed_ring = some h)
    (hf : (s.span_stacks k).closed_ring_flush = none)
    (hr : (s.span_stacks k).root_span = some r) (hrs : (s.spans r).stack = some k)
    (ha : s.active_stack = some a)
    (hp : (s.span_stacks k).root_stack = some k → (s.span_stacks k).parent_stack ≠ none) :
    dd_close_entry_span_of_stack fuel s k =
      if s.auto_flush_enabled then
        ddtrace_flush_tracer fuel (release_state (stage_global s k h) k)
      else .ok (release_state (stage_global s k h) k) := by
  have hown : entry_owns (stage_global s k h) k = true := by
    simp [entry_owns, stage_global, set_stack, hr, hrs]
  have hrel := entry_release_eq (stage_global s k h) k a (by simp [stage_global, set_stack, ha])
    (by simpa [stage_global, set_stack] using hp)
  have hauto : (release_state (stage_global s k h) k).auto_flush_enabled
      = s.auto_flush_enabled := by
    unfold release_state
    dsimp only
    split_ifs <;> simp [stage_global, set_stack]
  rw [close_entry_eq, mark_stage_global s k h r hc hf hr hrs]
  simp only [bind, Except.bind, hown, if_true, hrel, hauto]
  rfl

theorem release_stage_facts (s : State) (k h : Nat) :
    (release_state (stage_global s k h) k).spans = s.spans
    ∧ (release_state (stage_global s k h) k).top_closed_stack = some k
    ∧ (release_state (stage_global s k h) k).sent = s.sent
    ∧ (release_state (stage_global s k h) k).auto_flush_enabled = s.auto_flush_enabled
    ∧ ((release_state (stage_global s k h) k).span_stacks k).next = s.top_closed_stack
    ∧ ((release_state (stage_global s k h) k).span_stacks k).top_closed_stack
        = (s.span_stacks k).top_closed_stack
    ∧ ((release_state (stage_global s k h) k).span_stacks k).closed_ring_flush = some h
    ∧ ((release_state (stage_global s k h) k).span_stacks k).closed_ring = none
    ∧ ∀ j, j ≠ k → (release_state (stage_global s k h) k).span_stacks j = s.span_stacks j := by
  unfold release_state
  dsimp only
  split_ifs
  · simp only [stage_global, set_stack, upd_same, true_and]
    intro j hj
    simp [hj]
  · simp only [stage_global, set_stack, upd_same, true_and]
    intro j hj
    simp [hj]

theorem worklist_after_stage (s : State) (k h : Nat) (R subs : List Nat)
    (ring_of : Nat → List Nat) (D : List (Nat × List Nat))
    (hc : (s.span_stacks k).closed_ring = some h) (hd : drain_ready s k R subs ring_of D) :
    worklist_ok (release_state (stage_global s k h) k) (ring_of_upd ring_of k R)
      (release_state (stage_global s k h) k).top_closed_stack ((k, subs) :: D) := by
  obtain ⟨f1, f2, f3, f4, f5, f6, f7, f8, f9⟩ := release_stage_facts s k h
  obtain ⟨_, d2, d3, d4, d5, d6⟩ := hd
  have hring : is_ring s.spans h R := by
    unfold closed_ring_ok at d2
    rw [hc] at d2
    exact d2
  rw [f2]
  exact worklist_ok_push s _ ring_of D k h subs R d3 d4 d5 d6 (by rw [f1]; exact hring)
    ⟨f5, f6, f7⟩ (fun j hj => by rw [f9 j hj]; simp) (fun j _ x _ => by rw [f1])

theorem flush_tracer_eq (fuel : Nat) (s s2 : State) (out : List Nat)
    (h : ddtrace_serialize_closed_spans fuel s = .ok (out, s2)) :
    ddtrace_flush_tracer fuel s = .ok { s2 with sent := s2.sent ++ out } := by
  unfold ddtrace_flush_tracer
  simp only [h, bind, Except.bind, pure, Except.pure]

theorem flush_after_stage (fuel : Nat) (s : State) (k h : Nat) (R subs : List Nat)
    (ring_of : Nat → List Nat) (D : List (Nat × List Nat))
    (hc : (s.span_stacks k).closed_ring = some h) (hd : drain_ready s k R subs ring_of D)
    (hfu : drain_fuel fuel (ring_of_upd ring_of k R) ((k, subs) :: D)) :
    ∃ s2, ddtrace_flush_tracer fuel (release_state (stage_global s k h) k) = .ok s2
      ∧ s2.sent = s.sent
          ++ rings_of (ring_of_upd ring_of k R) (flat_stacks ((k, subs) :: D))
      ∧ s2.top_closed_stack = none
      ∧ (∀ j ∈ flat_stacks ((k, subs) :: D), (s2.span_stacks j).closed_ring_flush = none) := by
  obtain ⟨s2, e1, e2, e3, e4, _, _⟩ := serialize_closed_spans_ok (ring_of_upd ring_of k R)
    ((k, subs) :: D) fuel _ (worklist_after_stage s k h R subs ring_of D hc hd)
    hfu.1 hfu.2.1 hfu.2.2.1 hfu.2.2.2
  have hsent : s2.sent = s.sent := by
    rw [e2.2.2.2.2.2.2.2.2.2.2.2.2.2.2.2.1, (release_stage_facts s k h).2.2.1]
  refine ⟨_, flush_tracer_eq fuel _ _ _ e1, ?_, e3, e4⟩
  show s2.sent ++ _ = _
  rw [hsent]

theorem close_entry_total (fuel : Nat) (s : State) (k h a : Nat) (R subs : List Nat)
    (ring_of : Nat → List Nat) (D : List (Nat × List Nat))
    (hc : (s.span_stacks k).closed_ring = some h) (hn : entry_nofault s k)
    (ha : s.active_stack = some a)
    (hfl : s.auto_flush_enabled = true → entry_owns s k = true →
      drain_ready s k R subs ring_of D
        ∧ drain_fuel fuel (ring_of_upd ring_of k R) ((k, subs) :: D)) :
    ∃ s2, dd_close_entry_span_of_stack fuel s k = .ok s2 := by
  by_cases hcase : s.auto_flush_enabled = true ∧ entry_owns s k = true
  · obtain ⟨hd, hfu⟩ := hfl hcase.1 hcase.2
    obtain ⟨r, hr⟩ := Option.ne_none_iff_exists'.1 (hn.1 hd.1).1
    have hrs : (s.spans r).stack = some k := by
      have := hcase.2
      simpa [entry_owns, hr] using this
    rw [close_entry_owner fuel s k h r a hc hd.1 hr hrs ha hn.2]
    simp only [hcase.1, if_true]
    obtain ⟨s2, e, _⟩ := flush_after_stage fuel s k h R subs ring_of D hc hd hfu
    exact ⟨s2, e⟩
  · obtain ⟨m, hm⟩ := mark_total s k h hc hn
    have hfr := mark_frame s k m hm
    have hk := mark_keeps s k m hm
    have hown : entry_owns m k = entry_owns s k :=
      entry_owns_congr s m k (hk.2.2 k) (fun x => (hfr.1 x).1)
    rw [close_entry_eq, hm]
    simp only [bind, Except.bind, hown]
    split_ifs with ho
    · have hrel := entry_release_eq m k a (by rw [hk.1, ha])
        (by rw [(hfr.2.2.1 k).2.1, (hfr.2.2.1 k).2.2]; exact hn.2)
      have hauto : (release_state m k).auto_flush_enabled = s.auto_flush_enabled := by
        have := entry_release_frame m k _ hrel
        rw [this.2.2.2.2.2.2.2.2.2.2.2.1, hfr.2.2.2.2.2.2.2.2.2.2.2.1]
      have hno : s.auto_flush_enabled = false := by
        cases hb : s.auto_flush_enabled
        · rfl
        · exact absurd ⟨hb, ho⟩ hcase
      simp [hrel, hauto, hno, pure, Except.pure]
    · exact ⟨m, rfl⟩

theorem close_top_core_counts (s : State) (t k : Nat) :
    (close_top_core s t k).closed_spans_count = incr32 s.closed_spans_count
    ∧ (close_top_core s t k).dropped_spans_count = s.dropped_spans_count
    ∧ (close_top_core s t k).open_spans_count = decr32 s.open_spans_count := by
  unfold close_top_core
  cases h : (s.span_stacks k).closed_ring <;> simp [set_span, set_stack, h]

theorem close_top_core_closed_ring (s : State) (t k : Nat) :
    ∃ h, ((close_top_core s t k).span_stacks k).closed_ring = some h := by
  unfold close_top_core
  cases h : (s.span_stacks k).closed_ring with
  | none => exact ⟨t, by simp [set_span, set_stack, h]⟩
  | some r => exact ⟨r, by simp [set_span, set_stack, h]⟩

theorem close_chain_core_frame (k : Nat) (s : State) (us : List Nat) (t : Nat) :
    close_frame k { s with active_stack := some k } (close_chain_core k s us t) :=
  close_frame_trans (finish_all_frame k us _) (close_top_core_frame _ t k)

theorem mem_ring_after {auto : Bool} {us R : List Nat} {x : Nat}
    (h : x ∈ ring_after auto us R) : x ∈ us ∨ x ∈ R := by
  unfold ring_after at h
  split_ifs at h
  · simpa using h
  · exact Or.inr h

theorem drain_ready_mid (k t : Nat) (s : State) (us R subs : List Nat)
    (ring_of : Nat → List Nat) (D : List (Nat × List Nat))
    (hc : chain_above s k t (s.span_stacks k).active us)
    (hd : drain_ready s k R subs ring_of D)
    (hsep : chain_separate (us ++ [t]) R subs ring_of D) :
    drain_ready (close_chain_core k s us t) k (t :: ring_after s.autofinish_spans us R) subs
      ring_of D := by
  obtain ⟨d1, d2, d3, d4, d5, d6⟩ := hd
  obtain ⟨s1, s2⟩ := hsep
  have hfr := close_chain_core_frame k s us t
  have hst := hfr.2.2.2.2.2.2.2.2.2.2.2.2.2.2.2
  have hnd := chain_above_nodup s k t us _ hc
  have htus := chain_above_not_mem s k t us _ hc
  have hRus : ∀ u ∈ us, u ∉ R := fun u hu hR => s1 u hR (List.mem_append_left _ hu)
  have htR : t ∉ R := fun hR => s1 t hR (by simp)
  obtain ⟨r1, r2⟩ := finish_all_ring k us { s with active_stack := some k } R d2 hRus hnd
  have hta : t ∉ ring_after s.autofinish_spans us R := fun h => by
    rcases mem_ring_after h with e | e
    · exact htus e
    · exact htR e
  have hnext : ∀ x, x ∉ us → x ≠ t → x ∉ R →
      ((close_chain_core k s us t).spans x).next = (s.spans x).next := by
    intro x h1 h2 h3
    unfold close_chain_core
    rw [close_top_core_next _ t k _ x r1 h2 (fun h => by
      rcases mem_ring_after h with e | e
      · exact h1 e
      · exact h3 e), r2 x h1 h3]
  have hxs : ∀ j ∈ subs ++ flat_stacks D, ∀ x ∈ ring_of j,
      ((close_chain_core k s us t).spans x).next = (s.spans x).next := by
    intro j hj x hx
    obtain ⟨e1, e2⟩ := s2 j hj x hx
    simp only [List.mem_append, List.mem_singleton, not_or] at e1
    exact hnext x e1.1 e1.2 e2
  refine ⟨by rw [(hst k).2.2.2.1]; exact d1, close_top_core_ring _ t k _ r1 hta, ?_, ?_, ?_, d6⟩
  · rw [hfr.2.2.2.2.2.1]
    exact worklist_ok_congr s _ ring_of _ D
      (fun j _ => ⟨(hst j).2.2.2.2.1, (hst j).2.2.2.2.2.1, (hst j).2.2.2.1⟩)
      (fun j hj => hxs j (List.mem_append_right _ hj)) d3
  · rw [(hst k).2.2.2.2.2.1]
    exact stack_list_congr _ _ (fun j => (hst j).2.2.2.2.1) _ _ d4
  · intro j hj
    exact flush_ring_ok_congr_next (hst j).2.2.2.1 (hxs j (List.mem_append_left _ hj)) (d5 j hj)

theorem chain_emptied_mid (k : Nat) (s : State) (us : List Nat) (t : Nat) :
    chain_emptied (close_chain_core k s us t) k = is_entry_span s k t := by
  have hfr := close_chain_core_frame k s us t
  have hp : ((finish_all k { s with active_stack := some k } us).spans t).parent
      = (s.spans t).parent := ((finish_all_frame k us _).1 t).2.1
  unfold chain_emptied is_entry_span
  rw [show ((close_chain_core k s us t).span_stacks k).active = (s.spans t).parent from by
    unfold close_chain_core
    rw [close_top_core_active]
    simp [hp]]
  cases (s.spans t).parent with
  | none => rfl
  | some p =>
    simp only
    rw [(hfr.1 p).1]

theorem close_span_chain_ok (fuel : Nat) (s : State) (k t a : Nat) (us R subs : List Nat)
    (ring_of : Nat → List Nat) (D : List (Nat × List Nat))
    (ha : s.active_stack = some a) (ht : (s.spans t).stack = some k)
    (hty : (s.spans t).type ≠ DDTRACE_SPAN_CLOSED)
    (hc : chain_above s k t (s.span_stacks k).active us)
    (hroot : s.autofinish_spans = false → ∀ u ∈ us, (s.span_stacks k).root_span ≠ some u)
    (hn : entry_nofault s k)
    (hfl : s.auto_flush_enabled = true → entry_owns s k = true → is_entry_span s k t = true →
      flush_ready fuel s k t us R subs ring_of D)
    (hf : us.length + 2 ≤ fuel) :
    ∃ s2, ddtrace_close_span (fuel + 1) s (some t) = .ok s2
      ∧ (is_entry_span s k t = false → s2 = close_chain_core k s us t)
      ∧ (is_entry_span s k t = true →
          dd_close_entry_span_of_stack fuel (close_chain_core k s us t) k = .ok s2)
      ∧ entry_frame (close_chain_core k s us t) s2 := by
  rw [close_span_chain fuel s k t a us ha ht hty hc hroot hf, chain_emptied_mid]
  cases he : is_entry_span s k t with
  | false =>
    exact ⟨_, by simp, fun _ => rfl, fun h => by simp at h, entry_frame_refl _⟩
  | true =>
    have hfr := close_chain_core_frame k s us t
    have hst := hfr.2.2.2.2.2.2.2.2.2.2.2.2.2.2.2
    obtain ⟨h, hh⟩ := close_top_core_closed_ring
      (finish_all k { s with active_stack := some k } us) t k
    have hn2 : entry_nofault (close_chain_core k s us t) k := by
      unfold entry_nofault
      rw [(hst k).1, (hst k).2.1, (hst k).2.2.1, (hst k).2.2.2.1]
      exact hn
    have hown : entry_owns (close_chain_core k s us t) k = entry_owns s k :=
      entry_owns_congr s _ k (hst k).1 (fun x => (hfr.1 x).1)
    obtain ⟨s2, hs2⟩ := close_entry_total fuel (close_chain_core k s us t) k h k
      (t :: ring_after s.autofinish_spans us R) subs ring_of D hh hn2
      (by rw [hfr.2.2.2.2.1])
      (fun h1 h2 => by
        rw [hfr.2.2.2.2.2.2.2.2.2.1] at h1
        rw [hown] at h2
        obtain ⟨f1, f2, f3⟩ := hfl h1 h2 he
        exact ⟨drain_ready_mid k t s us R subs ring_of D hc f1 f2, f3⟩)
    exact ⟨s2, by simpa using hs2, fun h => by simp at h, fun _ => hs2,
      close_entry_frame fuel _ k s2 hs2⟩

theorem close_chain_core_props (k : Nat) (s : State) (us : List Nat) (t : Nat)
    (hc : chain_above s k t (s.span_stacks k).active us) :
    ((close_chain_core k s us t).spans t).type = DDTRACE_SPAN_CLOSED
    ∧ ((close_chain_core k s us t).span_stacks k).active = (s.spans t).parent
    ∧ (∀ u ∈ us, if s.autofinish_spans then
          ((close_chain_core k s us t).spans u).type = DDTRACE_SPAN_CLOSED
        else ((close_chain_core k s us t).spans u).type = DDTRACE_USER_SPAN
          ∧ ((close_chain_core k s us t).spans u).duration = DDTRACE_DROPPED_SPAN)
    ∧ (close_chain_core k s us t).dropped_spans_count
        = incr32^[if s.autofinish_spans then 0 else us.length] s.dropped_spans_count
    ∧ (close_chain_core k s us t).closed_spans_count
        = incr32^[if s.autofinish_spans then us.length + 1 else 1] s.closed_spans_count
    ∧ (close_chain_core k s us t).open_spans_count
        = decr32^[us.length + 1] s.open_spans_count := by
  have htus := chain_above_not_mem s k t us _ hc
  obtain ⟨t1, t2, t3, t4⟩ := finish_all_types k us { s with active_stack := some k }
  obtain ⟨d1, d2⟩ := finish_all_duration k us { s with active_stack := some k }
  obtain ⟨c1, c2, c3⟩ := finish_all_counts k us { s with active_stack := some k }
  obtain ⟨e1, e2, e3⟩ := close_top_core_counts
    (finish_all k { s with active_stack := some k } us) t k
  have hp : ((finish_all k { s with active_stack := some k } us).spans t).parent
      = (s.spans t).parent := ((finish_all_frame k us _).1 t).2.1
  have hmem : ∀ (l : List Nat) (p : Option Nat), chain_above s k t p l →
      ∀ u ∈ l, (s.spans u).type = DDTRACE_USER_SPAN := by
    intro l
    induction l with
    | nil => intro p _ u hu; simp at hu
    | cons v l ih =>
      intro p h u hu
      rcases List.mem_cons.1 hu with e | e
      · subst e; exact h.2.2.2.1
      · exact ih _ h.2.2.2.2 u e
  unfold close_chain_core
  refine ⟨by rw [close_top_core_type]; simp, by rw [close_top_core_active]; simp [hp], ?_,
    ?_, ?_, ?_⟩
  · intro u hu
    have hut : u ≠ t := fun e => htus (e ▸ hu)
    rw [close_top_core_type, close_top_core_duration]
    simp only [hut, if_false]
    by_cases hauto : s.autofinish_spans = true
    · rw [if_pos hauto]
      exact t3 hauto u hu
    · rw [if_neg hauto]
      have hauto2 : s.autofinish_spans = false := by simpa using hauto
      exact ⟨by rw [t4 hauto2 u]; exact hmem us _ hc u hu, d2 hauto2 u (Or.inl hu)⟩
  · rw [e2, c2]
  · rw [e1, c1]
    show _ = incr32^[if s.autofinish_spans = true then us.length + 1 else 1] s.closed_spans_count
    by_cases hauto : s.autofinish_spans = true
    · rw [if_pos hauto, if_pos hauto, Function.iterate_succ_apply']
    · rw [if_neg hauto, if_neg hauto, Function.iterate_zero, Function.iterate_one, id_eq]
  · rw [e3, c3]
    show _ = decr32^[us.length + 1] s.open_spans_count
    rw [Function.iterate_succ_apply']

theorem drop_span_root (fuel : Nat) (s : State) (k t a : Nat)
    (ha : s.active_stack = some a) (ht : (s.spans t).stack = some k)
    (hr : (s.span_stacks k).root_span = some t) :
    ddtrace_drop_span (fuel + 1) s t = ddtrace_close_span fuel (drop_root_state s k t) (some t) := by
  rw [ddtrace_drop_span]
  simp only [ht, deref, bind, Except.bind]
  by_cases hka : k = a
  · subst hka
    simp only [ha, ne_eq, not_true_eq_false, if_false, pure, Except.pure, hr, if_true,
      drop_root_state, set_active_same s k ha]
  · have hne : ¬ (some k = some a) := fun h => hka (Option.some.inj h)
    simp only [ha, ne_eq, hne, not_false_eq_true, if_true, ddtrace_switch_span_stack, deref,
      bind, Except.bind, pure, Except.pure, hr, drop_root_state]

theorem drop_root_state_facts (s : State) (k t : Nat)
    (hr : (s.span_stacks k).root_span = some t) :
    (drop_root_state s k t).span_stacks = s.span_stacks
    ∧ (drop_root_state s k t).active_stack = some k
    ∧ (drop_root_state s k t).top_closed_stack = s.top_closed_stack
    ∧ (drop_root_state s k t).autofinish_spans = s.autofinish_spans
    ∧ (drop_root_state s k t).auto_flush_enabled = s.auto_flush_enabled
    ∧ (drop_root_state s k t).sent = s.sent
    ∧ (drop_root_state s k t).open_spans_count = s.open_spans_count
    ∧ (drop_root_state s k t).closed_spans_count = s.closed_spans_count
    ∧ (drop_root_state s k t).dropped_spans_count = s.dropped_spans_count
    ∧ ((drop_root_state s k t).spans t).sampling_priority = some PRIORITY_SAMPLING_USER_REJECT
    ∧ ∀ x, ((drop_root_state s k t).spans x).next = (s.spans x).next
        ∧ ((drop_root_state s k t).spans x).type = (s.spans x).type
        ∧ ((drop_root_state s k t).spans x).stack = (s.spans x).stack
        ∧ ((drop_root_state s k t).spans x).parent = (s.spans x).parent := by
  unfold drop_root_state dd_trace_stop_span_time ddtrace_set_prioritySampling_on_root
  simp only [hr, set_span, upd_same, true_and]
  intro x
  by_cases e : x = t
  · subst e; simp
  · simp [e]

theorem drain_ready_congr (s s2 : State) (k : Nat) (R subs : List Nat)
    (ring_of : Nat → List Nat) (D : List (Nat × List Nat))
    (hst : s2.span_stacks = s.span_stacks) (htop : s2.top_closed_stack = s.top_closed_stack)
    (hx : ∀ x, (s2.spans x).next = (s.spans x).next)
    (h : drain_ready s k R subs ring_of D) : drain_ready s2 k R subs ring_of D := by
  obtain ⟨d1, d2, d3, d4, d5, d6⟩ := h
  refine ⟨by rw [hst]; exact d1, closed_ring_ok_congr s s2 k R (by rw [hst]) (fun x _ => hx x) d2,
    ?_, by rw [hst]; exact d4, ?_, d6⟩
  · rw [htop]
    exact worklist_ok_congr s s2 ring_of _ D (fun j _ => by rw [hst]; simp)
      (fun _ _ x _ => hx x) d3
  · intro j hj
    exact flush_ring_ok_congr_next (by rw [hst]) (fun x _ => hx x) (d5 j hj)

theorem close_chain_core_ring (k t : Nat) (s : State) (us R : List Nat)
    (hc : chain_above s k t (s.span_stacks k).active us)
    (hR : closed_ring_ok s k R) (hsep : ∀ x ∈ R, x ∉ us ++ [t]) :
    closed_ring_ok (close_chain_core k s us t) k (t :: ring_after s.autofinish_spans us R) := by
  have hnd := chain_above_nodup s k t us _ hc
  have htus := chain_above_not_mem s k t us _ hc
  have hRus : ∀ u ∈ us, u ∉ R := fun u hu hR => hsep u hR (List.mem_append_left _ hu)
  have htR : t ∉ R := fun hR => hsep t hR (by simp)
  obtain ⟨r1, _⟩ := finish_all_ring k us { s with active_stack := some k } R hR hRus hnd
  exact close_top_core_ring _ t k _ r1 (fun h => by
    rcases mem_ring_after h with e | e
    · exact htus e
    · exact htR e)

theorem mem_rings_of_head (ring_of : Nat → List Nat) (k : Nat) (ks : List Nat) (x : Nat)
    (h : x ∈ ring_of k) : x ∈ rings_of ring_of (k :: ks) := by
  simp [rings_of, h]

theorem ring_after_nil (auto : Bool) (R : List Nat) : ring_after auto [] R = R := by
  unfold ring_after
  split_ifs <;> simp

theorem has_top_loop_blocked (s : State) (t : Nat) :
    ∀ (us : List Nat) (fuel : Nat) (p : Option Nat),
      blocked_path s t p us → us.length < fuel → has_top_loop s t fuel p = .ok false
  | [], fuel, none, _, _ => by cases fuel <;> rfl
  | [], fuel, some q, h, hf => by
    obtain ⟨f, rfl⟩ : ∃ f, fuel = f + 1 := ⟨fuel - 1, by simp at hf; omega⟩
    have h : q ≠ t ∧ (s.spans q).type ≠ DDTRACE_USER_SPAN := h
    simp [has_top_loop, h.1, h.2]
  | u :: us, fuel, p, h, hf => by
    obtain ⟨f, rfl⟩ : ∃ f, fuel = f + 1 := ⟨fuel - 1, by simp at hf; omega⟩
    obtain ⟨h1, h2, h3, h4⟩ := h
    subst h1
    simp only [has_top_loop, h2, if_false, h3, ne_eq, not_true_eq_false]
    exact has_top_loop_blocked s t us f _ h4 (by simp at hf; omega)

theorem has_top_loop_mono (s : State) (t : Nat) (r : Bool) :
    ∀ (fuel : Nat) (p : Option Nat), has_top_loop s t fuel p = .ok r →
      ∀ fuel2, fuel ≤ fuel2 → has_top_loop s t fuel2 p = .ok r
  | fuel, none, h, fuel2, _ => by
    cases fuel <;> cases fuel2 <;> simpa [has_top_loop] using h
  | 0, some q, h, _, _ => by simp [has_top_loop] at h
  | fuel + 1, some q, h, fuel2, hle => by
    obtain ⟨f2, rfl⟩ : ∃ f, fuel2 = f + 1 := ⟨fuel2 - 1, by omega⟩
    simp only [has_top_loop] at h ⊢
    split_ifs at h ⊢ with e1 e2
    · exact h
    · exact h
    · exact has_top_loop_mono s t r fuel _ h f2 (by omega)

theorem has_top_loop_det (s : State) (t : Nat) (r r2 : Bool) (f f2 : Nat) (p : Option Nat)
    (h : has_top_loop s t f p = .ok r) (h2 : has_top_loop s t f2 p = .ok r2) : r = r2 := by
  have e1 := has_top_loop_mono s t r f p h (max f f2) (le_max_left _ _)
  have e2 := has_top_loop_mono s t r2 f2 p h2 (max f f2) (le_max_right _ _)
  rw [e1] at e2
  exact Except.ok.inj e2

theorem has_top_det (s : State) (t : Nat) (r r2 : Bool) (f f2 : Nat)
    (h : ddtrace_has_top_internal_span f s t = .ok r)
    (h2 : ddtrace_has_top_internal_span f2 s t = .ok r2) : r = r2 := by
  unfold ddtrace_has_top_internal_span at h h2
  cases hs : (s.spans t).stack with
  | none => simp [hs, deref, bind, Except.bind] at h
  | some k =>
    simp only [hs, deref, bind, Except.bind] at h h2
    exact has_top_loop_det s t r r2 f f2 _ h h2

theorem close_top_closes (fuel : Nat) (s s2 : State) (t : Nat)
    (h : ddtrace_close_top_span_without_stack_swap fuel s t = .ok s2) :
    (s2.spans t).type = DDTRACE_SPAN_CLOSED := by
  cases hs : (s.spans t).stack with
  | none => simp [ddtrace_close_top_span_without_stack_swap, hs, deref, bind, Except.bind] at h
  | some k =>
    rw [close_top_eq fuel s t k hs] at h
    have ht : ((close_top_core s t k).spans t).type = DDTRACE_SPAN_CLOSED := by
      rw [close_top_core_type]; simp
    split_ifs at h
    · rw [((close_entry_frame fuel _ k s2 h).2.1 t).1, ht]
    · cases h
      exact ht

theorem except_bind_ok {α β : Type} (x : Res α) (f : α → Res β) (r : β)
    (h : (x >>= f) = .ok r) : ∃ a, x = .ok a ∧ f a = .ok r := by
  cases x with
  | error e => simp [bind, Except.bind] at h
  | ok a => exact ⟨a, rfl, h⟩

theorem close_span_cases (fuel : Nat) (s s2 : State) (t : Nat)
    (h : ddtrace_close_span fuel s (some t) = .ok s2) :
    (s2 = s ∧ ∃ f b, ddtrace_has_top_internal_span f s t = .ok b
        ∧ (b = false ∨ (s.spans t).type = DDTRACE_SPAN_CLOSED))
    ∨ (s2.spans t).type = DDTRACE_SPAN_CLOSED := by
  cases fuel with
  | zero => simp [ddtrace_close_span] at h
  | succ f =>
    rw [ddtrace_close_span] at h
    obtain ⟨b, htop, h⟩ := except_bind_ok _ _ _ h
    by_cases hc : (!b || (s.spans t).type == DDTRACE_SPAN_CLOSED) = true
    · rw [if_pos hc] at h
      cases h
      left
      refine ⟨rfl, f + 1, b, htop, ?_⟩
      simp only [Bool.or_eq_true, Bool.not_eq_eq_eq_not, Bool.not_true, beq_iff_eq] at hc
      exact hc
    · rw [if_neg hc] at h
      right
      obtain ⟨s1, _, h⟩ := except_bind_ok _ _ _ h
      obtain ⟨s3, _, h⟩ := except_bind_ok _ _ _ h
      exact close_top_closes f s3 s2 t h

theorem state_of_ok (r : Res State) (dflt : State) (h : is_ok r = true) :
    r = .ok (state_of r dflt) := by
  cases r with
  | error e => simp [is_ok] at h
  | ok a => rfl

theorem open_span_inherit (H : Hooks) (s : State) (span k ps r p pid tid : Nat)
    (ha : s.active_stack = some k) (hps : (s.span_stacks k).parent_stack = some ps)
    (hr : (s.span_stacks k).root_span = some r) (hact : (s.span_stacks k).active = some p)
    (hpid : H.ddtrace_peek_span_id (open_span_ids_state s k span) = .ok pid)
    (htid : H.ddtrace_peek_trace_id (open_span_trace_state s k span pid) = .ok tid) :
    ∃ s2, ddtrace_open_span H s span = .ok s2
      ∧ (s2.spans span).parent = some p ∧ (s2.spans span).stack = some k
      ∧ (s2.spans span).parent_id = pid
      ∧ (s2.spans span).span_id = s.id_stream s.id_pos % 2 ^ 64
      ∧ (s2.spans span).trace_id = (if tid = 0 then s.id_stream s.id_pos % 2 ^ 64 else tid)
      ∧ (s2.spans span).root = some r
      ∧ (∀ x, x ≠ span → s2.spans x = s.spans x)
      ∧ (s2.span_stacks k).active = some span
      ∧ (s2.span_stacks k).root_span = some r
      ∧ (s2.span_stacks k).closed_ring = (s.span_stacks k).closed_ring
      ∧ (s2.span_stacks k).closed_ring_flush = (s.span_stacks k).closed_ring_flush
      ∧ (∀ j, j ≠ k → s2.span_stacks j = s.span_stacks j)
      ∧ s2.active_stack = some k
      ∧ s2.open_spans_count = incr32 s.open_spans_count
      ∧ s2.closed_spans_count = s.closed_spans_count
      ∧ s2.dropped_spans_count = s.dropped_spans_count
      ∧ s2.span_top = s.span_top ∧ s2.id_stream = s.id_stream := by
  simp only [open_span_ids_state, open_span_trace_state, ddtrace_generate_span_id, set_span,
    upd_same, ha] at hpid htid
  by_cases htz : tid = 0
  · exact ⟨_, by
      unfold ddtrace_open_span
      simp only [ha, deref, bind, Except.bind, hps, pure, Except.pure, reduceCtorEq, beq_iff_eq,
        if_false, set_span, set_stack, ddtrace_generate_span_id, upd_same, hr, Bool.not_false,
        Bool.true_or, if_true, hpid, htid, hact, _get_nanoseconds, htz,
        show (!(some r == (none : Option ℕ)) || some ps == (none : Option ℕ)) = true from rfl]
      rfl, by
      simp only [htz, if_true, if_false, upd_same, true_and]
      refine ⟨?_, ?_⟩
      · intro x hx
        simp [upd_apply, hx]
      · refine ⟨?_, trivial⟩
        intro j hj
        simp [upd_apply, hj]⟩
  · exact ⟨_, by
      unfold ddtrace_open_span
      simp only [ha, deref, bind, Except.bind, hps, pure, Except.pure, reduceCtorEq, beq_iff_eq,
        if_false, set_span, set_stack, ddtrace_generate_span_id, upd_same, hr, Bool.not_false,
        Bool.true_or, if_true, hpid, htid, hact, _get_nanoseconds, htz,
        show (!(some r == (none : Option ℕ)) || some ps == (none : Option ℕ)) = true from rfl]
      rfl, by
      simp only [htz, if_true, if_false, upd_same, true_and]
      refine ⟨?_, ?_⟩
      · intro x hx
        simp [upd_apply, hx]
      · refine ⟨?_, trivial⟩
        intro j hj
        simp [upd_apply, hj]⟩

theorem open_span_root (H : Hooks) (s : State) (span k ps : Nat)
    (ha : s.active_stack = some k) (hps : (s.span_stacks k).parent_stack = some ps)
    (hr : (s.span_stacks k).root_span = none) :
    ∃ s2, ddtrace_open_span H s span = .ok s2
      ∧ (s2.spans span).parent = none ∧ (s2.spans span).stack = some k
      ∧ (s2.spans span).parent_id = 0
      ∧ (s2.spans span).span_id = s.id_stream s.id_pos % 2 ^ 64
      ∧ (s2.spans span).trace_id = s.id_stream s.id_pos % 2 ^ 64
      ∧ (s2.spans span).root = some span
      ∧ (∀ x, x ≠ span → s2.spans x = s.spans x)
      ∧ (s2.span_stacks k).active = some span
      ∧ (s2.span_stacks k).root_span = some span
      ∧ (s2.span_stacks k).closed_ring = (s.span_stacks k).closed_ring
      ∧ (s2.span_stacks k).closed_ring_flush = (s.span_stacks k).closed_ring_flush
      ∧ (∀ j, j ≠ k → s2.span_stacks j = s.span_stacks j)
      ∧ s2.active_stack = some k
      ∧ s2.open_spans_count = incr32 s.open_spans_count
      ∧ s2.closed_spans_count = s.closed_spans_count
      ∧ s2.dropped_spans_count = s.dropped_spans_count
      ∧ s2.span_top = s.span_top ∧ s2.id_stream = s.id_stream :=
  ⟨_, by
    unfold ddtrace_open_span
    simp only [ha, deref, bind, Except.bind, hps, pure, Except.pure, reduceCtorEq, beq_iff_eq,
      if_false, set_span, set_stack, ddtrace_generate_span_id, upd_same, hr, _get_nanoseconds,
      show (!((none : Option ℕ) == none) || some ps == (none : Option ℕ)) = false from rfl,
      show ((none : Option ℕ) == none) = true from rfl, if_true, Bool.false_eq_true]
    rfl, by
    simp only [upd_same, true_and]
    refine ⟨?_, ?_⟩
    · intro x hx
      simp [upd_apply, hx]
    · refine ⟨?_, trivial⟩
      intro j hj
      simp [upd_apply, hj]⟩

theorem open_span_primary (H : Hooks) (s : State) (span k pid tid : Nat)
    (ha : s.active_stack = some k) (hps : (s.span_stacks k).parent_stack = none)
    (hpid : H.ddtrace_peek_span_id
      (open_span_ids_state (open_span_enter s k).2 (open_span_enter s k).1 span) = .ok pid)
    (htid : H.ddtrace_peek_trace_id
      (open_span_trace_state (open_span_enter s k).2 (open_span_enter s k).1 span pid)
        = .ok tid) :
    ∃ s2, ddtrace_open_span H s span = .ok s2
      ∧ (s2.spans span).parent = none ∧ (s2.spans span).stack = some s.stack_top
      ∧ (s2.spans span).parent_id = pid
      ∧ (s2.spans span).span_id = s.id_stream s.id_pos % 2 ^ 64
      ∧ (s2.spans span).trace_id = (if tid = 0 then s.id_stream s.id_pos % 2 ^ 64 else tid)
      ∧ (s2.spans span).root = some span
      ∧ (∀ x, x ≠ span → s2.spans x = s.spans x)
      ∧ (s2.span_stacks s.stack_top).active = some span
      ∧ (s2.span_stacks s.stack_top).root_span = some span
      ∧ (s2.span_stacks s.stack_top).root_stack = some s.stack_top
      ∧ (s2.span_stacks s.stack_top).parent_stack = some k
      ∧ (s2.span_stacks s.stack_top).closed_ring = none
      ∧ (s2.span_stacks s.stack_top).closed_ring_flush = none
      ∧ (∀ j, j ≠ s.stack_top → s2.span_stacks j = s.span_stacks j)
      ∧ s2.active_stack = some s.stack_top
      ∧ s2.stack_top = s.stack_top + 1 ∧ s2.span_top = s.span_top
      ∧ s2.open_spans_count = incr32 s.open_spans_count
      ∧ s2.closed_spans_count = s.closed_spans_count
      ∧ s2.dropped_spans_count = s.dropped_spans_count
      ∧ s2.id_stream = s.id_stream := by
  simp only [open_span_ids_state, open_span_trace_state, open_span_enter,
    ddtrace_init_root_span_stack, dd_alloc_span_stack, ddtrace_generate_span_id, set_span,
    set_stack, upd_same, ha, hps, if_true] at hpid htid
  by_cases htz : tid = 0
  · exact ⟨_, by
      unfold ddtrace_open_span
      simp only [ha, deref, bind, Except.bind, hps, pure, Except.pure, reduceCtorEq, beq_iff_eq,
        if_true, set_span, set_stack, ddtrace_generate_span_id, upd_same, _get_nanoseconds,
        ddtrace_init_root_span_stack, dd_alloc_span_stack, ddtrace_switch_span_stack,
        hpid, htid, htz, beq_self_eq_true, Bool.or_true]
      rfl, by
      simp only [htz, if_true, upd_same, true_and]
      refine ⟨?_, ?_⟩
      · intro x hx
        simp [upd_apply, hx]
      · refine ⟨?_, trivial⟩
        intro j hj
        simp [upd_apply, hj]⟩
  · exact ⟨_, by
      unfold ddtrace_open_span
      simp only [ha, deref, bind, Except.bind, hps, pure, Except.pure, reduceCtorEq, beq_iff_eq,
        if_true, set_span, set_stack, ddtrace_generate_span_id, upd_same, _get_nanoseconds,
        ddtrace_init_root_span_stack, dd_alloc_span_stack, ddtrace_switch_span_stack,
        hpid, htid, htz, beq_self_eq_true, Bool.or_true, if_false]
      rfl, by
      simp only [htz, if_false, upd_same, true_and]
      refine ⟨?_, ?_⟩
      · intro x hx
        simp [upd_apply, hx]
      · refine ⟨?_, trivial⟩
        intro j hj
        simp [upd_apply, hj]⟩

theorem ids_frame_refl (s : State) : ids_frame s s :=
  ⟨spans_static_refl s, rfl, rfl, fun k _ h => Or.inl ⟨k, h⟩⟩

theorem ids_frame_trans {s s2 s3 : State} (h1 : ids_frame s s2) (h2 : ids_frame s2 s3) :
    ids_frame s s3 := by
  obtain ⟨a0, a1, a2, a3⟩ := h1
  obtain ⟨b0, b1, b2, b3⟩ := h2
  refine ⟨spans_static_trans a0 b0, by rw [b1, a1], by rw [b2, a2], fun k a h => ?_⟩
  rcases b3 k a h with ⟨j, hj⟩ | ⟨x, hx⟩
  · exact a3 j a hj
  · exact Or.inr ⟨x, by rw [← (a0 x).2.1]; exact hx⟩

theorem ids_frame_of_entry {s s2 : State} (h : entry_frame s s2) : ids_frame s s2 := by
  obtain ⟨a0, _, a2, _, _, _, a6, _, _, _, _, _, _, _, a14, _⟩ := h
  exact ⟨a0, a6, a14, fun k a h => Or.inl ⟨k, by rw [← (a2 k).1]; exact h⟩⟩

theorem ids_frame_of_close {k : Nat} {s s2 : State} (t : Nat) (h : close_frame k s s2)
    (ha : (s2.span_stacks k).active = (s.spans t).parent
      ∨ (s2.span_stacks k).active = (s.span_stacks k).active) : ids_frame s s2 := by
  obtain ⟨a0, _, a2, _, _, _, _, _, _, _, _, _, a12, _, _, a15⟩ := h
  refine ⟨a0, a2, a12, fun j a h => ?_⟩
  by_cases hj : j = k
  · subst hj
    rcases ha with ha | ha
    · exact Or.inr ⟨t, by rw [← ha]; exact h⟩
    · exact Or.inl ⟨j, by rw [← ha]; exact h⟩
  · exact Or.inl ⟨j, by rw [← ((a15 j).2.2.2.2.2.2 hj).1]; exact h⟩

theorem ids_frame_switch (s : State) (t : Nat) (s2 : State)
    (h : ddtrace_switch_span_stack s t = .ok s2) : ids_frame s s2 := by
  unfold ddtrace_switch_span_stack at h
  obtain ⟨_, _, h⟩ := except_bind_ok _ _ _ h
  cases h
  exact ⟨spans_static_refl s, rfl, rfl, fun k _ h => Or.inl ⟨k, h⟩⟩

theorem ids_frame_priority (s : State) (p : Int) :
    ids_frame s (ddtrace_set_prioritySampling_on_root s p) := by
  unfold ddtrace_set_prioritySampling_on_root
  cases s.active_stack with
  | none => exact ids_frame_refl s
  | some a =>
    dsimp only
    cases (s.span_stacks a).root_span with
    | none => exact ids_frame_refl s
    | some r =>
      dsimp only
      refine ⟨fun x => ?_, rfl, rfl, fun k _ h => Or.inl ⟨k, h⟩⟩
      simp only [set_span, upd_apply]
      split_ifs with hx
      · subst hx; simp
      · simp

theorem ids_frame_close_top (fuel : Nat) (s : State) (span : Nat) (s2 : State)
    (h : ddtrace_close_top_span_without_stack_swap fuel s span = .ok s2) : ids_frame s s2 := by
  cases hs : (s.spans span).stack with
  | none =>
    unfold ddtrace_close_top_span_without_stack_swap at h
    simp [hs, deref, bind, Except.bind] at h
  | some stack =>
    rw [close_top_eq fuel s span stack hs] at h
    have h1 : ids_frame s (close_top_core s span stack) :=
      ids_frame_of_close span (close_top_core_frame s span stack)
        (Or.inl (by rw [close_top_core_active]; simp))
    split_ifs at h
    · exact ids_frame_trans h1 (ids_frame_of_entry (close_entry_frame fuel _ stack s2 h))
    · cases h
      exact h1

theorem drop_pop_eq (fuel : Nat) (s : State) (span stack : Nat) :
    drop_span_pop fuel s span stack =
      (if chain_emptied (drop_pop_core s span stack) stack then
        dd_close_entry_span_of_stack fuel (drop_pop_core s span stack) stack
      else .ok (drop_pop_core s span stack)) >>= fun s1 => .ok (dd_drop_span s1 span false) :=
  rfl

theorem ids_frame_drop_pop (fuel : Nat) (s : State) (span stack : Nat) (s2 : State)
    (h : drop_span_pop fuel s span stack = .ok s2) : ids_frame s s2 := by
  rw [drop_pop_eq] at h
  obtain ⟨s1, h1, h⟩ := except_bind_ok _ _ _ h
  cases h
  have hc : ids_frame s (drop_pop_core s span stack) := by
    refine ⟨fun x => by simp [drop_pop_core, set_stack], rfl, rfl, fun k a h => ?_⟩
    simp only [drop_pop_core, set_stack, upd_apply] at h
    split_ifs at h with hk
    · exact Or.inr ⟨span, h⟩
    · exact Or.inl ⟨k, h⟩
  have hd : ∀ t : State, ids_frame t (dd_drop_span t span false) := by
    intro t
    refine ⟨fun x => ?_, rfl, rfl, fun k _ h => Or.inl ⟨k, h⟩⟩
    by_cases hx : x = span <;>
      simp [dd_drop_span, dd_drop_span_nodestroy, set_span, upd_apply, hx]
  refine ids_frame_trans (ids_frame_trans hc ?_) (hd s1)
  by_cases he : chain_emptied (drop_pop_core s span stack) stack = true
  · rw [if_pos he] at h1
    exact ids_frame_of_entry (close_entry_frame fuel _ stack s1 h1)
  · rw [if_neg he] at h1
    cases h1
    exact ids_frame_refl _

theorem ids_frame_stop_time (s : State) (u : Nat) : ids_frame s (dd_trace_stop_span_time s u) := by
  refine ⟨fun x => ?_, rfl, rfl, fun k _ h => Or.inl ⟨k, h⟩⟩
  simp only [dd_trace_stop_span_time, set_span, upd_apply]
  split_ifs with hx
  · subst hx; simp
  · simp

theorem ids_frame_close_drop : ∀ fuel : Nat,
    (∀ s sp s2, ddtrace_close_span fuel s sp = .ok s2 → ids_frame s s2)
    ∧ (∀ s u s2, ddtrace_close_userland_spans_until fuel s u = .ok s2 → ids_frame s s2)
    ∧ (∀ s x s2, ddtrace_drop_span fuel s x = .ok s2 → ids_frame s s2) := by
  intro fuel
  induction fuel with
  | zero =>
    refine ⟨fun s sp s2 h => ?_, fun s u s2 h => ?_, fun s x s2 h => ?_⟩
    · simp [ddtrace_close_span] at h
    · simp [ddtrace_close_userland_spans_until] at h
    · simp [ddtrace_drop_span] at h
  | succ f ih =>
    obtain ⟨ihc, ihu, ihd⟩ := ih
    refine ⟨fun s sp s2 h => ?_, fun s u s2 h => ?_, fun s x s2 h => ?_⟩
    · cases sp with
      | none =>
        rw [ddtrace_close_span] at h
        cases h
        exact ids_frame_refl s
      | some t =>
        rw [ddtrace_close_span] at h
        obtain ⟨b, _, h⟩ := except_bind_ok _ _ _ h
        by_cases hc : (!b || (s.spans t).type == DDTRACE_SPAN_CLOSED) = true
        · rw [if_pos hc] at h
          cases h
          exact ids_frame_refl s
        · rw [if_neg hc] at h
          obtain ⟨s1, h1, h⟩ := except_bind_ok _ _ _ h
          obtain ⟨s3, h3, h⟩ := except_bind_ok _ _ _ h
          have e1 : ids_frame s s1 := by
            split_ifs at h1
            · obtain ⟨st, _, h1⟩ := except_bind_ok _ _ _ h1
              exact ids_frame_switch s st s1 h1
            · cases h1
              exact ids_frame_refl s
          exact ids_frame_trans e1
            (ids_frame_trans (ihu s1 t s3 h3) (ids_frame_close_top f s3 t s2 h))
    · rw [ddtrace_close_userland_spans_until] at h
      obtain ⟨us, _, h⟩ := except_bind_ok _ _ _ h
      cases ha : (s.span_stacks us).active with
      | none =>
        simp only [ha] at h
        cases h
        exact ids_frame_refl s
      | some a =>
        simp only [ha] at h
        split_ifs at h with hc hauto
        · obtain ⟨s1, h1, h⟩ := except_bind_ok _ _ _ h
          exact ids_frame_trans
            (ids_frame_trans (ids_frame_stop_time s a) (ihc _ _ s1 h1)) (ihu s1 u s2 h)
        · obtain ⟨s1, h1, h⟩ := except_bind_ok _ _ _ h
          exact ids_frame_trans (ihd _ _ s1 h1) (ihu s1 u s2 h)
        · cases h
          exact ids_frame_refl s
    · rw [ddtrace_drop_span] at h
      obtain ⟨stack, _, h⟩ := except_bind_ok _ _ _ h
      obtain ⟨s1, h1, h⟩ := except_bind_ok _ _ _ h
      have e1 : ids_frame s s1 := by
        split_ifs at h1
        · exact ids_frame_switch s stack s1 h1
        · cases h1
          exact ids_frame_refl s
      split_ifs at h
      · exact ids_frame_trans e1
          (ids_frame_trans
            (ids_frame_trans (ids_frame_priority s1 _) (ids_frame_stop_time _ x))
            (ihc _ _ s2 h))
      · exact ids_frame_trans e1 (ids_frame_drop_pop f s1 x stack s2 h)

theorem trace_inv_init (autofinish auto_flush : Bool) (ids : Nat → Nat)
    (hids : ∀ i, ids i % 2 ^ 64 ≠ 0) :
    trace_inv (ddtrace_init_span_stacks (fresh_state autofinish auto_flush ids)) := by
  refine ⟨hids, ?_, ?_, ?_, ?_⟩
  · intro x p h
    simp [ddtrace_init_span_stacks, ddtrace_init_root_span_stack, dd_alloc_span_stack,
      set_stack, fresh_state] at h
  · intro k a h
    simp only [ddtrace_init_span_stacks, ddtrace_init_root_span_stack, dd_alloc_span_stack,
      set_stack, fresh_state, upd_apply] at h
    split_ifs at h
  · intro x h
    simp [ddtrace_init_span_stacks, ddtrace_init_root_span_stack, dd_alloc_span_stack,
      set_stack, fresh_state] at h
  · intro x p h
    simp [ddtrace_init_span_stacks, ddtrace_init_root_span_stack, dd_alloc_span_stack,
      set_stack, fresh_state] at h

theorem trace_inv_of_ids_frame {s s2 : State} (hi : trace_inv s) (hf : ids_frame s s2) :
    trace_inv s2 := by
  obtain ⟨i1, i2, i3, i4, i5⟩ := hi
  obtain ⟨f0, f1, f2, f3⟩ := hf
  refine ⟨by rw [f2]; exact i1, fun x p h => ?_, fun k a h => ?_, fun x h => ?_, fun x p h hs => ?_⟩
  · rw [f1]
    exact i2 x p (by rw [← (f0 x).2.1]; exact h)
  · rw [f1]
    rcases f3 k a h with ⟨j, hj⟩ | ⟨x, hx⟩
    · exact i3 j a hj
    · exact i2 x a hx
  · rw [(f0 x).2.2.2.1]
    exact i4 x (by rw [← (f0 x).1]; exact h)
  · rw [(f0 x).2.2.2.1, (f0 p).2.2.2.1, (f0 x).2.2.2.2.1, (f0 p).2.2.1]
    exact i5 x p (by rw [← (f0 x).2.1]; exact h) (by rw [← (f0 x).1, ← (f0 p).1]; exact hs)

theorem ids_frame_init_root (s : State) : ids_frame s (ddtrace_init_root_span_stack s).2 := by
  refine ⟨fun x => by simp [ddtrace_init_root_span_stack, dd_alloc_span_stack, set_stack],
    rfl, rfl, fun k a h => ?_⟩
  simp only [ddtrace_init_root_span_stack, dd_alloc_span_stack, set_stack, upd_apply] at h
  split_ifs at h with hk
  exact Or.inl ⟨k, h⟩

theorem ids_frame_init_child (s : State) (r : Nat × State)
    (h : ddtrace_init_span_stack s = .ok r) : ids_frame s r.2 := by
  unfold ddtrace_init_span_stack at h
  simp only [dd_alloc_span_stack] at h
  obtain ⟨a, _, h⟩ := except_bind_ok _ _ _ h
  cases h
  refine ⟨fun x => by simp [set_stack], rfl, rfl, fun k b h => ?_⟩
  simp only [set_stack, upd_apply] at h
  by_cases hk : k = s.stack_top
  · by_cases ha : a = s.stack_top
    · simp [hk, ha] at h
    · simp only [hk, ha, if_true, if_false] at h
      exact Or.inl ⟨a, h⟩
  · simp only [hk, if_false] at h
    exact Or.inl ⟨k, h⟩

theorem active_span_first (fuel : Nat) (s : State) (k p : Nat) (r : Option Nat)
    (ha : s.active_stack = some k) (hact : (s.span_stacks k).active = some p)
    (hst : (s.spans p).stack = some k) (h : ddtrace_active_span fuel s = .ok r) :
    r = some p := by
  unfold ddtrace_active_span at h
  simp only [ha] at h
  obtain ⟨rs, _, h⟩ := except_bind_ok _ _ _ h
  cases fuel with
  | zero => simp [active_span_loop] at h
  | succ f =>
    rw [active_span_loop] at h
    simp only [deref, bind, Except.bind, hact, hst, if_true, pure, Except.pure] at h
    cases h
    rfl

theorem peek_span_id_first (fuel d : Nat) (s : State) (k p pid : Nat)
    (ha : s.active_stack = some k) (hact : (s.span_stacks k).active = some p)
    (hst : (s.spans p).stack = some k) (h : ddtrace_peek_span_id fuel d s = .ok pid) :
    pid = (s.spans p).span_id := by
  unfold ddtrace_peek_span_id at h
  obtain ⟨r, hr, h⟩ := except_bind_ok _ _ _ h
  have := active_span_first fuel s k p r ha hact hst hr
  subst this
  simp only [pure, Except.pure] at h
  cases h
  rfl

theorem peek_trace_id_first (fuel d : Nat) (s : State) (k p tid : Nat)
    (ha : s.active_stack = some k) (hact : (s.span_stacks k).active = some p)
    (hst : (s.spans p).stack = some k) (h : ddtrace_peek_trace_id fuel d s = .ok tid) :
    tid = (s.spans p).trace_id := by
  unfold ddtrace_peek_trace_id at h
  obtain ⟨r, hr, h⟩ := except_bind_ok _ _ _ h
  have := active_span_first fuel s k p r ha hact hst hr
  subst this
  simp only [pure, Except.pure] at h
  cases h
  rfl

theorem open_span_cases (H : Hooks) (s : State) (span : Nat) (s2 : State)
    (h : ddtrace_open_span H s span = .ok s2) :
    ∃ k, s.active_stack = some k
      ∧ (((s.span_stacks k).parent_stack = none ∧ ∃ pid tid,
            H.ddtrace_peek_span_id
              (open_span_ids_state (open_span_enter s k).2 (open_span_enter s k).1 span)
              = .ok pid
            ∧ H.ddtrace_peek_trace_id
              (open_span_trace_state (open_span_enter s k).2 (open_span_enter s k).1 span pid)
              = .ok tid)
        ∨ (∃ ps, (s.span_stacks k).parent_stack = some ps ∧ (s.span_stacks k).root_span = none)
        ∨ ∃ ps r p pid tid, (s.span_stacks k).parent_stack = some ps
            ∧ (s.span_stacks k).root_span = some r ∧ (s.span_stacks k).active = some p
            ∧ H.ddtrace_peek_span_id (open_span_ids_state s k span) = .ok pid
            ∧ H.ddtrace_peek_trace_id (open_span_trace_state s k span pid) = .ok tid) := by
  cases ha : s.active_stack with
  | none =>
    unfold ddtrace_open_span at h
    simp [ha, deref, bind, Except.bind] at h
  | some k =>
    refine ⟨k, rfl, ?_⟩
    cases hps : (s.span_stacks k).parent_stack with
    | none =>
      left
      refine ⟨rfl, ?_⟩
      cases hpid : H.ddtrace_peek_span_id
          (open_span_ids_state (open_span_enter s k).2 (open_span_enter s k).1 span) with
      | error e =>
        exfalso
        simp only [open_span_ids_state, open_span_trace_state, open_span_enter,
          ddtrace_init_root_span_stack, dd_alloc_span_stack, ddtrace_generate_span_id, set_span,
          set_stack, upd_same, ha, hps, if_true] at hpid
        unfold ddtrace_open_span at h
        simp only [ha, deref, bind, Except.bind, hps, pure, Except.pure, reduceCtorEq,
          beq_iff_eq, if_true, set_span, set_stack, ddtrace_generate_span_id, upd_same,
          _get_nanoseconds, ddtrace_init_root_span_stack, dd_alloc_span_stack,
          ddtrace_switch_span_stack, hpid, beq_self_eq_true, Bool.or_true] at h
      | ok pid =>
        cases htid : H.ddtrace_peek_trace_id
            (open_span_trace_state (open_span_enter s k).2 (open_span_enter s k).1 span pid) with
        | error e =>
          exfalso
          simp only [open_span_ids_state, open_span_trace_state, open_span_enter,
            ddtrace_init_root_span_stack, dd_alloc_span_stack, ddtrace_generate_span_id, set_span,
            set_stack, upd_same, ha, hps, if_true] at hpid htid
          unfold ddtrace_open_span at h
          simp only [ha, deref, bind, Except.bind, hps, pure, Except.pure, reduceCtorEq,
            beq_iff_eq, if_true, set_span, set_stack, ddtrace_generate_span_id, upd_same,
            _get_nanoseconds, ddtrace_init_root_span_stack, dd_alloc_span_stack,
            ddtrace_switch_span_stack, hpid, htid, beq_self_eq_true, Bool.or_true] at h
        | ok tid => exact ⟨pid, tid, rfl, htid⟩
    | some ps =>
      right
      cases hr : (s.span_stacks k).root_span with
      | none => exact Or.inl ⟨ps, rfl, rfl⟩
      | some r =>
        right
        cases hpid : H.ddtrace_peek_span_id (open_span_ids_state s k span) with
        | error e =>
          exfalso
          simp only [open_span_ids_state, open_span_trace_state, ddtrace_generate_span_id,
            set_span, upd_same, ha] at hpid
          unfold ddtrace_open_span at h
          simp only [ha, deref, bind, Except.bind, hps, pure, Except.pure, reduceCtorEq,
            beq_iff_eq, if_false, set_span, set_stack, ddtrace_generate_span_id, upd_same, hr,
            Bool.not_false, Bool.true_or, if_true, hpid, _get_nanoseconds,
            show (!(some r == (none : Option ℕ)) || some ps == (none : Option ℕ)) = true
              from rfl] at h
        | ok pid =>
          cases htid : H.ddtrace_peek_trace_id (open_span_trace_state s k span pid) with
          | error e =>
            exfalso
            simp only [open_span_ids_state, open_span_trace_state, ddtrace_generate_span_id,
              set_span, upd_same, ha] at hpid htid
            unfold ddtrace_open_span at h
            simp only [ha, deref, bind, Except.bind, hps, pure, Except.pure, reduceCtorEq,
              beq_iff_eq, if_false, set_span, set_stack, ddtrace_generate_span_id, upd_same, hr,
              Bool.not_false, Bool.true_or, if_true, hpid, htid, _get_nanoseconds,
              show (!(some r == (none : Option ℕ)) || some ps == (none : Option ℕ)) = true
                from rfl] at h
          | ok tid =>
            cases hact : (s.span_stacks k).active with
            | none =>
              exfalso
              simp only [open_span_ids_state, open_span_trace_state, ddtrace_generate_span_id,
                set_span, upd_same, ha] at hpid htid
              unfold ddtrace_open_span at h
              by_cases htz : tid = 0
              · simp only [ha, deref, bind, Except.bind, hps, pure, Except.pure, reduceCtorEq,
                  beq_iff_eq, if_false, set_span, set_stack, ddtrace_generate_span_id, upd_same,
                  hr, Bool.not_false, Bool.true_or, if_true, hpid, htid, hact, _get_nanoseconds,
                  htz,
                  show (!(some r == (none : Option ℕ)) || some ps == (none : Option ℕ)) = true
                    from rfl] at h
              · simp only [ha, deref, bind, Except.bind, hps, pure, Except.pure, reduceCtorEq,
                  beq_iff_eq, if_false, set_span, set_stack, ddtrace_generate_span_id, upd_same,
                  hr, Bool.not_false, Bool.true_or, if_true, hpid, htid, hact, _get_nanoseconds,
                  htz,
                  show (!(some r == (none : Option ℕ)) || some ps == (none : Option ℕ)) = true
                    from rfl] at h
            | some p => exact ⟨ps, r, p, pid, tid, rfl, rfl, rfl, rfl, htid⟩

theorem open_span_ids_state_frame (s : State) (k span : Nat) :
    (open_span_ids_state s k span).active_stack = s.active_stack
    ∧ (open_span_ids_state s k span).span_stacks = s.span_stacks
    ∧ ∀ x, x ≠ span → (open_span_ids_state s k span).spans x = s.spans x := by
  refine ⟨rfl, rfl, fun x hx => ?_⟩
  simp [open_span_ids_state, set_span, ddtrace_generate_span_id, upd_apply, hx]

theorem open_span_trace_state_frame (s : State) (k span pid : Nat) :
    (open_span_trace_state s k span pid).active_stack = s.active_stack
    ∧ (open_span_trace_state s k span pid).span_stacks = s.span_stacks
    ∧ ∀ x, x ≠ span → (open_span_trace_state s k span pid).spans x = s.spans x := by
  refine ⟨rfl, rfl, fun x hx => ?_⟩
  simp [open_span_trace_state, open_span_ids_state, set_span, ddtrace_generate_span_id,
    upd_apply, hx]

theorem trace_inv_after_open (s s2 : State) (k : Nat) (hi : trace_inv s)
    (hid : s2.id_stream = s.id_stream) (htop : s2.span_top = s.span_top + 1)
    (hx : ∀ x, x ≠ s.span_top → s2.spans x = s.spans x)
    (hact : ∀ j a, (s2.span_stacks j).active = some a →
      a = s.span_top ∨ (s.span_stacks j).active = some a)
    (hstack : (s2.spans s.span_top).stack = some k)
    (htid : (s2.spans s.span_top).trace_id ≠ 0)
    (hpar : ∀ p, (s2.spans s.span_top).parent = some p →
      (s.span_stacks k).active = some p
      ∧ ((s.spans p).stack = some k →
          (s2.spans s.span_top).trace_id = (s.spans p).trace_id
          ∧ (s2.spans s.span_top).parent_id = (s.spans p).span_id)) :
    trace_inv s2 := by
  obtain ⟨i1, i2, i3, i4, i5⟩ := hi
  refine ⟨by rw [hid]; exact i1, fun x p h => ?_, fun j a h => ?_, fun x h => ?_,
    fun x p h hs => ?_⟩
  · rw [htop]
    by_cases hxn : x = s.span_top
    · rw [hxn] at h
      exact Nat.lt_succ_of_lt (i3 k p (hpar p h).1)
    · rw [hx x hxn] at h
      exact Nat.lt_succ_of_lt (i2 x p h)
  · rw [htop]
    rcases hact j a h with e | e
    · rw [e]
      exact Nat.lt_succ_self _
    · exact Nat.lt_succ_of_lt (i3 j a e)
  · by_cases hxn : x = s.span_top
    · rw [hxn]
      exact htid
    · rw [hx x hxn] at h ⊢
      exact i4 x h
  · by_cases hxn : x = s.span_top
    · rw [hxn] at h hs ⊢
      obtain ⟨ha, hc⟩ := hpar p h
      have hpn : p ≠ s.span_top := Nat.ne_of_lt (i3 k p ha)
      rw [hx p hpn] at hs ⊢
      rw [hstack] at hs
      exact hc hs
    · rw [hx x hxn] at h hs ⊢
      have hpn : p ≠ s.span_top := Nat.ne_of_lt (i2 x p h)
      rw [hx p hpn] at hs ⊢
      exact i5 x p h hs

theorem init_span_frame (s : State) (type : ddtrace_span_dataype) :
    (ddtrace_init_span s type).2.active_stack = s.active_stack
    ∧ (ddtrace_init_span s type).2.span_stacks = s.span_stacks
    ∧ (ddtrace_init_span s type).2.id_stream = s.id_stream
    ∧ (ddtrace_init_span s type).2.span_top = s.span_top + 1
    ∧ (ddtrace_init_span s type).2.stack_top = s.stack_top
    ∧ ∀ x, x ≠ s.span_top → (ddtrace_init_span s type).2.spans x = s.spans x := by
  refine ⟨rfl, rfl, rfl, rfl, rfl, fun x hx => ?_⟩
  simp [ddtrace_init_span, upd_apply, hx]

theorem trace_inv_open (fuel dp dt : Nat) (type : ddtrace_span_dataype) (s s2 : State)
    (hi : trace_inv s)
    (h : open_new_span (active_span_hooks fuel dp dt) type s = .ok s2) : trace_inv s2 := by
  have h1 : ddtrace_open_span (active_span_hooks fuel dp dt) (ddtrace_init_span s type).2
      s.span_top = .ok s2 := h
  obtain ⟨g1, g2, g3, g4, g5, g6⟩ := init_span_frame s type
  obtain ⟨k, ha, hcase⟩ := open_span_cases _ _ _ _ h1
  have hgen : (ddtrace_init_span s type).2.id_stream (ddtrace_init_span s type).2.id_pos
      % 2 ^ 64 ≠ 0 := by
    rw [g3]
    exact hi.1 _
  rcases hcase with ⟨hps, pid, tid, hpid, htid⟩ | ⟨ps, hps, hr⟩ |
    ⟨ps, r, p, pid, tid, hps, hr, hact, hpid, htid⟩
  · obtain ⟨s3, e0, e_par, e_st, e_pid, e_sid, e_tid, _, e_oth, e_act, _, _, _, _, _, e_os, _,
      _, e_top, _, _, _, e_ids⟩ := open_span_primary _ _ _ _ pid tid ha hps hpid htid
    have hs : s3 = s2 := by
      rw [h1] at e0
      exact (Except.ok.inj e0).symm
    subst hs
    rw [g5] at e_st e_act e_os
    refine trace_inv_after_open s s3 s.stack_top hi (by rw [e_ids, g3]) (by rw [e_top, g4])
      (fun x hx => by rw [e_oth x hx, g6 x hx]) (fun j a h => ?_) e_st ?_ (fun q hq => ?_)
    · by_cases hj : j = s.stack_top
      · rw [hj, e_act] at h
        exact Or.inl (Option.some.inj h).symm
      · rw [e_os j hj, g2] at h
        exact Or.inr h
    · rw [e_tid]
      split_ifs with htz
      · exact hgen
      · exact htz
    · rw [e_par] at hq
      cases hq
  · obtain ⟨s3, e0, e_par, e_st, e_pid, e_sid, e_tid, _, e_oth, e_act, _, _, _, e_os, _, _, _,
      _, e_top, e_ids⟩ := open_span_root (active_span_hooks fuel dp dt) _ s.span_top k ps ha hps hr
    have hs : s3 = s2 := by
      rw [h1] at e0
      exact (Except.ok.inj e0).symm
    subst hs
    refine trace_inv_after_open s s3 k hi (by rw [e_ids, g3]) (by rw [e_top, g4])
      (fun x hx => by rw [e_oth x hx, g6 x hx]) (fun j a h => ?_) e_st ?_ (fun q hq => ?_)
    · by_cases hj : j = k
      · rw [hj, e_act] at h
        exact Or.inl (Option.some.inj h).symm
      · rw [e_os j hj, g2] at h
        exact Or.inr h
    · rw [e_tid]
      exact hgen
    · rw [e_par] at hq
      cases hq
  · obtain ⟨s3, e0, e_par, e_st, e_pid, e_sid, e_tid, _, e_oth, e_act, _, _, _, e_os, _, _, _,
      _, e_top, e_ids⟩ := open_span_inherit _ _ _ _ ps r p pid tid ha hps hr hact hpid htid
    have hs : s3 = s2 := by
      rw [h1] at e0
      exact (Except.ok.inj e0).symm
    subst hs
    rw [g2] at hact
    rw [g1] at ha
    refine trace_inv_after_open s s3 k hi (by rw [e_ids, g3]) (by rw [e_top, g4])
      (fun x hx => by rw [e_oth x hx, g6 x hx]) (fun j a h => ?_) e_st ?_ (fun q hq => ?_)
    · by_cases hj : j = k
      · rw [hj, e_act] at h
        exact Or.inl (Option.some.inj h).symm
      · rw [e_os j hj, g2] at h
        exact Or.inr h
    · rw [e_tid]
      split_ifs with htz
      · exact hgen
      · exact htz
    · rw [e_par] at hq
      cases hq
      refine ⟨hact, fun hst => ?_⟩
      have hpn : p ≠ s.span_top := Nat.ne_of_lt (hi.2.2.1 k p hact)
      obtain ⟨a1, a2, a3⟩ := open_span_ids_state_frame (ddtrace_init_span s type).2 k s.span_top
      obtain ⟨b1, b2, b3⟩ :=
        open_span_trace_state_frame (ddtrace_init_span s type).2 k s.span_top pid
      have t1 := peek_span_id_first fuel dp _ k p pid (by rw [a1, g1]; exact ha)
        (by rw [a2, g2]; exact hact) (by rw [a3 p hpn, g6 p hpn]; exact hst) hpid
      have t2 := peek_trace_id_first fuel dt _ k p tid (by rw [b1, g1]; exact ha)
        (by rw [b2, g2]; exact hact) (by rw [b3 p hpn, g6 p hpn]; exact hst) htid
      rw [a3 p hpn, g6 p hpn] at t1
      rw [b3 p hpn, g6 p hpn] at t2
      have hnz : tid ≠ 0 := by
        rw [t2]
        exact hi.2.2.2.1 p (by rw [hst]; simp)
      rw [e_tid, e_pid, if_neg hnz]
      exact ⟨t2, t1⟩

theorem trace_inv_apply_op (s s2 : State) (op : span_op) (hi : trace_inv s)
    (h : apply_op s op = .ok s2) : trace_inv s2 := by
  cases op with
  | init_root_span_stack =>
    cases h
    exact trace_inv_of_ids_frame hi (ids_frame_init_root s)
  | init_span_stack =>
    simp only [apply_op] at h
    cases hr : ddtrace_init_span_stack s with
    | error e => simp [hr, Except.map] at h
    | ok r =>
      simp only [hr, Except.map] at h
      cases h
      exact trace_inv_of_ids_frame hi (ids_frame_init_child s r hr)
  | switch_span_stack t => exact trace_inv_of_ids_frame hi (ids_frame_switch s t s2 h)
  | open_span type fuel dp dt => exact trace_inv_open fuel dp dt type s s2 hi h
  | close_span fuel span =>
    exact trace_inv_of_ids_frame hi ((ids_frame_close_drop fuel).1 s (some span) s2 h)
  | drop_span fuel span =>
    exact trace_inv_of_ids_frame hi ((ids_frame_close_drop fuel).2.2 s span s2 h)

theorem trace_inv_run_ops : ∀ (ops : List span_op) (s s2 : State), trace_inv s →
    run_ops ops s = .ok s2 → trace_inv s2
  | [], s, s2, hi, h => by
    cases h
    exact hi
  | op :: ops, s, s2, hi, h => by
    rw [run_ops] at h
    obtain ⟨s1, h1, h⟩ := except_bind_ok _ _ _ h
    exact trace_inv_run_ops ops s1 s2 (trace_inv_apply_op s s1 op hi h1) h

theorem open_span_rest (H : Hooks) (s : State) (span k : Nat) (s2 : State)
    (ha : s.active_stack = some k) (h : ddtrace_open_span H s span = .ok s2) :
    open_keeps s s2 k := by
  obtain ⟨k2, ha2, hcase⟩ := open_span_cases H s span s2 h
  have hk : k2 = k := by
    rw [ha] at ha2
    exact (Option.some.inj ha2).symm
  subst hk
  rcases hcase with ⟨hps, pid, tid, hpid, htid⟩ | ⟨ps, hps, hr⟩ |
    ⟨ps, r, p, pid, tid, hps, hr, hact, hpid, htid⟩
  · simp only [open_span_ids_state, open_span_trace_state, open_span_enter,
      ddtrace_init_root_span_stack, dd_alloc_span_stack, ddtrace_generate_span_id, set_span,
      set_stack, upd_same, ha, hps, if_true] at hpid htid
    unfold ddtrace_open_span at h
    by_cases htz : tid = 0
    · simp only [ha, deref, bind, Except.bind, hps, pure, Except.pure, reduceCtorEq, beq_iff_eq,
        if_true, set_span, set_stack, ddtrace_generate_span_id, upd_same, _get_nanoseconds,
        ddtrace_init_root_span_stack, dd_alloc_span_stack, ddtrace_switch_span_stack,
        hpid, htid, htz, beq_self_eq_true, Bool.or_true, Except.ok.injEq] at h
      subst h
      refine ⟨fun x => ?_, ?_, fun j => ?_⟩
      · by_cases hx : x = span <;> simp [upd_apply, hx]
      · simp [open_span_enter, hps, ddtrace_init_root_span_stack, dd_alloc_span_stack, set_stack]
      · by_cases hj : j = s.stack_top <;>
          simp [open_span_enter, hps, ddtrace_init_root_span_stack, dd_alloc_span_stack,
            set_stack, upd_apply, hj, ha]
    · simp only [ha, deref, bind, Except.bind, hps, pure, Except.pure, reduceCtorEq, beq_iff_eq,
        if_true, set_span, set_stack, ddtrace_generate_span_id, upd_same, _get_nanoseconds,
        ddtrace_init_root_span_stack, dd_alloc_span_stack, ddtrace_switch_span_stack,
        hpid, htid, htz, beq_self_eq_true, Bool.or_true, if_false, Except.ok.injEq] at h
      subst h
      refine ⟨fun x => ?_, ?_, fun j => ?_⟩
      · by_cases hx : x = span <;> simp [upd_apply, hx]
      · simp [open_span_enter, hps, ddtrace_init_root_span_stack, dd_alloc_span_stack, set_stack]
      · by_cases hj : j = s.stack_top <;>
          simp [open_span_enter, hps, ddtrace_init_root_span_stack, dd_alloc_span_stack,
            set_stack, upd_apply, hj, ha]
  · unfold ddtrace_open_span at h
    simp only [ha, deref, bind, Except.bind, hps, pure, Except.pure, reduceCtorEq, beq_iff_eq,
      if_false, set_span, set_stack, ddtrace_generate_span_id, upd_same, hr, _get_nanoseconds,
      show (!((none : Option ℕ) == none) || some ps == (none : Option ℕ)) = false from rfl,
      show ((none : Option ℕ) == none) = true from rfl, if_true, Bool.false_eq_true,
      Bool.not_true, Bool.false_or, show (some ps == (none : Option ℕ)) = false from rfl,
      Except.ok.injEq] at h
    subst h
    refine ⟨fun x => ?_, ?_, fun j => ?_⟩
    · by_cases hx : x = span <;> simp [upd_apply, hx]
    · simp [open_span_enter, hps]
    · by_cases hj : j = k2 <;> simp [open_span_enter, hps, upd_apply, hj]
  · simp only [open_span_ids_state, open_span_trace_state, ddtrace_generate_span_id, set_span,
      upd_same, ha] at hpid htid
    unfold ddtrace_open_span at h
    by_cases htz : tid = 0
    · simp only [ha, deref, bind, Except.bind, hps, pure, Except.pure, reduceCtorEq, beq_iff_eq,
        if_false, set_span, set_stack, ddtrace_generate_span_id, upd_same, hr, Bool.not_false,
        Bool.true_or, if_true, hpid, htid, hact, _get_nanoseconds, htz,
        show (!(some r == (none : Option ℕ)) || some ps == (none : Option ℕ)) = true from rfl,
        Except.ok.injEq] at h
      subst h
      refine ⟨fun x => ?_, ?_, fun j => ?_⟩
      · by_cases hx : x = span <;> simp [upd_apply, hx]
      · simp [open_span_enter, hps]
      · by_cases hj : j = k2 <;> simp [open_span_enter, hps, upd_apply, hj]
    · simp only [ha, deref, bind, Except.bind, hps, pure, Except.pure, reduceCtorEq, beq_iff_eq,
        if_false, set_span, set_stack, ddtrace_generate_span_id, upd_same, hr, Bool.not_false,
        Bool.true_or, if_true, hpid, htid, hact, _get_nanoseconds, htz,
        show (!(some r == (none : Option ℕ)) || some ps == (none : Option ℕ)) = true from rfl,
        Except.ok.injEq] at h
      subst h
      refine ⟨fun x => ?_, ?_, fun j => ?_⟩
      · by_cases hx : x = span <;> simp [upd_apply, hx]
      · simp [open_span_enter, hps]
      · by_cases hj : j = k2 <;> simp [open_span_enter, hps, upd_apply, hj]

theorem open_span_enter_primary (s : State) (k : Nat)
    (hps : (s.span_stacks k).parent_stack = none) :
    (open_span_enter s k).1 = s.stack_top
    ∧ ((open_span_enter s k).2.span_stacks s.stack_top).root_span = none
    ∧ ((open_span_enter s k).2.span_stacks s.stack_top).active = none
    ∧ ∀ j, j ≠ s.stack_top → (open_span_enter s k).2.span_stacks j = s.span_stacks j := by
  refine ⟨by simp [open_span_enter, hps, ddtrace_init_root_span_stack, dd_alloc_span_stack],
    by simp [open_span_enter, hps, ddtrace_init_root_span_stack, dd_alloc_span_stack, set_stack],
    by simp [open_span_enter, hps, ddtrace_init_root_span_stack, dd_alloc_span_stack, set_stack],
    fun j hj => by
      simp [open_span_enter, hps, ddtrace_init_root_span_stack, dd_alloc_span_stack, set_stack,
        upd_apply, hj]⟩

theorem open_span_enter_other (s : State) (k ps : Nat)
    (hps : (s.span_stacks k).parent_stack = some ps) : open_span_enter s k = (k, s) := by
  simp [open_span_enter, hps]

theorem open_span_total (H : Hooks) (s : State) (span k pid tid : Nat)
    (ha : s.active_stack = some k)
    (hh : (s.span_stacks k).parent_stack = none ∨ (s.span_stacks k).root_span ≠ none →
      H.ddtrace_peek_span_id
          (open_span_ids_state (open_span_enter s k).2 (open_span_enter s k).1 span) = .ok pid
      ∧ H.ddtrace_peek_trace_id
          (open_span_trace_state (open_span_enter s k).2 (open_span_enter s k).1 span pid)
        = .ok tid)
    (hact : (s.span_stacks k).parent_stack ≠ none → (s.span_stacks k).root_span ≠ none →
      (s.span_stacks k).active ≠ none) :
    ∃ s2, ddtrace_open_span H s span = .ok s2
      ∧ (s2.spans span).stack = some (open_span_enter s k).1
      ∧ (s2.span_stacks (open_span_enter s k).1).active = some span
      ∧ s2.active_stack = some (open_span_enter s k).1
      ∧ (s2.span_stacks (open_span_enter s k).1).root_span
          = (match ((open_span_enter s k).2.span_stacks (open_span_enter s k).1).root_span with
            | some r => some r
            | none => some span)
      ∧ (s2.spans span).root = (s2.span_stacks (open_span_enter s k).1).root_span
      ∧ (s2.spans span).parent
          = (if ((open_span_enter s k).2.span_stacks (open_span_enter s k).1).root_span = none
            then none
            else ((open_span_enter s k).2.span_stacks (open_span_enter s k).1).active)
      ∧ (∀ x, x ≠ span → s2.spans x = s.spans x)
      ∧ (∀ j, j ≠ (open_span_enter s k).1 →
          s2.span_stacks j = (open_span_enter s k).2.span_stacks j)
      ∧ s2.open_spans_count = incr32 s.open_spans_count
      ∧ s2.closed_spans_count = s.closed_spans_count
      ∧ s2.dropped_spans_count = s.dropped_spans_count
      ∧ s2.span_top = s.span_top ∧ s2.id_stream = s.id_stream
      ∧ open_keeps s s2 k := by
  cases hps : (s.span_stacks k).parent_stack with
  | none =>
    obtain ⟨h1, h2⟩ := hh (Or.inl hps)
    obtain ⟨s2, e0, e_par, e_st, _, _, _, e_root, e_oth, e_act, e_rs, _, _, _, _, e_os,
      e_as, _, e_top, e_oc, e_cc, e_dc, e_ids⟩ := open_span_primary H s span k pid tid ha hps h1 h2
    obtain ⟨p1, p2, p3, p4⟩ := open_span_enter_primary s k hps
    refine ⟨s2, e0, ?_, ?_, ?_, ?_, ?_, ?_, e_oth, ?_, e_oc, e_cc, e_dc, e_top, e_ids,
      open_span_rest H s span k s2 ha e0⟩
    · rw [p1]; exact e_st
    · rw [p1]; exact e_act
    · rw [p1]; exact e_as
    · rw [p1, p2]; exact e_rs
    · rw [p1, e_rs]; exact e_root
    · rw [p1, p2]; simpa using e_par
    · intro j hj
      rw [p1] at hj
      rw [e_os j hj, p4 j hj]
  | some ps =>
    have hE := open_span_enter_other s k ps hps
    cases hr : (s.span_stacks k).root_span with
    | none =>
      obtain ⟨s2, e0, e_par, e_st, _, _, _, e_root, e_oth, e_act, e_rs, _, _, e_os, e_as,
        e_oc, e_cc, e_dc, e_top, e_ids⟩ := open_span_root H s span k ps ha hps hr
      refine ⟨s2, e0, ?_, ?_, ?_, ?_, ?_, ?_, e_oth, ?_, e_oc, e_cc, e_dc, e_top, e_ids,
        open_span_rest H s span k s2 ha e0⟩
      · rw [hE]; exact e_st
      · rw [hE]; exact e_act
      · rw [hE]; exact e_as
      · rw [hE]; simp only [hr]; exact e_rs
      · rw [hE]; simp only [e_rs]; exact e_root
      · rw [hE]; simp only [hr, if_true]; exact e_par
      · intro j hj
        rw [hE] at hj ⊢
        exact e_os j hj
    | some r =>
      obtain ⟨h1, h2⟩ := hh (Or.inr (by rw [hr]; simp))
      rw [hE] at h1 h2
      obtain ⟨p, hp⟩ := Option.ne_none_iff_exists'.1
        (hact (by rw [hps]; simp) (by rw [hr]; simp))
      obtain ⟨s2, e0, e_par, e_st, _, _, _, e_root, e_oth, e_act, e_rs, _, _, e_os, e_as,
        e_oc, e_cc, e_dc, e_top, e_ids⟩ :=
        open_span_inherit H s span k ps r p pid tid ha hps hr hp h1 h2
      refine ⟨s2, e0, ?_, ?_, ?_, ?_, ?_, ?_, e_oth, ?_, e_oc, e_cc, e_dc, e_top, e_ids,
        open_span_rest H s span k s2 ha e0⟩
      · rw [hE]; exact e_st
      · rw [hE]; exact e_act
      · rw [hE]; exact e_as
      · rw [hE]; simp only [hr]; exact e_rs
      · rw [hE]; simp only [e_rs]; exact e_root
      · rw [hE]; simp only [hr, hp, reduceCtorEq, if_false]; exact e_par
      · intro j hj
        rw [hE] at hj ⊢
        exact e_os j hj

theorem close_open_spans_stuck (F : Nat) (force : Bool) (k t : Nat) :
    ∀ (n : Nat) (s : State), (s.span_stacks k).active = some t → (s.spans t).stack = some k →
      (s.spans t).type = DDTRACE_SPAN_CLOSED → s.autofinish_spans = true →
      close_open_spans_of_stack F force k n s = .error Fault.out_of_fuel
  | 0, _, _, _, _, _ => rfl
  | n + 1, s, ha, hs, hty, hauto => by
    rw [close_open_spans_of_stack]
    simp only [ha, hs, if_true, hauto, true_or]
    cases F with
    | zero => rfl
    | succ f =>
      have hst : ((dd_trace_stop_span_time s t).span_stacks k).active = some t := ha
      have hss : ((dd_trace_stop_span_time s t).spans t).stack = some k := by
        simp [dd_trace_stop_span_time, set_span, hs]
      have hty2 : ((dd_trace_stop_span_time s t).spans t).type = DDTRACE_SPAN_CLOSED := by
        simp [dd_trace_stop_span_time, set_span, hty]
      have hc : ddtrace_close_span (f + 1) (dd_trace_stop_span_time s t) (some t)
          = .ok (dd_trace_stop_span_time s t) := by
        rw [ddtrace_close_span]
        unfold ddtrace_has_top_internal_span
        simp only [hss, deref, bind, Except.bind, hst]
        rw [has_top_loop]
        simp [hty2, pure, Except.pure]
      rw [hc]
      exact close_open_spans_stuck (f + 1) force k t n _ hst hss hty2 hauto

theorem drain_clears_refl (s : State) : drain_clears s s :=
  fun _ => ⟨Or.inl rfl, Or.inl rfl⟩

theorem drain_clears_trans {s s2 s3 : State} (h1 : drain_clears s s2)
    (h2 : drain_clears s2 s3) : drain_clears s s3 := by
  intro j
  obtain ⟨a1, a2⟩ := h1 j
  obtain ⟨b1, b2⟩ := h2 j
  constructor
  · rcases b1 with b | b
    · rcases a1 with a | a
      · exact Or.inl (by rw [b, a])
      · exact Or.inr (by rw [b, a])
    · exact Or.inr b
  · rcases b2 with b | b
    · rcases a2 with a | a
      · exact Or.inl (by rw [b, a])
      · exact Or.inr (by rw [b, a])
    · exact Or.inr b

theorem drain_clears_set_flush (s : State) (k : Nat) :
    drain_clears s (set_stack s k { s.span_stacks k with closed_ring_flush := none }) := by
  intro j
  by_cases hj : j = k
  · subst hj; simp [set_stack]
  · simp [set_stack, upd_apply, hj]

theorem drain_clears_set_top (s : State) (k : Nat) :
    drain_clears s (set_stack s k { s.span_stacks k with top_closed_stack := none }) := by
  intro j
  by_cases hj : j = k
  · subst hj; simp [set_stack]
  · simp [set_stack, upd_apply, hj]

theorem serialize_stacks_clears (rf : Nat) :
    ∀ (fuel : Nat) (s : State) (stack : Nat) (nx : Option Nat) (acc : List Nat)
      (r : List Nat × State),
      serialize_stacks rf fuel s stack nx acc = .ok r → drain_clears s r.2
  | 0, _, _, _, _, _, h => by simp [serialize_stacks] at h
  | fuel + 1, s, stack, nx, acc, r, h => by
    rw [serialize_stacks] at h
    obtain ⟨f, _, h⟩ := except_bind_ok _ _ _ h
    obtain ⟨out, _, h⟩ := except_bind_ok _ _ _ h
    cases nx with
    | none =>
      cases h
      exact drain_clears_set_flush s stack
    | some st =>
      exact drain_clears_trans (drain_clears_set_flush s stack)
        (serialize_stacks_clears rf fuel _ _ _ _ _ h)

theorem serialize_rootstacks_clears (inf : Nat) :
    ∀ (fuel : Nat) (s : State) (r : Nat) (acc : List Nat) (res : List Nat × State),
      serialize_rootstacks inf fuel s r acc = .ok res → drain_clears s res.2
  | 0, _, _, _, _, h => by simp [serialize_rootstacks] at h
  | fuel + 1, s, r, acc, res, h => by
    rw [serialize_rootstacks] at h
    obtain ⟨v, hv, h⟩ := except_bind_ok _ _ _ h
    have h1 := drain_clears_trans (drain_clears_set_top s r)
      (serialize_stacks_clears inf inf _ _ _ _ _ hv)
    cases hn : (s.span_stacks r).next with
    | none =>
      simp only [hn] at h
      cases h
      exact h1
    | some r2 =>
      simp only [hn] at h
      exact drain_clears_trans h1 (serialize_rootstacks_clears inf fuel _ _ _ _ h)

theorem serialize_worklist_clears (inf : Nat) :
    ∀ (fuel : Nat) (s : State) (acc : List Nat) (res : List Nat × State),
      serialize_worklist inf fuel s acc = .ok res → drain_clears s res.2
  | 0, _, _, _, h => by simp [serialize_worklist] at h
  | fuel + 1, s, acc, res, h => by
    rw [serialize_worklist] at h
    cases ht : s.top_closed_stack with
    | none =>
      simp only [ht] at h
      cases h
      exact drain_clears_refl s
    | some r =>
      simp only [ht] at h
      obtain ⟨v, hv, h⟩ := except_bind_ok _ _ _ h
      have h1 : drain_clears s v.2 :=
        @drain_clears_trans s { s with top_closed_stack := none } v.2
          (fun _ => ⟨Or.inl rfl, Or.inl rfl⟩) (serialize_rootstacks_clears inf inf _ _ _ _ hv)
      exact drain_clears_trans h1 (serialize_worklist_clears inf fuel _ _ _ h)

theorem serialize_closed_spans_clears (fuel : Nat) (s : State) (res : List Nat × State)
    (h : ddtrace_serialize_closed_spans fuel s = .ok res) : drain_clears s res.2 :=
  serialize_worklist_clears fuel fuel s [] res h

theorem mark_stage_sub (s : State) (k h r R : Nat)
    (hc : (s.span_stacks k).closed_ring = some h)
    (hf : (s.span_stacks k).closed_ring_flush = none)
    (hr : (s.span_stacks k).root_span = some r) (hrs : (s.spans r).stack ≠ some k)
    (hty : (s.spans r).type ≠ DDTRACE_SPAN_CLOSED)
    (hR : (s.span_stacks k).root_stack = some R) :
    dd_mark_closed_spans_flushable s k = .ok (stage_sub s k h R) := by
  unfold dd_mark_closed_spans_flushable
  simp [hc, hf, bind, Except.bind, set_stack, hr, deref, hrs, hty, hR, pure, Except.pure,
    stage_sub]

theorem mark_stage_global_or (s : State) (k h r : Nat)
    (hc : (s.span_stacks k).closed_ring = some h)
    (hf : (s.span_stacks k).closed_ring_flush = none)
    (hr : (s.span_stacks k).root_span = some r)
    (hrs : (s.spans r).stack = some k ∨ (s.spans r).type = DDTRACE_SPAN_CLOSED) :
    dd_mark_closed_spans_flushable s k = .ok (stage_global s k h) := by
  unfold dd_mark_closed_spans_flushable
  simp [hc, hf, bind, Except.bind, set_stack, hr, deref, hrs, pure, Except.pure, stage_global]

theorem mark_splice (s : State) (k ring flush : Nat)
    (hc : (s.span_stacks k).closed_ring = some ring)
    (hf : (s.span_stacks k).closed_ring_flush = some flush) :
    dd_mark_closed_spans_flushable s k = .ok (splice_state s k ring flush) := by
  unfold dd_mark_closed_spans_flushable
  simp [hc, hf, bind, Except.bind, set_stack, set_span, pure, Except.pure, splice_state]

theorem mark_cases (s : State) (k : Nat) (s2 : State)
    (h : dd_mark_closed_spans_flushable s k = .ok s2) :
    ((s.span_stacks k).closed_ring = none ∧ s2 = s)
    ∨ (∃ ring flush, (s.span_stacks k).closed_ring = some ring
        ∧ (s.span_stacks k).closed_ring_flush = some flush ∧ s2 = splice_state s k ring flush)
    ∨ (∃ ring r, (s.span_stacks k).closed_ring = some ring
        ∧ (s.span_stacks k).closed_ring_flush = none ∧ (s.span_stacks k).root_span = some r
        ∧ ((s.spans r).stack = some k ∨ (s.spans r).type = DDTRACE_SPAN_CLOSED)
        ∧ s2 = stage_global s k ring)
    ∨ (∃ ring r R, (s.span_stacks k).closed_ring = some ring
        ∧ (s.span_stacks k).closed_ring_flush = none ∧ (s.span_stacks k).root_span = some r
        ∧ ¬ ((s.spans r).stack = some k ∨ (s.spans r).type = DDTRACE_SPAN_CLOSED)
        ∧ (s.span_stacks k).root_stack = some R ∧ s2 = stage_sub s k ring R) := by
  cases hc : (s.span_stacks k).closed_ring with
  | none =>
    unfold dd_mark_closed_spans_flushable at h
    simp only [hc, pure, Except.pure] at h
    cases h
    exact Or.inl ⟨rfl, rfl⟩
  | some ring =>
    right
    cases hf : (s.span_stacks k).closed_ring_flush with
    | some flush =>
      left
      rw [mark_splice s k ring flush hc hf] at h
      cases h
      exact ⟨ring, flush, rfl, rfl, rfl⟩
    | none =>
      right
      cases hr : (s.span_stacks k).root_span with
      | none =>
        unfold dd_mark_closed_spans_flushable at h
        simp [hc, hf, hr, set_stack, deref, bind, Except.bind] at h
      | some r =>
        by_cases hown : (s.spans r).stack = some k ∨ (s.spans r).type = DDTRACE_SPAN_CLOSED
        · left
          rw [mark_stage_global_or s k ring r hc hf hr hown] at h
          cases h
          exact ⟨ring, r, rfl, rfl, rfl, hown, rfl⟩
        · right
          cases hrs : (s.span_stacks k).root_stack with
          | none =>
            unfold dd_mark_closed_spans_flushable at h
            simp [hc, hf, hr, hown, hrs, set_stack, deref, bind, Except.bind] at h
          | some R =>
            rw [mark_stage_sub s k ring r R hc hf hr (fun e => hown (Or.inl e))
              (fun e => hown (Or.inr e)) hrs] at h
            cases h
            exact ⟨ring, r, R, rfl, rfl, rfl, hown, rfl, rfl⟩

theorem stage_sub_facts (s : State) (k h R : Nat) :
    (stage_sub s k h R).spans = s.spans
    ∧ (stage_sub s k h R).top_closed_stack = s.top_closed_stack
    ∧ ((stage_sub s k h R).span_stacks R).top_closed_stack = some k
    ∧ ((stage_sub s k h R).span_stacks k).next = (s.span_stacks R).top_closed_stack
    ∧ ((stage_sub s k h R).span_stacks k).closed_ring_flush = some h
    ∧ ((stage_sub s k h R).span_stacks k).closed_ring = none
    ∧ (∀ j, j ≠ k → j ≠ R → (stage_sub s k h R).span_stacks j = s.span_stacks j)
    ∧ (∀ j, j ≠ k → ((stage_sub s k h R).span_stacks j).next = (s.span_stacks j).next
        ∧ ((stage_sub s k h R).span_stacks j).closed_ring_flush
            = (s.span_stacks j).closed_ring_flush
        ∧ ((stage_sub s k h R).span_stacks j).closed_ring = (s.span_stacks j).closed_ring)
    ∧ (∀ j, j ≠ R → ((stage_sub s k h R).span_stacks j).top_closed_stack
        = (s.span_stacks j).top_closed_stack)
    ∧ ∀ j, ((stage_sub s k h R).span_stacks j).active = (s.span_stacks j).active
        ∧ ((stage_sub s k h R).span_stacks j).root_span = (s.span_stacks j).root_span
        ∧ ((stage_sub s k h R).span_stacks j).root_stack = (s.span_stacks j).root_stack
        ∧ ((stage_sub s k h R).span_stacks j).parent_stack = (s.span_stacks j).parent_stack := by
  refine ⟨rfl, rfl, ?_, ?_, ?_, ?_, ?_, ?_, ?_, ?_⟩
  · rcases eq_or_ne R k with rfl | e
    · simp [stage_sub, set_stack, upd_apply]
    · simp [stage_sub, set_stack, upd_apply, e, e.symm]
  · rcases eq_or_ne R k with rfl | e
    · simp [stage_sub, set_stack, upd_apply]
    · simp [stage_sub, set_stack, upd_apply, e, e.symm]
  · rcases eq_or_ne R k with rfl | e
    · simp [stage_sub, set_stack, upd_apply]
    · simp [stage_sub, set_stack, upd_apply, e, e.symm]
  · simp [stage_sub, set_stack, upd_apply]
  · intro j h1 h2
    simp [stage_sub, set_stack, upd_apply, h1, h2]
  · intro j h1
    rcases eq_or_ne j R with rfl | e
    · simp [stage_sub, set_stack, upd_apply, h1, h1.symm]
    · simp [stage_sub, set_stack, upd_apply, h1, e]
  · intro j h1
    rcases eq_or_ne j k with rfl | e
    · simp [stage_sub, set_stack, upd_apply, h1, h1.symm]
    · simp [stage_sub, set_stack, upd_apply, h1, e]
  · intro j
    rcases eq_or_ne j k with rfl | e1
    · rcases eq_or_ne R j with rfl | e3
      · simp [stage_sub, set_stack, upd_apply]
      · simp [stage_sub, set_stack, upd_apply, e3, e3.symm]
    · rcases eq_or_ne j R with rfl | e2
      · simp [stage_sub, set_stack, upd_apply, e1, e1.symm]
      · simp [stage_sub, set_stack, upd_apply, e1, e2]

theorem close_drop_induct (P : State → Prop)
    (hswitch : ∀ s t s2, P s → ddtrace_switch_span_stack s t = .ok s2 → P s2)
    (hstop : ∀ s u, P s → P (dd_trace_stop_span_time s u))
    (hprio : ∀ s p, P s → P (ddtrace_set_prioritySampling_on_root s p))
    (htop : ∀ fuel s span s2, P s →
      ddtrace_close_top_span_without_stack_swap fuel s span = .ok s2 → P s2)
    (hpop : ∀ fuel s span stack s2, P s → (s.spans span).stack = some stack →
      drop_span_pop fuel s span stack = .ok s2 → P s2) :
    ∀ fuel : Nat,
      (∀ s sp s2, P s → ddtrace_close_span fuel s sp = .ok s2 → P s2)
      ∧ (∀ s u s2, P s → ddtrace_close_userland_spans_until fuel s u = .ok s2 → P s2)
      ∧ (∀ s x s2, P s → ddtrace_drop_span fuel s x = .ok s2 → P s2) := by
  intro fuel
  induction fuel with
  | zero =>
    refine ⟨fun s sp s2 _ h => ?_, fun s u s2 _ h => ?_, fun s x s2 _ h => ?_⟩
    · simp [ddtrace_close_span] at h
    · simp [ddtrace_close_userland_spans_until] at h
    · simp [ddtrace_drop_span] at h
  | succ f ih =>
    obtain ⟨ihc, ihu, ihd⟩ := ih
    refine ⟨fun s sp s2 hP h => ?_, fun s u s2 hP h => ?_, fun s x s2 hP h => ?_⟩
    · cases sp with
      | none =>
        rw [ddtrace_close_span] at h
        cases h
        exact hP
      | some t =>
        rw [ddtrace_close_span] at h
        obtain ⟨b, _, h⟩ := except_bind_ok _ _ _ h
        by_cases hc : (!b || (s.spans t).type == DDTRACE_SPAN_CLOSED) = true
        · rw [if_pos hc] at h
          cases h
          exact hP
        · rw [if_neg hc] at h
          obtain ⟨s1, h1, h⟩ := except_bind_ok _ _ _ h
          obtain ⟨s3, h3, h⟩ := except_bind_ok _ _ _ h
          have e1 : P s1 := by
            split_ifs at h1
            · obtain ⟨st, _, h1⟩ := except_bind_ok _ _ _ h1
              exact hswitch s st s1 hP h1
            · cases h1
              exact hP
          exact htop f s3 t s2 (ihu s1 t s3 e1 h3) h
    · rw [ddtrace_close_userland_spans_until] at h
      obtain ⟨us, _, h⟩ := except_bind_ok _ _ _ h
      cases ha : (s.span_stacks us).active with
      | none =>
        simp only [ha] at h
        cases h
        exact hP
      | some a =>
        simp only [ha] at h
        split_ifs at h with hc hauto
        · obtain ⟨s1, h1, h⟩ := except_bind_ok _ _ _ h
          exact ihu s1 u s2 (ihc _ _ s1 (hstop s a hP) h1) h
        · obtain ⟨s1, h1, h⟩ := except_bind_ok _ _ _ h
          exact ihu s1 u s2 (ihd _ _ s1 hP h1) h
        · cases h
          exact hP
    · rw [ddtrace_drop_span] at h
      obtain ⟨stack, hst, h⟩ := except_bind_ok _ _ _ h
      obtain ⟨s1, h1, h⟩ := except_bind_ok _ _ _ h
      have hstk : (s.spans x).stack = some stack := by
        cases hx : (s.spans x).stack with
        | none => rw [hx] at hst; simp [deref] at hst
        | some v => rw [hx] at hst; simp only [deref, Except.ok.injEq] at hst; rw [hst]
      have e1 : P s1 ∧ s1.spans = s.spans := by
        split_ifs at h1
        · refine ⟨hswitch s stack s1 hP h1, ?_⟩
          unfold ddtrace_switch_span_stack at h1
          obtain ⟨_, _, h1⟩ := except_bind_ok _ _ _ h1
          cases h1
          rfl
        · cases h1
          exact ⟨hP, rfl⟩
      split_ifs at h
      · exact ihc _ _ s2 (hstop _ x (hprio s1 _ e1.1)) h
      · exact hpop f s1 x stack s2 e1.1 (by rw [e1.2]; exact hstk) h

theorem chain_emptied_congr (s s2 : State) (k : Nat)
    (ha : (s2.span_stacks k).active = (s.span_stacks k).active)
    (hs : ∀ x, (s2.spans x).stack = (s.spans x).stack) :
    chain_emptied s2 k = chain_emptied s k := by
  unfold chain_emptied
  rw [ha]
  cases (s.span_stacks k).active with
  | none => rfl
  | some a => simp only [hs a]

theorem emptied_unringed_congr (s s2 : State)
    (ha : ∀ k, (s2.span_stacks k).active = (s.span_stacks k).active)
    (hc : ∀ k, (s2.span_stacks k).closed_ring = (s.span_stacks k).closed_ring)
    (hs : ∀ x, (s2.spans x).stack = (s.spans x).stack)
    (h : emptied_unringed s) : emptied_unringed s2 := by
  intro k he
  rw [chain_emptied_congr s s2 k (ha k) hs] at he
  rw [hc k]
  exact h k he

theorem mark_closed_ring (s : State) (k : Nat) (s2 : State)
    (h : dd_mark_closed_spans_flushable s k = .ok s2) :
    (s2.span_stacks k).closed_ring = none
    ∧ ∀ j, j ≠ k → (s2.span_stacks j).closed_ring = (s.span_stacks j).closed_ring := by
  rcases mark_cases s k s2 h with ⟨hc, rfl⟩ | ⟨ring, flush, _, _, rfl⟩ | ⟨ring, r, _, _, _, _, rfl⟩ |
    ⟨ring, r, R, _, _, _, _, _, rfl⟩
  · exact ⟨hc, fun _ _ => rfl⟩
  · refine ⟨by simp [splice_state, set_stack, set_span], fun j hj => ?_⟩
    simp [splice_state, set_stack, set_span, upd_apply, hj]
  · refine ⟨by simp [stage_global, set_stack], fun j hj => ?_⟩
    simp [stage_global, set_stack, upd_apply, hj]
  · obtain ⟨_, _, _, _, _, f6, _, f8, _⟩ := stage_sub_facts s k ring R
    exact ⟨f6, fun j hj => (f8 j hj).2.2⟩

theorem entry_release_closed_ring (s : State) (k : Nat) (s2 : State)
    (h : entry_release s k = .ok s2) :
    ∀ j, (s2.span_stacks j).closed_ring = (s.span_stacks j).closed_ring := by
  unfold entry_release at h
  simp only [ddtrace_fetch_prioritySampling_from_root] at h
  split_ifs at h
  · obtain ⟨p, _, h⟩ := except_bind_ok _ _ _ h
    unfold ddtrace_switch_span_stack at h
    obtain ⟨_, _, h⟩ := except_bind_ok _ _ _ h
    cases h
    intro j
    by_cases hj : j = k <;> simp [set_stack, upd_apply, hj]
  · cases h
    intro j
    by_cases hj : j = k <;> simp [set_stack, upd_apply, hj]

theorem flush_tracer_drain (fuel : Nat) (s s2 : State)
    (h : ddtrace_flush_tracer fuel s = .ok s2) :
    drain_frame s { s2 with sent := s.sent } ∧ drain_clears s s2 := by
  unfold ddtrace_flush_tracer at h
  obtain ⟨r, hr, h⟩ := except_bind_ok _ _ _ h
  cases h
  obtain ⟨d0, d1, d2, d3, d4, d5, d6, d7, d8, d9, d10, d11, d12, d13, d14, _, d16⟩ :=
    serialize_closed_spans_frame fuel s r hr
  exact ⟨⟨d0, d1, d2, d3, d4, d5, d6, d7, d8, d9, d10, d11, d12, d13, d14, rfl, d16⟩,
    serialize_closed_spans_clears fuel s r hr⟩

theorem close_entry_closed_ring (fuel : Nat) (s : State) (k : Nat) (s2 : State)
    (h : dd_close_entry_span_of_stack fuel s k = .ok s2) :
    (s2.span_stacks k).closed_ring = none
    ∧ ∀ j, j ≠ k → (s2.span_stacks j).closed_ring = (s.span_stacks j).closed_ring := by
  rw [close_entry_eq] at h
  obtain ⟨m, hm, h⟩ := except_bind_ok _ _ _ h
  obtain ⟨m1, m2⟩ := mark_closed_ring s k m hm
  by_cases ho : entry_owns m k = true
  · rw [if_pos ho] at h
    obtain ⟨m3, hm3, h⟩ := except_bind_ok _ _ _ h
    have r1 := entry_release_closed_ring m k m3 hm3
    by_cases hf : m3.auto_flush_enabled = true
    · rw [if_pos hf] at h
      have d := (flush_tracer_drain fuel m3 s2 h).1
      have dk : ∀ j, (s2.span_stacks j).closed_ring = (m3.span_stacks j).closed_ring :=
        fun j => (d.2.2.2.2.2.2.2.2.2.2.2.2.2.2.2.2 j).2.2.2.2.1
      exact ⟨by rw [dk, r1, m1], fun j hj => by rw [dk, r1, m2 j hj]⟩
    · rw [if_neg hf] at h
      cases h
      exact ⟨by rw [r1, m1], fun j hj => by rw [r1, m2 j hj]⟩
  · rw [if_neg ho] at h
    cases h
    exact ⟨m1, m2⟩

theorem emptied_unringed_close_top (fuel : Nat) (s : State) (span : Nat) (s2 : State)
    (hE : emptied_unringed s)
    (h : ddtrace_close_top_span_without_stack_swap fuel s span = .ok s2) :
    emptied_unringed s2 := by
  cases hs : (s.spans span).stack with
  | none =>
    unfold ddtrace_close_top_span_without_stack_swap at h
    simp [hs, deref, bind, Except.bind] at h
  | some stack =>
    rw [close_top_eq fuel s span stack hs] at h
    obtain ⟨c0, _, _, _, _, _, _, _, _, _, _, _, _, _, _, c15⟩ := close_top_core_frame s span stack
    have hother : ∀ j, j ≠ stack → chain_emptied (close_top_core s span stack) j = true →
        ((close_top_core s span stack).span_stacks j).closed_ring = none := by
      intro j hj he
      obtain ⟨a1, a2⟩ := (c15 j).2.2.2.2.2.2 hj
      rw [chain_emptied_congr s _ j a1 (fun x => (c0 x).1)] at he
      rw [a2]
      exact hE j he
    by_cases hem : chain_emptied (close_top_core s span stack) stack = true
    · rw [if_pos hem] at h
      obtain ⟨e1, e2⟩ := close_entry_closed_ring fuel _ stack s2 h
      obtain ⟨f0, _, f2, _⟩ := close_entry_frame fuel _ stack s2 h
      intro j he
      by_cases hj : j = stack
      · rw [hj]
        exact e1
      · rw [e2 j hj]
        rw [chain_emptied_congr _ s2 j (f2 j).1 (fun x => (f0 x).1)] at he
        exact hother j hj he
    · rw [if_neg hem] at h
      cases h
      intro j he
      by_cases hj : j = stack
      · rw [hj] at he
        exact absurd he hem
      · exact hother j hj he

theorem emptied_unringed_drop_pop (fuel : Nat) (s : State) (span stack : Nat) (s2 : State)
    (hE : emptied_unringed s) (h : drop_span_pop fuel s span stack = .ok s2) :
    emptied_unringed s2 := by
  rw [drop_pop_eq] at h
  obtain ⟨s1, h1, h⟩ := except_bind_ok _ _ _ h
  cases h
  have hd : emptied_unringed s1 → emptied_unringed (dd_drop_span s1 span false) := by
    intro hh
    refine emptied_unringed_congr s1 _ (fun _ => rfl) (fun _ => rfl) (fun x => ?_) hh
    by_cases hx : x = span <;>
      simp [dd_drop_span, dd_drop_span_nodestroy, set_span, upd_apply, hx]
  apply hd
  have hother : ∀ j, j ≠ stack → chain_emptied (drop_pop_core s span stack) j = true →
      ((drop_pop_core s span stack).span_stacks j).closed_ring = none := by
    intro j hj he
    have a1 : ((drop_pop_core s span stack).span_stacks j).active = (s.span_stacks j).active := by
      simp [drop_pop_core, set_stack, upd_apply, hj]
    have a2 : ((drop_pop_core s span stack).span_stacks j).closed_ring
        = (s.span_stacks j).closed_ring := by
      simp [drop_pop_core, set_stack, upd_apply, hj]
    rw [chain_emptied_congr s _ j a1 (fun x => rfl)] at he
    rw [a2]
    exact hE j he
  by_cases hem : chain_emptied (drop_pop_core s span stack) stack = true
  · rw [if_pos hem] at h1
    obtain ⟨e1, e2⟩ := close_entry_closed_ring fuel _ stack s1 h1
    obtain ⟨f0, _, f2, _⟩ := close_entry_frame fuel _ stack s1 h1
    intro j he
    by_cases hj : j = stack
    · rw [hj]
      exact e1
    · rw [e2 j hj]
      rw [chain_emptied_congr _ s1 j (f2 j).1 (fun x => (f0 x).1)] at he
      exact hother j hj he
  · rw [if_neg hem] at h1
    cases h1
    intro j he
    by_cases hj : j = stack
    · rw [hj] at he
      exact absurd he hem
    · exact hother j hj he

theorem emptied_unringed_close_drop (fuel : Nat) :
    (∀ s sp s2, emptied_unringed s → ddtrace_close_span fuel s sp = .ok s2 →
      emptied_unringed s2)
    ∧ (∀ s u s2, emptied_unringed s → ddtrace_close_userland_spans_until fuel s u = .ok s2 →
      emptied_unringed s2)
    ∧ (∀ s x s2, emptied_unringed s → ddtrace_drop_span fuel s x = .ok s2 →
      emptied_unringed s2) := by
  refine close_drop_induct emptied_unringed ?_ ?_ ?_ ?_ ?_ fuel
  · intro s t s2 hE h
    unfold ddtrace_switch_span_stack at h
    obtain ⟨_, _, h⟩ := except_bind_ok _ _ _ h
    cases h
    exact hE
  · intro s u hE
    refine emptied_unringed_congr s _ (fun _ => rfl) (fun _ => rfl) (fun x => ?_) hE
    by_cases hx : x = u <;> simp [dd_trace_stop_span_time, set_span, upd_apply, hx]
  · intro s p hE
    unfold ddtrace_set_prioritySampling_on_root
    cases s.active_stack with
    | none => exact hE
    | some a =>
      dsimp only
      cases (s.span_stacks a).root_span with
      | none => exact hE
      | some r =>
        dsimp only
        refine emptied_unringed_congr s _ (fun _ => rfl) (fun _ => rfl) (fun x => ?_) hE
        by_cases hx : x = r <;> simp [set_span, upd_apply, hx]
  · intro fuel s span s2 hE h
    exact emptied_unringed_close_top fuel s span s2 hE h
  · intro fuel s span stack s2 hE _ h
    exact emptied_unringed_drop_pop fuel s span stack s2 hE h

theorem handles_ok_of_ids_frame {s s2 : State} (hi : handles_ok s) (hf : ids_frame s s2) :
    handles_ok s2 := by
  obtain ⟨i2, i3⟩ := hi
  obtain ⟨f0, f1, _, f3⟩ := hf
  refine ⟨fun x p h => ?_, fun k a h => ?_⟩
  · rw [f1]
    exact i2 x p (by rw [← (f0 x).2.1]; exact h)
  · rw [f1]
    rcases f3 k a h with ⟨j, hj⟩ | ⟨x, hx⟩
    · exact i3 j a hj
    · exact i2 x a hx

theorem open_span_facts (H : Hooks) (s : State) (span : Nat) (s2 : State)
    (h : ddtrace_open_span H s span = .ok s2) :
    ∃ k, s.active_stack = some k ∧ open_facts s s2 span k := by
  obtain ⟨k, ha, hcase⟩ := open_span_cases H s span s2 h
  have key : ∀ pid tid,
      ((s.span_stacks k).parent_stack = none ∨ (s.span_stacks k).root_span ≠ none →
        H.ddtrace_peek_span_id
            (open_span_ids_state (open_span_enter s k).2 (open_span_enter s k).1 span) = .ok pid
        ∧ H.ddtrace_peek_trace_id
            (open_span_trace_state (open_span_enter s k).2 (open_span_enter s k).1 span pid)
          = .ok tid) →
      ((s.span_stacks k).parent_stack ≠ none → (s.span_stacks k).root_span ≠ none →
        (s.span_stacks k).active ≠ none) →
      ∃ k, s.active_stack = some k ∧ open_facts s s2 span k := fun pid tid hh hact => by
    obtain ⟨s3, e0, e⟩ := open_span_total H s span k pid tid ha hh hact
    have hs : s3 = s2 := by
      rw [h] at e0
      exact (Except.ok.inj e0).symm
    subst hs
    exact ⟨k, ha, e⟩
  rcases hcase with ⟨hps, pid, tid, hpid, htid⟩ | ⟨ps, hps, hr⟩ |
    ⟨ps, r, p, pid, tid, hps, hr, hact, hpid, htid⟩
  · exact key pid tid (fun _ => ⟨hpid, htid⟩) (fun hn => absurd hps hn)
  · exact key 0 0 (fun hc => by
      rcases hc with hc | hc
      · rw [hps] at hc; cases hc
      · exact absurd hr hc) (fun _ hn => absurd hr hn)
  · have hE := open_span_enter_other s k ps hps
    exact key pid tid (fun _ => by rw [hE]; exact ⟨hpid, htid⟩)
      (fun _ _ => by rw [hact]; simp)

theorem open_span_enter_stacks (s : State) (k : Nat) :
    (∀ j, j ≠ (open_span_enter s k).1 → (open_span_enter s k).2.span_stacks j = s.span_stacks j)
    ∧ (((open_span_enter s k).2.span_stacks (open_span_enter s k).1).active = none
      ∨ ((open_span_enter s k).2.span_stacks (open_span_enter s k).1).active
          = (s.span_stacks k).active) := by
  cases hps : (s.span_stacks k).parent_stack with
  | none =>
    obtain ⟨p1, _, p3, p4⟩ := open_span_enter_primary s k hps
    rw [p1]
    exact ⟨p4, Or.inl p3⟩
  | some ps =>
    rw [open_span_enter_other s k ps hps]
    exact ⟨fun _ _ => rfl, Or.inr rfl⟩

theorem open_new_span_facts (H : Hooks) (type : ddtrace_span_dataype) (s s2 : State)
    (h : open_new_span H type s = .ok s2) :
    ∃ k, s.active_stack = some k
      ∧ open_facts (ddtrace_init_span s type).2 s2 s.span_top k :=
  open_span_facts H (ddtrace_init_span s type).2 s.span_top s2 h

theorem handles_ok_open (H : Hooks) (type : ddtrace_span_dataype) (s s2 : State)
    (hi : handles_ok s) (h : open_new_span H type s = .ok s2) : handles_ok s2 := by
  obtain ⟨k, _, _, e2, _, _, _, e6, e7, e8, _, _, _, e12, _⟩ := open_new_span_facts H type s s2 h
  obtain ⟨g1, g2, g3, g4, g5, g6⟩ := init_span_frame s type
  obtain ⟨n1, n2⟩ := open_span_enter_stacks (ddtrace_init_span s type).2 k
  obtain ⟨i2, i3⟩ := hi
  rw [g2] at n1 n2
  refine ⟨fun x p hp => ?_, fun j a ha => ?_⟩
  · rw [e12, g4]
    by_cases hx : x = s.span_top
    · rw [hx, e6] at hp
      split_ifs at hp
      rcases n2 with n | n
      · rw [n] at hp; cases hp
      · rw [n] at hp
        exact Nat.lt_succ_of_lt (i3 k p hp)
    · rw [e7 x hx, g6 x hx] at hp
      exact Nat.lt_succ_of_lt (i2 x p hp)
  · rw [e12, g4]
    by_cases hj : j = (open_span_enter (ddtrace_init_span s type).2 k).1
    · rw [hj, e2] at ha
      cases ha
      exact Nat.lt_succ_self _
    · rw [e8 j hj, n1 j hj] at ha
      exact Nat.lt_succ_of_lt (i3 j a ha)

theorem emptied_unringed_open (H : Hooks) (type : ddtrace_span_dataype) (s s2 : State)
    (hi : handles_ok s) (hE : emptied_unringed s) (h : open_new_span H type s = .ok s2) :
    emptied_unringed s2 := by
  obtain ⟨k, _, e1, e2, _, _, _, _, e7, e8, _⟩ := open_new_span_facts H type s s2 h
  obtain ⟨g1, g2, g3, g4, g5, g6⟩ := init_span_frame s type
  obtain ⟨n1, _⟩ := open_span_enter_stacks (ddtrace_init_span s type).2 k
  rw [g2] at n1
  intro j he
  by_cases hj : j = (open_span_enter (ddtrace_init_span s type).2 k).1
  · exfalso
    rw [hj] at he
    simp [chain_emptied, e2, e1] at he
  · have hst : s2.span_stacks j = s.span_stacks j := by rw [e8 j hj, n1 j hj]
    rw [hst]
    apply hE j
    unfold chain_emptied at he ⊢
    rw [hst] at he
    cases ha : (s.span_stacks j).active with
    | none => rfl
    | some a =>
      rw [ha] at he
      have hne : a ≠ s.span_top := Nat.ne_of_lt (hi.2 j a ha)
      simp only [e7 a hne, g6 a hne] at he
      exact he

theorem ids_frame_mark_all : ∀ (n : Nat) (s s2 : State),
    mark_all_loop n s = .ok s2 → ids_frame s s2
  | 0, s, s2, h => by
    cases h
    exact ids_frame_refl s
  | n + 1, s, s2, h => by
    rw [mark_all_loop] at h
    obtain ⟨s1, h1, h⟩ := except_bind_ok _ _ _ h
    exact ids_frame_trans (ids_frame_of_entry (mark_frame s (n + 1) s1 h1))
      (ids_frame_mark_all n s1 s2 h)

theorem emptied_unringed_mark (s : State) (k : Nat) (s2 : State) (hE : emptied_unringed s)
    (h : dd_mark_closed_spans_flushable s k = .ok s2) : emptied_unringed s2 := by
  obtain ⟨m1, m2⟩ := mark_closed_ring s k s2 h
  obtain ⟨f0, _, f2, _⟩ := mark_frame s k s2 h
  intro j he
  by_cases hj : j = k
  · rw [hj]
    exact m1
  · rw [m2 j hj]
    rw [chain_emptied_congr s s2 j (f2 j).1 (fun x => (f0 x).1)] at he
    exact hE j he

theorem emptied_unringed_mark_all : ∀ (n : Nat) (s s2 : State), emptied_unringed s →
    mark_all_loop n s = .ok s2 → emptied_unringed s2
  | 0, s, s2, hE, h => by
    cases h
    exact hE
  | n + 1, s, s2, hE, h => by
    rw [mark_all_loop] at h
    obtain ⟨s1, h1, h⟩ := except_bind_ok _ _ _ h
    exact emptied_unringed_mark_all n s1 s2 (emptied_unringed_mark s (n + 1) s1 hE h1) h

theorem emptied_unringed_of_drain {s s2 : State} (hE : emptied_unringed s)
    (hd : drain_frame s s2) : emptied_unringed s2 := by
  obtain ⟨d0, _, _, _, _, _, _, _, _, _, _, _, _, _, _, _, d16⟩ := hd
  exact emptied_unringed_congr s s2 (fun k => (d16 k).1) (fun k => (d16 k).2.2.2.2.1)
    (fun x => by rw [d0]) hE

theorem ring_inv_init (autofinish auto_flush : Bool) (ids : Nat → Nat) :
    ring_inv (ddtrace_init_span_stacks (fresh_state autofinish auto_flush ids)) := by
  refine ⟨⟨fun x p h => ?_, fun k a h => ?_⟩, fun k _ => ?_⟩
  · simp [ddtrace_init_span_stacks, ddtrace_init_root_span_stack, dd_alloc_span_stack,
      set_stack, fresh_state] at h
  · simp only [ddtrace_init_span_stacks, ddtrace_init_root_span_stack, dd_alloc_span_stack,
      set_stack, fresh_state, upd_apply] at h
    split_ifs at h
  · simp only [ddtrace_init_span_stacks, ddtrace_init_root_span_stack, dd_alloc_span_stack,
      set_stack, fresh_state, upd_apply]
    split_ifs <;> rfl

theorem ring_inv_apply_op (s s2 : State) (op : span_op) (hi : ring_inv s)
    (h : apply_op s op = .ok s2) : ring_inv s2 := by
  obtain ⟨hh, hE⟩ := hi
  cases op with
  | init_root_span_stack =>
    cases h
    refine ⟨handles_ok_of_ids_frame hh (ids_frame_init_root s), fun k he => ?_⟩
    by_cases hk : k = s.stack_top
    · simp only [ddtrace_init_root_span_stack, dd_alloc_span_stack, set_stack, upd_apply, hk,
        if_true]
      cases s.active_stack <;> rfl
    · have e : (ddtrace_init_root_span_stack s).2.span_stacks k = s.span_stacks k := by
        simp [ddtrace_init_root_span_stack, dd_alloc_span_stack, set_stack, upd_apply, hk]
      rw [e]
      apply hE k
      unfold chain_emptied at he ⊢
      rw [e] at he
      exact he
  | init_span_stack =>
    simp only [apply_op] at h
    cases hr : ddtrace_init_span_stack s with
    | error e => simp [hr, Except.map] at h
    | ok r =>
      simp only [hr, Except.map] at h
      cases h
      refine ⟨handles_ok_of_ids_frame hh (ids_frame_init_child s r hr), fun k he => ?_⟩
      unfold ddtrace_init_span_stack at hr
      simp only [dd_alloc_span_stack] at hr
      obtain ⟨a, _, hr⟩ := except_bind_ok _ _ _ hr
      cases hr
      by_cases hk : k = s.stack_top
      · simp [set_stack, upd_apply, hk]
      · have e : (set_stack
            { s with span_stacks := upd s.span_stacks s.stack_top {},
                     stack_top := s.stack_top + 1 } s.stack_top
            { (upd s.span_stacks s.stack_top {} s.stack_top) with
              parent_stack := some a,
              active := (upd s.span_stacks s.stack_top {} a).active,
              root_stack := (upd s.span_stacks s.stack_top {} a).root_stack,
              root_span := (upd s.span_stacks s.stack_top {} a).root_span }).span_stacks k
            = s.span_stacks k := by
          simp [set_stack, upd_apply, hk]
        rw [e]
        apply hE k
        unfold chain_emptied at he ⊢
        rw [e] at he
        exact he
  | switch_span_stack t =>
    refine ⟨handles_ok_of_ids_frame hh (ids_frame_switch s t s2 h), ?_⟩
    simp only [apply_op] at h
    unfold ddtrace_switch_span_stack at h
    obtain ⟨_, _, h⟩ := except_bind_ok _ _ _ h
    cases h
    exact hE
  | open_span type fuel dp dt =>
    exact ⟨handles_ok_open _ type s s2 hh h, emptied_unringed_open _ type s s2 hh hE h⟩
  | close_span fuel span =>
    exact ⟨handles_ok_of_ids_frame hh ((ids_frame_close_drop fuel).1 s (some span) s2 h),
      (emptied_unringed_close_drop fuel).1 s (some span) s2 hE h⟩
  | drop_span fuel span =>
    exact ⟨handles_ok_of_ids_frame hh ((ids_frame_close_drop fuel).2.2 s span s2 h),
      (emptied_unringed_close_drop fuel).2.2 s span s2 hE h⟩

theorem ring_inv_apply_stack_op (s s2 : State) (op : stack_op) (hi : ring_inv s)
    (h : apply_stack_op s op = .ok s2) : ring_inv s2 := by
  cases op with
  | span op => exact ring_inv_apply_op s s2 op hi h
  | mark_all_span_stacks_flushable =>
    exact ⟨handles_ok_of_ids_frame hi.1 (ids_frame_mark_all _ s s2 h),
      emptied_unringed_mark_all _ s s2 hi.2 h⟩
  | serialize_closed_spans fuel =>
    simp only [apply_stack_op] at h
    cases hr : ddtrace_serialize_closed_spans fuel s with
    | error e => simp [hr, Except.map] at h
    | ok r =>
      simp only [hr, Except.map] at h
      cases h
      have hd := serialize_closed_spans_frame fuel s r hr
      exact ⟨handles_ok_of_ids_frame hi.1 (ids_frame_of_entry (entry_frame_of_drain hd)),
        emptied_unringed_of_drain hi.2 hd⟩

theorem ring_inv_run : ∀ (ops : List stack_op) (s s2 : State), ring_inv s →
    run_stack_ops ops s = .ok s2 → ring_inv s2
  | [], s, s2, hi, h => by
    cases h
    exact hi
  | op :: ops, s, s2, hi, h => by
    rw [run_stack_ops] at h
    obtain ⟨s1, h1, h⟩ := except_bind_ok _ _ _ h
    exact ring_inv_run ops s1 s2 (ring_inv_apply_stack_op s s1 op hi h1) h

theorem entry_release_context (s : State) (k : Nat) (s2 : State)
    (h : entry_release s k = .ok s2) :
    (s2.span_stacks k).root_span = none
    ∧ (∀ j, j ≠ k → (s2.span_stacks j).root_span = (s.span_stacks j).root_span)
    ∧ s2.active_stack
        = (if (s.span_stacks k).root_stack = some k ∧ s.active_stack = some k then
            (s.span_stacks k).parent_stack else s.active_stack) := by
  unfold entry_release at h
  simp only [ddtrace_fetch_prioritySampling_from_root, set_stack, upd_same] at h
  by_cases hc : (s.span_stacks k).root_stack = some k ∧ s.active_stack = some k
  · rw [if_pos hc] at h
    obtain ⟨p, hp, h⟩ := except_bind_ok _ _ _ h
    unfold ddtrace_switch_span_stack at h
    obtain ⟨_, _, h⟩ := except_bind_ok _ _ _ h
    cases h
    have hpp : (s.span_stacks k).parent_stack = some p := by
      cases hx : (s.span_stacks k).parent_stack with
      | none => rw [hx] at hp; simp [deref] at hp
      | some v => rw [hx] at hp; simp only [deref, Except.ok.injEq] at hp; rw [hp]
    refine ⟨by simp, fun j hj => by simp [upd_apply, hj], ?_⟩
    rw [if_pos hc, hpp]
  · rw [if_neg hc] at h
    cases h
    refine ⟨by simp, fun j hj => by simp [upd_apply, hj], ?_⟩
    rw [if_neg hc]

theorem close_entry_context (fuel : Nat) (s : State) (k : Nat) (s2 : State)
    (h : dd_close_entry_span_of_stack fuel s k = .ok s2) :
    (entry_owns s k = true →
      (s2.span_stacks k).root_span = none
      ∧ s2.active_stack
          = (if (s.span_stacks k).root_stack = some k ∧ s.active_stack = some k then
              (s.span_stacks k).parent_stack else s.active_stack))
    ∧ (entry_owns s k = false →
      (s2.span_stacks k).root_span = (s.span_stacks k).root_span
      ∧ s2.active_stack = s.active_stack)
    ∧ ∀ j, j ≠ k → (s2.span_stacks j).root_span = (s.span_stacks j).root_span := by
  rw [close_entry_eq] at h
  obtain ⟨m, hm, h⟩ := except_bind_ok _ _ _ h
  obtain ⟨k1, _, k3⟩ := mark_keeps s k m hm
  obtain ⟨f0, _, f2, _⟩ := mark_frame s k m hm
  have ho : entry_owns m k = entry_owns s k :=
    entry_owns_congr s m k (k3 k) (fun x => (f0 x).1)
  rw [ho] at h
  by_cases hown : entry_owns s k = true
  · rw [if_pos hown] at h
    obtain ⟨m3, hm3, h⟩ := except_bind_ok _ _ _ h
    obtain ⟨r1, r2, r3⟩ := entry_release_context m k m3 hm3
    rw [(f2 k).2.1, (f2 k).2.2, k1] at r3
    have hfin : s2.active_stack = m3.active_stack
        ∧ ∀ j, (s2.span_stacks j).root_span = (m3.span_stacks j).root_span := by
      by_cases hf : m3.auto_flush_enabled = true
      · rw [if_pos hf] at h
        obtain ⟨d, _⟩ := flush_tracer_drain fuel m3 s2 h
        exact ⟨d.2.2.2.1, fun j => (d.2.2.2.2.2.2.2.2.2.2.2.2.2.2.2.2 j).2.1⟩
      · rw [if_neg hf] at h
        cases h
        exact ⟨rfl, fun _ => rfl⟩
    refine ⟨fun _ => ⟨by rw [hfin.2, r1], by rw [hfin.1, r3]⟩, fun hn => ?_, fun j hj => ?_⟩
    · rw [hown] at hn
      cases hn
    · rw [hfin.2, r2 j hj, k3]
  · rw [if_neg hown] at h
    cases h
    exact ⟨fun hp => absurd hp hown, fun _ => ⟨k3 k, k1⟩, fun j _ => k3 j⟩

theorem open_span_enter_fresh (s : State) (k : Nat) (ha : s.active_stack = some k)
    (hps : (s.span_stacks k).parent_stack = none) :
    (open_span_enter s k).2.span_stacks s.stack_top
      = { parent_stack := some k, root_stack := some s.stack_top } := by
  simp [open_span_enter, hps, ddtrace_init_root_span_stack, dd_alloc_span_stack, set_stack, ha]

theorem decr32_incr32 (c : Nat) (h : c < 2 ^ 32) : decr32 (incr32 c) = c := by
  unfold decr32 incr32
  have h2 : (2 : Nat) ^ 32 = 4294967296 := by norm_num
  rw [h2] at h ⊢
  omega

theorem free_ring_path (s : State) (e : Nat) :
    ∀ (l : List Nat) (y : Nat) (fuel : Nat),
      next_path s.spans y l → l.getLast? = some e → e ∉ l.dropLast → l.length ≤ fuel →
      free_ring_loop s e fuel (some y) = .ok ()
  | [], _, _, _, hl, _, _ => by simp at hl
  | [x], y, fuel, hp, hl, _, hf => by
    obtain ⟨f, rfl⟩ : ∃ f, fuel = f + 1 := ⟨fuel - 1, by simp at hf; omega⟩
    simp at hl
    subst hl
    simp [free_ring_loop, deref, hp.1, bind, Except.bind, pure, Except.pure]
  | x :: x2 :: l, y, fuel, hp, hl, hn, hf => by
    obtain ⟨f, rfl⟩ : ∃ f, fuel = f + 1 := ⟨fuel - 1, by simp at hf; omega⟩
    have hl2 : (x2 :: l).getLast? = some e := by simpa [List.getLast?_cons_cons] using hl
    simp only [List.dropLast_cons₂, List.mem_cons, not_or] at hn
    have ih := free_ring_path s e (x2 :: l) x f hp.2 hl2 hn.2 (by simp at hf ⊢; omega)
    have hx : x ≠ e := fun h => hn.1 h.symm
    simp [free_ring_loop, deref, hp.1, hx, bind, Except.bind, ih]

theorem free_ring_ok (fuel : Nat) (s : State) (p : Option Nat)
    (h : ∀ f, p = some f → ∃ R, is_ring s.spans f R ∧ R.length ≤ fuel) :
    dd_free_span_ring fuel s p = .ok () := by
  cases p with
  | none => rfl
  | some f =>
    obtain ⟨R, ⟨h1, h2, h3⟩, hl⟩ := h f rfl
    exact free_ring_path s f R f fuel h1 h2 (last_not_mem_dropLast R f h3 h2) hl

theorem free_frame_refl (s : State) : free_frame s s :=
  ⟨fun _ => ⟨rfl, rfl, rfl⟩, rfl, rfl, rfl⟩

theorem free_frame_trans {s s2 s3 : State} (h1 : free_frame s s2) (h2 : free_frame s2 s3) :
    free_frame s s3 := by
  obtain ⟨a1, a2, a3, a4⟩ := h1
  obtain ⟨b1, b2, b3, b4⟩ := h2
  refine ⟨fun x => ?_, by rw [b2, a2], by rw [b3, a3], by rw [b4, a4]⟩
  obtain ⟨c1, c2, c3⟩ := a1 x
  obtain ⟨d1, d2, d3⟩ := b1 x
  exact ⟨by rw [d1, c1], by rw [d2, c2], by rw [d3, c3]⟩

theorem free_frame_drop (s : State) (x : Nat) (silent : Bool) :
    free_frame s (dd_drop_span_nodestroy s x silent) := by
  refine ⟨fun y => ?_, rfl, rfl, rfl⟩
  by_cases h : y = x
  · subst h; simp [dd_drop_span_nodestroy, set_span]
  · simp [dd_drop_span_nodestroy, set_span, h]

theorem free_frame_set_stack (s : State) (k : Nat) (v : ddtrace_span_stack) :
    free_frame s (set_stack s k v) :=
  ⟨fun _ => ⟨rfl, rfl, rfl⟩, rfl, rfl, rfl⟩

theorem own_chain_congr (s s2 : State) (k : Nat)
    (hx : ∀ x, (s2.spans x).stack = (s.spans x).stack ∧ (s2.spans x).parent = (s.spans x).parent) :
    ∀ (us : List Nat) (p : Option Nat), own_chain s k p us → own_chain s2 k p us
  | [], p, h => fun x e => by rw [(hx x).1]; exact h x e
  | u :: us, p, h => by
    obtain ⟨h1, h2, h3⟩ := h
    refine ⟨h1, by rw [(hx u).1]; exact h2, ?_⟩
    rw [(hx u).2]
    exact own_chain_congr s s2 k hx us _ h3

theorem free_drop_chain_ok (k : Nat) (silent : Bool) :
    ∀ (us : List Nat) (fuel : Nat) (s : State) (p : Option Nat),
      own_chain s k p us → us.length < fuel →
      ∃ s2 q, free_drop_chain k silent fuel s p = .ok (s2, q)
        ∧ (∀ x, q = some x → (s.spans x).stack ≠ some k)
        ∧ free_frame s s2 ∧ s2.span_stacks = s.span_stacks
  | [], fuel, s, p, h, hf => by
    obtain ⟨f, rfl⟩ : ∃ f, fuel = f + 1 := ⟨fuel - 1, by simp at hf; omega⟩
    cases p with
    | none =>
      exact ⟨s, none, by simp [free_drop_chain, pure, Except.pure], fun x e => (by cases e),
        free_frame_refl s, rfl⟩
    | some x =>
      have hx := h x rfl
      exact ⟨s, some x, by simp [free_drop_chain, hx, pure, Except.pure],
        fun y e => (by cases e; exact hx), free_frame_refl s, rfl⟩
  | u :: us, fuel, s, p, h, hf => by
    obtain ⟨f, rfl⟩ : ∃ f, fuel = f + 1 := ⟨fuel - 1, by simp at hf; omega⟩
    obtain ⟨h1, h2, h3⟩ := h
    subst h1
    have fr := free_frame_drop s u silent
    have h3b : own_chain (dd_drop_span_nodestroy s u silent) k
        ((dd_drop_span_nodestroy s u silent).spans u).parent us := by
      rw [(fr.1 u).2.1]
      exact own_chain_congr s _ k (fun x => ⟨(fr.1 x).1, (fr.1 x).2.1⟩) us _ h3
    obtain ⟨s2, q, e1, e2, e3, e4⟩ :=
      free_drop_chain_ok k silent us f (dd_drop_span_nodestroy s u silent) _ h3b
        (by simp at hf; omega)
    refine ⟨s2, q, ?_, fun x e => ?_, free_frame_trans fr e3, e4⟩
    · simp only [free_drop_chain, h2, if_true]
      exact e1
    · rw [← (fr.1 x).1]
      exact e2 x e

theorem free_span_stack_ok (fuel : Nat) (silent : Bool) (s : State) (k : Nat)
    (h : teardown_ready fuel s k) :
    ∃ s2, free_span_stack fuel silent s k = .ok s2
      ∧ free_frame s s2 ∧ (∀ j, j ≠ k → s2.span_stacks j = s.span_stacks j)
      ∧ torn_down s2 k := by
  obtain ⟨h1, h2, h3⟩ := h
  have key : ∀ s1 : State, free_frame s s1 → (∀ j, j ≠ k → s1.span_stacks j = s.span_stacks j) →
      (s1.span_stacks k).closed_ring = (s.span_stacks k).closed_ring →
      (s1.span_stacks k).closed_ring_flush = (s.span_stacks k).closed_ring_flush →
      (∀ a, (s1.span_stacks k).active = some a → (s1.spans a).stack ≠ some k) →
      ∃ s2, (do
          dd_free_span_ring fuel s1 (s1.span_stacks k).closed_ring
          let s := set_stack s1 k { s1.span_stacks k with closed_ring := none }
          dd_free_span_ring fuel s (s.span_stacks k).closed_ring_flush
          pure (set_stack s k { s.span_stacks k with closed_ring_flush := none }) : Res State)
          = .ok s2
        ∧ free_frame s s2 ∧ (∀ j, j ≠ k → s2.span_stacks j = s.span_stacks j)
        ∧ torn_down s2 k := by
    intro s1 fr ho hc hfl hact
    have r1 : dd_free_span_ring fuel s1 (s1.span_stacks k).closed_ring = .ok () := by
      apply free_ring_ok
      intro f hf
      rw [hc] at hf
      obtain ⟨R, hr, hl⟩ := h2 f hf
      exact ⟨R, is_ring_congr s.spans s1.spans f R (fun x _ => (fr.1 x).2.2) hr, hl⟩
    have r2 : dd_free_span_ring fuel
        (set_stack s1 k { s1.span_stacks k with closed_ring := none })
        ((set_stack s1 k { s1.span_stacks k with closed_ring := none }).span_stacks
          k).closed_ring_flush = .ok () := by
      apply free_ring_ok
      intro f hf
      simp only [set_stack, upd_same] at hf
      rw [hfl] at hf
      obtain ⟨R, hr, hl⟩ := h3 f hf
      exact ⟨R, is_ring_congr s.spans _ f R (fun x _ => (fr.1 x).2.2) hr, hl⟩
    refine ⟨set_stack (set_stack s1 k { s1.span_stacks k with closed_ring := none }) k
      { (set_stack s1 k { s1.span_stacks k with closed_ring := none }).span_stacks k with
        closed_ring_flush := none }, ?_, ?_, ?_, ?_⟩
    · rw [r1]
      simp only [bind, Except.bind]
      rw [r2]
      rfl
    · exact free_frame_trans fr
        (free_frame_trans (free_frame_set_stack _ _ _) (free_frame_set_stack _ _ _))
    · intro j hj
      simp [set_stack, upd_apply, hj, ho j hj]
    · refine ⟨by simp [set_stack], by simp [set_stack], ?_⟩
      intro a ha
      simp only [set_stack, upd_same] at ha
      exact hact a ha
  unfold free_span_stack
  cases hact : (s.span_stacks k).active with
  | none =>
    simp only [pure, Except.pure, bind, Except.bind]
    exact key s (free_frame_refl s) (fun _ _ => rfl) rfl rfl
      (fun a ha => by rw [hact] at ha; cases ha)
  | some a =>
    by_cases hs : (s.spans a).stack = some k
    · simp only [hs, if_true]
      obtain ⟨us, hu, hl⟩ := h1 a hact hs
      have hu2 : own_chain (set_stack s k { s.span_stacks k with root_span := none }) k
          ((set_stack s k { s.span_stacks k with root_span := none }).spans a).parent us :=
        own_chain_congr s (set_stack s k { s.span_stacks k with root_span := none }) k
          (fun _ => ⟨rfl, rfl⟩) us _ hu
      obtain ⟨s1, q, e1, e2, e3, e4⟩ :=
        free_drop_chain_ok k silent us fuel _ _ hu2 hl
      simp only [bind, Except.bind, e1, pure, Except.pure]
      have fr1 : free_frame s s1 := free_frame_trans (free_frame_set_stack _ _ _) e3
      have fr2 : free_frame s
          (dd_drop_span (set_stack s1 k { s1.span_stacks k with active := q }) a silent) :=
        free_frame_trans fr1
          (free_frame_trans (free_frame_set_stack _ _ _) (free_frame_drop _ _ _))
      refine key _ fr2 ?_ ?_ ?_ ?_
      · intro j hj
        simp [dd_drop_span, dd_drop_span_nodestroy, set_span, set_stack, upd_apply, hj, e4]
      · simp [dd_drop_span, dd_drop_span_nodestroy, set_span, set_stack, e4]
      · simp [dd_drop_span, dd_drop_span_nodestroy, set_span, set_stack, e4]
      · intro x hx
        have hq : q = some x := by
          simpa [dd_drop_span, dd_drop_span_nodestroy, set_span, set_stack] using hx
        rw [(fr2.1 x).1]
        exact e2 x hq
    · simp only [hs, if_false, pure, Except.pure, bind, Except.bind]
      exact key s (free_frame_refl s) (fun _ _ => rfl) rfl rfl
        (fun x hx => by rw [hact] at hx; cases hx; exact hs)

theorem teardown_ready_congr (fuel : Nat) (s s2 : State) (k : Nat) (hf : free_frame s s2)
    (hk : s2.span_stacks k = s.span_stacks k) (h : teardown_ready fuel s k) :
    teardown_ready fuel s2 k := by
  obtain ⟨h1, h2, h3⟩ := h
  refine ⟨fun a ha hs => ?_, fun f hc => ?_, fun f hc => ?_⟩
  · rw [hk] at ha
    rw [(hf.1 a).1] at hs
    obtain ⟨us, hu, hl⟩ := h1 a ha hs
    refine ⟨us, ?_, hl⟩
    rw [(hf.1 a).2.1]
    exact own_chain_congr s s2 k (fun x => ⟨(hf.1 x).1, (hf.1 x).2.1⟩) us _ hu
  · rw [hk] at hc
    obtain ⟨R, hr, hl⟩ := h2 f hc
    exact ⟨R, is_ring_congr s.spans s2.spans f R (fun x _ => (hf.1 x).2.2) hr, hl⟩
  · rw [hk] at hc
    obtain ⟨R, hr, hl⟩ := h3 f hc
    exact ⟨R, is_ring_congr s.spans s2.spans f R (fun x _ => (hf.1 x).2.2) hr, hl⟩

theorem torn_down_congr (s s2 : State) (k : Nat) (hf : free_frame s s2)
    (hk : s2.span_stacks k = s.span_stacks k) (h : torn_down s k) : torn_down s2 k := by
  obtain ⟨h1, h2, h3⟩ := h
  refine ⟨by rw [hk]; exact h1, by rw [hk]; exact h2, fun a ha => ?_⟩
  rw [hk] at ha
  rw [(hf.1 a).1]
  exact h3 a ha

theorem free_span_stacks_loop_ok (fuel : Nat) (silent : Bool) :
    ∀ (n : Nat) (s : State), (∀ k, 1 ≤ k → k ≤ n → teardown_ready fuel s k) →
      ∃ s2, free_span_stacks_loop fuel silent n s = .ok s2
        ∧ free_frame s s2 ∧ (∀ j, n < j → s2.span_stacks j = s.span_stacks j)
        ∧ ∀ k, 1 ≤ k → k ≤ n → torn_down s2 k
  | 0, s, _ =>
    ⟨s, rfl, free_frame_refl s, fun _ _ => rfl, fun k h1 h2 => by omega⟩
  | n + 1, s, h => by
    obtain ⟨s1, e1, e2, e3, e4⟩ :=
      free_span_stack_ok fuel silent s (n + 1) (h (n + 1) (by omega) (le_refl _))
    obtain ⟨s2, g1, g2, g3, g4⟩ := free_span_stacks_loop_ok fuel silent n s1
      (fun k hk1 hk2 => teardown_ready_congr fuel s s1 k e2 (e3 k (by omega))
        (h k hk1 (by omega)))
    refine ⟨s2, ?_, free_frame_trans e2 g2, fun j hj => ?_, fun k hk1 hk2 => ?_⟩
    · simp only [free_span_stacks_loop, bind, Except.bind, e1]
      exact g1
    · rw [g3 j (by omega), e3 j (by omega)]
    · by_cases hk : k = n + 1
      · subst hk
        exact torn_down_congr s1 s2 (n + 1) g2 (g3 (n + 1) (by omega)) e4
      · exact g4 k hk1 (by omega)

theorem close_top_traced (fuel : Nat) (s : State) (span : Nat) (s2 : State)
    (h : ddtrace_close_top_span_without_stack_swap fuel s span = .ok s2) :
    s2.traced_spans = s.traced_spans := by
  cases hs : (s.spans span).stack with
  | none =>
    unfold ddtrace_close_top_span_without_stack_swap at h
    simp [hs, deref, bind, Except.bind] at h
  | some stack =>
    rw [close_top_eq fuel s span stack hs] at h
    have c := (close_top_core_frame s span stack).2.2.2.2.2.2.1
    by_cases hem : chain_emptied (close_top_core s span stack) stack = true
    · rw [if_pos hem] at h
      have f := (close_entry_frame fuel _ stack s2 h).2.2.2.2.2.2.2.2.1
      rw [f, c]
    · rw [if_neg hem] at h
      cases h
      exact c

theorem drop_pop_traced (fuel : Nat) (s : State) (span stack : Nat) (s2 : State)
    (h : drop_span_pop fuel s span stack = .ok s2) : s2.traced_spans = s.traced_spans := by
  rw [drop_pop_eq] at h
  obtain ⟨s1, h1, h⟩ := except_bind_ok _ _ _ h
  cases h
  show s1.traced_spans = s.traced_spans
  by_cases hem : chain_emptied (drop_pop_core s span stack) stack = true
  · rw [if_pos hem] at h1
    exact (close_entry_frame fuel _ stack s1 h1).2.2.2.2.2.2.2.2.1
  · rw [if_neg hem] at h1
    cases h1
    rfl

theorem traced_spans_close_drop (T : Nat → Option (Nat × Nat)) (fuel : Nat) :
    (∀ s sp s2, s.traced_spans = T → ddtrace_close_span fuel s sp = .ok s2 →
      s2.traced_spans = T)
    ∧ (∀ s u s2, s.traced_spans = T → ddtrace_close_userland_spans_until fuel s u = .ok s2 →
      s2.traced_spans = T)
    ∧ (∀ s x s2, s.traced_spans = T → ddtrace_drop_span fuel s x = .ok s2 →
      s2.traced_spans = T) := by
  refine close_drop_induct (fun s => s.traced_spans = T) ?_ ?_ ?_ ?_ ?_ fuel
  · intro s t s2 hE h
    unfold ddtrace_switch_span_stack at h
    obtain ⟨_, _, h⟩ := except_bind_ok _ _ _ h
    cases h
    exact hE
  · intro s u hE
    exact hE
  · intro s p hE
    unfold ddtrace_set_prioritySampling_on_root
    cases s.active_stack with
    | none => exact hE
    | some a =>
      dsimp only
      cases (s.span_stacks a).root_span with
      | none => exact hE
      | some r => exact hE
  · intro fuel s span s2 hE h
    show s2.traced_spans = T
    rw [close_top_traced fuel s span s2 h]
    exact hE
  · intro fuel s span stack s2 hE _ h
    show s2.traced_spans = T
    rw [drop_pop_traced fuel s span stack s2 h]
    exact hE

theorem drain_fuel_mono (fuel fuel2 : Nat) (ring_of ring_of2 : Nat → List Nat)
    (D : List (Nat × List Nat)) (hf : fuel ≤ fuel2)
    (hr : ∀ j ∈ flat_stacks D, (ring_of2 j).length ≤ (ring_of j).length)
    (h : drain_fuel fuel ring_of D) : drain_fuel fuel2 ring_of2 D := by
  obtain ⟨h1, h2, h3, h4⟩ := h
  refine ⟨by omega, by omega, fun e he => ?_, fun j hj => ?_⟩
  · have := h3 e he
    omega
  · have := h4 j hj
    have := hr j hj
    omega

theorem release_state_facts (s : State) (k : Nat) :
    (release_state s k).spans = s.spans
    ∧ (release_state s k).top_closed_stack = s.top_closed_stack
    ∧ (release_state s k).auto_flush_enabled = s.auto_flush_enabled
    ∧ ∀ j, ((release_state s k).span_stacks j).next = (s.span_stacks j).next
      ∧ ((release_state s k).span_stacks j).top_closed_stack = (s.span_stacks j).top_closed_stack
      ∧ ((release_state s k).span_stacks j).closed_ring_flush
          = (s.span_stacks j).closed_ring_flush := by
  unfold release_state
  dsimp only
  split_ifs
  · refine ⟨rfl, rfl, rfl, fun j => ?_⟩
    rcases eq_or_ne j k with rfl | e
    · simp [set_stack]
    · simp [set_stack, upd_apply, e]
  · refine ⟨rfl, rfl, rfl, fun j => ?_⟩
    rcases eq_or_ne j k with rfl | e
    · simp [set_stack]
    · simp [set_stack, upd_apply, e]

theorem close_entry_total_any (fuel : Nat) (s : State) (k a : Nat) (R subs : List Nat)
    (ring_of : Nat → List Nat) (D : List (Nat × List Nat))
    (hn : entry_nofault s k) (ha : s.active_stack = some a)
    (hfl : s.auto_flush_enabled = true → entry_owns s k = true →
      drain_ready s k R subs ring_of D
        ∧ drain_fuel fuel (ring_of_upd ring_of k R) ((k, subs) :: D)) :
    ∃ s2, dd_close_entry_span_of_stack fuel s k = .ok s2 := by
  cases hc : (s.span_stacks k).closed_ring with
  | some h => exact close_entry_total fuel s k h a R subs ring_of D hc hn ha hfl
  | none =>
    have hm : dd_mark_closed_spans_flushable s k = .ok s := by
      unfold dd_mark_closed_spans_flushable
      simp only [hc]
      rfl
    rw [close_entry_eq, hm]
    simp only [bind, Except.bind]
    by_cases ho : entry_owns s k = true
    · rw [if_pos ho, entry_release_eq s k a ha hn.2]
      simp only
      obtain ⟨r1, r2, r3, r4⟩ := release_state_facts s k
      by_cases hf : s.auto_flush_enabled = true
      · rw [r3, if_pos hf]
        obtain ⟨hd, hfu⟩ := hfl hf ho
        obtain ⟨_, _, d3, _, _, d6⟩ := hd
        have hw : worklist_ok (release_state s k) ring_of (release_state s k).top_closed_stack D := by
          rw [r2]
          exact worklist_ok_congr s _ ring_of _ D (fun j _ => r4 j)
            (fun j _ x _ => by rw [r1]) d3
        have hkD : k ∉ flat_stacks D := by
          have := (List.nodup_cons.1 d6).1
          intro hmem
          exact this (List.mem_append_right _ hmem)
        obtain ⟨s2, e1, _⟩ := serialize_closed_spans_ok ring_of D fuel _ hw hfu.1
          (by have := hfu.2.1; simp at this; omega)
          (fun e he => hfu.2.2.1 e (List.mem_cons_of_mem _ he))
          (fun j hj => by
            have := hfu.2.2.2 j (by
              simp only [flat_stacks, List.flatMap_cons, List.mem_append]
              exact Or.inr hj)
            have hjk : j ≠ k := fun e => hkD (e ▸ hj)
            simpa [ring_of_upd, hjk] using this)
        exact ⟨_, flush_tracer_eq fuel _ _ _ e1⟩
      · rw [r3, if_neg hf]
        exact ⟨_, rfl⟩
    · rw [if_neg ho]
      exact ⟨_, rfl⟩

theorem drain_ready_congr_fields (s s2 : State) (k : Nat) (R subs : List Nat)
    (ring_of : Nat → List Nat) (D : List (Nat × List Nat))
    (hst : ∀ j, (s2.span_stacks j).next = (s.span_stacks j).next
      ∧ (s2.span_stacks j).top_closed_stack = (s.span_stacks j).top_closed_stack
      ∧ (s2.span_stacks j).closed_ring_flush = (s.span_stacks j).closed_ring_flush
      ∧ (s2.span_stacks j).closed_ring = (s.span_stacks j).closed_ring)
    (htop : s2.top_closed_stack = s.top_closed_stack)
    (hx : ∀ x, (s2.spans x).next = (s.spans x).next)
    (h : drain_ready s k R subs ring_of D) : drain_ready s2 k R subs ring_of D := by
  obtain ⟨d1, d2, d3, d4, d5, d6⟩ := h
  refine ⟨by rw [(hst k).2.2.1]; exact d1,
    closed_ring_ok_congr s s2 k R (hst k).2.2.2 (fun x _ => hx x) d2, ?_, ?_, ?_, d6⟩
  · rw [htop]
    exact worklist_ok_congr s s2 ring_of _ D
      (fun j _ => ⟨(hst j).1, (hst j).2.1, (hst j).2.2.1⟩) (fun _ _ x _ => hx x) d3
  · rw [(hst k).2.1]
    exact stack_list_congr _ _ (fun j => (hst j).1) subs _ d4
  · intro j hj
    exact flush_ring_ok_congr_next (hst j).2.2.1 (fun x _ => hx x) (d5 j hj)

theorem close_top_span_ok (fuel : Nat) (s : State) (k t a : Nat) (R subs : List Nat)
    (ring_of : Nat → List Nat) (D : List (Nat × List Nat))
    (ha : s.active_stack = some a) (ht : (s.spans t).stack = some k)
    (hact : (s.span_stacks k).active = some t)
    (hty : (s.spans t).type ≠ DDTRACE_SPAN_CLOSED)
    (hn : entry_nofault s k)
    (hfl : s.auto_flush_enabled = true → entry_owns s k = true → is_entry_span s k t = true →
      flush_ready fuel s k t [] R subs ring_of D)
    (hf : 2 ≤ fuel) :
    ∃ s2, ddtrace_close_span (fuel + 1) s (some t) = .ok s2
      ∧ (s2.spans t).type = DDTRACE_SPAN_CLOSED
      ∧ s2.open_spans_count = decr32 s.open_spans_count
      ∧ s2.closed_spans_count = incr32 s.closed_spans_count
      ∧ s2.dropped_spans_count = s.dropped_spans_count
      ∧ s2.traced_spans = s.traced_spans
      ∧ ∀ x, (s2.spans x).duration = (s.spans x).duration := by
  have hc : chain_above s k t (s.span_stacks k).active [] := hact
  obtain ⟨s2, c1, _, _, c4⟩ :=
    close_span_chain_ok fuel s k t a [] R subs ring_of D ha ht hty hc
      (fun _ u hu => by cases hu) hn hfl (by simpa using hf)
  obtain ⟨q1, _, _, q4, q5, q6⟩ := close_chain_core_props k s [] t hc
  have hfr := close_chain_core_frame k s [] t
  obtain ⟨_, z2, _, z4, z5, z6, _, _, z9, _⟩ := c4
  refine ⟨s2, c1, by rw [(z2 t).1, q1], ?_, ?_, ?_, ?_, ?_⟩
  · rw [z4, q6]
    simp
  · rw [z6, q5]
    cases s.autofinish_spans <;> simp
  · rw [z5, q4]
    cases s.autofinish_spans <;> simp
  · rw [z9, hfr.2.2.2.2.2.2.1]
  · intro x
    rw [(z2 x).2.1]
    show ((close_top_core { s with active_stack := some k } t k).spans x).duration = _
    rw [close_top_core_duration]

theorem drop_span_not_root (fuel : Nat) (s : State) (k t a : Nat)
    (ha : s.active_stack = some a) (ht : (s.spans t).stack = some k)
    (hr : (s.span_stacks k).root_span ≠ some t) :
    ddtrace_drop_span (fuel + 1) s t
      = drop_span_pop fuel { s with active_stack := some k } t k := by
  rw [ddtrace_drop_span]
  simp only [ht, deref, bind, Except.bind]
  by_cases hka : k = a
  · subst hka
    simp only [ha, ne_eq, not_true_eq_false, if_false, pure, Except.pure, hr,
      set_active_same s k ha]
  · have hne : ¬ (some k = some a) := fun h => hka (Option.some.inj h)
    simp only [ha, ne_eq, hne, not_false_eq_true, if_true, ddtrace_switch_span_stack, deref,
      bind, Except.bind, pure, Except.pure, hr, if_false]

theorem drop_top_span_ok (fuel : Nat) (s : State) (k t a : Nat) (R subs : List Nat)
    (ring_of : Nat → List Nat) (D : List (Nat × List Nat))
    (ha : s.active_stack = some a) (ht : (s.spans t).stack = some k)
    (hact : (s.span_stacks k).active = some t)
    (hty : (s.spans t).type ≠ DDTRACE_SPAN_CLOSED)
    (hn : entry_nofault s k)
    (hfl : s.auto_flush_enabled = true → entry_owns s k = true → is_entry_span s k t = true →
      flush_ready fuel s k t [] R subs ring_of D)
    (hf : 2 ≤ fuel) :
    ∃ d, ddtrace_drop_span (fuel + 2) s t = .ok d ∧ d.traced_spans = s.traced_spans := by
  have key : ∀ d, ddtrace_drop_span (fuel + 2) s t = .ok d →
      ∃ d, ddtrace_drop_span (fuel + 2) s t = .ok d ∧ d.traced_spans = s.traced_spans :=
    fun d hd => ⟨d, hd, (traced_spans_close_drop s.traced_spans (fuel + 2)).2.2 s t d rfl hd⟩
  by_cases hr : (s.span_stacks k).root_span = some t
  · obtain ⟨f1, f2, f3, f4, f5, f6, f7, f8, f9, f10, f11⟩ := drop_root_state_facts s k t hr
    have hc2 : chain_above (drop_root_state s k t) k t
        ((drop_root_state s k t).span_stacks k).active [] := by
      rw [f1]
      exact hact
    have hent : is_entry_span (drop_root_state s k t) k t = is_entry_span s k t := by
      unfold is_entry_span
      rw [(f11 t).2.2.2]
      cases (s.spans t).parent with
      | none => rfl
      | some p => simp only; rw [(f11 p).2.2.1]
    have hown : entry_owns (drop_root_state s k t) k = entry_owns s k :=
      entry_owns_congr s _ k (by rw [f1]) (fun x => (f11 x).2.2.1)
    have hn2 : entry_nofault (drop_root_state s k t) k := by
      unfold entry_nofault; rw [f1]; exact hn
    obtain ⟨s2, h1, _⟩ := close_span_chain_ok fuel (drop_root_state s k t) k t k [] R
      subs ring_of D f2 (by rw [(f11 t).2.2.1]; exact ht) (by rw [(f11 t).2.1]; exact hty) hc2
      (fun _ u hu => by cases hu) hn2
      (fun e1 e2 e3 => by
        rw [f5] at e1
        rw [hown] at e2
        rw [hent] at e3
        obtain ⟨g1, g2, g3⟩ := hfl e1 e2 e3
        exact ⟨drain_ready_congr s _ k R subs ring_of D f1 f3 (fun x => (f11 x).1) g1, g2,
          by rw [f4]; exact g3⟩)
      (by simpa using hf)
    exact key s2 (by rw [drop_span_root (fuel + 1) s k t a ha ht hr]; exact h1)
  · have heq := drop_span_not_root (fuel + 1) s k t a ha ht hr
    rw [drop_pop_eq] at heq
    by_cases hem : chain_emptied (drop_pop_core { s with active_stack := some k } t k) k = true
    · rw [if_pos hem] at heq
      have hent : is_entry_span s k t = true := by
        have : chain_emptied (drop_pop_core { s with active_stack := some k } t k) k
            = is_entry_span s k t := by
          simp [chain_emptied, is_entry_span, drop_pop_core, set_stack]
        rw [← this]
        exact hem
      have hn2 : entry_nofault (drop_pop_core { s with active_stack := some k } t k) k := by
        simpa [entry_nofault, drop_pop_core, set_stack] using hn
      have hown : entry_owns (drop_pop_core { s with active_stack := some k } t k) k
          = entry_owns s k :=
        entry_owns_congr s _ k (by simp [drop_pop_core, set_stack]) (fun x => rfl)
      obtain ⟨s1, h1⟩ := close_entry_total_any (fuel + 1)
        (drop_pop_core { s with active_stack := some k } t k) k k R subs ring_of D hn2 rfl
        (fun e1 e2 => by
          rw [hown] at e2
          obtain ⟨g1, _, g3⟩ := hfl e1 e2 hent
          refine ⟨drain_ready_congr_fields s _ k R subs ring_of D (fun j => ?_) rfl
            (fun x => rfl) g1, ?_⟩
          · rcases eq_or_ne j k with rfl | e
            · simp [drop_pop_core, set_stack]
            · simp [drop_pop_core, set_stack, upd_apply, e]
          · refine drain_fuel_mono fuel (fuel + 1) _ _ _ (by omega) (fun j _ => ?_) g3
            by_cases hj : j = k
            · simp [ring_of_upd, hj, ring_after]
            · simp [ring_of_upd, hj])
      rw [h1] at heq
      exact key _ heq
    · rw [if_neg hem] at heq
      exact key _ heq

theorem upd_upd {α : Type} (f : Nat → α) (i : Nat) (a b : α) :
    upd (upd f i a) i b = upd f i b := by
  funext j
  simp only [upd]
  split_ifs <;> rfl

theorem with_entry_twice (s : State) (index : Nat) (e1 e2 : Option (Nat × Nat)) :
    with_entry (with_entry s index e1) index e2 = with_entry s index e2 := by
  simp [with_entry, upd_upd]

theorem with_entry_self (s : State) (index : Nat) (e : Option (Nat × Nat))
    (h : s.traced_spans index = e) : with_entry s index e = s := by
  have : upd s.traced_spans index e = s.traced_spans := by
    funext j
    simp only [upd]
    split_ifs with hj
    · rw [hj, h]
    · rfl
  unfold with_entry
  rw [this]

theorem decr32_pos (c : Nat) (h1 : 1 ≤ c) (h2 : c < 2 ^ 32) : decr32 c = c - 1 := by
  unfold decr32
  have h3 : (2 : Nat) ^ 32 = 4294967296 := by norm_num
  rw [h3] at h2 ⊢
  omega

theorem incr32_small (c : Nat) (h2 : c + 1 < 2 ^ 32) : incr32 c = c + 1 := by
  unfold incr32
  exact Nat.mod_eq_of_lt h2

theorem alloc_existing (H : Hooks) (s : State) (index span c : Nat) :
    ddtrace_alloc_execute_data_span H (with_entry s index (some (span, c))) index
      = .ok (span, with_entry s index (some (span, incr32 c))) := by
  unfold ddtrace_alloc_execute_data_span
  simp [with_entry, upd_upd, pure, Except.pure]

theorem alloc_calls_existing (H : Hooks) (index span : Nat) :
    ∀ (n : Nat) (s : State) (c : Nat), c + n < 2 ^ 32 →
      alloc_execute_data_span_calls H index n (with_entry s index (some (span, c)))
        = .ok (List.replicate n span, with_entry s index (some (span, c + n)))
  | 0, s, c, _ => rfl
  | n + 1, s, c, h => by
    have ih := alloc_calls_existing H index span n s (c + 1) (by omega)
    simp only [alloc_execute_data_span_calls, alloc_existing, bind, Except.bind,
      incr32_small c (by omega), ih, pure, Except.pure, List.replicate_succ]
    rw [show c + 1 + n = c + (n + 1) from by omega]

theorem alloc_first (H : Hooks) (s : State) (index : Nat) (s1 : State)
    (h0 : s.traced_spans index = none)
    (ho : ddtrace_open_span H (ddtrace_init_span s DDTRACE_INTERNAL_SPAN).2 s.span_top = .ok s1) :
    ddtrace_alloc_execute_data_span H s index
      = .ok (s.span_top, with_entry s1 index (some (s.span_top, 2))) := by
  unfold ddtrace_alloc_execute_data_span
  simp only [h0]
  have : (ddtrace_init_span s DDTRACE_INTERNAL_SPAN).1 = s.span_top := rfl
  simp only [this, ho, bind, Except.bind, pure, Except.pure]
  rfl

theorem ok_bind {α β : Type} (x : α) (f : α → Res β) : (Except.ok x >>= f) = f x := rfl

theorem clear_eq (fuel : Nat) (s : State) (index span info : Nat) (keep : Bool)
    (h : s.traced_spans index = some (span, info)) :
    ddtrace_clear_execute_data_span fuel s index keep
      = clear_entry fuel (with_entry s index (some (span, decr32 info))) index span
          (decr32 info) keep := by
  unfold ddtrace_clear_execute_data_span clear_entry
  rw [h]
  simp only [deref]
  rw [ok_bind]
  dsimp only
  rfl

theorem with_entry_lookup (s : State) (index : Nat) (e : Option (Nat × Nat)) :
    (with_entry s index e).traced_spans index = e := by
  simp [with_entry]

theorem clear_keep_above (fuel : Nat) (s : State) (index span c : Nat)
    (h1 : 3 ≤ c) (h2 : c < 2 ^ 32) :
    ddtrace_clear_execute_data_span fuel (with_entry s index (some (span, c))) index true
      = .ok (with_entry s index (some (span, c - 1))) := by
  have hc1 : c - 1 ≠ 1 := by omega
  rw [clear_eq fuel _ index span c true (with_entry_lookup s index _),
    decr32_pos c (by omega) h2, with_entry_twice]
  simp [clear_entry, with_entry, hc1, bind, Except.bind, pure, Except.pure]

theorem clear_calls_keep_above (fuel : Nat) (index span : Nat) (s : State) :
    ∀ (m c : Nat), m + 2 ≤ c → c < 2 ^ 32 →
      clear_execute_data_span_calls fuel index (List.replicate m true)
          (with_entry s index (some (span, c)))
        = .ok (with_entry s index (some (span, c - m)))
  | 0, c, _, _ => rfl
  | m + 1, c, h1, h2 => by
    have ih := clear_calls_keep_above fuel index span s m (c - 1) (by omega) (by omega)
    simp only [List.replicate_succ, clear_execute_data_span_calls,
      clear_keep_above fuel s index span c (by omega) h2, bind, Except.bind, ih]
    rw [show c - 1 - m = c - (m + 1) from by omega]

theorem clear_keep_last (fuel : Nat) (s : State) (index span : Nat) (c : State)
    (hd : ddtrace_span_is_dropped (s.spans span) = false)
    (hc : ddtrace_close_span fuel (with_entry s index (some (span, 1))) (some span) = .ok c)
    (ht : c.traced_spans = (with_entry s index (some (span, 1))).traced_spans) :
    ddtrace_clear_execute_data_span fuel (with_entry s index (some (span, 2))) index true
      = .ok (with_entry c index none) := by
  have h2 : decr32 2 = 1 := by decide
  have hd2 : ddtrace_span_is_dropped ((with_entry s index (some (span, 1))).spans span)
      = false := hd
  have hcx : c.traced_spans index = some (span, 1) := by
    rw [ht, with_entry_lookup]
  rw [clear_eq fuel _ index span 2 true (with_entry_lookup s index _), h2, with_entry_twice]
  unfold clear_entry
  simp only [true_or, if_true, hd2, hc, bind, Except.bind, hcx, Option.map, pure, Except.pure]
  rfl

theorem clear_drop (fuel : Nat) (s : State) (index span m : Nat) (d0 : State)
    (h1 : 2 ≤ m) (h2 : m < 2 ^ 32)
    (hd : ddtrace_span_is_dropped (s.spans span) = false)
    (hc : ddtrace_drop_span fuel (with_entry s index (some (span, m - 1))) span = .ok d0)
    (ht : d0.traced_spans = (with_entry s index (some (span, m - 1))).traced_spans) :
    ddtrace_clear_execute_data_span fuel (with_entry s index (some (span, m))) index false
      = .ok (with_entry (mark_silently_dropped d0 span) index
          (if m = 2 then none else some (span, m - 1))) := by
  have hd2 : ddtrace_span_is_dropped ((with_entry s index (some (span, m - 1))).spans span)
      = false := hd
  have hcx : d0.traced_spans index = some (span, m - 1) := by
    rw [ht, with_entry_lookup]
  have hmark : (mark_silently_dropped d0 span).traced_spans index = some (span, m - 1) := hcx
  rw [clear_eq fuel _ index span m false (with_entry_lookup s index _),
    decr32_pos m (by omega) h2, with_entry_twice]
  unfold clear_entry
  simp only [or_true, if_true, hd2, hc, bind, Except.bind, Bool.false_eq_true, if_false,
    pure, Except.pure]
  show (if ((mark_silently_dropped d0 span).traced_spans index).map Prod.snd = some 1 then
      Except.ok (with_entry (mark_silently_dropped d0 span) index none)
    else Except.ok (mark_silently_dropped d0 span)) = _
  rw [hmark]
  by_cases hm : m = 2
  · subst hm
    simp
  · have hm1 : m - 1 ≠ 1 := by omega
    simp only [Option.map, Option.some.injEq, hm1, if_false, hm]
    rw [with_entry_self _ index _ hmark]

theorem clear_dropped (fuel : Nat) (s : State) (index span c : Nat) (keep : Bool)
    (h1 : 2 ≤ c) (h2 : c < 2 ^ 32)
    (hd : ddtrace_span_is_dropped (s.spans span) = true) :
    ddtrace_clear_execute_data_span fuel (with_entry s index (some (span, c))) index keep
      = .ok (with_entry s index (if c = 2 then none else some (span, c - 1))) := by
  have hd2 : ddtrace_span_is_dropped ((with_entry s index (some (span, c - 1))).spans span)
      = true := hd
  rw [clear_eq fuel _ index span c keep (with_entry_lookup s index _),
    decr32_pos c (by omega) h2, with_entry_twice]
  unfold clear_entry
  simp only [hd2, Bool.true_eq_false, if_false, ite_self, bind, Except.bind, pure, Except.pure,
    with_entry_lookup]
  by_cases hm : c = 2
  · subst hm
    simp only [Option.map, if_true]
    exact congrArg Except.ok (with_entry_twice s index _ _)
  · have hm1 : c - 1 ≠ 1 := by omega
    simp only [Option.map, Option.some.injEq, hm, hm1, if_false]

theorem clear_calls_dropped (fuel : Nat) (index span : Nat) (s : State)
    (hd : ddtrace_span_is_dropped (s.spans span) = true) :
    ∀ (keeps : List Bool) (c : Nat), 2 ≤ c → keeps.length < c → c < 2 ^ 32 →
      clear_execute_data_span_calls fuel index keeps (with_entry s index (some (span, c)))
        = .ok (with_entry s index
            (if c - keeps.length = 1 then none else some (span, c - keeps.length)))
  | [], c, h1, _, _ => by
    have : c - 0 ≠ 1 := by omega
    simp only [List.length_nil, this, if_false]
    rfl
  | keep :: keeps, c, h1, h2, h3 => by
    simp only [clear_execute_data_span_calls, clear_dropped fuel s index span c keep h1 h3 hd,
      bind, Except.bind, List.length_cons]
    simp only [List.length_cons] at h2
    by_cases hc : c = 2
    · subst hc
      have hk : keeps = [] := List.eq_nil_of_length_eq_zero (by omega)
      subst hk
      simp [clear_execute_data_span_calls, pure, Except.pure]
    · simp only [hc, if_false]
      rw [clear_calls_dropped fuel index span s hd keeps (c - 1) (by omega) (by omega)
        (by omega)]
      rw [show c - 1 - keeps.length = c - (keeps.length + 1) from by omega]

theorem flush_ready_mono (fuel fuel2 : Nat) (s : State) (k t : Nat) (us R subs : List Nat)
    (ring_of : Nat → List Nat) (D : List (Nat × List Nat)) (hf : fuel ≤ fuel2)
    (h : flush_ready fuel s k t us R subs ring_of D) :
    flush_ready fuel2 s k t us R subs ring_of D :=
  ⟨h.1, h.2.1, drain_fuel_mono fuel fuel2 _ _ _ hf (fun _ _ => le_refl _) h.2.2⟩

theorem mark_silently_dropped_is_dropped (s : State) (t : Nat) :
    ddtrace_span_is_dropped ((mark_silently_dropped s t).spans t) = true := by
  simp [mark_silently_dropped, set_span, ddtrace_span_is_dropped]

theorem worklist_members_congr (s s2 : State) (G : List Nat) (sub : Nat → List Nat)
    (htop : s2.top_closed_stack = s.top_closed_stack)
    (hst : ∀ j, (s2.span_stacks j).next = (s.span_stacks j).next
      ∧ (s2.span_stacks j).top_closed_stack = (s.span_stacks j).top_closed_stack
      ∧ (s2.span_stacks j).closed_ring_flush = (s.span_stacks j).closed_ring_flush)
    (h : worklist_members s G sub) : worklist_members s2 G sub := by
  obtain ⟨w1, w2, w3, w4, w5, w6, w7⟩ := h
  refine ⟨?_, fun r => ?_, w3, w4, w5, w6, fun j => ?_⟩
  · rw [htop]
    exact stack_list_congr _ _ (fun j => (hst j).1) G _ w1
  · rw [(hst r).2.1]
    exact stack_list_congr _ _ (fun j => (hst j).1) (sub r) _ (w2 r)
  · rw [(hst j).2.2]
    exact w7 j

theorem flush_inv_congr (s s2 : State)
    (htop : s2.top_closed_stack = s.top_closed_stack) (hT : s2.stack_top = s.stack_top)
    (hst : ∀ j, (s2.span_stacks j).next = (s.span_stacks j).next
      ∧ (s2.span_stacks j).top_closed_stack = (s.span_stacks j).top_closed_stack
      ∧ (s2.span_stacks j).closed_ring_flush = (s.span_stacks j).closed_ring_flush
      ∧ (s2.span_stacks j).root_stack = (s.span_stacks j).root_stack
      ∧ (s2.span_stacks j).parent_stack = (s.span_stacks j).parent_stack)
    (hsp : ∀ x, (s2.spans x).stack = (s.spans x).stack)
    (ha : ∀ a, s2.active_stack = some a → a < s.stack_top)
    (h : flush_inv s) : flush_inv s2 := by
  obtain ⟨⟨h1, h2, h3, _⟩, G, sub, hw, ha1, ha2⟩ := h
  refine ⟨⟨fun x k e => ?_, fun k R e => ?_, fun k p e => ?_, fun a e => ?_⟩, G, sub,
    worklist_members_congr s s2 G sub htop (fun j => ⟨(hst j).1, (hst j).2.1, (hst j).2.2.1⟩) hw,
    fun j hj => ?_, fun r j hj => ?_⟩
  · rw [hT]; exact h1 x k (by rw [← hsp x]; exact e)
  · rw [hT]; exact h2 k R (by rw [← (hst k).2.2.2.1]; exact e)
  · rw [hT]; exact h3 k p (by rw [← (hst k).2.2.2.2]; exact e)
  · rw [hT]; exact ha a e
  · rw [hT]; exact ha1 j hj
  · rw [hT]; exact ha2 r j hj

theorem stage_global_facts (s : State) (k h : Nat) :
    (stage_global s k h).spans = s.spans
    ∧ (stage_global s k h).top_closed_stack = some k
    ∧ (stage_global s k h).stack_top = s.stack_top
    ∧ (stage_global s k h).active_stack = s.active_stack
    ∧ ((stage_global s k h).span_stacks k).next = s.top_closed_stack
    ∧ ((stage_global s k h).span_stacks k).closed_ring_flush = some h
    ∧ (∀ j, j ≠ k → (stage_global s k h).span_stacks j = s.span_stacks j)
    ∧ ∀ j, ((stage_global s k h).span_stacks j).top_closed_stack
          = (s.span_stacks j).top_closed_stack
        ∧ ((stage_global s k h).span_stacks j).root_stack = (s.span_stacks j).root_stack
        ∧ ((stage_global s k h).span_stacks j).parent_stack = (s.span_stacks j).parent_stack := by
  refine ⟨rfl, rfl, rfl, rfl, by simp [stage_global, set_stack],
    by simp [stage_global, set_stack], fun j hj => by simp [stage_global, set_stack, hj],
    fun j => ?_⟩
  rcases eq_or_ne j k with rfl | e
  · simp [stage_global, set_stack]
  · simp [stage_global, set_stack, e]

theorem flush_inv_stage_global (s : State) (k h : Nat) (hi : flush_inv s)
    (hk : k < s.stack_top) (hf : (s.span_stacks k).closed_ring_flush = none) :
    flush_inv (stage_global s k h) := by
  obtain ⟨⟨h1, h2, h3, h4⟩, G, sub, ⟨w1, w2, w3, w4, w5, w6, w7⟩, ha1, ha2⟩ := hi
  obtain ⟨f1, f2, f3, f4, f5, f6, f7, f8⟩ := stage_global_facts s k h
  have hkn : k ∉ G ∧ ∀ r, k ∉ sub r := by
    have := (w7 k).not.1 (by rw [hf]; simp)
    push_neg at this
    exact this
  have hnext : ∀ l : List Nat, k ∉ l →
      ∀ j ∈ l, ((stage_global s k h).span_stacks j).next = (s.span_stacks j).next := by
    intro l hl j hj
    rw [f7 j (fun e => hl (e ▸ hj))]
  refine ⟨⟨fun x c e => ?_, fun c R e => ?_, fun c p e => ?_, fun a e => ?_⟩,
    k :: G, sub, ⟨?_, fun r => ?_, ?_, w4, ?_, w6, fun j => ?_⟩, ?_, ?_⟩
  · rw [f3]; exact h1 x c (by rw [f1] at e; exact e)
  · rw [f3]; exact h2 c R (by rw [(f8 c).2.1] at e; exact e)
  · rw [f3]; exact h3 c p (by rw [(f8 c).2.2] at e; exact e)
  · rw [f3]; exact h4 a (by rw [f4] at e; exact e)
  · rw [f2]
    refine ⟨rfl, ?_⟩
    rw [f5]
    exact stack_list_congr_mem _ _ G _ (hnext G hkn.1) w1
  · rw [(f8 r).1]
    exact stack_list_congr_mem _ _ (sub r) _ (hnext (sub r) (hkn.2 r)) (w2 r)
  · exact List.nodup_cons.2 ⟨hkn.1, w3⟩
  · intro r j hj hm
    rcases List.mem_cons.1 hm with e | e
    · exact hkn.2 r (e ▸ hj)
    · exact w5 r j hj e
  · rcases eq_or_ne j k with rfl | e
    · rw [f6]
      simp
    · rw [f7 j e, w7 j]
      simp [e]
  · intro j hj
    rw [f3]
    rcases List.mem_cons.1 hj with e | e
    · rw [e]; exact hk
    · exact ha1 j e
  · intro r j hj
    rw [f3]
    exact ha2 r j hj

theorem flush_inv_stage_sub (s : State) (k h R : Nat) (hi : flush_inv s)
    (hk : k < s.stack_top) (hR : R < s.stack_top)
    (hf : (s.span_stacks k).closed_ring_flush = none) :
    flush_inv (stage_sub s k h R) := by
  obtain ⟨⟨h1, h2, h3, h4⟩, G, sub, ⟨w1, w2, w3, w4, w5, w6, w7⟩, ha1, ha2⟩ := hi
  obtain ⟨f1, f2, f3, f4, f5, _, _, f8, f9, f10⟩ := stage_sub_facts s k h R
  have hkn : k ∉ G ∧ ∀ r, k ∉ sub r := by
    have := (w7 k).not.1 (by rw [hf]; simp)
    push_neg at this
    exact this
  have hnext : ∀ l : List Nat, k ∉ l →
      ∀ j ∈ l, ((stage_sub s k h R).span_stacks j).next = (s.span_stacks j).next := by
    intro l hl j hj
    exact (f8 j (fun e => hl (e ▸ hj))).1
  refine ⟨⟨fun x c e => ?_, fun c R2 e => ?_, fun c p e => ?_, fun a e => ?_⟩,
    G, fun r => if r = R then k :: sub R else sub r,
    ⟨?_, fun r => ?_, w3, fun r => ?_, ?_, ?_, fun j => ?_⟩, ?_, ?_⟩
  · exact h1 x c (by rw [f1] at e; exact e)
  · exact h2 c R2 (by rw [(f10 c).2.2.1] at e; exact e)
  · exact h3 c p (by rw [(f10 c).2.2.2] at e; exact e)
  · exact h4 a e
  · rw [f2]
    exact stack_list_congr_mem _ _ G _ (hnext G hkn.1) w1
  · by_cases hr : r = R
    · subst hr
      simp only [if_true]
      rw [f3]
      refine ⟨rfl, ?_⟩
      rw [f4]
      exact stack_list_congr_mem _ _ (sub r) _ (hnext (sub r) (hkn.2 r)) (w2 r)
    · simp only [hr, if_false]
      rw [f9 r hr]
      exact stack_list_congr_mem _ _ (sub r) _ (hnext (sub r) (hkn.2 r)) (w2 r)
  · by_cases hr : r = R
    · subst hr
      simp only [if_true]
      exact List.nodup_cons.2 ⟨hkn.2 r, w4 r⟩
    · simp only [hr, if_false]
      exact w4 r
  · intro r j hj
    by_cases hr : r = R
    · subst hr
      simp only [if_true] at hj
      rcases List.mem_cons.1 hj with e | e
      · rw [e]; exact hkn.1
      · exact w5 r j e
    · simp only [hr, if_false] at hj
      exact w5 r j hj
  · intro r r2 j hj hj2
    have key : ∀ q, j ∈ (if q = R then k :: sub R else sub q) → (j = k ∧ q = R) ∨ j ∈ sub q := by
      intro q hq
      by_cases hqR : q = R
      · subst hqR
        simp only [if_true] at hq
        rcases List.mem_cons.1 hq with e | e
        · exact Or.inl ⟨e, rfl⟩
        · exact Or.inr e
      · simp only [hqR, if_false] at hq
        exact Or.inr hq
    rcases key r hj with ⟨e1, e2⟩ | e1
    · rcases key r2 hj2 with ⟨_, e4⟩ | e3
      · rw [e2, e4]
      · exact absurd (e1 ▸ e3) (hkn.2 r2)
    · rcases key r2 hj2 with ⟨e3, _⟩ | e3
      · exact absurd (e3 ▸ e1) (hkn.2 r)
      · exact w6 r r2 j e1 e3
  · rcases eq_or_ne j k with rfl | e
    · rw [f5]
      simp only [ne_eq, reduceCtorEq, not_false_eq_true, true_iff]
      exact Or.inr ⟨R, by simp⟩
    · rw [(f8 j e).2.1, w7 j]
      constructor
      · rintro (hG | ⟨r, hr⟩)
        · exact Or.inl hG
        · refine Or.inr ⟨r, ?_⟩
          by_cases hrR : r = R
          · subst hrR
            simp [hr]
          · simp [hrR, hr]
      · rintro (hG | ⟨r, hr⟩)
        · exact Or.inl hG
        · refine Or.inr ⟨r, ?_⟩
          by_cases hrR : r = R
          · subst hrR
            simp only [if_true] at hr
            rcases List.mem_cons.1 hr with e2 | e2
            · exact absurd e2 e
            · exact e2
          · simp only [hrR, if_false] at hr
            exact hr
  · exact ha1
  · intro r j hj
    by_cases hr : r = R
    · subst hr
      simp only [if_true] at hj
      rcases List.mem_cons.1 hj with e | e
      · rw [e]; exact ⟨hk, hR⟩
      · exact ha2 r j e
    · simp only [hr, if_false] at hj
      exact ha2 r j hj

theorem flush_inv_mark (s : State) (k : Nat) (s2 : State) (hi : flush_inv s)
    (hk : k < s.stack_top) (h : dd_mark_closed_spans_flushable s k = .ok s2) :
    flush_inv s2 := by
  rcases mark_cases s k s2 h with ⟨_, rfl⟩ | ⟨ring, flush, _, _, rfl⟩
    | ⟨ring, r, _, hf, _, _, rfl⟩ | ⟨ring, r, R, _, hf, _, _, hR, rfl⟩
  · exact hi
  · refine flush_inv_congr s _ rfl rfl (fun j => ?_) (fun x => ?_) hi.1.2.2.2 hi
    · rcases eq_or_ne j k with rfl | e
      · simp [splice_state, set_stack, set_span]
      · simp [splice_state, set_stack, set_span, e]
    · simp only [splice_state, set_stack, set_span, upd_apply]
      split_ifs <;> simp_all
  · exact flush_inv_stage_global s k ring hi hk hf
  · exact flush_inv_stage_sub s k ring R hi hk (hi.1.2.1 k R hR) hf

theorem drained_trans {s s1 s2 : State} {C1 C2 H1 H2 : List Nat}
    (h1 : drained s s1 C1 H1) (h2 : drained s1 s2 C2 H2) :
    drained s s2 (C1 ++ C2) (H1 ++ H2) := by
  obtain ⟨a1, a2, a3, a4⟩ := h1
  obtain ⟨b1, b2, b3, b4⟩ := h2
  refine ⟨fun j hj => ?_, fun j hj => ?_, fun j hj => ?_, fun j hj => ?_⟩
  · by_cases h : j ∈ C2
    · exact b1 j h
    · rw [b2 j h]
      rcases List.mem_append.1 hj with e | e
      · exact a1 j e
      · exact absurd e h
  · rw [List.mem_append, not_or] at hj
    rw [b2 j hj.2, a2 j hj.1]
  · by_cases h : j ∈ H2
    · exact b3 j h
    · rw [b4 j h]
      rcases List.mem_append.1 hj with e | e
      · exact a3 j e
      · exact absurd e h
  · rw [List.mem_append, not_or] at hj
    rw [b4 j hj.2, a4 j hj.1]

theorem drained_set_flush (s : State) (k : Nat) :
    drained s (set_stack s k { s.span_stacks k with closed_ring_flush := none }) [k] [] := by
  refine ⟨fun j hj => ?_, fun j hj => ?_, fun j hj => (by cases hj), fun j _ => ?_⟩
  · rw [List.mem_singleton.1 hj]
    simp [set_stack]
  · have : j ≠ k := fun e => hj (by simp [e])
    simp [set_stack, upd_apply, this]
  · rcases eq_or_ne j k with rfl | e
    · simp [set_stack]
    · simp [set_stack, upd_apply, e]

theorem drained_set_top (s : State) (k : Nat) :
    drained s (set_stack s k { s.span_stacks k with top_closed_stack := none }) [] [k] := by
  refine ⟨fun j hj => (by cases hj), fun j _ => ?_, fun j hj => ?_, fun j hj => ?_⟩
  · rcases eq_or_ne j k with rfl | e
    · simp [set_stack]
    · simp [set_stack, upd_apply, e]
  · rw [List.mem_singleton.1 hj]
    simp [set_stack]
  · have : j ≠ k := fun e => hj (by simp [e])
    simp [set_stack, upd_apply, this]

theorem serialize_stacks_drained (rf : Nat) :
    ∀ (ks : List Nat) (fuel : Nat) (s : State) (k : Nat) (nx : Option Nat) (acc : List Nat)
      (r : List Nat × State),
      stack_list s.span_stacks nx ks → serialize_stacks rf fuel s k nx acc = .ok r →
      drained s r.2 (k :: ks) []
  | _, 0, _, _, _, _, _, _, h => by simp [serialize_stacks] at h
  | [], fuel + 1, s, k, nx, acc, r, hl, h => by
    rw [serialize_stacks] at h
    obtain ⟨f, _, h⟩ := except_bind_ok _ _ _ h
    obtain ⟨out, _, h⟩ := except_bind_ok _ _ _ h
    have hn : nx = none := hl
    subst hn
    cases h
    exact drained_set_flush s k
  | k2 :: ks, fuel + 1, s, k, nx, acc, r, hl, h => by
    rw [serialize_stacks] at h
    obtain ⟨f, _, h⟩ := except_bind_ok _ _ _ h
    obtain ⟨out, _, h⟩ := except_bind_ok _ _ _ h
    obtain ⟨hn, hl2⟩ := hl
    subst hn
    simp only at h
    have hl3 : stack_list
        (set_stack s k { s.span_stacks k with closed_ring_flush := none }).span_stacks
        ((set_stack s k { s.span_stacks k with closed_ring_flush := none }).span_stacks k2).next
        ks := by
      have hnx : ∀ j, ((set_stack s k
          { s.span_stacks k with closed_ring_flush := none }).span_stacks j).next
          = (s.span_stacks j).next := by
        intro j
        rcases eq_or_ne j k with rfl | e
        · simp [set_stack]
        · simp [set_stack, upd_apply, e]
      rw [hnx k2]
      exact stack_list_congr _ _ hnx ks _ hl2
    have ih := serialize_stacks_drained rf ks fuel _ k2 _ out r hl3 h
    have := drained_trans (drained_set_flush s k) ih
    simpa using this

theorem serialize_rootstacks_drained (inf : Nat) (sub : Nat → List Nat) :
    ∀ (Gs : List Nat) (fuel : Nat) (s : State) (r : Nat) (acc : List Nat)
      (res : List Nat × State),
      stack_list s.span_stacks (s.span_stacks r).next Gs →
      (∀ e ∈ r :: Gs, stack_list s.span_stacks (s.span_stacks e).top_closed_stack (sub e)) →
      (r :: Gs).Nodup →
      serialize_rootstacks inf fuel s r acc = .ok res →
      drained s res.2 ((r :: Gs).flatMap (fun e => e :: sub e)) (r :: Gs)
  | _, 0, _, _, _, _, _, _, _, h => by simp [serialize_rootstacks] at h
  | Gs, fuel + 1, s, r, acc, res, hl, hs, hn, h => by
    rw [serialize_rootstacks] at h
    obtain ⟨v, hv, h⟩ := except_bind_ok _ _ _ h
    have hnx : ∀ j, ((set_stack s r
        { s.span_stacks r with top_closed_stack := none }).span_stacks j).next
        = (s.span_stacks j).next := by
      intro j
      rcases eq_or_ne j r with rfl | e
      · simp [set_stack]
      · simp [set_stack, upd_apply, e]
    have h1 := serialize_stacks_drained inf (sub r) inf _ r _ acc v
      (stack_list_congr _ _ hnx (sub r) _ (hs r (by simp))) hv
    have h2 := drained_trans (drained_set_top s r) h1
    simp only [List.nil_append, List.append_nil] at h2
    have hfr := drain_frame_trans (drain_frame_set_top s r none)
      (serialize_stacks_frame inf inf _ _ _ _ _ hv)
    have hnx2 : ∀ j, (v.2.span_stacks j).next = (s.span_stacks j).next :=
      fun j => (hfr.2.2.2.2.2.2.2.2.2.2.2.2.2.2.2.2 j).2.2.2.2.2
    cases Gs with
    | nil =>
      have hnone : (s.span_stacks r).next = none := hl
      simp only [hnone] at h
      cases h
      simpa using h2
    | cons r2 Gs2 =>
      obtain ⟨hr2, hl2⟩ := hl
      simp only [hr2] at h
      have hn2 := List.nodup_cons.1 hn
      have ih := serialize_rootstacks_drained inf sub Gs2 fuel v.2 r2 v.1 res
        (by rw [hnx2 r2]; exact stack_list_congr _ _ hnx2 Gs2 _ hl2)
        (fun e he => by
          have her : e ∉ [r] := by
            intro hmem
            rw [List.mem_singleton.1 hmem] at he
            exact hn2.1 he
          rw [h2.2.2.2 e her]
          exact stack_list_congr _ _ hnx2 (sub e) _ (hs e (List.mem_cons_of_mem _ he)))
        hn2.2 h
      have := drained_trans h2 ih
      simpa using this

theorem serialize_worklist_drained (inf : Nat) (sub : Nat → List Nat) (G : List Nat) :
    ∀ (fuel : Nat) (s : State) (acc : List Nat) (res : List Nat × State),
      stack_list s.span_stacks s.top_closed_stack G →
      (∀ e ∈ G, stack_list s.span_stacks (s.span_stacks e).top_closed_stack (sub e)) →
      G.Nodup →
      serialize_worklist inf fuel s acc = .ok res →
      drained s res.2 (G.flatMap (fun e => e :: sub e)) G ∧ res.2.top_closed_stack = none
  | 0, _, _, _, _, _, _, h => by simp [serialize_worklist] at h
  | fuel + 1, s, acc, res, hl, hs, hn, h => by
    rw [serialize_worklist] at h
    cases G with
    | nil =>
      have ht : s.top_closed_stack = none := hl
      simp only [ht] at h
      cases h
      exact ⟨⟨fun j hj => (by cases hj), fun _ _ => rfl, fun j hj => (by cases hj), fun _ _ => rfl⟩,
        ht⟩
    | cons r Gs =>
      obtain ⟨ht, hl2⟩ := hl
      simp only [ht] at h
      obtain ⟨v, hv, h⟩ := except_bind_ok _ _ _ h
      have h1 := serialize_rootstacks_drained inf sub Gs inf
        { s with top_closed_stack := none } r acc v hl2 hs hn hv
      have htop : v.2.top_closed_stack = none :=
        serialize_rootstacks_top inf inf _ _ _ _ hv
      cases fuel with
      | zero => simp [serialize_worklist] at h
      | succ f =>
        rw [serialize_worklist] at h
        simp only [htop] at h
        cases h
        exact ⟨h1, htop⟩

theorem flush_inv_drained (s s2 : State) (G : List Nat) (sub : Nat → List Nat)
    (hh : stack_handles_ok s) (hw : worklist_members s G sub)
    (ha : worklist_allocated s G sub) (hf : drain_frame s s2)
    (hd : drained s s2 (G.flatMap (fun e => e :: sub e)) G)
    (ht : s2.top_closed_stack = none) : flush_inv s2 := by
  obtain ⟨h1, h2, h3, h4⟩ := hh
  obtain ⟨w1, w2, w3, w4, w5, w6, w7⟩ := hw
  obtain ⟨d1, d2, d3, d4⟩ := hd
  obtain ⟨f0, _, fT, fa, _, _, _, _, _, _, _, _, _, _, _, _, fs⟩ := hf
  have hC : ∀ j, j ∈ G.flatMap (fun e => e :: sub e) ↔ (j ∈ G ∨ ∃ e ∈ G, j ∈ sub e) := by
    intro j
    simp only [List.mem_flatMap, List.mem_cons]
    constructor
    · rintro ⟨e, he, rfl | hj⟩
      · exact Or.inl he
      · exact Or.inr ⟨e, he, hj⟩
    · rintro (hj | ⟨e, he, hj⟩)
      · exact ⟨j, hj, Or.inl rfl⟩
      · exact ⟨e, he, Or.inr hj⟩
  refine ⟨⟨fun x c e => ?_, fun c R e => ?_, fun c p e => ?_, fun a e => ?_⟩,
    [], fun r => if r ∈ G then [] else sub r,
    ⟨?_, fun r => ?_, List.nodup_nil, fun r => ?_, fun r j _ hm => (by cases hm), ?_,
      fun j => ?_⟩, fun j hj => (by cases hj), fun r j hj => ?_⟩
  · rw [fT]; exact h1 x c (by rw [f0] at e; exact e)
  · rw [fT]; exact h2 c R (by rw [(fs c).2.2.1] at e; exact e)
  · rw [fT]; exact h3 c p (by rw [(fs c).2.2.2.1] at e; exact e)
  · rw [fT]; exact h4 a (by rw [fa] at e; exact e)
  · rw [ht]; rfl
  · by_cases hr : r ∈ G
    · simp only [hr, if_true]
      rw [d3 r hr]
      rfl
    · simp only [hr, if_false]
      rw [d4 r hr]
      exact stack_list_congr _ _ (fun j => (fs j).2.2.2.2.2) (sub r) _ (w2 r)
  · by_cases hr : r ∈ G
    · simp [hr]
    · simp only [hr, if_false]
      exact w4 r
  · intro r r2 j hj hj2
    by_cases hr : r ∈ G
    · simp [hr] at hj
    · by_cases hr2 : r2 ∈ G
      · simp [hr2] at hj2
      · simp only [hr, if_false] at hj
        simp only [hr2, if_false] at hj2
        exact w6 r r2 j hj hj2
  · have hsub : (∃ r, j ∈ (if r ∈ G then [] else sub r)) ↔ ∃ r, r ∉ G ∧ j ∈ sub r := by
      constructor
      · rintro ⟨r, hr⟩
        by_cases hrG : r ∈ G
        · simp [hrG] at hr
        · simp only [hrG, if_false] at hr
          exact ⟨r, hrG, hr⟩
      · rintro ⟨r, hrG, hr⟩
        exact ⟨r, by simp [hrG, hr]⟩
    simp only [List.not_mem_nil, false_or]
    rw [hsub]
    by_cases hj : j ∈ G.flatMap (fun e => e :: sub e)
    · rw [d1 j hj]
      simp only [ne_eq, not_true_eq_false, false_iff, not_exists, not_and]
      intro r hrG hr
      rcases (hC j).1 hj with e | ⟨e, he, hje⟩
      · exact w5 r j hr e
      · exact hrG (w6 r e j hr hje ▸ he)
    · rw [d2 j hj, w7 j]
      have hj2 := (hC j).not.1 hj
      push_neg at hj2
      constructor
      · rintro (e | ⟨r, hr⟩)
        · exact absurd e hj2.1
        · exact ⟨r, fun hrG => hj2.2 r hrG hr, hr⟩
      · rintro ⟨r, _, hr⟩
        exact Or.inr ⟨r, hr⟩
  · rw [fT]
    by_cases hr : r ∈ G
    · simp [hr] at hj
    · simp only [hr, if_false] at hj
      exact ha.2 r j hj

theorem flush_inv_serialize (fuel : Nat) (s : State) (res : List Nat × State)
    (hi : flush_inv s) (h : ddtrace_serialize_closed_spans fuel s = .ok res) :
    flush_inv res.2 := by
  obtain ⟨hh, G, sub, hw, ha⟩ := hi
  obtain ⟨hd, ht⟩ := serialize_worklist_drained fuel sub G fuel s [] res hw.1
    (fun e _ => hw.2.1 e) hw.2.2.1 h
  exact flush_inv_drained s res.2 G sub hh hw ha (serialize_closed_spans_frame fuel s res h) hd ht

theorem flush_inv_flush_tracer (fuel : Nat) (s s2 : State) (hi : flush_inv s)
    (h : ddtrace_flush_tracer fuel s = .ok s2) : flush_inv s2 := by
  unfold ddtrace_flush_tracer at h
  obtain ⟨r, hr, h⟩ := except_bind_ok _ _ _ h
  cases h
  exact flush_inv_congr r.2 _ rfl rfl (fun _ => ⟨rfl, rfl, rfl, rfl, rfl⟩) (fun _ => rfl)
    (flush_inv_serialize fuel s r hi hr).1.2.2.2 (flush_inv_serialize fuel s r hi hr)

theorem close_drop_induct_stack (P : State → Prop)
    (hswitch : ∀ s x t s2, P s → (s.spans x).stack = some t →
      ddtrace_switch_span_stack s t = .ok s2 → P s2)
    (hstop : ∀ s u, P s → P (dd_trace_stop_span_time s u))
    (hprio : ∀ s p, P s → P (ddtrace_set_prioritySampling_on_root s p))
    (htop : ∀ fuel s span s2, P s →
      ddtrace_close_top_span_without_stack_swap fuel s span = .ok s2 → P s2)
    (hpop : ∀ fuel s span stack s2, P s → (s.spans span).stack = some stack →
      drop_span_pop fuel s span stack = .ok s2 → P s2) :
    ∀ fuel : Nat,
      (∀ s sp s2, P s → ddtrace_close_span fuel s sp = .ok s2 → P s2)
      ∧ (∀ s u s2, P s → ddtrace_close_userland_spans_until fuel s u = .ok s2 → P s2)
      ∧ (∀ s x s2, P s → ddtrace_drop_span fuel s x = .ok s2 → P s2) := by
  intro fuel
  induction fuel with
  | zero =>
    refine ⟨fun s sp s2 _ h => ?_, fun s u s2 _ h => ?_, fun s x s2 _ h => ?_⟩
    · simp [ddtrace_close_span] at h
    · simp [ddtrace_close_userland_spans_until] at h
    · simp [ddtrace_drop_span] at h
  | succ f ih =>
    obtain ⟨ihc, ihu, ihd⟩ := ih
    refine ⟨fun s sp s2 hP h => ?_, fun s u s2 hP h => ?_, fun s x s2 hP h => ?_⟩
    · cases sp with
      | none =>
        rw [ddtrace_close_span] at h
        cases h
        exact hP
      | some t =>
        rw [ddtrace_close_span] at h
        obtain ⟨b, _, h⟩ := except_bind_ok _ _ _ h
        by_cases hc : (!b || (s.spans t).type == DDTRACE_SPAN_CLOSED) = true
        · rw [if_pos hc] at h
          cases h
          exact hP
        · rw [if_neg hc] at h
          obtain ⟨s1, h1, h⟩ := except_bind_ok _ _ _ h
          obtain ⟨s3, h3, h⟩ := except_bind_ok _ _ _ h
          have e1 : P s1 := by
            split_ifs at h1
            · obtain ⟨st, hst, h1⟩ := except_bind_ok _ _ _ h1
              have hstk : (s.spans t).stack = some st := by
                cases hx : (s.spans t).stack with
                | none => rw [hx] at hst; simp [deref] at hst
                | some v => rw [hx] at hst; simp only [deref, Except.ok.injEq] at hst; rw [hst]
              exact hswitch s t st s1 hP hstk h1
            · cases h1
              exact hP
          exact htop f s3 t s2 (ihu s1 t s3 e1 h3) h
    · rw [ddtrace_close_userland_spans_until] at h
      obtain ⟨us, _, h⟩ := except_bind_ok _ _ _ h
      cases ha : (s.span_stacks us).active with
      | none =>
        simp only [ha] at h
        cases h
        exact hP
      | some a =>
        simp only [ha] at h
        split_ifs at h with hc hauto
        · obtain ⟨s1, h1, h⟩ := except_bind_ok _ _ _ h
          exact ihu s1 u s2 (ihc _ _ s1 (hstop s a hP) h1) h
        · obtain ⟨s1, h1, h⟩ := except_bind_ok _ _ _ h
          exact ihu s1 u s2 (ihd _ _ s1 hP h1) h
        · cases h
          exact hP
    · rw [ddtrace_drop_span] at h
      obtain ⟨stack, hst, h⟩ := except_bind_ok _ _ _ h
      obtain ⟨s1, h1, h⟩ := except_bind_ok _ _ _ h
      have hstk : (s.spans x).stack = some stack := by
        cases hx : (s.spans x).stack with
        | none => rw [hx] at hst; simp [deref] at hst
        | some v => rw [hx] at hst; simp only [deref, Except.ok.injEq] at hst; rw [hst]
      have e1 : P s1 ∧ s1.spans = s.spans := by
        split_ifs at h1
        · refine ⟨hswitch s x stack s1 hP hstk h1, ?_⟩
          unfold ddtrace_switch_span_stack at h1
          obtain ⟨_, _, h1⟩ := except_bind_ok _ _ _ h1
          cases h1
          rfl
        · cases h1
          exact ⟨hP, rfl⟩
      split_ifs at h
      · exact ihc _ _ s2 (hstop _ x (hprio s1 _ e1.1)) h
      · exact hpop f s1 x stack s2 e1.1 (by rw [e1.2]; exact hstk) h

theorem flush_inv_frame (s s2 : State)
    (htop : s2.top_closed_stack = s.top_closed_stack) (hT : s2.stack_top = s.stack_top)
    (hst : ∀ j, (s2.span_stacks j).next = (s.span_stacks j).next
      ∧ (s2.span_stacks j).top_closed_stack = (s.span_stacks j).top_closed_stack
      ∧ (s2.span_stacks j).closed_ring_flush = (s.span_stacks j).closed_ring_flush
      ∧ (s2.span_stacks j).root_stack = (s.span_stacks j).root_stack
      ∧ (s2.span_stacks j).parent_stack = (s.span_stacks j).parent_stack)
    (hsp : ∀ x c, (s2.spans x).stack = some c → c < s.stack_top)
    (ha : ∀ a, s2.active_stack = some a → a < s.stack_top)
    (h : flush_inv s) : flush_inv s2 := by
  obtain ⟨⟨_, h2, h3, _⟩, G, sub, hw, ha1, ha2⟩ := h
  refine ⟨⟨fun x k e => ?_, fun k R e => ?_, fun k p e => ?_, fun a e => ?_⟩, G, sub,
    worklist_members_congr s s2 G sub htop (fun j => ⟨(hst j).1, (hst j).2.1, (hst j).2.2.1⟩) hw,
    fun j hj => ?_, fun r j hj => ?_⟩
  · rw [hT]; exact hsp x k e
  · rw [hT]; exact h2 k R (by rw [← (hst k).2.2.2.1]; exact e)
  · rw [hT]; exact h3 k p (by rw [← (hst k).2.2.2.2]; exact e)
  · rw [hT]; exact ha a e
  · rw [hT]; exact ha1 j hj
  · rw [hT]; exact ha2 r j hj

theorem flush_inv_alloc (s s2 : State) (hi : flush_inv s)
    (htop : s2.top_closed_stack = s.top_closed_stack) (hT : s2.stack_top = s.stack_top + 1)
    (hst : ∀ j, j ≠ s.stack_top → (s2.span_stacks j).next = (s.span_stacks j).next
      ∧ (s2.span_stacks j).top_closed_stack = (s.span_stacks j).top_closed_stack
      ∧ (s2.span_stacks j).closed_ring_flush = (s.span_stacks j).closed_ring_flush
      ∧ (s2.span_stacks j).root_stack = (s.span_stacks j).root_stack
      ∧ (s2.span_stacks j).parent_stack = (s.span_stacks j).parent_stack)
    (hnew : (s2.span_stacks s.stack_top).top_closed_stack = none
      ∧ (s2.span_stacks s.stack_top).closed_ring_flush = none
      ∧ (∀ R, (s2.span_stacks s.stack_top).root_stack = some R → R < s.stack_top + 1)
      ∧ ∀ p, (s2.span_stacks s.stack_top).parent_stack = some p → p < s.stack_top + 1)
    (hsp : s2.spans = s.spans)
    (ha : ∀ a, s2.active_stack = some a → a < s.stack_top + 1) : flush_inv s2 := by
  obtain ⟨⟨h1, h2, h3, _⟩, G, sub, ⟨w1, w2, w3, w4, w5, w6, w7⟩, ha1, ha2⟩ := hi
  have hTG : s.stack_top ∉ G := fun h => absurd (ha1 _ h) (lt_irrefl _)
  have hTs : ∀ r, s.stack_top ∉ sub r := fun r h => absurd (ha2 r _ h).1 (lt_irrefl _)
  have hsubT : sub s.stack_top = [] := by
    cases hs : sub s.stack_top with
    | nil => rfl
    | cons j l =>
      have := (ha2 s.stack_top j (by rw [hs]; simp)).2
      exact absurd this (lt_irrefl _)
  have hnext : ∀ l : List Nat, s.stack_top ∉ l →
      ∀ j ∈ l, (s2.span_stacks j).next = (s.span_stacks j).next :=
    fun l hl j hj => (hst j (fun e => hl (e ▸ hj))).1
  refine ⟨⟨fun x k e => ?_, fun k R e => ?_, fun k p e => ?_, fun a e => ?_⟩, G, sub,
    ⟨?_, fun r => ?_, w3, w4, w5, w6, fun j => ?_⟩, fun j hj => ?_, fun r j hj => ?_⟩
  · rw [hT]
    rw [hsp] at e
    exact Nat.lt_succ_of_lt (h1 x k e)
  · rw [hT]
    rcases eq_or_ne k s.stack_top with rfl | hk
    · exact hnew.2.2.1 R e
    · exact Nat.lt_succ_of_lt (h2 k R (by rw [← (hst k hk).2.2.2.1]; exact e))
  · rw [hT]
    rcases eq_or_ne k s.stack_top with rfl | hk
    · exact hnew.2.2.2 p e
    · exact Nat.lt_succ_of_lt (h3 k p (by rw [← (hst k hk).2.2.2.2]; exact e))
  · rw [hT]; exact ha a e
  · rw [htop]
    exact stack_list_congr_mem _ _ G _ (hnext G hTG) w1
  · rcases eq_or_ne r s.stack_top with rfl | hr
    · rw [hnew.1, hsubT]
      rfl
    · rw [(hst r hr).2.1]
      exact stack_list_congr_mem _ _ (sub r) _ (hnext (sub r) (hTs r)) (w2 r)
  · rcases eq_or_ne j s.stack_top with rfl | hj
    · rw [hnew.2.1]
      simp only [ne_eq, not_true_eq_false, false_iff, not_or, not_exists]
      exact ⟨hTG, hTs⟩
    · rw [(hst j hj).2.2.1]
      exact w7 j
  · rw [hT]; exact Nat.lt_succ_of_lt (ha1 j hj)
  · rw [hT]; exact ⟨Nat.lt_succ_of_lt (ha2 r j hj).1, Nat.lt_succ_of_lt (ha2 r j hj).2⟩

theorem flush_inv_init_root (s : State) (hi : flush_inv s) :
    flush_inv (ddtrace_init_root_span_stack s).2 := by
  have h4 := hi.1.2.2.2
  refine flush_inv_alloc s _ hi rfl rfl (fun j hj => ?_) ⟨?_, ?_, ?_, ?_⟩ rfl (fun a e => ?_)
  · simp [ddtrace_init_root_span_stack, dd_alloc_span_stack, set_stack, upd_apply, hj]
  · simp only [ddtrace_init_root_span_stack, dd_alloc_span_stack, set_stack, upd_same]
    cases s.active_stack <;> rfl
  · simp only [ddtrace_init_root_span_stack, dd_alloc_span_stack, set_stack, upd_same]
    cases s.active_stack <;> rfl
  · intro R e
    simp only [ddtrace_init_root_span_stack, dd_alloc_span_stack, set_stack, upd_same] at e
    cases Option.some.inj e
    exact Nat.lt_succ_self _
  · intro p e
    simp only [ddtrace_init_root_span_stack, dd_alloc_span_stack, set_stack, upd_same] at e
    cases ha : s.active_stack with
    | none => rw [ha] at e; cases e
    | some a =>
      rw [ha] at e
      have e2 : a = p := Option.some.inj e
      rw [← e2]
      exact Nat.lt_succ_of_lt (h4 a ha)
  · exact Nat.lt_succ_of_lt (h4 a e)

theorem flush_inv_init_child (s : State) (r : Nat × State) (hi : flush_inv s)
    (h : ddtrace_init_span_stack s = .ok r) : flush_inv r.2 := by
  have h2 := hi.1.2.1
  have h4 := hi.1.2.2.2
  unfold ddtrace_init_span_stack at h
  simp only [dd_alloc_span_stack] at h
  obtain ⟨a, hda, h⟩ := except_bind_ok _ _ _ h
  cases h
  have haa : s.active_stack = some a := by
    cases hx : s.active_stack with
    | none => rw [hx] at hda; simp [deref] at hda
    | some v => rw [hx] at hda; simp only [deref, Except.ok.injEq] at hda; rw [hda]
  have hlt : a < s.stack_top := h4 a haa
  have hne : a ≠ s.stack_top := Nat.ne_of_lt hlt
  refine flush_inv_alloc s _ hi rfl rfl (fun j hj => ?_) ⟨?_, ?_, ?_, ?_⟩ rfl (fun b e => ?_)
  · simp [set_stack, upd_apply, hj]
  · simp [set_stack]
  · simp [set_stack]
  · intro R e
    simp only [set_stack, upd_same, upd_apply, hne, if_false] at e
    exact Nat.lt_succ_of_lt (h2 a R e)
  · intro p e
    simp only [set_stack, upd_same] at e
    cases Option.some.inj e
    exact Nat.lt_succ_of_lt hlt
  · exact Nat.lt_succ_of_lt (h4 b e)

theorem flush_inv_switch (s : State) (t : Nat) (s2 : State) (hi : flush_inv s)
    (ht : t < s.stack_top) (h : ddtrace_switch_span_stack s t = .ok s2) : flush_inv s2 := by
  unfold ddtrace_switch_span_stack at h
  obtain ⟨_, _, h⟩ := except_bind_ok _ _ _ h
  cases h
  exact flush_inv_frame s _ rfl rfl (fun _ => ⟨rfl, rfl, rfl, rfl, rfl⟩) hi.1.1
    (fun a e => by cases Option.some.inj e; exact ht) hi

theorem flush_inv_set_span (s : State) (x : Nat) (v : ddtrace_span_data) (hi : flush_inv s)
    (hv : v.stack = (s.spans x).stack ∨ v.stack = none) : flush_inv (set_span s x v) := by
  refine flush_inv_frame s _ rfl rfl (fun _ => ⟨rfl, rfl, rfl, rfl, rfl⟩) (fun y c e => ?_)
    hi.1.2.2.2 hi
  simp only [set_span, upd_apply] at e
  split_ifs at e with hy
  · rcases hv with hv | hv
    · rw [hv] at e
      exact hi.1.1 x c e
    · rw [hv] at e
      cases e
  · exact hi.1.1 y c e

theorem entry_release_lists (s : State) (k : Nat) (s2 : State)
    (h : entry_release s k = .ok s2) :
    s2.spans = s.spans ∧ s2.top_closed_stack = s.top_closed_stack
    ∧ s2.stack_top = s.stack_top
    ∧ (∀ j, (s2.span_stacks j).next = (s.span_stacks j).next
      ∧ (s2.span_stacks j).top_closed_stack = (s.span_stacks j).top_closed_stack
      ∧ (s2.span_stacks j).closed_ring_flush = (s.span_stacks j).closed_ring_flush
      ∧ (s2.span_stacks j).root_stack = (s.span_stacks j).root_stack
      ∧ (s2.span_stacks j).parent_stack = (s.span_stacks j).parent_stack)
    ∧ (s2.active_stack = s.active_stack
      ∨ s2.active_stack = (s.span_stacks k).parent_stack) := by
  have hst : ∀ j, ((set_stack s k { s.span_stacks k with root_span := none }).span_stacks j).next
        = (s.span_stacks j).next
      ∧ ((set_stack s k { s.span_stacks k with root_span := none }).span_stacks
          j).top_closed_stack = (s.span_stacks j).top_closed_stack
      ∧ ((set_stack s k { s.span_stacks k with root_span := none }).span_stacks
          j).closed_ring_flush = (s.span_stacks j).closed_ring_flush
      ∧ ((set_stack s k { s.span_stacks k with root_span := none }).span_stacks j).root_stack
          = (s.span_stacks j).root_stack
      ∧ ((set_stack s k { s.span_stacks k with root_span := none }).span_stacks j).parent_stack
          = (s.span_stacks j).parent_stack := by
    intro j
    rcases eq_or_ne j k with rfl | e
    · simp [set_stack]
    · simp [set_stack, upd_apply, e]
  unfold entry_release at h
  simp only [ddtrace_fetch_prioritySampling_from_root, set_stack, upd_same] at h
  by_cases hc : (s.span_stacks k).root_stack = some k ∧ s.active_stack = some k
  · rw [if_pos hc] at h
    obtain ⟨p, hp, h⟩ := except_bind_ok _ _ _ h
    unfold ddtrace_switch_span_stack at h
    obtain ⟨_, _, h⟩ := except_bind_ok _ _ _ h
    cases h
    have hpp : (s.span_stacks k).parent_stack = some p := by
      cases hx : (s.span_stacks k).parent_stack with
      | none => rw [hx] at hp; simp [deref] at hp
      | some v => rw [hx] at hp; simp only [deref, Except.ok.injEq] at hp; rw [hp]
    exact ⟨rfl, rfl, rfl, hst, Or.inr hpp.symm⟩
  · rw [if_neg hc] at h
    cases h
    exact ⟨rfl, rfl, rfl, hst, Or.inl rfl⟩

theorem flush_inv_entry (fuel : Nat) (s : State) (k : Nat) (s2 : State) (hi : flush_inv s)
    (hk : k < s.stack_top) (h : dd_close_entry_span_of_stack fuel s k = .ok s2) :
    flush_inv s2 := by
  rw [close_entry_eq] at h
  obtain ⟨m, hm, h⟩ := except_bind_ok _ _ _ h
  have him := flush_inv_mark s k m hi hk hm
  by_cases ho : entry_owns m k = true
  · rw [if_pos ho] at h
    obtain ⟨m3, hm3, h⟩ := except_bind_ok _ _ _ h
    obtain ⟨r1, r2, r3, r4, r5⟩ := entry_release_lists m k m3 hm3
    have hi3 : flush_inv m3 := by
      refine flush_inv_frame m m3 r2 r3 r4 (fun x c e => ?_) (fun a e => ?_) him
      · rw [r1] at e
        exact him.1.1 x c e
      · rcases r5 with r5 | r5
        · rw [r5] at e
          exact him.1.2.2.2 a e
        · rw [r5] at e
          exact him.1.2.2.1 k a e
    by_cases hf : m3.auto_flush_enabled = true
    · rw [if_pos hf] at h
      exact flush_inv_flush_tracer fuel m3 s2 hi3 h
    · rw [if_neg hf] at h
      cases h
      exact hi3
  · rw [if_neg ho] at h
    cases h
    exact him

theorem flush_inv_of_close_frame (k : Nat) (s s2 : State) (hf : close_frame k s s2)
    (hi : flush_inv s) : flush_inv s2 := by
  obtain ⟨c1, _, _, c4, c5, c6, _, _, _, _, _, _, _, _, _, c16⟩ := hf
  refine flush_inv_frame s s2 c6 c4 (fun j => ?_) (fun x c e => ?_) (fun a e => ?_) hi
  · obtain ⟨_, a2, a3, a4, a5, a6, _⟩ := c16 j
    exact ⟨a5, a6, a4, a2, a3⟩
  · rw [(c1 x).1] at e
    exact hi.1.1 x c e
  · rw [c5] at e
    exact hi.1.2.2.2 a e

theorem flush_inv_close_top (fuel : Nat) (s : State) (span : Nat) (s2 : State)
    (hi : flush_inv s)
    (h : ddtrace_close_top_span_without_stack_swap fuel s span = .ok s2) : flush_inv s2 := by
  cases hs : (s.spans span).stack with
  | none =>
    unfold ddtrace_close_top_span_without_stack_swap at h
    simp [hs, deref, bind, Except.bind] at h
  | some stack =>
    rw [close_top_eq fuel s span stack hs] at h
    have hfr := close_top_core_frame s span stack
    have hc := flush_inv_of_close_frame stack s _ hfr hi
    by_cases hem : chain_emptied (close_top_core s span stack) stack = true
    · rw [if_pos hem] at h
      exact flush_inv_entry fuel _ stack s2 hc (by rw [hfr.2.2.2.1]; exact hi.1.1 span stack hs) h
    · rw [if_neg hem] at h
      cases h
      exact hc

theorem flush_inv_drop_pop (fuel : Nat) (s : State) (span stack : Nat) (s2 : State)
    (hi : flush_inv s) (hs : (s.spans span).stack = some stack)
    (h : drop_span_pop fuel s span stack = .ok s2) : flush_inv s2 := by
  rw [drop_pop_eq] at h
  obtain ⟨s1, h1, h⟩ := except_bind_ok _ _ _ h
  cases h
  have hc : flush_inv (drop_pop_core s span stack) := by
    refine flush_inv_frame s _ rfl rfl (fun j => ?_) hi.1.1 hi.1.2.2.2 hi
    rcases eq_or_ne j stack with rfl | e
    · simp [drop_pop_core, set_stack]
    · simp [drop_pop_core, set_stack, upd_apply, e]
  have h1i : flush_inv s1 := by
    by_cases hem : chain_emptied (drop_pop_core s span stack) stack = true
    · rw [if_pos hem] at h1
      exact flush_inv_entry fuel _ stack s1 hc (hi.1.1 span stack hs) h1
    · rw [if_neg hem] at h1
      cases h1
      exact hc
  exact flush_inv_set_span s1 span _ h1i (Or.inl rfl)

theorem flush_inv_close_drop (fuel : Nat) :
    (∀ s sp s2, flush_inv s → ddtrace_close_span fuel s sp = .ok s2 → flush_inv s2)
    ∧ (∀ s u s2, flush_inv s → ddtrace_close_userland_spans_until fuel s u = .ok s2 →
      flush_inv s2)
    ∧ (∀ s x s2, flush_inv s → ddtrace_drop_span fuel s x = .ok s2 → flush_inv s2) := by
  refine close_drop_induct_stack flush_inv ?_ ?_ ?_ ?_ ?_ fuel
  · intro s x t s2 hi hx h
    exact flush_inv_switch s t s2 hi (hi.1.1 x t hx) h
  · intro s u hi
    exact flush_inv_set_span s u _ hi (Or.inl rfl)
  · intro s p hi
    unfold ddtrace_set_prioritySampling_on_root
    cases s.active_stack with
    | none => exact hi
    | some a =>
      dsimp only
      cases (s.span_stacks a).root_span with
      | none => exact hi
      | some r => exact flush_inv_set_span s r _ hi (Or.inl rfl)
  · intro fuel s span s2 hi h
    exact flush_inv_close_top fuel s span s2 hi h
  · intro fuel s span stack s2 hi hs h
    exact flush_inv_drop_pop fuel s span stack s2 hi hs h

theorem flush_inv_open_enter (s : State) (k : Nat) (hi : flush_inv s)
    (ha : s.active_stack = some k) :
    flush_inv (open_span_enter s k).2
    ∧ (open_span_enter s k).1 < (open_span_enter s k).2.stack_top
    ∧ (open_span_enter s k).2.spans = s.spans
    ∧ (open_span_enter s k).2.top_closed_stack = s.top_closed_stack := by
  unfold open_span_enter
  by_cases hp : (s.span_stacks k).parent_stack = none
  · rw [if_pos hp]
    have h1 := flush_inv_init_root s hi
    refine ⟨?_, Nat.lt_succ_self _, rfl, rfl⟩
    exact flush_inv_frame (ddtrace_init_root_span_stack s).2 _ rfl rfl
      (fun _ => ⟨rfl, rfl, rfl, rfl, rfl⟩) h1.1.1
      (fun a e => by cases Option.some.inj e; exact Nat.lt_succ_self _) h1
  · rw [if_neg hp]
    exact ⟨hi, hi.1.2.2.2 k ha, rfl, rfl⟩

theorem flush_inv_open_span (H : Hooks) (s : State) (span : Nat) (s2 : State)
    (hi : flush_inv s) (h : ddtrace_open_span H s span = .ok s2) : flush_inv s2 := by
  obtain ⟨k, ha, f1, _, f3, _, _, _, f7, _, _, _, _, _, _, kx, kg, kj⟩ :=
    open_span_facts H s span s2 h
  obtain ⟨e1, e2, e3, e4⟩ := flush_inv_open_enter s k hi ha
  refine flush_inv_frame (open_span_enter s k).2 s2 (by rw [kg.1, e4]) kg.2.2.2.2.2.2.2.2
    (fun j => ?_) (fun x c e => ?_) (fun a e => ?_) e1
  · obtain ⟨a1, a2, _, a4, a5, a6⟩ := kj j
    exact ⟨a5, a6, a4, a1, a2⟩
  · by_cases hx : x = span
    · rw [hx, f1] at e
      cases Option.some.inj e
      exact e2
    · rw [f7 x hx] at e
      exact e1.1.1 x c (by rw [e3]; exact e)
  · rw [f3] at e
    cases Option.some.inj e
    exact e2

theorem flush_inv_init_span (s : State) (type : ddtrace_span_dataype) (hi : flush_inv s) :
    flush_inv (ddtrace_init_span s type).2 := by
  refine flush_inv_frame s _ rfl rfl (fun _ => ⟨rfl, rfl, rfl, rfl, rfl⟩) (fun x c e => ?_)
    hi.1.2.2.2 hi
  by_cases hx : x = s.span_top
  · simp [ddtrace_init_span, hx] at e
  · simp only [ddtrace_init_span, upd_apply, hx, if_false] at e
    exact hi.1.1 x c e

theorem flush_inv_mark_all : ∀ (n : Nat) (s s2 : State), flush_inv s →
    n ≤ s.stack_top - 1 → mark_all_loop n s = .ok s2 → flush_inv s2
  | 0, s, s2, hi, _, h => by
    cases h
    exact hi
  | n + 1, s, s2, hi, hn, h => by
    rw [mark_all_loop] at h
    obtain ⟨s1, h1, h⟩ := except_bind_ok _ _ _ h
    have hT : s1.stack_top = s.stack_top := (mark_frame s (n + 1) s1 h1).2.2.2.2.2.2.2.1
    exact flush_inv_mark_all n s1 s2 (flush_inv_mark s (n + 1) s1 hi (by omega) h1)
      (by rw [hT]; omega) h

theorem flush_inv_init (autofinish auto_flush : Bool) (ids : Nat → Nat) :
    flush_inv (ddtrace_init_span_stacks (fresh_state autofinish auto_flush ids)) := by
  have hst : ∀ j, ((ddtrace_init_span_stacks
        (fresh_state autofinish auto_flush ids)).span_stacks j).closed_ring_flush = none
      ∧ ((ddtrace_init_span_stacks
        (fresh_state autofinish auto_flush ids)).span_stacks j).top_closed_stack = none
      ∧ ((ddtrace_init_span_stacks
        (fresh_state autofinish auto_flush ids)).span_stacks j).parent_stack = none
      ∧ (∀ R, ((ddtrace_init_span_stacks
        (fresh_state autofinish auto_flush ids)).span_stacks j).root_stack = some R → R < 2) := by
    intro j
    simp only [ddtrace_init_span_stacks, ddtrace_init_root_span_stack, dd_alloc_span_stack,
      fresh_state, set_stack, upd_apply]
    by_cases hj : j = 1
    · simp [hj]
    · simp [hj]
  refine ⟨⟨fun x k e => ?_, fun k R e => ?_, fun k p e => ?_, fun a e => ?_⟩,
    [], fun _ => [], ⟨rfl, fun r => (hst r).2.1, List.nodup_nil, fun _ => List.nodup_nil,
      fun _ _ hj => (by cases hj), fun _ _ _ hj => (by cases hj), fun j => ?_⟩,
    fun j hj => (by cases hj), fun _ _ hj => (by cases hj)⟩
  · simp [ddtrace_init_span_stacks, ddtrace_init_root_span_stack, dd_alloc_span_stack,
      fresh_state, set_stack] at e
  · exact (hst k).2.2.2 R e
  · rw [(hst k).2.2.1] at e
    cases e
  · have hT : (ddtrace_init_span_stacks (fresh_state autofinish auto_flush ids)).stack_top
        = 2 := rfl
    have hA : (ddtrace_init_span_stacks (fresh_state autofinish auto_flush ids)).active_stack
        = some 1 := rfl
    rw [hA] at e
    rw [hT, ← Option.some.inj e]
    decide
  · rw [(hst j).1]
    simp

theorem flush_inv_apply_op (s s2 : State) (op : span_op) (hi : flush_inv s)
    (hl : switch_target_live s (.span op) = true) (h : apply_op s op = .ok s2) :
    flush_inv s2 := by
  cases op with
  | init_root_span_stack =>
    cases h
    exact flush_inv_init_root s hi
  | init_span_stack =>
    simp only [apply_op] at h
    cases hr : ddtrace_init_span_stack s with
    | error e => simp [hr, Except.map] at h
    | ok r =>
      simp only [hr, Except.map] at h
      cases h
      exact flush_inv_init_child s r hi hr
  | switch_span_stack t =>
    simp only [switch_target_live, decide_eq_true_eq] at hl
    exact flush_inv_switch s t s2 hi hl.2 h
  | open_span type fuel dp dt =>
    exact flush_inv_open_span _ _ _ s2 (flush_inv_init_span s type hi) h
  | close_span fuel span =>
    exact (flush_inv_close_drop fuel).1 s (some span) s2 hi h
  | drop_span fuel span =>
    exact (flush_inv_close_drop fuel).2.2 s span s2 hi h

theorem flush_inv_apply_stack_op (s s2 : State) (op : stack_op) (hi : flush_inv s)
    (hl : switch_target_live s op = true) (h : apply_stack_op s op = .ok s2) :
    flush_inv s2 := by
  cases op with
  | span op => exact flush_inv_apply_op s s2 op hi hl h
  | mark_all_span_stacks_flushable =>
    exact flush_inv_mark_all _ s s2 hi (le_refl _) h
  | serialize_closed_spans fuel =>
    simp only [apply_stack_op] at h
    cases hr : ddtrace_serialize_closed_spans fuel s with
    | error e => simp [hr, Except.map] at h
    | ok r =>
      simp only [hr, Except.map] at h
      cases h
      exact flush_inv_serialize fuel s r hi hr

theorem flush_inv_run : ∀ (ops : List stack_op) (s s2 : State), flush_inv s →
    live_run ops s = true → run_stack_ops ops s = .ok s2 → flush_inv s2
  | [], s, s2, hi, _, h => by
    cases h
    exact hi
  | op :: ops, s, s2, hi, hl, h => by
    rw [run_stack_ops] at h
    obtain ⟨s1, h1, h⟩ := except_bind_ok _ _ _ h
    simp only [live_run, h1, Bool.and_eq_true] at hl
    exact flush_inv_run ops s1 s2 (flush_inv_apply_stack_op s s1 op hi hl.1 h1) hl.2 h

theorem counter_sum_eq (s s2 : State) (h1 : s2.open_spans_count = s.open_spans_count)
    (h2 : s2.closed_spans_count = s.closed_spans_count)
    (h3 : s2.dropped_spans_count = s.dropped_spans_count) : counter_sum s2 = counter_sum s := by
  unfold counter_sum
  rw [h1, h2, h3]

theorem sum32_close (o c d : Nat) :
    (decr32 o + incr32 c + d) % 2 ^ 32 = (o + c + d) % 2 ^ 32 := by
  unfold decr32 incr32
  have h : (2 : Nat) ^ 32 = 4294967296 := by norm_num
  rw [h]
  omega

theorem sum32_drop (o c d : Nat) :
    (decr32 o + c + incr32 d) % 2 ^ 32 = (o + c + d) % 2 ^ 32 := by
  unfold decr32 incr32
  have h : (2 : Nat) ^ 32 = 4294967296 := by norm_num
  rw [h]
  omega

theorem sum32_open (o c d : Nat) :
    (incr32 o + c + d) % 2 ^ 32 = ((o + c + d) % 2 ^ 32 + 1) % 2 ^ 32 := by
  unfold incr32
  have h : (2 : Nat) ^ 32 = 4294967296 := by norm_num
  rw [h]
  omega

theorem counter_sum_entry (s s2 : State) (h : entry_frame s s2) :
    counter_sum s2 = counter_sum s :=
  counter_sum_eq s s2 h.2.2.2.1 h.2.2.2.2.2.1 h.2.2.2.2.1

theorem counter_sum_close_top (fuel : Nat) (s : State) (span : Nat) (s2 : State)
    (h : ddtrace_close_top_span_without_stack_swap fuel s span = .ok s2) :
    counter_sum s2 = counter_sum s := by
  cases hs : (s.spans span).stack with
  | none =>
    unfold ddtrace_close_top_span_without_stack_swap at h
    simp [hs, deref, bind, Except.bind] at h
  | some stack =>
    rw [close_top_eq fuel s span stack hs] at h
    obtain ⟨c1, c2, c3⟩ := close_top_core_counts s span stack
    have hc : counter_sum (close_top_core s span stack) = counter_sum s := by
      unfold counter_sum
      rw [c1, c2, c3]
      exact sum32_close _ _ _
    by_cases hem : chain_emptied (close_top_core s span stack) stack = true
    · rw [if_pos hem] at h
      rw [counter_sum_entry _ s2 (close_entry_frame fuel _ stack s2 h), hc]
    · rw [if_neg hem] at h
      cases h
      exact hc

theorem counter_sum_drop_pop (fuel : Nat) (s : State) (span stack : Nat) (s2 : State)
    (h : drop_span_pop fuel s span stack = .ok s2) : counter_sum s2 = counter_sum s := by
  rw [drop_pop_eq] at h
  obtain ⟨s1, h1, h⟩ := except_bind_ok _ _ _ h
  cases h
  have hc : counter_sum (drop_pop_core s span stack) = counter_sum s := by
    show (decr32 s.open_spans_count + s.closed_spans_count + incr32 s.dropped_spans_count)
      % 2 ^ 32 = _
    exact sum32_drop _ _ _
  have h2 : counter_sum s1 = counter_sum s := by
    by_cases hem : chain_emptied (drop_pop_core s span stack) stack = true
    · rw [if_pos hem] at h1
      rw [counter_sum_entry _ s1 (close_entry_frame fuel _ stack s1 h1), hc]
    · rw [if_neg hem] at h1
      cases h1
      exact hc
  rw [← h2]
  rfl

theorem counter_sum_close_drop (v : Nat) (fuel : Nat) :
    (∀ s sp s2, counter_sum s = v → ddtrace_close_span fuel s sp = .ok s2 → counter_sum s2 = v)
    ∧ (∀ s u s2, counter_sum s = v → ddtrace_close_userland_spans_until fuel s u = .ok s2 →
      counter_sum s2 = v)
    ∧ (∀ s x s2, counter_sum s = v → ddtrace_drop_span fuel s x = .ok s2 →
      counter_sum s2 = v) := by
  refine close_drop_induct (fun s => counter_sum s = v) ?_ ?_ ?_ ?_ ?_ fuel
  · intro s t s2 hE h
    unfold ddtrace_switch_span_stack at h
    obtain ⟨_, _, h⟩ := except_bind_ok _ _ _ h
    cases h
    exact hE
  · intro s u hE
    exact hE
  · intro s p hE
    unfold ddtrace_set_prioritySampling_on_root
    cases s.active_stack with
    | none => exact hE
    | some a =>
      dsimp only
      cases (s.span_stacks a).root_span with
      | none => exact hE
      | some r => exact hE
  · intro fuel s span s2 hE h
    show counter_sum s2 = v
    rw [counter_sum_close_top fuel s span s2 h]
    exact hE
  · intro fuel s span stack s2 hE _ h
    show counter_sum s2 = v
    rw [counter_sum_drop_pop fuel s span stack s2 h]
    exact hE

theorem counter_sum_close_open_spans (fuel : Nat) ( force : Bool) (stack : Nat) :
    ∀ (n : Nat) (s s2 : State), close_open_spans_of_stack fuel force stack n s = .ok s2 →
      counter_sum s2 = counter_sum s
  | 0, _, _, h => by simp [close_open_spans_of_stack] at h
  | n + 1, s, s2, h => by
    rw [close_open_spans_of_stack] at h
    cases ha : (s.span_stacks stack).active with
    | none =>
      simp only [ha] at h
      cases h
      rfl
    | some span =>
      simp only [ha] at h
      by_cases hs : (s.spans span).stack = some stack
      · rw [if_pos hs] at h
        obtain ⟨s1, h1, h⟩ := except_bind_ok _ _ _ h
        have e1 : counter_sum s1 = counter_sum s := by
          split_ifs at h1
          · exact (counter_sum_close_drop (counter_sum s) fuel).1
              (dd_trace_stop_span_time s span) _ s1 rfl h1
          · exact (counter_sum_close_drop (counter_sum s) fuel).2.2 s _ s1 rfl h1
        rw [counter_sum_close_open_spans fuel force stack n s1 s2 h, e1]
      · rw [if_neg hs] at h
        cases h
        rfl

theorem counter_sum_close_all (fuel : Nat) ( force : Bool) :
    ∀ (n : Nat) (s s2 : State), close_all_loop fuel force n s = .ok s2 →
      counter_sum s2 = counter_sum s
  | 0, _, _, h => by
    cases h
    rfl
  | n + 1, s, s2, h => by
    rw [close_all_loop] at h
    obtain ⟨s1, h1, h⟩ := except_bind_ok _ _ _ h
    rw [counter_sum_close_all fuel force n s1 s2 h,
      counter_sum_close_open_spans fuel force (n + 1) fuel s s1 h1]

theorem counter_sum_mark_all : ∀ (n : Nat) (s s2 : State), mark_all_loop n s = .ok s2 →
    counter_sum s2 = counter_sum s
  | 0, _, _, h => by
    cases h
    rfl
  | n + 1, s, s2, h => by
    rw [mark_all_loop] at h
    obtain ⟨s1, h1, h⟩ := except_bind_ok _ _ _ h
    rw [counter_sum_mark_all n s1 s2 h, counter_sum_entry s s1 (mark_frame s (n + 1) s1 h1)]

theorem counter_sum_apply_op (s s2 : State) (op : span_op) (h : apply_op s op = .ok s2) :
    counter_sum s2
      = (match op with
        | .open_span _ _ _ _ => (counter_sum s + 1) % 2 ^ 32
        | _ => counter_sum s) := by
  cases op with
  | init_root_span_stack =>
    cases h
    rfl
  | init_span_stack =>
    simp only [apply_op] at h
    cases hr : ddtrace_init_span_stack s with
    | error e => simp [hr, Except.map] at h
    | ok r =>
      simp only [hr, Except.map] at h
      cases h
      unfold ddtrace_init_span_stack at hr
      simp only [dd_alloc_span_stack] at hr
      obtain ⟨a, _, hr⟩ := except_bind_ok _ _ _ hr
      cases hr
      rfl
  | switch_span_stack t =>
    simp only [apply_op] at h
    unfold ddtrace_switch_span_stack at h
    obtain ⟨_, _, h⟩ := except_bind_ok _ _ _ h
    cases h
    rfl
  | open_span type fuel dp dt =>
    obtain ⟨k, _, _, _, _, _, _, _, _, _, e9, e10, e11, _⟩ := open_new_span_facts _ type s s2 h
    show (s2.open_spans_count + s2.closed_spans_count + s2.dropped_spans_count) % 2 ^ 32 = _
    rw [e9, e10, e11]
    exact sum32_open _ _ _
  | close_span fuel span =>
    exact (counter_sum_close_drop (counter_sum s) fuel).1 s (some span) s2 rfl h
  | drop_span fuel span =>
    exact (counter_sum_close_drop (counter_sum s) fuel).2.2 s span s2 rfl h

theorem counter_sum_run : ∀ (ops : List request_op) (s s2 : State),
    run_request_ops ops s = .ok s2 →
    counter_sum s2 = (counter_sum s + open_calls ops) % 2 ^ 32
  | [], s, s2, h => by
    cases h
    unfold counter_sum open_calls
    simp
  | op :: ops, s, s2, h => by
    rw [run_request_ops] at h
    obtain ⟨s1, h1, h⟩ := except_bind_ok _ _ _ h
    have ih := counter_sum_run ops s1 s2 h
    have key : ∀ a b n : Nat, (a % 2 ^ 32 + n) % 2 ^ 32 = (a + n) % 2 ^ 32 := by
      intro a b n
      rw [Nat.add_mod, Nat.mod_mod, ← Nat.add_mod]
    cases op with
    | close_all_open_spans fuel force =>
      have e : counter_sum s1 = counter_sum s := counter_sum_close_all fuel force _ s s1 h1
      rw [ih, e]
      rfl
    | stack sop =>
      cases sop with
      | mark_all_span_stacks_flushable =>
        have e : counter_sum s1 = counter_sum s := counter_sum_mark_all _ s s1 h1
        rw [ih, e]
        rfl
      | serialize_closed_spans fuel =>
        have e : counter_sum s1 = counter_sum s := by
          simp only [apply_request_op, apply_stack_op] at h1
          cases hr : ddtrace_serialize_closed_spans fuel s with
          | error e => simp [hr, Except.map] at h1
          | ok r =>
            simp only [hr, Except.map] at h1
            cases h1
            obtain ⟨_, _, _, _, d5, d6, d7, _⟩ := serialize_closed_spans_frame fuel s r hr
            exact counter_sum_eq s r.2 d5 d7 d6
        rw [ih, e]
        rfl
      | span o =>
        have e := counter_sum_apply_op s s1 o h1
        cases o with
        | open_span type fuel dp dt =>
          simp only at e
          rw [ih, e]
          show ((counter_sum s + 1) % 2 ^ 32 + open_calls ops) % 2 ^ 32
            = (counter_sum s + (open_calls ops + 1)) % 2 ^ 32
          rw [key _ 0]
          congr 1
          omega
        | init_root_span_stack => simp only at e; rw [ih, e]; rfl
        | init_span_stack => simp only at e; rw [ih, e]; rfl
        | switch_span_stack t => simp only at e; rw [ih, e]; rfl
        | close_span fuel span => simp only at e; rw [ih, e]; rfl
        | drop_span fuel span => simp only at e; rw [ih, e]; rfl

theorem stack_tree_frame (s s2 : State) (htop : s2.stack_top = s.stack_top)
    (hst : ∀ j, (s2.span_stacks j).root_stack = (s.span_stacks j).root_stack
      ∧ (s2.span_stacks j).parent_stack = (s.span_stacks j).parent_stack)
    (hsp : ∀ x k, (s2.spans x).stack = some k → 1 ≤ k ∧ k < s.stack_top)
    (hact : ∃ a, s2.active_stack = some a ∧ 1 ≤ a ∧ a < s.stack_top)
    (hi : stack_tree s) : stack_tree s2 := by
  refine ⟨by rw [htop]; exact hact, fun x k e => by rw [htop]; exact hsp x k e,
    fun k h1 h2 => ?_⟩
  rw [htop] at h2
  obtain ⟨r, e1, e2, e3, e4, e5⟩ := hi.2.2 k h1 h2
  refine ⟨r, by rw [(hst k).1]; exact e1, e2, e3,
    fun e he => e4 e (by rw [← (hst k).2]; exact he), ?_⟩
  rcases e5 with e5 | ⟨p, p1, p2⟩
  · exact Or.inl e5
  · exact Or.inr ⟨p, by rw [(hst k).2]; exact p1, by rw [(hst p).1]; exact p2⟩

theorem stack_tree_alloc (s s2 : State) (hi : stack_tree s)
    (htop : s2.stack_top = s.stack_top + 1)
    (hold : ∀ j, j ≠ s.stack_top → s2.span_stacks j = s.span_stacks j)
    (hsp : s2.spans = s.spans) (hact : s2.active_stack = s.active_stack)
    (hnew : ∃ r, (s2.span_stacks s.stack_top).root_stack = some r ∧ 1 ≤ r ∧ r ≤ s.stack_top
      ∧ (∀ e, (s2.span_stacks s.stack_top).parent_stack = some e → 1 ≤ e ∧ e < s.stack_top)
      ∧ (r = s.stack_top ∨ ∃ p, (s2.span_stacks s.stack_top).parent_stack = some p
          ∧ (s.span_stacks p).root_stack = some r)) : stack_tree s2 := by
  obtain ⟨a, ha, ha1, ha2⟩ := hi.1
  refine ⟨⟨a, by rw [hact]; exact ha, ha1, by rw [htop]; omega⟩, fun x k e => ?_,
    fun k h1 h2 => ?_⟩
  · rw [hsp] at e
    have := hi.2.1 x k e
    rw [htop]
    omega
  · rw [htop] at h2
    by_cases hk : k = s.stack_top
    · rw [hk]
      obtain ⟨r, e1, e2, e3, e4, e5⟩ := hnew
      refine ⟨r, e1, e2, e3, e4, ?_⟩
      rcases e5 with e5 | ⟨p, p1, p2⟩
      · exact Or.inl e5
      · refine Or.inr ⟨p, p1, ?_⟩
        rw [hold p (by have := (e4 p p1).2; omega)]
        exact p2
    · obtain ⟨r, e1, e2, e3, e4, e5⟩ := hi.2.2 k h1 (by omega)
      rw [hold k hk]
      refine ⟨r, e1, e2, e3, e4, ?_⟩
      rcases e5 with e5 | ⟨p, p1, p2⟩
      · exact Or.inl e5
      · refine Or.inr ⟨p, p1, ?_⟩
        rw [hold p (by have := (e4 p p1).2; omega)]
        exact p2

theorem stack_tree_init_root (s : State) (hi : stack_tree s) :
    stack_tree (ddtrace_init_root_span_stack s).2 := by
  obtain ⟨a, ha, ha1, ha2⟩ := hi.1
  refine stack_tree_alloc s _ hi rfl (fun j hj => ?_) rfl rfl
    ⟨s.stack_top, ?_, by omega, le_refl _, fun e he => ?_, Or.inl rfl⟩
  · simp [ddtrace_init_root_span_stack, dd_alloc_span_stack, set_stack, upd_apply, hj]
  · simp [ddtrace_init_root_span_stack, dd_alloc_span_stack, set_stack]
  · simp only [ddtrace_init_root_span_stack, dd_alloc_span_stack, set_stack, upd_same, ha]
      at he
    cases Option.some.inj he
    exact ⟨ha1, ha2⟩

theorem stack_tree_init_child (s : State) (r : Nat × State) (hi : stack_tree s)
    (h : ddtrace_init_span_stack s = .ok r) : stack_tree r.2 := by
  obtain ⟨a, ha, ha1, ha2⟩ := hi.1
  obtain ⟨R, e1, e2, e3, _, _⟩ := hi.2.2 a ha1 ha2
  have hne : a ≠ s.stack_top := by omega
  unfold ddtrace_init_span_stack at h
  simp only [dd_alloc_span_stack, ha, deref, bind, Except.bind, pure, Except.pure] at h
  cases h
  refine stack_tree_alloc s _ hi rfl (fun j hj => ?_) rfl ha.symm
    ⟨R, ?_, e2, by omega, fun e he => ?_, Or.inr ⟨a, ?_, e1⟩⟩
  · simp [set_stack, upd_apply, hj]
  · simp [set_stack, upd_apply, hne, e1]
  · simp only [set_stack, upd_same] at he
    cases Option.some.inj he
    exact ⟨ha1, ha2⟩
  · simp [set_stack]

theorem stack_tree_switch (s : State) (t : Nat) (s2 : State) (hi : stack_tree s)
    (ht : 1 ≤ t ∧ t < s.stack_top) (h : ddtrace_switch_span_stack s t = .ok s2) :
    stack_tree s2 := by
  unfold ddtrace_switch_span_stack at h
  obtain ⟨_, _, h⟩ := except_bind_ok _ _ _ h
  cases h
  exact stack_tree_frame s _ rfl (fun _ => ⟨rfl, rfl⟩) hi.2.1 ⟨t, rfl, ht.1, ht.2⟩ hi

theorem stack_tree_set_span (s : State) (x : Nat) (v : ddtrace_span_data) (hi : stack_tree s)
    (hv : v.stack = (s.spans x).stack ∨ v.stack = none) : stack_tree (set_span s x v) := by
  refine stack_tree_frame s _ rfl (fun _ => ⟨rfl, rfl⟩) (fun y c e => ?_) hi.1 hi
  simp only [set_span, upd_apply] at e
  split_ifs at e with hy
  · rcases hv with hv | hv
    · rw [hv] at e
      exact hi.2.1 x c e
    · rw [hv] at e
      cases e
  · exact hi.2.1 y c e

theorem entry_release_active (s : State) (k : Nat) (s2 : State)
    (h : entry_release s k = .ok s2) :
    s2.active_stack = s.active_stack
    ∨ ∃ p, (s.span_stacks k).parent_stack = some p ∧ s2.active_stack = some p := by
  unfold entry_release at h
  simp only [ddtrace_fetch_prioritySampling_from_root, set_stack, upd_same] at h
  by_cases hc : (s.span_stacks k).root_stack = some k ∧ s.active_stack = some k
  · rw [if_pos hc] at h
    obtain ⟨p, hp, h⟩ := except_bind_ok _ _ _ h
    unfold ddtrace_switch_span_stack at h
    obtain ⟨_, _, h⟩ := except_bind_ok _ _ _ h
    cases h
    have hpp : (s.span_stacks k).parent_stack = some p := by
      cases hx : (s.span_stacks k).parent_stack with
      | none => rw [hx] at hp; simp [deref] at hp
      | some v => rw [hx] at hp; simp only [deref, Except.ok.injEq] at hp; rw [hp]
    exact Or.inr ⟨p, hpp, rfl⟩
  · rw [if_neg hc] at h
    cases h
    exact Or.inl rfl

theorem close_entry_active (fuel : Nat) (s : State) (k : Nat) (s2 : State)
    (h : dd_close_entry_span_of_stack fuel s k = .ok s2) :
    s2.active_stack = s.active_stack
    ∨ ∃ p, (s.span_stacks k).parent_stack = some p ∧ s2.active_stack = some p := by
  rw [close_entry_eq] at h
  obtain ⟨m, hm, h⟩ := except_bind_ok _ _ _ h
  obtain ⟨k1, _, _⟩ := mark_keeps s k m hm
  obtain ⟨_, _, f2, _⟩ := mark_frame s k m hm
  by_cases hown : entry_owns m k = true
  · rw [if_pos hown] at h
    obtain ⟨m3, hm3, h⟩ := except_bind_ok _ _ _ h
    have hr := entry_release_active m k m3 hm3
    rw [k1, (f2 k).2.2] at hr
    have hfin : s2.active_stack = m3.active_stack := by
      by_cases hf : m3.auto_flush_enabled = true
      · rw [if_pos hf] at h
        obtain ⟨d, _⟩ := flush_tracer_drain fuel m3 s2 h
        exact d.2.2.2.1
      · rw [if_neg hf] at h
        cases h
        rfl
    rw [hfin]
    exact hr
  · rw [if_neg hown] at h
    cases h
    exact Or.inl k1

theorem stack_tree_entry (fuel : Nat) (s : State) (k : Nat) (s2 : State) (hi : stack_tree s)
    (hk : 1 ≤ k ∧ k < s.stack_top) (h : dd_close_entry_span_of_stack fuel s k = .ok s2) :
    stack_tree s2 := by
  have f := close_entry_frame fuel s k s2 h
  refine stack_tree_frame s s2 f.2.2.2.2.2.2.2.1 (fun j => ⟨(f.2.2.1 j).2.1, (f.2.2.1 j).2.2⟩)
    (fun x c e => hi.2.1 x c (by rw [← (f.1 x).1]; exact e)) ?_ hi
  rcases close_entry_active fuel s k s2 h with ha | ⟨p, hp, ha⟩
  · rw [ha]
    exact hi.1
  · obtain ⟨r, _, _, _, e4, _⟩ := hi.2.2 k hk.1 hk.2
    exact ⟨p, ha, (e4 p hp).1, lt_trans (e4 p hp).2 hk.2⟩

theorem stack_tree_of_close_frame (k : Nat) (s s2 : State) (hf : close_frame k s s2)
    (hi : stack_tree s) : stack_tree s2 := by
  obtain ⟨c1, _, _, c4, c5, _, _, _, _, _, _, _, _, _, _, c16⟩ := hf
  refine stack_tree_frame s s2 c4 (fun j => ⟨(c16 j).2.1, (c16 j).2.2.1⟩)
    (fun x c e => hi.2.1 x c (by rw [← (c1 x).1]; exact e)) (by rw [c5]; exact hi.1) hi

theorem stack_tree_close_top (fuel : Nat) (s : State) (span : Nat) (s2 : State)
    (hi : stack_tree s)
    (h : ddtrace_close_top_span_without_stack_swap fuel s span = .ok s2) : stack_tree s2 := by
  cases hs : (s.spans span).stack with
  | none =>
    unfold ddtrace_close_top_span_without_stack_swap at h
    simp [hs, deref, bind, Except.bind] at h
  | some stack =>
    rw [close_top_eq fuel s span stack hs] at h
    have hfr := close_top_core_frame s span stack
    have hc := stack_tree_of_close_frame stack s _ hfr hi
    by_cases hem : chain_emptied (close_top_core s span stack) stack = true
    · rw [if_pos hem] at h
      exact stack_tree_entry fuel _ stack s2 hc (by rw [hfr.2.2.2.1]; exact hi.2.1 span stack hs) h
    · rw [if_neg hem] at h
      cases h
      exact hc

theorem stack_tree_drop_pop (fuel : Nat) (s : State) (span stack : Nat) (s2 : State)
    (hi : stack_tree s) (hs : (s.spans span).stack = some stack)
    (h : drop_span_pop fuel s span stack = .ok s2) : stack_tree s2 := by
  rw [drop_pop_eq] at h
  obtain ⟨s1, h1, h⟩ := except_bind_ok _ _ _ h
  cases h
  have hc : stack_tree (drop_pop_core s span stack) := by
    refine stack_tree_frame s _ rfl (fun j => ?_) hi.2.1 hi.1 hi
    rcases eq_or_ne j stack with rfl | e
    · simp [drop_pop_core, set_stack]
    · simp [drop_pop_core, set_stack, upd_apply, e]
  have h1i : stack_tree s1 := by
    by_cases hem : chain_emptied (drop_pop_core s span stack) stack = true
    · rw [if_pos hem] at h1
      exact stack_tree_entry fuel _ stack s1 hc (hi.2.1 span stack hs) h1
    · rw [if_neg hem] at h1
      cases h1
      exact hc
  exact stack_tree_set_span s1 span _ h1i (Or.inl rfl)

theorem stack_tree_close_drop (fuel : Nat) :
    (∀ s sp s2, stack_tree s → ddtrace_close_span fuel s sp = .ok s2 → stack_tree s2)
    ∧ (∀ s u s2, stack_tree s → ddtrace_close_userland_spans_until fuel s u = .ok s2 →
      stack_tree s2)
    ∧ (∀ s x s2, stack_tree s → ddtrace_drop_span fuel s x = .ok s2 → stack_tree s2) := by
  refine close_drop_induct_stack stack_tree ?_ ?_ ?_ ?_ ?_ fuel
  · intro s x t s2 hi hx h
    exact stack_tree_switch s t s2 hi (hi.2.1 x t hx) h
  · intro s u hi
    exact stack_tree_set_span s u _ hi (Or.inl rfl)
  · intro s p hi
    unfold ddtrace_set_prioritySampling_on_root
    cases s.active_stack with
    | none => exact hi
    | some a =>
      dsimp only
      cases (s.span_stacks a).root_span with
      | none => exact hi
      | some r => exact stack_tree_set_span s r _ hi (Or.inl rfl)
  · intro fuel s span s2 hi h
    exact stack_tree_close_top fuel s span s2 hi h
  · intro fuel s span stack s2 hi hs h
    exact stack_tree_drop_pop fuel s span stack s2 hi hs h

theorem stack_tree_open_enter (s : State) (k : Nat) (hi : stack_tree s)
    (ha : s.active_stack = some k) :
    stack_tree (open_span_enter s k).2
    ∧ 1 ≤ (open_span_enter s k).1
    ∧ (open_span_enter s k).1 < (open_span_enter s k).2.stack_top
    ∧ (open_span_enter s k).2.spans = s.spans := by
  obtain ⟨a, ha0, ha1, ha2⟩ := hi.1
  rw [ha] at ha0
  cases Option.some.inj ha0
  unfold open_span_enter
  by_cases hp : (s.span_stacks k).parent_stack = none
  · rw [if_pos hp]
    have h1 := stack_tree_init_root s hi
    have h0 : 1 ≤ (ddtrace_init_root_span_stack s).1 := by
      show 1 ≤ s.stack_top
      omega
    refine ⟨?_, h0, Nat.lt_succ_self _, rfl⟩
    exact stack_tree_frame (ddtrace_init_root_span_stack s).2 _ rfl (fun _ => ⟨rfl, rfl⟩)
      h1.2.1 ⟨_, rfl, h0, Nat.lt_succ_self _⟩ h1
  · rw [if_neg hp]
    exact ⟨hi, ha1, ha2, rfl⟩

theorem stack_tree_open_span (H : Hooks) (s : State) (span : Nat) (s2 : State)
    (hi : stack_tree s) (h : ddtrace_open_span H s span = .ok s2) : stack_tree s2 := by
  obtain ⟨k, ha, f1, _, f3, _, _, _, f7, _, _, _, _, _, _, kx, kg, kj⟩ :=
    open_span_facts H s span s2 h
  obtain ⟨e1, e2, e3, e4⟩ := stack_tree_open_enter s k hi ha
  refine stack_tree_frame (open_span_enter s k).2 s2 kg.2.2.2.2.2.2.2.2
    (fun j => ⟨(kj j).1, (kj j).2.1⟩) (fun x c e => ?_) ⟨_, f3, e2, e3⟩ e1
  by_cases hx : x = span
  · rw [hx, f1] at e
    cases Option.some.inj e
    exact ⟨e2, e3⟩
  · rw [f7 x hx] at e
    exact e1.2.1 x c (by rw [e4]; exact e)

theorem stack_tree_init_span (s : State) (type : ddtrace_span_dataype) (hi : stack_tree s) :
    stack_tree (ddtrace_init_span s type).2 := by
  refine stack_tree_frame s _ rfl (fun _ => ⟨rfl, rfl⟩) (fun x c e => ?_) hi.1 hi
  by_cases hx : x = s.span_top
  · simp [ddtrace_init_span, hx] at e
  · simp only [ddtrace_init_span, upd_apply, hx, if_false] at e
    exact hi.2.1 x c e

theorem stack_tree_entry_frame (s s2 : State) (hf : entry_frame s s2)
    (ha : s2.active_stack = s.active_stack) (hi : stack_tree s) : stack_tree s2 :=
  stack_tree_frame s s2 hf.2.2.2.2.2.2.2.1 (fun j => ⟨(hf.2.2.1 j).2.1, (hf.2.2.1 j).2.2⟩)
    (fun x c e => hi.2.1 x c (by rw [← (hf.1 x).1]; exact e)) (by rw [ha]; exact hi.1) hi

theorem stack_tree_mark_all : ∀ (n : Nat) (s s2 : State), stack_tree s →
    mark_all_loop n s = .ok s2 → stack_tree s2
  | 0, s, s2, hi, h => by
    cases h
    exact hi
  | n + 1, s, s2, hi, h => by
    rw [mark_all_loop] at h
    obtain ⟨s1, h1, h⟩ := except_bind_ok _ _ _ h
    exact stack_tree_mark_all n s1 s2
      (stack_tree_entry_frame s s1 (mark_frame s (n + 1) s1 h1)
        (mark_keeps s (n + 1) s1 h1).1 hi) h

theorem stack_tree_serialize (fuel : Nat) (s : State) (res : List Nat × State)
    (hi : stack_tree s) (h : ddtrace_serialize_closed_spans fuel s = .ok res) :
    stack_tree res.2 := by
  obtain ⟨d1, _, d3, d4, _, _, _, _, _, _, _, _, _, _, _, _, d17⟩ :=
    serialize_closed_spans_frame fuel s res h
  exact stack_tree_frame s res.2 d3 (fun j => ⟨(d17 j).2.2.1, (d17 j).2.2.2.1⟩)
    (fun x c e => hi.2.1 x c (by rw [← d1]; exact e)) (by rw [d4]; exact hi.1) hi

theorem stack_tree_init (autofinish auto_flush : Bool) (ids : Nat → Nat) :
    stack_tree (ddtrace_init_span_stacks (fresh_state autofinish auto_flush ids)) := by
  refine ⟨⟨1, rfl, le_refl _, Nat.lt_succ_self 1⟩, fun x k e => ?_, fun k h1 h2 => ?_⟩
  · simp [ddtrace_init_span_stacks, ddtrace_init_root_span_stack, dd_alloc_span_stack,
      fresh_state, set_stack] at e
  · have hT : (ddtrace_init_span_stacks (fresh_state autofinish auto_flush ids)).stack_top
        = 2 := rfl
    rw [hT] at h2
    have hk : k = 1 := by omega
    subst hk
    refine ⟨1, rfl, le_refl _, le_refl _, fun e he => ?_, Or.inl rfl⟩
    simp [ddtrace_init_span_stacks, ddtrace_init_root_span_stack, dd_alloc_span_stack,
      fresh_state, set_stack] at he

theorem stack_tree_apply_op (s s2 : State) (op : span_op) (hi : stack_tree s)
    (hl : switch_target_live s (.span op) = true) (h : apply_op s op = .ok s2) :
    stack_tree s2 := by
  cases op with
  | init_root_span_stack =>
    cases h
    exact stack_tree_init_root s hi
  | init_span_stack =>
    simp only [apply_op] at h
    cases hr : ddtrace_init_span_stack s with
    | error e => simp [hr, Except.map] at h
    | ok r =>
      simp only [hr, Except.map] at h
      cases h
      exact stack_tree_init_child s r hi hr
  | switch_span_stack t =>
    simp only [switch_target_live, decide_eq_true_eq] at hl
    exact stack_tree_switch s t s2 hi hl h
  | open_span type fuel dp dt =>
    exact stack_tree_open_span _ _ _ s2 (stack_tree_init_span s type hi) h
  | close_span fuel span =>
    exact (stack_tree_close_drop fuel).1 s (some span) s2 hi h
  | drop_span fuel span =>
    exact (stack_tree_close_drop fuel).2.2 s span s2 hi h

theorem stack_tree_apply_stack_op (s s2 : State) (op : stack_op) (hi : stack_tree s)
    (hl : switch_target_live s op = true) (h : apply_stack_op s op = .ok s2) :
    stack_tree s2 := by
  cases op with
  | span op => exact stack_tree_apply_op s s2 op hi hl h
  | mark_all_span_stacks_flushable =>
    exact stack_tree_mark_all _ s s2 hi h
  | serialize_closed_spans fuel =>
    simp only [apply_stack_op] at h
    cases hr : ddtrace_serialize_closed_spans fuel s with
    | error e => simp [hr, Except.map] at h
    | ok r =>
      simp only [hr, Except.map] at h
      cases h
      exact stack_tree_serialize fuel s r hi hr

theorem stack_tree_run : ∀ (ops : List stack_op) (s s2 : State), stack_tree s →
    live_run ops s = true → run_stack_ops ops s = .ok s2 → stack_tree s2
  | [], s, s2, hi, _, h => by
    cases h
    exact hi
  | op :: ops, s, s2, hi, hl, h => by
    rw [run_stack_ops] at h
    obtain ⟨s1, h1, h⟩ := except_bind_ok _ _ _ h
    simp only [live_run, h1, Bool.and_eq_true] at hl
    exact stack_tree_run ops s1 s2 (stack_tree_apply_stack_op s s1 op hi hl.1 h1) hl.2 h

theorem stack_tree_path (s : State) (hi : stack_tree s) :
    ∀ (n k : Nat), k ≤ n → 1 ≤ k → k < s.stack_top → ∀ r,
      (s.span_stacks k).root_stack = some r →
      ∃ path, is_parent_path s r (k :: path) = true ∧ path.length < k
        ∧ ∀ y ∈ path, r ≤ y
  | 0, k, hn, h1, _, _, _ => by omega
  | n + 1, k, hn, h1, h2, r, hr => by
    obtain ⟨r2, e1, e2, e3, e4, e5⟩ := hi.2.2 k h1 h2
    rw [hr] at e1
    cases Option.some.inj e1
    by_cases hkr : k = r
    · exact ⟨[], by simp [is_parent_path, hkr], by simpa using h1, fun y hy => by cases hy⟩
    · rcases e5 with e5 | ⟨p, p1, p2⟩
      · exact absurd e5.symm hkr
      · obtain ⟨q1, q2⟩ := e4 p p1
        obtain ⟨path, a1, a2, a3⟩ := stack_tree_path s hi n p (by omega) q1 (by omega) r p2
        obtain ⟨r3, g1, _, g3, _, _⟩ := hi.2.2 p q1 (by omega)
        rw [p2] at g1
        cases Option.some.inj g1
        refine ⟨p :: path, ?_, by simp only [List.length_cons]; omega, fun y hy => ?_⟩
        · simp [is_parent_path, hkr, p1, a1]
        · rcases List.mem_cons.1 hy with hy | hy
          · rw [hy]
            exact g3
          · exact a3 y hy

theorem active_span_loop_path (s : State) (r : Nat) :
    ∀ (path : List Nat) (k fuel : Nat), is_parent_path s r (k :: path) = true →
      (∀ y ∈ path, some y ≠ (s.span_stacks r).parent_stack) → path.length < fuel →
      active_span_loop s (s.span_stacks r).parent_stack fuel (some k)
        = .ok (first_own_active s (k :: path))
  | _, _, 0, _, _, hf => by simp at hf
  | [], k, fuel + 1, hp, _, _ => by
    have hk : k = r := by simpa [is_parent_path] using hp
    rw [active_span_loop, hk]
    simp only [deref, bind, Except.bind, first_own_active]
    cases ha : (s.span_stacks r).active with
    | none => simp [pure, Except.pure]
    | some a =>
      by_cases ho : (s.spans a).stack = some r
      · simp [ho, pure, Except.pure]
      · simp [ho, pure, Except.pure]
  | y :: rest, k, fuel + 1, hp, hend, hf => by
    simp only [is_parent_path, Bool.and_eq_true, bne_iff_ne, ne_eq, beq_iff_eq] at hp
    obtain ⟨⟨_, hpar⟩, hrest⟩ := hp
    have ih := active_span_loop_path s r rest y fuel hrest
      (fun z hz => hend z (List.mem_cons_of_mem _ hz))
      (by simp only [List.length_cons] at hf; omega)
    have hne : some y ≠ (s.span_stacks r).parent_stack := hend y (List.mem_cons_self _ _)
    rw [active_span_loop]
    simp only [deref, bind, Except.bind, hpar]
    rw [if_pos hne, ih]
    cases ha : (s.span_stacks k).active with
    | none => simp [first_own_active, ha]
    | some a =>
      by_cases ho : (s.spans a).stack = some k
      · simp [first_own_active, ha, ho, pure, Except.pure]
      · simp [first_own_active, ha, ho]

theorem active_span_of_tree (s : State) (hi : stack_tree s) :
    ∃ a r path, s.active_stack = some a ∧ (s.span_stacks a).root_stack = some r
      ∧ is_parent_path s r (a :: path) = true
      ∧ ∀ fuel, s.stack_top ≤ fuel →
          ddtrace_active_span fuel s = .ok (first_own_active s (a :: path)) := by
  obtain ⟨a, ha, ha1, ha2⟩ := hi.1
  obtain ⟨r, e1, e2, e3, _, _⟩ := hi.2.2 a ha1 ha2
  obtain ⟨path, p1, p2, p3⟩ := stack_tree_path s hi a a (le_refl _) ha1 ha2 r e1
  obtain ⟨_, _, _, _, g4, _⟩ := hi.2.2 r e2 (by omega)
  refine ⟨a, r, path, ha, e1, p1, fun fuel hf => ?_⟩
  unfold ddtrace_active_span
  simp only [ha, e1, deref, bind, Except.bind]
  refine active_span_loop_path s r path a fuel p1 (fun y hy he => ?_) (by omega)
  have := (g4 y he.symm).2
  have := p3 y hy
  omega

theorem close_top_core_head (s : State) (t k : Nat) :
    ((close_top_core s t k).span_stacks k).closed_ring
      = (match (s.span_stacks k).closed_ring with
        | some h => some h
        | none => some t) := by
  unfold close_top_core
  cases hr : (s.span_stacks k).closed_ring with
  | none => simp [set_span, set_stack, hr]
  | some h => simp [set_span, set_stack, hr]

theorem rings_ok_close_top_core (s : State) (t k : Nat) (ring_of : Nat → List Nat)
    (hi : rings_ok s ring_of) (hk : k < s.stack_top)
    (ht : (s.spans t).type ≠ DDTRACE_SPAN_CLOSED) :
    rings_ok (close_top_core s t k) (upd ring_of k (t :: ring_of k)) := by
  obtain ⟨r1, r2, r3, r4⟩ := hi
  have hfr := close_top_core_frame s t k
  obtain ⟨c1, _, _, c4, _, _, _, _, _, _, _, _, _, _, _, c16⟩ := hfr
  have htn : ∀ j, j < s.stack_top → t ∉ ring_of j := fun j hj hm => ht (r2 j hj t hm)
  have hty : ∀ x, (s.spans x).type = DDTRACE_SPAN_CLOSED →
      ((close_top_core s t k).spans x).type = DDTRACE_SPAN_CLOSED := by
    intro x hx
    rw [close_top_core_type]
    by_cases e : x = t
    · rw [if_pos e]
    · rw [if_neg e]
      exact hx
  refine ⟨fun j hj => ?_, fun j hj x hx => ?_, fun i hi2 j hj x hxi hxj => ?_,
    fun j hj f hf => ?_⟩
  · rw [c4] at hj
    rcases eq_or_ne j k with rfl | e
    · rw [upd_same]
      exact close_top_core_ring s t j (ring_of j) (r1 j hj) (htn j hj)
    · rw [upd_apply, if_neg e]
      refine closed_ring_ok_congr s _ j (ring_of j) ((c16 j).2.2.2.2.2.2 e).2 (fun x hx => ?_)
        (r1 j hj)
      refine close_top_core_next s t k (ring_of k) x (r1 k hk) (fun ext => ?_) (fun hxk => ?_)
      · rw [ext] at hx
        exact htn j hj hx
      · exact e (r3 j hj k hk x hx hxk)
  · rw [c4] at hj
    rcases eq_or_ne j k with rfl | e
    · rw [upd_same] at hx
      rcases List.mem_cons.1 hx with hx | hx
      · rw [hx, close_top_core_type, if_pos rfl]
      · exact hty x (r2 j hj x hx)
    · rw [upd_apply, if_neg e] at hx
      exact hty x (r2 j hj x hx)
  · rw [c4] at hi2 hj
    rcases eq_or_ne i k with rfl | ei
    · rcases eq_or_ne j i with rfl | ej
      · rfl
      · rw [upd_same] at hxi
        rw [upd_apply, if_neg ej] at hxj
        rcases List.mem_cons.1 hxi with hx | hx
        · rw [hx] at hxj
          exact absurd hxj (htn j hj)
        · exact r3 i hi2 j hj x hx hxj
    · rw [upd_apply, if_neg ei] at hxi
      rcases eq_or_ne j k with rfl | ej
      · rw [upd_same] at hxj
        rcases List.mem_cons.1 hxj with hx | hx
        · rw [hx] at hxi
          exact absurd hxi (htn i hi2)
        · exact r3 i hi2 j hj x hxi hx
      · rw [upd_apply, if_neg ej] at hxj
        exact r3 i hi2 j hj x hxi hxj
  · rw [c4] at hj
    have hf2 : f ∈ (s.span_stacks j).closed_ring_flush := by
      rw [← (c16 j).2.2.2.1]
      exact hf
    obtain ⟨q1, q2⟩ := r4 j hj f hf2
    refine ⟨hty f q1, fun i hi2 hm => ?_⟩
    rw [c4] at hi2
    rcases eq_or_ne i k with rfl | ei
    · rw [upd_same] at hm
      rcases List.mem_cons.1 hm with hx | hx
      · rw [hx] at q1
        exact ht q1
      · exact q2 i hi2 hx
    · rw [upd_apply, if_neg ei] at hm
      exact q2 i hi2 hm

theorem mark_spans (s : State) (k : Nat) (s2 : State)
    (h : dd_mark_closed_spans_flushable s k = .ok s2) :
    (∀ x, x ∉ (s.span_stacks k).closed_ring → x ∉ (s.span_stacks k).closed_ring_flush →
      s2.spans x = s.spans x)
    ∧ ∀ j, ∀ f ∈ (s2.span_stacks j).closed_ring_flush,
        f ∈ (s.span_stacks j).closed_ring_flush ∨ (j = k ∧ f ∈ (s.span_stacks k).closed_ring) := by
  rcases mark_cases s k s2 h with ⟨_, rfl⟩ | ⟨ring, flush, hc, hf, rfl⟩
    | ⟨ring, r, hc, hf, _, _, rfl⟩ | ⟨ring, r, R, hc, hf, _, _, hR, rfl⟩
  · exact ⟨fun _ _ _ => rfl, fun j f hf => Or.inl hf⟩
  · refine ⟨fun x h1 h2 => ?_, fun j f hf2 => Or.inl ?_⟩
    · have e1 : x ≠ ring := fun e => h1 (by rw [hc, e]; rfl)
      have e2 : x ≠ flush := fun e => h2 (by rw [hf, e]; rfl)
      simp [splice_state, set_stack, set_span, upd_apply, e1, e2]
    · rcases eq_or_ne j k with rfl | e
      · simpa [splice_state, set_stack, set_span] using hf2
      · simpa [splice_state, set_stack, set_span, upd_apply, e] using hf2
  · obtain ⟨g1, _, _, _, _, g6, g7, _⟩ := stage_global_facts s k ring
    refine ⟨fun x _ _ => by rw [g1], fun j f hf2 => ?_⟩
    rcases eq_or_ne j k with rfl | e
    · rw [g6] at hf2
      exact Or.inr ⟨rfl, by rw [hc]; exact hf2⟩
    · rw [g7 j e] at hf2
      exact Or.inl hf2
  · obtain ⟨g1, _, _, _, g5, _, _, g8, _⟩ := stage_sub_facts s k ring R
    refine ⟨fun x _ _ => by rw [g1], fun j f hf2 => ?_⟩
    rcases eq_or_ne j k with rfl | e
    · rw [g5] at hf2
      exact Or.inr ⟨rfl, by rw [hc]; exact hf2⟩
    · rw [(g8 j e).2.1] at hf2
      exact Or.inl hf2

theorem close_entry_spans (fuel : Nat) (s : State) (k : Nat) (s2 : State)
    (h : dd_close_entry_span_of_stack fuel s k = .ok s2) :
    (∀ x, x ∉ (s.span_stacks k).closed_ring → x ∉ (s.span_stacks k).closed_ring_flush →
      s2.spans x = s.spans x)
    ∧ ∀ j, ∀ f ∈ (s2.span_stacks j).closed_ring_flush,
        f ∈ (s.span_stacks j).closed_ring_flush ∨ (j = k ∧ f ∈ (s.span_stacks k).closed_ring) := by
  rw [close_entry_eq] at h
  obtain ⟨m, hm, h⟩ := except_bind_ok _ _ _ h
  obtain ⟨m1, m2⟩ := mark_spans s k m hm
  by_cases hown : entry_owns m k = true
  · rw [if_pos hown] at h
    obtain ⟨m3, hm3, h⟩ := except_bind_ok _ _ _ h
    obtain ⟨r1, _, _, r4, _⟩ := entry_release_lists m k m3 hm3
    have hfin : s2.spans = m3.spans
        ∧ ∀ j, (s2.span_stacks j).closed_ring_flush = (m3.span_stacks j).closed_ring_flush
          ∨ (s2.span_stacks j).closed_ring_flush = none := by
      by_cases hf : m3.auto_flush_enabled = true
      · rw [if_pos hf] at h
        obtain ⟨d, dc⟩ := flush_tracer_drain fuel m3 s2 h
        exact ⟨d.1, fun j => (dc j).2⟩
      · rw [if_neg hf] at h
        cases h
        exact ⟨rfl, fun _ => Or.inl rfl⟩
    refine ⟨fun x h1 h2 => by rw [hfin.1, r1]; exact m1 x h1 h2, fun j f hf2 => ?_⟩
    rcases hfin.2 j with e | e
    · rw [e, (r4 j).2.2.1] at hf2
      exact m2 j f hf2
    · rw [e] at hf2
      cases hf2
  · rw [if_neg hown] at h
    cases h
    exact ⟨m1, m2⟩

theorem rings_ok_entry (fuel : Nat) (s : State) (k : Nat) (ring_of : Nat → List Nat)
    (s2 : State) (hi : rings_ok s ring_of) (hk : k < s.stack_top)
    (h : dd_close_entry_span_of_stack fuel s k = .ok s2) :
    rings_ok s2 (upd ring_of k []) ∧ (s2.span_stacks k).closed_ring = none := by
  obtain ⟨r1, r2, r3, r4⟩ := hi
  have fr := close_entry_frame fuel s k s2 h
  have hT : s2.stack_top = s.stack_top := fr.2.2.2.2.2.2.2.1
  obtain ⟨g1, g2⟩ := close_entry_closed_ring fuel s k s2 h
  obtain ⟨p1, p2⟩ := close_entry_spans fuel s k s2 h
  have hhead : ∀ x, x ∈ (s.span_stacks k).closed_ring → x ∈ ring_of k := by
    intro x hx
    have := r1 k hk
    unfold closed_ring_ok at this
    rw [Option.mem_def.1 hx] at this
    exact is_ring_head_mem this
  have hsub : ∀ i x, x ∈ upd ring_of k [] i → x ∈ ring_of i ∧ i ≠ k := by
    intro i x hx
    rcases eq_or_ne i k with rfl | e
    · rw [upd_same] at hx
      cases hx
    · rw [upd_apply, if_neg e] at hx
      exact ⟨hx, e⟩
  refine ⟨⟨fun j hj => ?_, fun j hj x hx => ?_, fun i hi2 j hj x hxi hxj => ?_,
    fun j hj f hf => ?_⟩, g1⟩
  · rw [hT] at hj
    rcases eq_or_ne j k with rfl | e
    · rw [upd_same]
      unfold closed_ring_ok
      rw [g1]
    · rw [upd_apply, if_neg e]
      refine closed_ring_ok_congr s s2 j (ring_of j) (g2 j e) (fun x hx => ?_) (r1 j hj)
      rw [p1 x (fun hm => e (r3 j hj k hk x hx (hhead x hm)))
        (fun hm => (r4 k hk x hm).2 j hj hx)]
  · rw [hT] at hj
    rw [(fr.2.1 x).1]
    exact r2 j hj x (hsub j x hx).1
  · rw [hT] at hi2 hj
    exact r3 i hi2 j hj x (hsub i x hxi).1 (hsub j x hxj).1
  · rw [hT] at hj
    rw [(fr.2.1 f).1]
    rcases p2 j f hf with hf2 | ⟨rfl, hf2⟩
    · obtain ⟨q1, q2⟩ := r4 j hj f hf2
      refine ⟨q1, fun i hi2 hm => ?_⟩
      rw [hT] at hi2
      exact q2 i hi2 (hsub i f hm).1
    · have hm := hhead f hf2
      refine ⟨r2 j hj f hm, fun i hi2 hm2 => ?_⟩
      rw [hT] at hi2
      obtain ⟨a1, a2⟩ := hsub i f hm2
      exact a2 (r3 i hi2 j hj f a1 hm)

theorem close_top_counts (fuel : Nat) (s : State) (span : Nat) (s2 : State)
    (h : ddtrace_close_top_span_without_stack_swap fuel s span = .ok s2) :
    s2.closed_spans_count = incr32 s.closed_spans_count
    ∧ s2.open_spans_count = decr32 s.open_spans_count
    ∧ s2.dropped_spans_count = s.dropped_spans_count := by
  cases hs : (s.spans span).stack with
  | none =>
    unfold ddtrace_close_top_span_without_stack_swap at h
    simp [hs, deref, bind, Except.bind] at h
  | some stack =>
    rw [close_top_eq fuel s span stack hs] at h
    obtain ⟨c1, c2, c3⟩ := close_top_core_counts s span stack
    by_cases hem : chain_emptied (close_top_core s span stack) stack = true
    · rw [if_pos hem] at h
      have f := close_entry_frame fuel _ stack s2 h
      exact ⟨by rw [f.2.2.2.2.2.1, c1], by rw [f.2.2.2.1, c3], by rw [f.2.2.2.2.1, c2]⟩
    · rw [if_neg hem] at h
      cases h
      exact ⟨c1, c3, c2⟩

theorem drop_pop_counts (fuel : Nat) (s : State) (span stack : Nat) (s2 : State)
    (h : drop_span_pop fuel s span stack = .ok s2) :
    s2.dropped_spans_count = incr32 s.dropped_spans_count
    ∧ s2.open_spans_count = decr32 s.open_spans_count
    ∧ s2.closed_spans_count = s.closed_spans_count
    ∧ (∀ x, (s2.spans x).type = (s.spans x).type)
    ∧ (s2.span_stacks stack).active = (s.spans span).parent
    ∧ (s2.spans span).duration = DDTRACE_DROPPED_SPAN := by
  rw [drop_pop_eq] at h
  obtain ⟨s1, h1, h⟩ := except_bind_ok _ _ _ h
  cases h
  have hact : ((drop_pop_core s span stack).span_stacks stack).active = (s.spans span).parent := by
    simp [drop_pop_core, set_stack]
  have key : entry_frame (drop_pop_core s span stack) s1 := by
    by_cases hem : chain_emptied (drop_pop_core s span stack) stack = true
    · rw [if_pos hem] at h1
      exact close_entry_frame fuel _ stack s1 h1
    · rw [if_neg hem] at h1
      cases h1
      exact entry_frame_refl _
  refine ⟨?_, ?_, ?_, fun x => ?_, ?_, ?_⟩
  · show s1.dropped_spans_count = _
    rw [key.2.2.2.2.1]
    rfl
  · show s1.open_spans_count = _
    rw [key.2.2.2.1]
    rfl
  · show s1.closed_spans_count = _
    rw [key.2.2.2.2.2.1]
    rfl
  · have : ((dd_drop_span s1 span false).spans x).type = (s1.spans x).type := by
      rcases eq_or_ne x span with rfl | e
      · simp [dd_drop_span, dd_drop_span_nodestroy, set_span]
      · simp [dd_drop_span, dd_drop_span_nodestroy, set_span, upd_apply, e]
    rw [this, (key.2.1 x).1]
    rfl
  · show (s1.span_stacks stack).active = _
    rw [(key.2.2.1 stack).1, hact]
  · simp [dd_drop_span, dd_drop_span_nodestroy, set_span]

theorem drop_not_root_counts (fuel : Nat) (s : State) (k t a : Nat) (s2 : State)
    (ha : s.active_stack = some a) (ht : (s.spans t).stack = some k)
    (hr : (s.span_stacks k).root_span ≠ some t)
    (h : ddtrace_drop_span (fuel + 1) s t = .ok s2) :
    s2.dropped_spans_count = incr32 s.dropped_spans_count
    ∧ s2.open_spans_count = decr32 s.open_spans_count
    ∧ s2.closed_spans_count = s.closed_spans_count
    ∧ (∀ x, (s2.spans x).type = (s.spans x).type)
    ∧ (s2.span_stacks k).active = (s.spans t).parent
    ∧ (s2.spans t).duration = DDTRACE_DROPPED_SPAN := by
  rw [drop_span_not_root fuel s k t a ha ht hr] at h
  exact drop_pop_counts fuel { s with active_stack := some k } t k s2 h

theorem close_span_rejected_same (fuel : Nat) (s : State) (t : Nat) (s2 : State) (f : Nat)
    (b : Bool) (h : ddtrace_close_span fuel s (some t) = .ok s2)
    (hb : ddtrace_has_top_internal_span f s t = .ok b)
    (hc : b = false ∨ (s.spans t).type = DDTRACE_SPAN_CLOSED) : s2 = s := by
  cases fuel with
  | zero => simp [ddtrace_close_span] at h
  | succ n =>
    rw [ddtrace_close_span] at h
    obtain ⟨b2, hb2, h⟩ := except_bind_ok _ _ _ h
    have e := has_top_det s t b2 b _ _ hb2 hb
    subst e
    rcases hc with e | e
    · subst e
      simp only [Bool.not_false, Bool.true_or, if_true, pure, Except.pure] at h
      cases h
      rfl
    · simp only [e, beq_self_eq_true, Bool.or_true, if_true, pure, Except.pure] at h
      cases h
      rfl

theorem close_span_chain_counts (fuel : Nat) (s : State) (k t a : Nat) (us : List Nat)
    (s2 : State) (ha : s.active_stack = some a) (ht : (s.spans t).stack = some k)
    (hty : (s.spans t).type ≠ DDTRACE_SPAN_CLOSED)
    (hc : chain_above s k t (s.span_stacks k).active us)
    (hroot : s.autofinish_spans = false → ∀ u ∈ us, (s.span_stacks k).root_span ≠ some u)
    (hf : us.length + 2 ≤ fuel)
    (h : ddtrace_close_span (fuel + 1) s (some t) = .ok s2) :
    s2.closed_spans_count
        = incr32^[if s.autofinish_spans then us.length + 1 else 1] s.closed_spans_count
    ∧ s2.dropped_spans_count
        = incr32^[if s.autofinish_spans then 0 else us.length] s.dropped_spans_count
    ∧ s2.open_spans_count = decr32^[us.length + 1] s.open_spans_count := by
  rw [close_span_chain fuel s k t a us ha ht hty hc hroot hf] at h
  obtain ⟨_, _, _, p4, p5, p6⟩ := close_chain_core_props k s us t hc
  have key : entry_frame (close_chain_core k s us t) s2 := by
    by_cases hem : chain_emptied (close_chain_core k s us t) k = true
    · rw [if_pos hem] at h
      exact close_entry_frame fuel _ k s2 h
    · rw [if_neg hem] at h
      cases h
      exact entry_frame_refl _
  exact ⟨by rw [key.2.2.2.2.2.1, p5], by rw [key.2.2.2.2.1, p4], by rw [key.2.2.2.1, p6]⟩

theorem drop_root_chain_counts (fuel : Nat) (s : State) (k t a : Nat) (us : List Nat)
    (s2 : State) (ha : s.active_stack = some a) (ht : (s.spans t).stack = some k)
    (hr : (s.span_stacks k).root_span = some t)
    (hty : (s.spans t).type ≠ DDTRACE_SPAN_CLOSED)
    (hc : chain_above s k t (s.span_stacks k).active us)
    (hf : us.length + 2 ≤ fuel)
    (h : ddtrace_drop_span (fuel + 2) s t = .ok s2) :
    s2.closed_spans_count
        = incr32^[if s.autofinish_spans then us.length + 1 else 1] s.closed_spans_count
    ∧ s2.dropped_spans_count
        = incr32^[if s.autofinish_spans then 0 else us.length] s.dropped_spans_count
    ∧ s2.open_spans_count = decr32^[us.length + 1] s.open_spans_count := by
  obtain ⟨f1, f2, _, f4, _, _, f7, f8, f9, _, f11⟩ := drop_root_state_facts s k t hr
  have htus := chain_above_not_mem s k t us _ hc
  have hc2 : chain_above (drop_root_state s k t) k t
      ((drop_root_state s k t).span_stacks k).active us := by
    rw [f1]
    exact chain_above_congr s _ k t us _
      (fun x _ => ⟨(f11 x).2.2.1, (f11 x).2.1, (f11 x).2.2.2⟩) hc
  rw [drop_span_root (fuel + 1) s k t a ha ht hr] at h
  have := close_span_chain_counts fuel (drop_root_state s k t) k t k us s2 f2
    (by rw [(f11 t).2.2.1]; exact ht) (by rw [(f11 t).2.1]; exact hty) hc2
    (fun _ u hu => by rw [f1, hr]; exact fun e => htus (Option.some.inj e ▸ hu)) hf h
  rw [f4, f7, f8, f9] at this
  exact this

theorem drop_root_top_effects (fuel : Nat) (s : State) (k t a : Nat) (s2 : State)
    (ha : s.active_stack = some a) (ht : (s.spans t).stack = some k)
    (hr : (s.span_stacks k).root_span = some t)
    (hty : (s.spans t).type ≠ DDTRACE_SPAN_CLOSED)
    (hact : (s.span_stacks k).active = some t) (hf : 2 ≤ fuel)
    (h : ddtrace_drop_span (fuel + 2) s t = .ok s2) :
    (s2.spans t).type = DDTRACE_SPAN_CLOSED
    ∧ (s2.spans t).sampling_priority = some PRIORITY_SAMPLING_USER_REJECT
    ∧ s2.closed_spans_count = incr32 s.closed_spans_count
    ∧ s2.dropped_spans_count = s.dropped_spans_count
    ∧ s2.open_spans_count = decr32 s.open_spans_count := by
  obtain ⟨f1, f2, _, f4, _, _, f7, f8, f9, f10, f11⟩ := drop_root_state_facts s k t hr
  have hc2 : chain_above (drop_root_state s k t) k t
      ((drop_root_state s k t).span_stacks k).active [] := by
    rw [f1]
    exact hact
  rw [drop_span_root (fuel + 1) s k t a ha ht hr,
    close_span_chain fuel (drop_root_state s k t) k t k [] f2
      (by rw [(f11 t).2.2.1]; exact ht) (by rw [(f11 t).2.1]; exact hty) hc2
      (fun _ u hu => by cases hu) (by simpa using hf)] at h
  obtain ⟨p1, _, _, p4, p5, p6⟩ := close_chain_core_props k (drop_root_state s k t) [] t hc2
  have hmfr := close_chain_core_frame k (drop_root_state s k t) [] t
  have key : entry_frame (close_chain_core k (drop_root_state s k t) [] t) s2 := by
    by_cases hem : chain_emptied (close_chain_core k (drop_root_state s k t) [] t) k = true
    · rw [if_pos hem] at h
      exact close_entry_frame (fuel) _ k s2 h
    · rw [if_neg hem] at h
      cases h
      exact entry_frame_refl _
  simp only [List.length_nil, Nat.zero_add, ite_self, Function.iterate_one,
    Function.iterate_zero, id] at p4 p5 p6
  refine ⟨by rw [(key.2.1 t).1, p1], ?_, by rw [key.2.2.2.2.2.1, p5, f8],
    by rw [key.2.2.2.2.1, p4, f9], by rw [key.2.2.2.1, p6, f7]⟩
  rw [(key.2.1 t).2.2, hmfr.2.1 t]
  exact f10

theorem active_span_loop_congr (s s2 : State) (end_ : Option Nat)
    (hst : s2.span_stacks = s.span_stacks)
    (hsp : ∀ j a, (s.span_stacks j).active = some a → (s2.spans a).stack = (s.spans a).stack) :
    ∀ (fuel : Nat) (stack : Option Nat),
      active_span_loop s2 end_ fuel stack = active_span_loop s end_ fuel stack
  | 0, _ => rfl
  | fuel + 1, stack => by
    cases stack with
    | none => simp [active_span_loop, deref, bind, Except.bind]
    | some st =>
      rw [active_span_loop, active_span_loop]
      simp only [deref, bind, Except.bind, hst]
      cases ha : (s.span_stacks st).active with
      | none =>
        simp only
        rw [active_span_loop_congr s s2 end_ hst hsp fuel]
      | some a =>
        simp only
        rw [hsp st a ha, active_span_loop_congr s s2 end_ hst hsp fuel]

theorem active_span_congr (fuel : Nat) (s s2 : State) (ha : s2.active_stack = s.active_stack)
    (hst : s2.span_stacks = s.span_stacks)
    (hsp : ∀ j a, (s.span_stacks j).active = some a → (s2.spans a).stack = (s.spans a).stack) :
    ddtrace_active_span fuel s2 = ddtrace_active_span fuel s := by
  unfold ddtrace_active_span
  rw [ha, hst]
  cases s.active_stack with
  | none => rfl
  | some k =>
    simp only
    cases hr : (s.span_stacks k).root_stack with
    | none => rfl
    | some r =>
      simp only [deref, bind, Except.bind]
      exact active_span_loop_congr s s2 _ hst hsp fuel _

theorem active_span_loop_own (s : State) (end_ : Option Nat) :
    ∀ (fuel : Nat) (stack : Option Nat) (q : Nat),
      active_span_loop s end_ fuel stack = .ok (some q) →
      ∃ j, (s.span_stacks j).active = some q ∧ (s.spans q).stack = some j
  | 0, _, _, h => by simp [active_span_loop] at h
  | fuel + 1, stack, q, h => by
    cases stack with
    | none => simp [active_span_loop, deref, bind, Except.bind] at h
    | some st =>
      rw [active_span_loop] at h
      simp only [deref, bind, Except.bind] at h
      cases ha : (s.span_stacks st).active with
      | none =>
        simp only [ha] at h
        split_ifs at h
        · exact active_span_loop_own s end_ fuel _ q h
        · simp [pure, Except.pure] at h
      | some a =>
        simp only [ha] at h
        by_cases ho : (s.spans a).stack = some st
        · rw [if_pos ho] at h
          simp only [pure, Except.pure, Except.ok.injEq, Option.some.injEq] at h
          subst h
          exact ⟨st, ha, ho⟩
        · rw [if_neg ho] at h
          split_ifs at h
          · exact active_span_loop_own s end_ fuel _ q h
          · simp [pure, Except.pure] at h

theorem active_span_own (fuel : Nat) (s : State) (q : Nat)
    (h : ddtrace_active_span fuel s = .ok (some q)) :
    ∃ j, (s.span_stacks j).active = some q ∧ (s.spans q).stack = some j := by
  unfold ddtrace_active_span at h
  cases ha : s.active_stack with
  | none => simp [ha, pure, Except.pure] at h
  | some k =>
    simp only [ha] at h
    obtain ⟨r, _, h⟩ := except_bind_ok _ _ _ h
    exact active_span_loop_own s _ fuel _ q h

theorem open_new_span_ids (fuel dp dt : Nat) (type : ddtrace_span_dataype) (s s2 : State)
    (hi : trace_inv s)
    (h : open_new_span (active_span_hooks fuel dp dt) type s = .ok s2) (p : Nat)
    (hp : (s2.spans s.span_top).parent = some p) :
    (∃ k, (s2.spans s.span_top).stack = some k ∧ (s.span_stacks k).active = some p
      ∧ s.active_stack = some k)
    ∧ ∃ r, ddtrace_active_span fuel s = .ok r
      ∧ (∀ q, r = some q →
          (s2.spans s.span_top).trace_id = (s.spans q).trace_id
          ∧ (s2.spans s.span_top).parent_id = (s.spans q).span_id)
      ∧ (r = none →
          (s2.spans s.span_top).parent_id = dp
          ∧ (s2.spans s.span_top).trace_id
              = if dt = 0 then (s2.spans s.span_top).span_id else dt) := by
  have h1 : ddtrace_open_span (active_span_hooks fuel dp dt) (ddtrace_init_span s type).2
      s.span_top = .ok s2 := h
  obtain ⟨g1, g2, g3, g4, g5, g6⟩ := init_span_frame s type
  obtain ⟨k, ha, hcase⟩ := open_span_cases _ _ _ _ h1
  rcases hcase with ⟨hps, pid, tid, hpid, htid⟩ | ⟨ps, hps, hr⟩ |
    ⟨ps, r, p0, pid, tid, hps, hr, hact, hpid, htid⟩
  · obtain ⟨s3, e0, e_par, _⟩ := open_span_primary _ _ _ _ pid tid ha hps hpid htid
    rw [h1] at e0
    cases e0
    rw [e_par] at hp
    cases hp
  · obtain ⟨s3, e0, e_par, _⟩ :=
      open_span_root (active_span_hooks fuel dp dt) _ s.span_top k ps ha hps hr
    rw [h1] at e0
    cases e0
    rw [e_par] at hp
    cases hp
  · obtain ⟨s3, e0, e_par, e_st, e_pid, e_sid, e_tid, _⟩ :=
      open_span_inherit _ _ _ _ ps r p0 pid tid ha hps hr hact hpid htid
    rw [h1] at e0
    cases e0
    rw [e_par] at hp
    cases Option.some.inj hp
    rw [g2] at hact
    rw [g1] at ha
    refine ⟨⟨k, e_st, hact, ha⟩, ?_⟩
    obtain ⟨a1, a2, a3⟩ := open_span_ids_state_frame (ddtrace_init_span s type).2 k s.span_top
    obtain ⟨b1, b2, b3⟩ :=
      open_span_trace_state_frame (ddtrace_init_span s type).2 k s.span_top pid
    have hlt : ∀ j a, (s.span_stacks j).active = some a → a ≠ s.span_top :=
      fun j a e => Nat.ne_of_lt (hi.2.2.1 j a e)
    have c1 : ddtrace_active_span fuel
        (open_span_ids_state (ddtrace_init_span s type).2 k s.span_top)
        = ddtrace_active_span fuel s :=
      active_span_congr fuel s _ (by rw [a1, g1]) (by rw [a2, g2])
        (fun j a e => by rw [a3 a (hlt j a e), g6 a (hlt j a e)])
    have c2 : ddtrace_active_span fuel
        (open_span_trace_state (ddtrace_init_span s type).2 k s.span_top pid)
        = ddtrace_active_span fuel s :=
      active_span_congr fuel s _ (by rw [b1, g1]) (by rw [b2, g2])
        (fun j a e => by rw [b3 a (hlt j a e), g6 a (hlt j a e)])
    have hpid2 : ddtrace_peek_span_id fuel dp
        (open_span_ids_state (ddtrace_init_span s type).2 k s.span_top) = .ok pid := hpid
    have htid2 : ddtrace_peek_trace_id fuel dt
        (open_span_trace_state (ddtrace_init_span s type).2 k s.span_top pid) = .ok tid := htid
    unfold ddtrace_peek_span_id at hpid2
    unfold ddtrace_peek_trace_id at htid2
    rw [c1] at hpid2
    rw [c2] at htid2
    obtain ⟨r1, hr1, hpid3⟩ := except_bind_ok _ _ _ hpid2
    obtain ⟨r2, hr2, htid3⟩ := except_bind_ok _ _ _ htid2
    rw [hr1] at hr2
    cases hr2
    refine ⟨r1, hr1, fun q hq => ?_, fun hn => ?_⟩
    · subst hq
      obtain ⟨j, hj1, hj2⟩ := active_span_own fuel s q hr1
      have hqn : q ≠ s.span_top := hlt j q hj1
      simp only [pure, Except.pure, Except.ok.injEq] at hpid3 htid3
      rw [a3 q hqn, g6 q hqn] at hpid3
      rw [b3 q hqn, g6 q hqn] at htid3
      have hnz : tid ≠ 0 := by
        rw [← htid3]
        exact hi.2.2.2.1 q (by rw [hj2]; simp)
      rw [e_tid, e_pid, if_neg hnz]
      exact ⟨htid3.symm, hpid3.symm⟩
    · subst hn
      simp only [pure, Except.pure, Except.ok.injEq] at hpid3 htid3
      rw [e_tid, e_pid, e_sid, ← hpid3, ← htid3]
      exact ⟨rfl, rfl⟩

theorem apply_op_static (s s2 : State) (op : span_op) (h : apply_op s op = .ok s2) :
    s.span_top ≤ s2.span_top
    ∧ ∀ y, y < s.span_top → (s2.spans y).stack = (s.spans y).stack
        ∧ (s2.spans y).parent = (s.spans y).parent
        ∧ (s2.spans y).span_id = (s.spans y).span_id
        ∧ (s2.spans y).trace_id = (s.spans y).trace_id
        ∧ (s2.spans y).parent_id = (s.spans y).parent_id := by
  have key : ids_frame s s2 → s.span_top ≤ s2.span_top
      ∧ ∀ y, y < s.span_top → (s2.spans y).stack = (s.spans y).stack
        ∧ (s2.spans y).parent = (s.spans y).parent
        ∧ (s2.spans y).span_id = (s.spans y).span_id
        ∧ (s2.spans y).trace_id = (s.spans y).trace_id
        ∧ (s2.spans y).parent_id = (s.spans y).parent_id := by
    intro hf
    obtain ⟨f1, f2, _⟩ := hf
    exact ⟨by rw [f2], fun y _ => ⟨(f1 y).1, (f1 y).2.1, (f1 y).2.2.1, (f1 y).2.2.2.1,
      (f1 y).2.2.2.2.1⟩⟩
  cases op with
  | init_root_span_stack =>
    cases h
    exact key (ids_frame_init_root s)
  | init_span_stack =>
    simp only [apply_op] at h
    cases hr : ddtrace_init_span_stack s with
    | error e => simp [hr, Except.map] at h
    | ok r =>
      simp only [hr, Except.map] at h
      cases h
      exact key (ids_frame_init_child s r hr)
  | switch_span_stack t => exact key (ids_frame_switch s t s2 h)
  | open_span type fuel dp dt =>
    have h1 : ddtrace_open_span (active_span_hooks fuel dp dt) (ddtrace_init_span s type).2
        s.span_top = .ok s2 := h
    obtain ⟨_, _, _, g4, _, g6⟩ := init_span_frame s type
    obtain ⟨k, _, _, _, _, _, _, _, f7, _, _, _, _, f12, _⟩ := open_span_facts _ _ _ _ h1
    refine ⟨by rw [f12, g4]; exact Nat.le_succ _, fun y hy => ?_⟩
    have hyn : y ≠ s.span_top := Nat.ne_of_lt hy
    rw [f7 y hyn, g6 y hyn]
    exact ⟨rfl, rfl, rfl, rfl, rfl⟩
  | close_span fuel span => exact key ((ids_frame_close_drop fuel).1 s (some span) s2 h)
  | drop_span fuel span => exact key ((ids_frame_close_drop fuel).2.2 s span s2 h)

theorem run_ops_static : ∀ (ops : List span_op) (s s2 : State), run_ops ops s = .ok s2 →
    s.span_top ≤ s2.span_top
    ∧ ∀ y, y < s.span_top → (s2.spans y).stack = (s.spans y).stack
        ∧ (s2.spans y).parent = (s.spans y).parent
        ∧ (s2.spans y).span_id = (s.spans y).span_id
        ∧ (s2.spans y).trace_id = (s.spans y).trace_id
        ∧ (s2.spans y).parent_id = (s.spans y).parent_id
  | [], s, s2, h => by
    cases h
    exact ⟨le_refl _, fun y _ => ⟨rfl, rfl, rfl, rfl, rfl⟩⟩
  | op :: ops, s, s2, h => by
    rw [run_ops] at h
    obtain ⟨s1, h1, h⟩ := except_bind_ok _ _ _ h
    obtain ⟨a1, a2⟩ := apply_op_static s s1 op h1
    obtain ⟨b1, b2⟩ := run_ops_static ops s1 s2 h
    refine ⟨le_trans a1 b1, fun y hy => ?_⟩
    obtain ⟨c1, c2, c3, c4, c5⟩ := a2 y hy
    obtain ⟨d1, d2, d3, d4, d5⟩ := b2 y (lt_of_lt_of_le hy a1)
    exact ⟨by rw [d1, c1], by rw [d2, c2], by rw [d3, c3], by rw [d4, c4], by rw [d5, c5]⟩

theorem open_segment_congr (s s2 : State) (k : Nat)
    (hst : ∀ x, (s2.spans x).stack = (s.spans x).stack) :
    ∀ (l : List Nat) (p : Option Nat),
      (∀ x ∈ l, (s2.spans x).type = (s.spans x).type ∧ (s2.spans x).parent = (s.spans x).parent) →
      open_segment s k p l → open_segment s2 k p l
  | [], _, _, _ => trivial
  | x :: l, _, hx, h => by
    obtain ⟨h1, h2, h3, h4⟩ := h
    obtain ⟨e1, e2⟩ := hx x (by simp)
    exact ⟨h1, by rw [hst x, h2], by rw [e1]; exact h3, by
      rw [e2]
      exact open_segment_congr s s2 k hst l _ (fun y hy => hx y (List.mem_cons_of_mem _ hy)) h4⟩

theorem is_entry_span_congr (s s2 : State) (k t : Nat) (h : spans_static s s2) :
    is_entry_span s2 k t = is_entry_span s k t := by
  unfold is_entry_span
  rw [(h t).2.1]
  cases (s.spans t).parent with
  | none => rfl
  | some p => simp only [(h p).1]

theorem close_span_of_top (fuel : Nat) (s : State) (k x a : Nat)
    (ha : s.active_stack = some a) (hact : (s.span_stacks k).active = some x)
    (hst : (s.spans x).stack = some k) (hty : (s.spans x).type ≠ DDTRACE_SPAN_CLOSED)
    (hf : 2 ≤ fuel) :
    ddtrace_close_span (fuel + 1) s (some x) =
      if is_entry_span s k x then dd_close_entry_span_of_stack fuel (close_chain_core k s [] x) k
      else .ok (close_chain_core k s [] x) := by
  rw [close_span_chain fuel s k x a [] ha hst hty hact (fun _ u hu => by simp at hu)
    (by simpa using hf), chain_emptied_mid]

theorem state_active_eta (s : State) (k : Nat) (h : s.active_stack = some k) :
    { s with active_stack := some k } = s := by
  cases s
  simp only at h
  subst h
  rfl

theorem close_segment (fuel k : Nat) (subs : List Nat) (ring_of : Nat → List Nat)
    (D : List (Nat × List Nat)) (hf : 2 ≤ fuel) :
    ∀ (l : List Nat) (s : State) (R : List Nat) (a z : Nat),
      s.active_stack = some a → l.getLast? = some z → l.Nodup →
      open_segment s k (s.span_stacks k).active l →
      drain_ready s k R subs ring_of D → chain_separate l R subs ring_of D →
      ∃ c, l.foldlM (fun st x => ddtrace_close_span (fuel + 1) st (some x)) s
          = (if is_entry_span s k z then dd_close_entry_span_of_stack fuel c k else .ok c)
        ∧ close_frame k { s with active_stack := some k } c
        ∧ (∀ x, x ∉ l → (c.spans x).type = (s.spans x).type)
        ∧ drain_ready c k (l.reverse ++ R) subs ring_of D
        ∧ ∃ h, (c.span_stacks k).closed_ring = some h
  | [], _, _, _, _, _, hl, _, _, _, _ => by simp at hl
  | [x], s, R, a, z, ha, hl, _, hc, hd, hsep => by
    obtain rfl : x = z := by simpa using hl
    refine ⟨close_chain_core k s [] x, ?_, close_chain_core_frame k s [] x, ?_, ?_,
      close_top_core_closed_ring (finish_all k { s with active_stack := some k } []) x k⟩
    · simp only [List.foldlM, bind, Except.bind, pure, Except.pure]
      rw [close_span_of_top fuel s k x a ha hc.1 hc.2.1 hc.2.2.1 hf]
      split_ifs <;> first | rfl | (cases dd_close_entry_span_of_stack fuel _ k <;> rfl)
    · intro y hy
      show ((close_top_core { s with active_stack := some k } x k).spans y).type = _
      rw [close_top_core_type]
      simp at hy
      simp [hy]
    · have := drain_ready_mid k x s [] R subs ring_of D hc.1 hd (by simpa using hsep)
      rwa [ring_after_nil] at this
  | x :: y :: rest, s, R, a, z, ha, hl, hnd, hc, hd, hsep => by
    have hl2 : (y :: rest).getLast? = some z := by simpa [List.getLast?_cons_cons] using hl
    have hnd2 := List.nodup_cons.1 hnd
    have hfr := close_chain_core_frame k s [] x
    have hentry : is_entry_span s k x = false := by
      unfold is_entry_span
      rw [hc.2.2.2.1]
      simp [hc.2.2.2.2.1]
    have hclose := close_span_of_top fuel s k x a ha hc.1 hc.2.1 hc.2.2.1 hf
    rw [hentry] at hclose
    simp only [Bool.false_eq_true, if_false] at hclose
    have hty : ∀ w, w ≠ x →
        ((close_chain_core k s [] x).spans w).type = (s.spans w).type := by
      intro w hw
      show ((close_top_core { s with active_stack := some k } x k).spans w).type = _
      rw [close_top_core_type]
      simp [hw]
    have hact : ((close_chain_core k s [] x).span_stacks k).active = (s.spans x).parent :=
      (close_chain_core_props k s [] x hc.1).2.1
    have hc2 : open_segment (close_chain_core k s [] x) k
        ((close_chain_core k s [] x).span_stacks k).active (y :: rest) := by
      rw [hact]
      exact open_segment_congr s _ k (fun w => (hfr.1 w).1) _ _
        (fun w hw => ⟨hty w (fun e => hnd2.1 (e ▸ hw)), (hfr.1 w).2.1⟩) hc.2.2.2
    have hd2 : drain_ready (close_chain_core k s [] x) k (x :: R) subs ring_of D := by
      have := drain_ready_mid k x s [] R subs ring_of D hc.1 hd
        ⟨fun w hw => by
          simp only [List.nil_append, List.mem_singleton]
          intro e
          exact hsep.1 w hw (by simp [e]),
        fun j hj w hw => ⟨by
          simp only [List.nil_append, List.mem_singleton]
          intro e
          exact (hsep.2 j hj w hw).1 (by simp [e]), (hsep.2 j hj w hw).2⟩⟩
      rwa [ring_after_nil] at this
    have hsep2 : chain_separate (y :: rest) (x :: R) subs ring_of D := by
      refine ⟨fun w hw => ?_, fun j hj w hw => ⟨?_, ?_⟩⟩
      · rcases List.mem_cons.1 hw with e | e
        · subst e; exact hnd2.1
        · exact fun hm => hsep.1 w e (List.mem_cons_of_mem _ hm)
      · exact fun hm => (hsep.2 j hj w hw).1 (List.mem_cons_of_mem _ hm)
      · intro hm
        rcases List.mem_cons.1 hm with e | e
        · exact (hsep.2 j hj w hw).1 (by simp [e])
        · exact (hsep.2 j hj w hw).2 e
    obtain ⟨c, i1, i2, i3, i4, i5⟩ := close_segment fuel k subs ring_of D hf (y :: rest)
      (close_chain_core k s [] x) (x :: R) k z (by rw [hfr.2.2.2.2.1]) hl2 hnd2.2 hc2 hd2 hsep2
    rw [state_active_eta _ k (by rw [hfr.2.2.2.2.1])] at i2
    refine ⟨c, ?_, close_frame_trans hfr i2, ?_, ?_, i5⟩
    · rw [List.foldlM_cons, hclose]
      rw [is_entry_span_congr _ _ k z hfr.1] at i1
      exact i1
    · intro w hw
      simp only [List.mem_cons, not_or] at hw
      rw [i3 w (by simp [hw.2.1, hw.2.2]), hty w hw.1]
    · simpa using i4

theorem rings_of_upd_not_mem (ring_of : Nat → List Nat) (k : Nat) (B : List Nat) :
    ∀ (ks : List Nat), k ∉ ks → rings_of (ring_of_upd ring_of k B) ks = rings_of ring_of ks
  | [], _ => rfl
  | j :: ks, h => by
    have h2 : k ≠ j ∧ k ∉ ks := by simpa [List.mem_cons, not_or] using h
    have ih := rings_of_upd_not_mem ring_of k B ks h2.2
    unfold rings_of at ih ⊢
    rw [List.flatMap_cons, List.flatMap_cons, ih]
    simp [ring_of_upd, h2.1.symm]

theorem rings_of_append (f : Nat → List Nat) (a b : List Nat) :
    rings_of f (a ++ b) = rings_of f a ++ rings_of f b := by
  unfold rings_of
  exact List.flatMap_append _ _ _

theorem rings_of_cons (f : Nat → List Nat) (j : Nat) (b : List Nat) :
    rings_of f (j :: b) = f j ++ rings_of f b := by
  unfold rings_of
  exact List.flatMap_cons _ _ _

theorem flat_stacks_cons (e : Nat × List Nat) (D : List (Nat × List Nat)) :
    flat_stacks (e :: D) = e.1 :: e.2 ++ flat_stacks D := by
  unfold flat_stacks
  rw [List.flatMap_cons]

theorem flat_stacks_append (D1 D2 : List (Nat × List Nat)) :
    flat_stacks (D1 ++ D2) = flat_stacks D1 ++ flat_stacks D2 := by
  unfold flat_stacks
  exact List.flatMap_append _ _ _

theorem drain_of_pushed (fuel : Nat) (m : State) (k : Nat) (B subs : List Nat)
    (ring_of : Nat → List Nat) (D : List (Nat × List Nat))
    (hw : worklist_ok m (ring_of_upd ring_of k B) m.top_closed_stack ((k, subs) :: D))
    (hnd : (k :: subs ++ flat_stacks D).Nodup)
    (hf2 : 2 ≤ fuel) (hfD : D.length < fuel) (hfs : subs.length < fuel)
    (hfe : ∀ e ∈ D, e.2.length + 1 < fuel)
    (hfr : ∀ j ∈ subs ++ flat_stacks D, (ring_of j).length ≤ fuel) (hfB : B.length ≤ fuel) :
    ∃ s3, ddtrace_serialize_closed_spans fuel m
        = .ok (B ++ rings_of ring_of subs ++ rings_of ring_of (flat_stacks D), s3)
      ∧ drain_frame m s3 := by
  have hk : k ∉ subs ++ flat_stacks D := (List.nodup_cons.1 hnd).1
  obtain ⟨s3, e1, e2, _⟩ := serialize_closed_spans_ok (ring_of_upd ring_of k B)
    ((k, subs) :: D) fuel m hw hf2 (by simp; omega)
    (fun e he => by
      rcases List.mem_cons.1 he with rfl | h
      · exact hfs
      · have := hfe e h; omega)
    (fun j hj => by
      rw [flat_stacks_cons] at hj
      rcases List.mem_cons.1 hj with rfl | h
      · simpa [ring_of_upd] using hfB
      · have hjk : j ≠ k := fun e => hk (e ▸ h)
        simpa [ring_of_upd, hjk] using hfr j h)
  refine ⟨s3, ?_, e2⟩
  rw [e1, flat_stacks_cons, List.cons_append, rings_of_cons,
    rings_of_upd_not_mem ring_of k B _ hk, rings_of_append]
  simp [ring_of_upd, List.append_assoc]

theorem worklist_stage_global (s : State) (k h : Nat) (B subs : List Nat)
    (ring_of : Nat → List Nat) (D : List (Nat × List Nat))
    (hc : (s.span_stacks k).closed_ring = some h) (hd : drain_ready s k B subs ring_of D) :
    worklist_ok (stage_global s k h) (ring_of_upd ring_of k B)
      (stage_global s k h).top_closed_stack ((k, subs) :: D) := by
  obtain ⟨f1, f2, _, _, f5, f6, f7, f8⟩ := stage_global_facts s k h
  obtain ⟨_, d2, d3, d4, d5, d6⟩ := hd
  have hring : is_ring s.spans h B := by
    unfold closed_ring_ok at d2
    rw [hc] at d2
    exact d2
  rw [f2]
  exact worklist_ok_push s _ ring_of D k h subs B d3 d4 d5 d6 (by rw [f1]; exact hring)
    ⟨f5, (f8 k).1, f6⟩ (fun j hj => by rw [f7 j hj]; simp) (fun j _ x _ => by rw [f1])

theorem flat_stacks_split (D1 D2 : List (Nat × List Nat)) (r : Nat) (sR : List Nat) :
    flat_stacks (D1 ++ (r, sR) :: D2) = (flat_stacks D1 ++ [r]) ++ (sR ++ flat_stacks D2) := by
  rw [flat_stacks_append, flat_stacks_cons]
  simp

theorem flat_stacks_split_sub (D1 D2 : List (Nat × List Nat)) (r k : Nat) (sR : List Nat) :
    flat_stacks (D1 ++ (r, k :: sR) :: D2)
      = (flat_stacks D1 ++ [r]) ++ k :: (sR ++ flat_stacks D2) := by
  rw [flat_stacks_append, flat_stacks_cons]
  simp

theorem mem_flat_stacks_split_sub {D1 D2 : List (Nat × List Nat)} {r k j : Nat}
    {sR : List Nat} (h : j ∈ flat_stacks (D1 ++ (r, k :: sR) :: D2)) :
    j = k ∨ j ∈ flat_stacks (D1 ++ (r, sR) :: D2) := by
  rw [flat_stacks_split_sub] at h
  rw [flat_stacks_split]
  simp only [List.mem_append, List.mem_cons, List.mem_singleton, List.not_mem_nil,
    or_false] at h ⊢
  tauto

theorem worklist_stage_sub (s : State) (k h Rt : Nat) (B subs sR : List Nat)
    (ring_of : Nat → List Nat) (D1 D2 : List (Nat × List Nat))
    (hc : (s.span_stacks k).closed_ring = some h)
    (hd : drain_ready s k B subs ring_of (D1 ++ (Rt, sR) :: D2)) :
    worklist_ok (stage_sub s k h Rt) (ring_of_upd ring_of k B)
      (stage_sub s k h Rt).top_closed_stack (D1 ++ (Rt, k :: sR) :: D2) := by
  obtain ⟨f1, f2, f3, f4, f5, _, _, f8, f9, _⟩ := stage_sub_facts s k h Rt
  obtain ⟨_, d2, ⟨w1, w2, w3, w4⟩, _, _, d6⟩ := hd
  have hring : is_ring s.spans h B := by
    unfold closed_ring_ok at d2
    rw [hc] at d2
    exact d2
  have hk : k ∉ flat_stacks (D1 ++ (Rt, sR) :: D2) := fun hm =>
    (List.nodup_cons.1 d6).1 (List.mem_append_right _ hm)
  have hne : ∀ j ∈ flat_stacks (D1 ++ (Rt, sR) :: D2), j ≠ k := fun j hj e => hk (e ▸ hj)
  have hRt : Rt ∈ flat_stacks (D1 ++ (Rt, sR) :: D2) :=
    mem_flat_stacks_fst (e := (Rt, sR)) (by simp)
  have w4b := w4
  rw [flat_stacks_split, List.append_assoc] at w4b
  have hroots : ∀ e ∈ D1 ++ D2, e.1 ≠ Rt := by
    intro e he heq
    rw [List.nodup_append] at w4b
    obtain ⟨_, n2, n3⟩ := w4b
    rcases List.mem_append.1 he with h1 | h2
    · exact n3 (mem_flat_stacks_fst h1) (by simp [heq])
    · have n2b : ([Rt] ++ (sR ++ flat_stacks D2)).Nodup := n2
      rw [List.nodup_append] at n2b
      exact n2b.2.2 (List.mem_singleton.2 rfl) (List.mem_append_right _ (heq ▸ mem_flat_stacks_fst h2))
  refine ⟨?_, ?_, ?_, ?_⟩
  · rw [f2]
    have hm : (D1 ++ (Rt, k :: sR) :: D2).map Prod.fst
        = (D1 ++ (Rt, sR) :: D2).map Prod.fst := by simp
    rw [hm]
    exact stack_list_congr_mem _ _ _ _ (fun j hj => by
      obtain ⟨e, he, rfl⟩ := List.mem_map.1 hj
      exact (f8 _ (hne _ (mem_flat_stacks_fst he))).1) w1
  · intro e he
    have hcase : e = (Rt, k :: sR) ∨ e ∈ D1 ++ D2 := by
      simp only [List.mem_append, List.mem_cons] at he ⊢
      tauto
    rcases hcase with rfl | he2
    · refine ⟨f3, ?_⟩
      rw [f4]
      exact stack_list_congr_mem _ _ _ _ (fun j hj =>
        (f8 j (hne j (mem_flat_stacks_snd (e := (Rt, sR)) (by simp) hj))).1)
        (w2 (Rt, sR) (by simp))
    · have heD : e ∈ D1 ++ (Rt, sR) :: D2 := by
        simp only [List.mem_append, List.mem_cons] at he2 ⊢
        tauto
      rw [f9 e.1 (hroots e he2)]
      exact stack_list_congr_mem _ _ _ _ (fun j hj =>
        (f8 j (hne j (mem_flat_stacks_snd heD hj))).1) (w2 e heD)
  · intro j hj
    rcases eq_or_ne j k with rfl | hjk
    · exact ⟨h, f5, by rw [f1]; simpa [ring_of_upd] using hring⟩
    · have hjD : j ∈ flat_stacks (D1 ++ (Rt, sR) :: D2) := by
        rcases mem_flat_stacks_split_sub hj with e | e
        · exact absurd e hjk
        · exact e
      obtain ⟨f, g1, g2⟩ := w3 j hjD
      exact ⟨f, by rw [(f8 j hjk).2.1, g1], by rw [f1]; simpa [ring_of_upd, hjk] using g2⟩
  · rw [flat_stacks_split_sub]
    refine (List.perm_middle.nodup_iff).2 (List.nodup_cons.2 ⟨?_, ?_⟩)
    · rw [← flat_stacks_split]
      exact hk
    · rw [← flat_stacks_split]
      exact w4

theorem drain_of_sub (fuel : Nat) (m : State) (k Rt : Nat) (B sR : List Nat)
    (ring_of : Nat → List Nat) (D1 D2 : List (Nat × List Nat))
    (hw : worklist_ok m (ring_of_upd ring_of k B) m.top_closed_stack
      (D1 ++ (Rt, k :: sR) :: D2))
    (hk : k ∉ flat_stacks (D1 ++ (Rt, sR) :: D2))
    (hf2 : 2 ≤ fuel) (hfD : (D1 ++ (Rt, sR) :: D2).length < fuel)
    (hfe : ∀ e ∈ D1 ++ (Rt, sR) :: D2, e.2.length + 1 < fuel)
    (hfr : ∀ j ∈ flat_stacks (D1 ++ (Rt, sR) :: D2), (ring_of j).length ≤ fuel)
    (hfB : B.length ≤ fuel) :
    ∃ s3, ddtrace_serialize_closed_spans fuel m
        = .ok (rings_of ring_of (flat_stacks D1) ++ ring_of Rt ++ B ++ rings_of ring_of sR
            ++ rings_of ring_of (flat_stacks D2), s3) := by
  obtain ⟨s3, e1, _⟩ := serialize_closed_spans_ok (ring_of_upd ring_of k B)
    (D1 ++ (Rt, k :: sR) :: D2) fuel m hw hf2
    (by simp only [List.length_append, List.length_cons] at hfD ⊢; omega)
    (fun e he => by
      have hcase : e = (Rt, k :: sR) ∨ e ∈ D1 ++ (Rt, sR) :: D2 := by
        simp only [List.mem_append, List.mem_cons] at he ⊢
        tauto
      rcases hcase with rfl | h
      · have := hfe (Rt, sR) (by simp)
        simpa using this
      · have := hfe e h; omega)
    (fun j hj => by
      rcases mem_flat_stacks_split_sub hj with rfl | h
      · simpa [ring_of_upd] using hfB
      · have hjk : j ≠ k := fun e => hk (e ▸ h)
        simpa [ring_of_upd, hjk] using hfr j h)
  refine ⟨s3, ?_⟩
  rw [flat_stacks_split] at hk
  have hk1 : k ∉ flat_stacks D1 := fun h => hk (by simp [h])
  have hk2 : k ≠ Rt := fun h => hk (by simp [h])
  have hk3 : k ∉ sR := fun h => hk (by simp [h])
  have hk4 : k ∉ flat_stacks D2 := fun h => hk (by simp [h])
  rw [e1, flat_stacks_split_sub, rings_of_append, rings_of_append, rings_of_cons,
    rings_of_cons, rings_of_append, rings_of_upd_not_mem ring_of k B _ hk1,
    rings_of_upd_not_mem ring_of k B _ hk3, rings_of_upd_not_mem ring_of k B _ hk4]
  simp [ring_of_upd, hk2.symm, rings_of, List.append_assoc]

theorem open_segment_stack (s : State) (k : Nat) :
    ∀ (l : List Nat) (p : Option Nat), open_segment s k p l →
      ∀ x ∈ l, (s.spans x).stack = some k
  | [], _, _, _, hx => by simp at hx
  | y :: l, _, h, x, hx => by
    rcases List.mem_cons.1 hx with rfl | e
    · exact h.2.1
    · exact open_segment_stack s k l _ h.2.2.2 x e

theorem stage_hands_over (fuel : Nat) (s c : State) (k h r : Nat) (B subs : List Nat)
    (ring_of : Nat → List Nat) (D : List (Nat × List Nat))
    (hcr : (c.span_stacks k).closed_ring = some h)
    (hd : drain_ready c k B subs ring_of D)
    (hroot : (c.span_stacks k).root_span = (s.span_stacks k).root_span)
    (hrs : (c.span_stacks k).root_stack = (s.span_stacks k).root_stack)
    (hr : (s.span_stacks k).root_span = some r)
    (hrst : (c.spans r).stack = (s.spans r).stack)
    (hrty : (s.spans r).stack ≠ some k → (c.spans r).type = (s.spans r).type)
    (hRt : (s.span_stacks k).root_stack ≠ none)
    (hf2 : 2 ≤ fuel) (hfD : D.length < fuel) (hfs : subs.length < fuel)
    (hfe : ∀ e ∈ D, e.2.length + 1 < fuel)
    (hfr : ∀ j ∈ subs ++ flat_stacks D, (ring_of j).length ≤ fuel) (hfB : B.length ≤ fuel) :
    ∃ m, dd_mark_closed_spans_flushable c k = .ok m ∧ m.sent = c.sent
      ∧ hands_over_batch fuel s m k B subs ring_of D
      ∧ entry_owns m k = entry_owns s k
      ∧ ((s.spans r).stack = some k → m = stage_global c k h) := by
  have hring : is_ring c.spans h B := by
    have d2 := hd.2.1
    unfold closed_ring_ok at d2
    rw [hcr] at d2
    exact d2
  have hkD : k ∉ flat_stacks D := fun hm =>
    (List.nodup_cons.1 hd.2.2.2.2.2).1 (List.mem_append_right _ hm)
  by_cases hg : (s.spans r).stack = some k ∨ (s.spans r).type = DDTRACE_SPAN_CLOSED
  · have hg2 : (c.spans r).stack = some k ∨ (c.spans r).type = DDTRACE_SPAN_CLOSED := by
      by_cases e : (s.spans r).stack = some k
      · exact Or.inl (by rw [hrst, e])
      · rcases hg with g | g
        · exact absurd g e
        · exact Or.inr (by rw [hrty e, g])
    obtain ⟨f1, _, _, _, _, f6, _, _⟩ := stage_global_facts c k h
    refine ⟨stage_global c k h,
      mark_stage_global_or c k h r hcr hd.1 (by rw [hroot, hr]) hg2, rfl,
      ⟨by simp [stage_global, set_stack], ⟨h, f6, by rw [f1]; exact hring⟩, ?_, ?_⟩, ?_,
      fun _ => rfl⟩
    · intro _ _ _
      obtain ⟨s3, e, _⟩ := drain_of_pushed fuel (stage_global c k h) k B subs ring_of D
        (worklist_stage_global c k h B subs ring_of D hcr hd) hd.2.2.2.2.2 hf2 hfD hfs hfe hfr
        hfB
      exact ⟨s3, e⟩
    · intro r2 Rt D1 sR D2 h1 h2
      rw [hr] at h1
      cases h1
      exact absurd hg h2
    · unfold entry_owns
      have e1 : ((stage_global c k h).span_stacks k).root_span = (c.span_stacks k).root_span := by
        simp [stage_global, set_stack]
      rw [e1, hroot, hr]
      simp only [f1, hrst]
  · have hg1 : (c.spans r).stack ≠ some k := by
      rw [hrst]; exact fun e => hg (Or.inl e)
    have hg2 : (c.spans r).type ≠ DDTRACE_SPAN_CLOSED := by
      rw [hrty (fun e => hg (Or.inl e))]; exact fun e => hg (Or.inr e)
    obtain ⟨Rt, hRt2⟩ := Option.ne_none_iff_exists'.1 hRt
    obtain ⟨f1, _, _, _, f5, f6, _, _, _, f10⟩ := stage_sub_facts c k h Rt
    refine ⟨stage_sub c k h Rt,
      mark_stage_sub c k h r Rt hcr hd.1 (by rw [hroot, hr]) hg1 hg2 (by rw [hrs, hRt2]),
      rfl, ⟨f6, ⟨h, f5, by rw [f1]; exact hring⟩, ?_, ?_⟩, ?_,
      fun e => absurd (Or.inl e) hg⟩
    · intro r2 h1 h2
      rw [hr] at h1
      cases h1
      exact absurd h2 hg
    · intro r2 Rt2 D1 sR D2 _ _ h3 h4
      rw [hRt2] at h3
      cases h3
      subst h4
      exact drain_of_sub fuel _ k Rt B sR ring_of D1 D2
        (worklist_stage_sub c k h Rt B subs sR ring_of D1 D2 hcr hd) hkD hf2 hfD hfe
        (fun j hj => hfr j (List.mem_append_right _ hj)) hfB
    · unfold entry_owns
      rw [(f10 k).2.1, hroot, hr]
      simp only [f1, hrst]

theorem release_hands_over (fuel : Nat) (s c : State) (k h r : Nat) (B subs : List Nat)
    (ring_of : Nat → List Nat) (D : List (Nat × List Nat))
    (hcr : (c.span_stacks k).closed_ring = some h)
    (hd : drain_ready c k B subs ring_of D)
    (hr : (s.span_stacks k).root_span = some r) (hown : (s.spans r).stack = some k)
    (hf2 : 2 ≤ fuel) (hfD : D.length < fuel) (hfs : subs.length < fuel)
    (hfe : ∀ e ∈ D, e.2.length + 1 < fuel)
    (hfr : ∀ j ∈ subs ++ flat_stacks D, (ring_of j).length ≤ fuel) (hfB : B.length ≤ fuel) :
    hands_over_batch fuel s (release_state (stage_global c k h) k) k B subs ring_of D := by
  have hring : is_ring c.spans h B := by
    have d2 := hd.2.1
    unfold closed_ring_ok at d2
    rw [hcr] at d2
    exact d2
  obtain ⟨f1, _, _, _, _, _, f7, f8, _⟩ := release_stage_facts c k h
  refine ⟨f8, ⟨h, f7, by rw [f1]; exact hring⟩, ?_, ?_⟩
  · intro _ _ _
    obtain ⟨s3, e, _⟩ := drain_of_pushed fuel _ k B subs ring_of D
      (worklist_after_stage c k h B subs ring_of D hcr hd) hd.2.2.2.2.2 hf2 hfD hfs hfe hfr hfB
    exact ⟨s3, e⟩
  · intro r2 Rt D1 sR D2 h1 h2
    rw [hr] at h1
    cases h1
    exact absurd (Or.inl hown) h2

theorem rings_of_pushed (ring_of : Nat → List Nat) (k : Nat) (B subs : List Nat)
    (D : List (Nat × List Nat)) (hk : k ∉ subs ++ flat_stacks D) :
    rings_of (ring_of_upd ring_of k B) (flat_stacks ((k, subs) :: D))
      = B ++ rings_of ring_of subs ++ rings_of ring_of (flat_stacks D) := by
  rw [flat_stacks_cons, List.cons_append, rings_of_cons,
    rings_of_upd_not_mem ring_of k B _ hk, rings_of_append]
  simp [ring_of_upd, List.append_assoc]

theorem drain_fuel_pushed (fuel : Nat) (ring_of : Nat → List Nat) (k : Nat) (B subs : List Nat)
    (D : List (Nat × List Nat)) (hk : k ∉ subs ++ flat_stacks D)
    (hf2 : 2 ≤ fuel) (hfD : D.length < fuel) (hfs : subs.length < fuel)
    (hfe : ∀ e ∈ D, e.2.length + 1 < fuel)
    (hfr : ∀ j ∈ subs ++ flat_stacks D, (ring_of j).length ≤ fuel) (hfB : B.length ≤ fuel) :
    drain_fuel fuel (ring_of_upd ring_of k B) ((k, subs) :: D) := by
  refine ⟨hf2, by simp; omega, fun e he => ?_, fun j hj => ?_⟩
  · rcases List.mem_cons.1 he with rfl | h
    · exact hfs
    · have := hfe e h; omega
  · rw [flat_stacks_cons] at hj
    rcases List.mem_cons.1 hj with rfl | h
    · simpa [ring_of_upd] using hfB
    · have hjk : j ≠ k := fun e => hk (e ▸ h)
      simpa [ring_of_upd, hjk] using hfr j h

/-! ### The claims -/

/-- C10: when the open span `t` of stack `k` is reached from the active span of
`k` through the spans `us` of type User on the same stack (innermost first),
`ddtrace_close_span` returns, and it has gone through the state
`close_chain_core k s us t`, in which the spans of `us` were finished one at a
time in list order, leaf to root, and only then `t` was closed; what follows is
at most the closure of the entry span of the stack. Afterwards `t` is Closed,
the active span of the stack is the parent of `t`, every span of `us` is Closed
when auto-finish is enabled and otherwise still of type User with the dropped
sentinel as duration, and the dropped counter has grown by one for each span
of `us` exactly when auto-finish is disabled. -/
theorem close_span_finishes_unfinished_spans_leaf_to_root
    (fuel : Nat) (s : State) (k t a : Nat) (us R subs : List Nat)
    (ring_of : Nat → List Nat) (D : List (Nat × List Nat))
    (ha : s.active_stack = some a) (ht : (s.spans t).stack = some k)
    (hty : (s.spans t).type ≠ DDTRACE_SPAN_CLOSED)
    (hc : chain_above s k t (s.span_stacks k).active us)
    (hroot : s.autofinish_spans = false → ∀ u ∈ us, (s.span_stacks k).root_span ≠ some u)
    (hn : entry_nofault s k)
    (hfl : s.auto_flush_enabled = true → entry_owns s k = true → is_entry_span s k t = true →
      flush_ready fuel s k t us R subs ring_of D)
    (hf : us.length + 2 ≤ fuel) :
    ∃ s2, ddtrace_close_span (fuel + 1) s (some t) = .ok s2
      ∧ (is_entry_span s k t = false → s2 = close_chain_core k s us t)
      ∧ (is_entry_span s k t = true →
          dd_close_entry_span_of_stack fuel (close_chain_core k s us t) k = .ok s2)
      ∧ (s2.spans t).type = DDTRACE_SPAN_CLOSED
      ∧ (s2.span_stacks k).active = (s.spans t).parent
      ∧ (∀ u ∈ us, if s.autofinish_spans then (s2.spans u).type = DDTRACE_SPAN_CLOSED
          else (s2.spans u).type = DDTRACE_USER_SPAN
            ∧ (s2.spans u).duration = DDTRACE_DROPPED_SPAN)
      ∧ s2.dropped_spans_count
          = incr32^[if s.autofinish_spans then 0 else us.length] s.dropped_spans_count
      ∧ s2.closed_spans_count
          = incr32^[if s.autofinish_spans then us.length + 1 else 1] s.closed_spans_count
      ∧ s2.open_spans_count = decr32^[us.length + 1] s.open_spans_count := by
  obtain ⟨s2, h1, h2, h3, h4⟩ :=
    close_span_chain_ok fuel s k t a us R subs ring_of D ha ht hty hc hroot hn hfl hf
  obtain ⟨p1, p2, p3, p4, p5, p6⟩ := close_chain_core_props k s us t hc
  refine ⟨s2, h1, h2, h3, by rw [(h4.2.1 t).1, p1], by rw [(h4.2.2.1 k).1, p2], ?_,
    by rw [h4.2.2.2.2.1, p4], by rw [h4.2.2.2.2.2.1, p5], by rw [h4.2.2.2.1, p6]⟩
  intro u hu
  have := p3 u hu
  rw [(h4.2.1 u).1, (h4.2.1 u).2.1]
  exact this

/-- Witness for C10: closing the root span 1 below the two userland spans 3
and 2, with auto-finish and auto-flush enabled. -/
theorem close_span_finishes_unfinished_spans_leaf_to_root_witness :
    demo_chain.active_stack = some 2 ∧ (demo_chain.spans 1).stack = some 2
    ∧ (demo_chain.spans 1).type ≠ DDTRACE_SPAN_CLOSED
    ∧ chain_above demo_chain 2 1 (demo_chain.span_stacks 2).active [3, 2]
    ∧ entry_nofault demo_chain 2
    ∧ flush_ready 5 demo_chain 2 1 [3, 2] [] [] (fun _ => []) []
    ∧ ∃ s2, ddtrace_close_span 6 demo_chain (some 1) = .ok s2
      ∧ (s2.spans 1).type = DDTRACE_SPAN_CLOSED
      ∧ (s2.spans 2).type = DDTRACE_SPAN_CLOSED
      ∧ (s2.spans 3).type = DDTRACE_SPAN_CLOSED := by
  have h1 : demo_chain.active_stack = some 2 := by decide!
  have h2 : (demo_chain.spans 1).stack = some 2 := by decide!
  have h3 : (demo_chain.spans 1).type ≠ DDTRACE_SPAN_CLOSED := by decide!
  have h4 : chain_above demo_chain 2 1 (demo_chain.span_stacks 2).active [3, 2] := by decide!
  have h5 : entry_nofault demo_chain 2 := by decide!
  have h6 : flush_ready 5 demo_chain 2 1 [3, 2] [] [] (fun _ => []) [] := by decide!
  have h7 : demo_chain.autofinish_spans = true := by decide!
  obtain ⟨s2, e1, _, _, e4, _, e6, _⟩ :=
    close_span_finishes_unfinished_spans_leaf_to_root 5 demo_chain 2 1 2 [3, 2] [] []
      (fun _ => []) [] h1 h2 h3 h4 (fun h => by rw [h7] at h; cases h) h5 (fun _ _ _ => h6)
      (by decide)
  have e2 := e6 2 (by simp)
  have e3 := e6 3 (by simp)
  rw [if_pos h7] at e2 e3
  exact ⟨h1, h2, h3, h4, h5, h6, s2, e1, e4, e2, e3⟩

/-- C3 (amended): when the open span `t` is the current root span of its stack
`k` and only spans of type User (`us`) are open above it, `ddtrace_drop_span`
returns, the sampling override of `t` is user-reject, `t` is Closed, the closed
counter has grown by one for `t` (and by one for each auto-finished span of
`us`), the dropped counter has grown only for the spans of `us` that were
dropped, and `t` was spliced into the closed ring of the stack: it is a member
of that ring, or, when it was the entry span of a stack with nothing staged,
of the staged ring or of the flushed output. -/
theorem drop_root_span_closes_with_reject
    (fuel : Nat) (s : State) (k t a : Nat) (us R subs : List Nat)
    (ring_of : Nat → List Nat) (D : List (Nat × List Nat))
    (ha : s.active_stack = some a) (ht : (s.spans t).stack = some k)
    (hr : (s.span_stacks k).root_span = some t)
    (hty : (s.spans t).type ≠ DDTRACE_SPAN_CLOSED)
    (hc : chain_above s k t (s.span_stacks k).active us)
    (hn : entry_nofault s k)
    (hR : closed_ring_ok s k R) (hsep : ∀ x ∈ R, x ∉ us ++ [t])
    (hfl : s.auto_flush_enabled = true → is_entry_span s k t = true →
      flush_ready fuel s k t us R subs ring_of D)
    (hf : us.length + 2 ≤ fuel) :
    ∃ s2, ddtrace_drop_span (fuel + 2) s t = .ok s2
      ∧ (s2.spans t).sampling_priority = some PRIORITY_SAMPLING_USER_REJECT
      ∧ (s2.spans t).type = DDTRACE_SPAN_CLOSED
      ∧ s2.closed_spans_count
          = incr32^[if s.autofinish_spans then us.length + 1 else 1] s.closed_spans_count
      ∧ s2.dropped_spans_count
          = incr32^[if s.autofinish_spans then 0 else us.length] s.dropped_spans_count
      ∧ s2.open_spans_count = decr32^[us.length + 1] s.open_spans_count
      ∧ (is_entry_span s k t = false →
          closed_ring_ok s2 k (t :: ring_after s.autofinish_spans us R))
      ∧ (is_entry_span s k t = true → (s.span_stacks k).closed_ring_flush = none →
          if s.auto_flush_enabled then t ∈ s2.sent
          else flush_ring_ok s2 (fun _ => t :: ring_after s.autofinish_spans us R) k) := by
  obtain ⟨f1, f2, f3, f4, f5, f6, f7, f8, f9, f10, f11⟩ := drop_root_state_facts s k t hr
  have htus := chain_above_not_mem s k t us _ hc
  have hc2 : chain_above (drop_root_state s k t) k t
      ((drop_root_state s k t).span_stacks k).active us := by
    rw [f1]
    exact chain_above_congr s _ k t us _
      (fun x _ => ⟨(f11 x).2.2.1, (f11 x).2.1, (f11 x).2.2.2⟩) hc
  have hent : is_entry_span (drop_root_state s k t) k t = is_entry_span s k t := by
    unfold is_entry_span
    rw [(f11 t).2.2.2]
    cases (s.spans t).parent with
    | none => rfl
    | some p => simp only; rw [(f11 p).2.2.1]
  have hR2 : closed_ring_ok (drop_root_state s k t) k R :=
    closed_ring_ok_congr s _ k R (by rw [f1]) (fun x _ => (f11 x).1) hR
  have hn2 : entry_nofault (drop_root_state s k t) k := by
    unfold entry_nofault; rw [f1]; exact hn
  have hfl2 : (drop_root_state s k t).auto_flush_enabled = true →
      is_entry_span (drop_root_state s k t) k t = true →
      flush_ready fuel (drop_root_state s k t) k t us R subs ring_of D := by
    intro h1 h2
    rw [f5] at h1
    rw [hent] at h2
    obtain ⟨g1, g2, g3⟩ := hfl h1 h2
    exact ⟨drain_ready_congr s _ k R subs ring_of D f1 f3 (fun x => (f11 x).1) g1, g2,
      by rw [f4]; exact g3⟩
  obtain ⟨s2, h1, h2, h3, h4⟩ := close_span_chain_ok fuel (drop_root_state s k t) k t k us R
    subs ring_of D f2 (by rw [(f11 t).2.2.1]; exact ht) (by rw [(f11 t).2.1]; exact hty) hc2
    (fun _ u hu => by rw [f1, hr]; exact fun e => htus (Option.some.inj e ▸ hu)) hn2
    (fun e1 _ e3 => hfl2 e1 e3) hf
  obtain ⟨p1, p2, p3, p4, p5, p6⟩ := close_chain_core_props k (drop_root_state s k t) us t hc2
  have hmfr := close_chain_core_frame k (drop_root_state s k t) us t
  have hring := close_chain_core_ring k t (drop_root_state s k t) us R hc2 hR2 hsep
  rw [f4] at hring
  refine ⟨s2, by rw [drop_span_root (fuel + 1) s k t a ha ht hr]; exact h1, ?_,
    by rw [(h4.2.1 t).1, p1], by rw [h4.2.2.2.2.2.1, p5, f4, f8],
    by rw [h4.2.2.2.2.1, p4, f4, f9], by rw [h4.2.2.2.1, p6, f7], ?_, ?_⟩
  · rw [(h4.2.1 t).2.2, hmfr.2.1 t]
    exact f10
  · intro he
    rw [h2 (by rw [hent]; exact he)]
    exact hring
  · intro he hflush
    have he2 : is_entry_span (drop_root_state s k t) k t = true := by rw [hent]; exact he
    have hs2 := h3 he2
    have hst := hmfr.2.2.2.2.2.2.2.2.2.2.2.2.2.2.2
    obtain ⟨h, hh⟩ := close_top_core_closed_ring
      (finish_all k { drop_root_state s k t with active_stack := some k } us) t k
    have hh2 : ((close_chain_core k (drop_root_state s k t) us t).span_stacks k).closed_ring
        = some h := hh
    have hisr : is_ring (close_chain_core k (drop_root_state s k t) us t).spans h
        (t :: ring_after s.autofinish_spans us R) := by
      have := hring
      unfold closed_ring_ok at this
      rw [hh2] at this
      exact this
    rw [close_entry_owner fuel _ k h t k hh2
      (by rw [(hst k).2.2.2.1]; show (_ : ddtrace_span_stack).closed_ring_flush = none
          rw [f1]; exact hflush)
      (by rw [(hst k).1]; show (_ : ddtrace_span_stack).root_span = some t
          rw [f1]; exact hr)
      (by rw [(hmfr.1 t).1]; show (_ : ddtrace_span_data).stack = some k
          rw [(f11 t).2.2.1]; exact ht)
      (by rw [hmfr.2.2.2.2.1])
      (by rw [(hst k).2.1, (hst k).2.2.1]
          show (_ : ddtrace_span_stack).root_stack = some k → _
          rw [f1]; exact hn.2)] at hs2
    have hauto : (close_chain_core k (drop_root_state s k t) us t).auto_flush_enabled
        = s.auto_flush_enabled := by
      rw [hmfr.2.2.2.2.2.2.2.2.2.1]; exact f5
    rw [hauto] at hs2
    by_cases hb : s.auto_flush_enabled = true
    · rw [if_pos hb] at hs2 ⊢
      obtain ⟨g1, g2, g3⟩ := hfl2 (by rw [f5]; exact hb) he2
      obtain ⟨s3, q1, q2, _⟩ := flush_after_stage fuel _ k h _ subs ring_of D hh2
        (drain_ready_mid k t _ us R subs ring_of D hc2 g1 g2) g3
      rw [q1] at hs2
      cases hs2
      rw [q2]
      apply List.mem_append_right
      apply mem_rings_of_head
      simp [ring_of_upd]
    · rw [if_neg hb] at hs2 ⊢
      cases hs2
      obtain ⟨r1, _, _, _, _, _, r7, _⟩ := release_stage_facts
        (close_chain_core k (drop_root_state s k t) us t) k h
      exact ⟨h, r7, by rw [r1]; exact hisr⟩

/-- Counterexample to C3: span 1 is the open root span of stack 2 and an
internal span is open above it; `ddtrace_drop_span` returns, and span 1 is
still an open AutoRoot span, the closed counter is still zero and the closed
ring of the stack is still empty. -/
theorem drop_root_span_below_internal_span_stays_open :
    (demo_internal.span_stacks 2).root_span = some 1
    ∧ (demo_internal.spans 1).stack = some 2
    ∧ (demo_internal.spans 1).type = DDTRACE_AUTOROOT_SPAN
    ∧ (demo_internal.span_stacks 2).active = some 2
    ∧ (demo_internal.spans 2).type = DDTRACE_INTERNAL_SPAN
    ∧ (ddtrace_drop_span 6 demo_internal 1).map (fun s2 =>
        ((s2.spans 1).type, s2.closed_spans_count, (s2.span_stacks 2).closed_ring,
          (s2.span_stacks 2).closed_ring_flush, s2.sent))
      = .ok (DDTRACE_AUTOROOT_SPAN, 0, none, none, []) := by
  decide!

/-- Witness for C3 (amended): dropping the root span 1 below the two userland
spans 3 and 2, with auto-finish and auto-flush enabled. -/
theorem drop_root_span_closes_with_reject_witness :
    demo_chain.active_stack = some 2 ∧ (demo_chain.spans 1).stack = some 2
    ∧ (demo_chain.span_stacks 2).root_span = some 1
    ∧ (demo_chain.spans 1).type ≠ DDTRACE_SPAN_CLOSED
    ∧ chain_above demo_chain 2 1 (demo_chain.span_stacks 2).active [3, 2]
    ∧ entry_nofault demo_chain 2
    ∧ closed_ring_ok demo_chain 2 []
    ∧ flush_ready 5 demo_chain 2 1 [3, 2] [] [] (fun _ => []) []
    ∧ ∃ s2, ddtrace_drop_span 7 demo_chain 1 = .ok s2
      ∧ (s2.spans 1).sampling_priority = some PRIORITY_SAMPLING_USER_REJECT
      ∧ (s2.spans 1).type = DDTRACE_SPAN_CLOSED
      ∧ 1 ∈ s2.sent := by
  have h1 : demo_chain.active_stack = some 2 := by decide!
  have h2 : (demo_chain.spans 1).stack = some 2 := by decide!
  have h3 : (demo_chain.span_stacks 2).root_span = some 1 := by decide!
  have h4 : (demo_chain.spans 1).type ≠ DDTRACE_SPAN_CLOSED := by decide!
  have h5 : chain_above demo_chain 2 1 (demo_chain.span_stacks 2).active [3, 2] := by decide!
  have h6 : entry_nofault demo_chain 2 := by decide!
  have h7 : closed_ring_ok demo_chain 2 [] := by decide!
  have h8 : flush_ready 5 demo_chain 2 1 [3, 2] [] [] (fun _ => []) [] := by decide!
  have h9 : is_entry_span demo_chain 2 1 = true := by decide!
  have h10 : (demo_chain.span_stacks 2).closed_ring_flush = none := by decide!
  have h11 : demo_chain.auto_flush_enabled = true := by decide!
  obtain ⟨s2, e1, e2, e3, _, _, _, _, e8⟩ :=
    drop_root_span_closes_with_reject 5 demo_chain 2 1 2 [3, 2] [] [] (fun _ => []) []
      h1 h2 h3 h4 h5 h6 h7 (by simp) (fun _ _ => h8) (by decide)
  have e9 := e8 h9 h10
  rw [if_pos h11] at e9
  exact ⟨h1, h2, h3, h4, h5, h6, h7, h8, s2, e1, e2, e3, e9⟩

/-- Counterexample to C1: open root A (span 1), open child B (span 2), close B,
close A; the flush hands the serializer A first and B second, `[A, B]`, not
`[B, A]`. -/
theorem flush_of_child_then_root_yields_root_first :
    (demo_root_child.span_stacks 2).active = some 2
    ∧ (demo_root_child.spans 2).parent = some 1
    ∧ (demo_root_child.spans 1).parent = none
    ∧ ([2, 1].foldlM (fun st x => ddtrace_close_span 5 st (some x)) demo_root_child
        >>= fun s2 => (ddtrace_serialize_closed_spans 4 s2).map Prod.fst) = .ok [1, 2] := by
  decide!

/-- C2, the code at the failing input: the staged ring of stack 2 is the
well-formed ring of span 1 (m = 1), its closed ring is the well-formed ring of
the spans 4 and 3 (n = 2), disjoint from it; staging with
`dd_mark_closed_spans_flushable` and draining with
`ddtrace_serialize_closed_spans` hands over the two spans 4 and 1 only: span 3
never reaches the serializer. -/
theorem splice_of_two_span_ring_loses_a_span :
    (demo_two_rings.span_stacks 2).closed_ring_flush = some 1
    ∧ is_ring demo_two_rings.spans 1 [1]
    ∧ (demo_two_rings.span_stacks 2).closed_ring = some 4
    ∧ is_ring demo_two_rings.spans 4 [3, 4]
    ∧ demo_two_rings.top_closed_stack = some 2
    ∧ (dd_mark_closed_spans_flushable demo_two_rings 2
        >>= fun s1 => (ddtrace_serialize_closed_spans 4 s1).map Prod.fst) = .ok [4, 1] := by
  decide!

/-- C9, the code at the failing input: span 2 is the active span of stack 2;
`ddtrace_close_span` makes it Closed, pops it and counts it, but afterwards the
stack has no closed ring, its staged ring consists of the spans 1 and 3 only,
nothing was sent, and a drain hands over `[3, 1]`: span 2 is in none of
them. -/
theorem close_of_last_span_loses_it_in_splice :
    (demo_last_open.span_stacks 2).active = some 2
    ∧ (demo_last_open.spans 2).stack = some 2
    ∧ (demo_last_open.spans 2).type = DDTRACE_AUTOROOT_SPAN
    ∧ (demo_last_open.span_stacks 2).closed_ring = some 3
    ∧ (demo_last_open.span_stacks 2).closed_ring_flush = some 1
    ∧ (ddtrace_close_span 4 demo_last_open (some 2)).map (fun s2 =>
        ((s2.spans 2).type, (s2.span_stacks 2).active, s2.closed_spans_count,
          s2.open_spans_count))
      = .ok (DDTRACE_SPAN_CLOSED, none, 3, 0)
    ∧ (ddtrace_close_span 4 demo_last_open (some 2)).map (fun s2 =>
        ((s2.span_stacks 2).closed_ring, (s2.span_stacks 2).closed_ring_flush,
          decide (is_ring s2.spans 1 [3, 1]), s2.sent))
      = .ok (none, some 1, true, [])
    ∧ (ddtrace_close_span 4 demo_last_open (some 2)
        >>= fun s2 => (ddtrace_serialize_closed_spans 4 s2).map Prod.fst) = .ok [3, 1] := by
  decide!

/-- C4: `ddtrace_close_span` leaves the whole state unchanged when the span is
`NULL`, when it is not reached by the walk from the active span of its stack
along parent links through spans of type User only, and when (the walk
terminating) its type is already Closed; in particular a second close of a span
in the state its first close produced changes nothing. -/
theorem close_span_rejected_is_noop (fuel : Nat) (s : State) (span : Option Nat)
    (h : close_rejected fuel s span) : ddtrace_close_span (fuel + 1) s span = .ok s := by
  cases span with
  | none => rw [ddtrace_close_span]; rfl
  | some sp =>
    have key : ∀ b, ddtrace_has_top_internal_span (fuel + 1) s sp = .ok b →
        (b = false ∨ (s.spans sp).type = DDTRACE_SPAN_CLOSED) →
        ddtrace_close_span (fuel + 1) s (some sp) = .ok s := by
      intro b hb hc
      rw [ddtrace_close_span]
      simp only [hb, bind, Except.bind]
      rcases hc with e | e
      · subst e; rfl
      · simp [e, pure, Except.pure]
    rcases h with ⟨k, us, hs, hp, hl⟩ | ⟨⟨b, hb⟩, hc | ⟨f0, s0, h0⟩⟩
    · apply key false _ (Or.inl rfl)
      unfold ddtrace_has_top_internal_span
      simp only [hs, deref, bind, Except.bind]
      exact has_top_loop_blocked s sp us (fuel + 1) _ hp (by omega)
    · exact key b hb (Or.inr hc)
    · rcases close_span_cases f0 s0 s sp h0 with ⟨e, f, b0, hb0, hc⟩ | hc
      · subst e
        rcases hc with e | e
        · subst e
          exact key b hb (Or.inl (has_top_det s sp b false _ _ hb hb0))
        · exact key b hb (Or.inr e)
      · exact key b hb (Or.inr hc)

/-- Witness for C4: span 2 was closed once; closing it again in the state this
produced changes nothing. -/
theorem close_span_rejected_is_noop_witness :
    close_rejected 3 demo_child_closed (some 2)
    ∧ ddtrace_close_span 4 demo_child_closed (some 2) = .ok demo_child_closed := by
  have h1 : ddtrace_has_top_internal_span 4 demo_child_closed 2 = .ok false := by decide!
  have h2 : ddtrace_close_span 4 demo_root_child (some 2) = .ok demo_child_closed :=
    state_of_ok _ _ (by decide!)
  have h : close_rejected 3 demo_child_closed (some 2) :=
    Or.inr ⟨⟨false, h1⟩, Or.inr ⟨4, demo_root_child, h2⟩⟩
  exact ⟨h, close_span_rejected_is_noop 3 demo_child_closed (some 2) h⟩

/-- C5, the code at the failing input: span 2 was dropped and popped, so it is
not reachable from the active chain of its stack (the guard of
`ddtrace_close_span` rejects it), one span is open and one is counted as
dropped. A second `ddtrace_drop_span` of span 2 is not a no-op: the dropped
counter goes from 1 to 2 and the open counter from 1 to 0 although the root
span 1 is still open and active. -/
theorem drop_of_unreachable_span_counts_again :
    ddtrace_has_top_internal_span 4 demo_child_dropped 2 = .ok false
    ∧ ddtrace_span_is_dropped (demo_child_dropped.spans 2) = true
    ∧ ((demo_child_dropped.span_stacks 2).active, demo_child_dropped.open_spans_count,
        demo_child_dropped.dropped_spans_count, demo_child_dropped.closed_spans_count)
      = (some 1, 1, 1, 0)
    ∧ (ddtrace_drop_span 4 demo_child_dropped 2).map (fun s2 =>
        ((s2.span_stacks 2).active, s2.open_spans_count, s2.dropped_spans_count,
          s2.closed_spans_count, (s2.spans 1).type))
      = .ok (some 1, 0, 2, 0, DDTRACE_AUTOROOT_SPAN) := by
  decide!

/-- Counterexample to C6: the active stack is primary, so a fresh root stack 2
is created for span 1, which becomes its root span; the span ends with the
`parent_id` 7 and the `trace_id` 9 that the hooks returned, not with
`parent_id = 0` and `trace_id = span_id = 10`. -/
theorem open_root_span_on_primary_stack_inherits_ids :
    demo_request_start.active_stack = some 1
    ∧ (demo_request_start.span_stacks 1).parent_stack = none
    ∧ (ddtrace_open_span (active_span_hooks 4 7 9) demo_request_start 1).map (fun s2 =>
        ((s2.spans 1).stack, (s2.span_stacks 2).root_span, (s2.spans 1).parent,
          (s2.spans 1).parent_id, (s2.spans 1).trace_id, (s2.spans 1).span_id))
      = .ok (some 2, some 1, none, 7, 9, 10) := by
  decide!

/-- C6 (amended): a call of `ddtrace_open_span` that opens a root span returns,
the span has no parent and is the root span of the stack it is attached to;
when the active stack was not primary (and had no root span) the span ends with
`parent_id = 0` and `trace_id = span_id`, whatever the hooks would return; when
the active stack was primary, so that a fresh root stack was created, the span
ends with the `parent_id` that `ddtrace_peek_span_id` returned and with the
`trace_id` that `ddtrace_peek_trace_id` returned, or `span_id` when that is
zero. -/
theorem open_root_span_ids (H : Hooks) (s : State) (span k pid tid : Nat)
    (ha : s.active_stack = some k)
    (hroot : (s.span_stacks k).parent_stack ≠ none → (s.span_stacks k).root_span = none)
    (hp : (s.span_stacks k).parent_stack = none →
      H.ddtrace_peek_span_id
          (open_span_ids_state (open_span_enter s k).2 (open_span_enter s k).1 span) = .ok pid
      ∧ H.ddtrace_peek_trace_id
          (open_span_trace_state (open_span_enter s k).2 (open_span_enter s k).1 span pid)
        = .ok tid) :
    ∃ s2 st, ddtrace_open_span H s span = .ok s2
      ∧ (s2.spans span).stack = some st ∧ (s2.span_stacks st).root_span = some span
      ∧ (s2.spans span).parent = none
      ∧ (s2.spans span).span_id = s.id_stream s.id_pos % 2 ^ 64
      ∧ (if (s.span_stacks k).parent_stack = none then
          (s2.spans span).parent_id = pid
          ∧ (s2.spans span).trace_id = (if tid = 0 then (s2.spans span).span_id else tid)
        else (s2.spans span).parent_id = 0
          ∧ (s2.spans span).trace_id = (s2.spans span).span_id) := by
  cases hps : (s.span_stacks k).parent_stack with
  | none =>
    obtain ⟨h1, h2⟩ := hp hps
    obtain ⟨s2, e⟩ := open_span_primary H s span k pid tid ha hps h1 h2
    refine ⟨s2, s.stack_top, e.1, e.2.2.1, e.2.2.2.2.2.2.2.2.2.1, e.2.1, e.2.2.2.2.1, ?_⟩
    simp only [if_true]
    exact ⟨e.2.2.2.1, by rw [e.2.2.2.2.2.1, e.2.2.2.2.1]⟩
  | some ps =>
    obtain ⟨s2, e⟩ := open_span_root H s span k ps ha hps (hroot (by rw [hps]; simp))
    refine ⟨s2, k, e.1, e.2.2.1, e.2.2.2.2.2.2.2.2.2.1, e.2.1, e.2.2.2.2.1, ?_⟩
    simp only [reduceCtorEq, if_false]
    exact ⟨e.2.2.2.1, by rw [e.2.2.2.2.2.1, e.2.2.2.2.1]⟩

/-- Witness for C6 (amended): the root span of a distributed trace, opened on
the primary stack. -/
theorem open_root_span_ids_witness :
    demo_request_start.active_stack = some 1
    ∧ (demo_request_start.span_stacks 1).parent_stack = none
    ∧ ∃ s2 st, ddtrace_open_span (active_span_hooks 4 7 9) demo_request_start 1 = .ok s2
      ∧ (s2.spans 1).stack = some st ∧ (s2.span_stacks st).root_span = some 1
      ∧ (s2.spans 1).parent_id = 7 ∧ (s2.spans 1).trace_id = 9 := by
  have h1 : demo_request_start.active_stack = some 1 := by decide!
  have h2 : (demo_request_start.span_stacks 1).parent_stack = none := by decide!
  have h3 : (active_span_hooks 4 7 9).ddtrace_peek_span_id
      (open_span_ids_state (open_span_enter demo_request_start 1).2
        (open_span_enter demo_request_start 1).1 1) = .ok 7 := by decide!
  have h4 : (active_span_hooks 4 7 9).ddtrace_peek_trace_id
      (open_span_trace_state (open_span_enter demo_request_start 1).2
        (open_span_enter demo_request_start 1).1 1 7) = .ok 9 := by decide!
  obtain ⟨s2, st, e1, e2, e3, _, _, e6⟩ :=
    open_root_span_ids (active_span_hooks 4 7 9) demo_request_start 1 1 7 9 h1
      (fun h => absurd h2 h) (fun _ => ⟨h3, h4⟩)
  rw [if_pos h2] at e6
  exact ⟨h1, h2, s2, st, e1, e2, e3, e6.1, by simpa using e6.2⟩

/-- C8: a call of `ddtrace_open_span` on an active stack `k` that is not
primary and has a root span, with previous active span `p`, returns; afterwards
the parent of the new span is `p`, the new span is the active span of `k`, its
stack is `k`, the open counter has grown by exactly one, the closed and the
dropped counter are unchanged, and every other stack is unchanged, so its
active span, root span and rings are. -/
theorem open_span_links_to_previous_active_span (H : Hooks) (s : State)
    (span k ps r p pid tid : Nat)
    (ha : s.active_stack = some k) (hps : (s.span_stacks k).parent_stack = some ps)
    (hr : (s.span_stacks k).root_span = some r) (hact : (s.span_stacks k).active = some p)
    (hpid : H.ddtrace_peek_span_id (open_span_ids_state s k span) = .ok pid)
    (htid : H.ddtrace_peek_trace_id (open_span_trace_state s k span pid) = .ok tid) :
    ∃ s2, ddtrace_open_span H s span = .ok s2
      ∧ (s2.spans span).parent = some p
      ∧ (s2.span_stacks k).active = some span
      ∧ (s2.spans span).stack = some k
      ∧ s2.open_spans_count = incr32 s.open_spans_count
      ∧ s2.closed_spans_count = s.closed_spans_count
      ∧ s2.dropped_spans_count = s.dropped_spans_count
      ∧ ∀ j, j ≠ k → s2.span_stacks j = s.span_stacks j := by
  obtain ⟨s2, e1, e2, e3, _, _, _, _, _, e9, _, _, _, e13, _, e15, e16, e17, _⟩ :=
    open_span_inherit H s span k ps r p pid tid ha hps hr hact hpid htid
  exact ⟨s2, e1, e2, e9, e3, e15, e16, e17, e13⟩

/-- Witness for C8: span 3 opened below the active span 2 of the root stack
2. -/
theorem open_span_links_to_previous_active_span_witness :
    demo_before_open.active_stack = some 2
    ∧ (demo_before_open.span_stacks 2).parent_stack = some 1
    ∧ (demo_before_open.span_stacks 2).root_span = some 1
    ∧ (demo_before_open.span_stacks 2).active = some 2
    ∧ ∃ s2, ddtrace_open_span (active_span_hooks 4 0 0) demo_before_open 3 = .ok s2
      ∧ (s2.spans 3).parent = some 2 ∧ (s2.span_stacks 2).active = some 3
      ∧ s2.open_spans_count = 3 := by
  have h1 : demo_before_open.active_stack = some 2 := by decide!
  have h2 : (demo_before_open.span_stacks 2).parent_stack = some 1 := by decide!
  have h3 : (demo_before_open.span_stacks 2).root_span = some 1 := by decide!
  have h4 : (demo_before_open.span_stacks 2).active = some 2 := by decide!
  have h5 : (active_span_hooks 4 0 0).ddtrace_peek_span_id
      (open_span_ids_state demo_before_open 2 3) = .ok 11 := by decide!
  have h6 : (active_span_hooks 4 0 0).ddtrace_peek_trace_id
      (open_span_trace_state demo_before_open 2 3 11) = .ok 10 := by decide!
  have h7 : incr32 demo_before_open.open_spans_count = 3 := by decide!
  obtain ⟨s2, e1, e2, e3, _, e5, _⟩ :=
    open_span_links_to_previous_active_span (active_span_hooks 4 0 0) demo_before_open 3 2 1
      1 2 11 10 h1 h2 h3 h4 h5 h6
  exact ⟨h1, h2, h3, h4, s2, e1, e2, e3, by rw [e5, h7]⟩

/-- C17: a call of `ddtrace_open_span` whose hooks return (and, when the span
is not a root span, whose stack has an active span to become the parent)
returns, and it never replaces a live root span: when the stack `st` the span is
attached to (the active stack, or the fresh root stack created for a primary
active stack) already has a root span `r`, that is still its root span
afterwards and the `root` field of the new span is `r`; when it has none, the
root span becomes the opened span itself, which is also its own `root`; the
root span of every other stack is unchanged. -/
theorem open_span_keeps_live_root_span (H : Hooks) (s : State) (span k pid tid : Nat)
    (ha : s.active_stack = some k)
    (hh : (s.span_stacks k).parent_stack = none ∨ (s.span_stacks k).root_span ≠ none →
      H.ddtrace_peek_span_id
          (open_span_ids_state (open_span_enter s k).2 (open_span_enter s k).1 span) = .ok pid
      ∧ H.ddtrace_peek_trace_id
          (open_span_trace_state (open_span_enter s k).2 (open_span_enter s k).1 span pid)
        = .ok tid)
    (hact : (s.span_stacks k).parent_stack ≠ none → (s.span_stacks k).root_span ≠ none →
      (s.span_stacks k).active ≠ none) :
    ∃ s2 st, ddtrace_open_span H s span = .ok s2
      ∧ st = (open_span_enter s k).1 ∧ (s2.spans span).stack = some st
      ∧ (∀ r, ((open_span_enter s k).2.span_stacks st).root_span = some r →
          (s2.span_stacks st).root_span = some r ∧ (s2.spans span).root = some r)
      ∧ (((open_span_enter s k).2.span_stacks st).root_span = none →
          (s2.span_stacks st).root_span = some span ∧ (s2.spans span).root = some span)
      ∧ ∀ j, j ≠ st → (s2.span_stacks j).root_span = (s.span_stacks j).root_span := by
  obtain ⟨s2, e0, e1, _, _, e4, e5, _, _, e8, _⟩ :=
    open_span_total H s span k pid tid ha hh hact
  refine ⟨s2, _, e0, rfl, e1, fun r hr => ?_, fun hr => ?_, fun j hj => ?_⟩
  · rw [hr] at e4
    exact ⟨e4, by rw [e5, e4]⟩
  · rw [hr] at e4
    exact ⟨e4, by rw [e5, e4]⟩
  · rw [e8 j hj]
    cases hps : (s.span_stacks k).parent_stack with
    | none =>
      obtain ⟨p1, _, _, p4⟩ := open_span_enter_primary s k hps
      rw [p1] at hj
      rw [p4 j hj]
    | some ps => rw [open_span_enter_other s k ps hps]

/-- Witness for C17: span 3 opened on the root stack 2, whose root span 1 is
live. -/
theorem open_span_keeps_live_root_span_witness :
    demo_before_open.active_stack = some 2
    ∧ (demo_before_open.span_stacks 2).root_span = some 1
    ∧ ∃ s2, ddtrace_open_span (active_span_hooks 4 0 0) demo_before_open 3 = .ok s2
      ∧ (s2.span_stacks 2).root_span = some 1 ∧ (s2.spans 3).root = some 1 := by
  have h1 : demo_before_open.active_stack = some 2 := by decide!
  have h2 : (demo_before_open.span_stacks 2).root_span = some 1 := by decide!
  have h3 : (active_span_hooks 4 0 0).ddtrace_peek_span_id
      (open_span_ids_state (open_span_enter demo_before_open 2).2
        (open_span_enter demo_before_open 2).1 3) = .ok 11 := by decide!
  have h4 : (active_span_hooks 4 0 0).ddtrace_peek_trace_id
      (open_span_trace_state (open_span_enter demo_before_open 2).2
        (open_span_enter demo_before_open 2).1 3 11) = .ok 10 := by decide!
  have h5 : (demo_before_open.span_stacks 2).active ≠ none := by decide!
  have h6 : (open_span_enter demo_before_open 2).1 = 2 := by decide!
  have h7 : ((open_span_enter demo_before_open 2).2.span_stacks 2).root_span = some 1 := by
    decide!
  obtain ⟨s2, st, e0, e1, _, e3, _⟩ :=
    open_span_keeps_live_root_span (active_span_hooks 4 0 0) demo_before_open 3 2 11 10 h1
      (fun _ => ⟨h3, h4⟩) (fun _ _ => h5)
  rw [h6] at e1
  subst e1
  exact ⟨h1, h2, s2, e0, e3 1 h7⟩

/-- C19, the code at the failing input: the values differ in type (3 and 2),
the tracer is not disabled, the old value is not false, and on the active stack
3 the active span is the root span 1 and the closed ring is empty; the call
returns true, but the root span, a span of stack 2, is not hard-dropped: it
goes through the root-span case of `ddtrace_drop_span`, so it ends Closed with
the user-reject override and without the dropped sentinel, the closed counter
grows and the dropped counter does not, and its ring is staged on stack 2. -/
theorem alter_root_span_config_closes_inherited_root_span :
    demo_child_stack_active.active_stack = some 3
    ∧ demo_child_stack_active.disable = false
    ∧ ((demo_child_stack_active.span_stacks 3).active,
        (demo_child_stack_active.span_stacks 3).root_span,
        (demo_child_stack_active.span_stacks 3).closed_ring) = (some 1, some 1, none)
    ∧ (demo_child_stack_active.closed_spans_count,
        demo_child_stack_active.dropped_spans_count) = (0, 0)
    ∧ (ddtrace_span_alter_root_span_config 6 (active_span_hooks 6 0 0)
          demo_child_stack_active 3 IS_FALSE).map
        (fun r => (r.1, (r.2.spans 1).type, ddtrace_span_is_dropped (r.2.spans 1),
          r.2.closed_spans_count, r.2.dropped_spans_count))
      = .ok (true, DDTRACE_SPAN_CLOSED, false, 1, 0)
    ∧ (ddtrace_span_alter_root_span_config 6 (active_span_hooks 6 0 0)
          demo_child_stack_active 3 IS_FALSE).map
        (fun r => ((r.2.spans 1).sampling_priority, (r.2.span_stacks 2).closed_ring_flush,
          r.2.top_closed_stack, (r.2.span_stacks 3).root_span))
      = .ok (some PRIORITY_SAMPLING_USER_REJECT, some 1, some 2, none) := by
  decide!

/-- C16, the code at the failing input: in the state `demo_closed_active`,
reached by opens, closes and a drop, the active span of stack 2 is the closed
span 2 of that stack; with auto-finish enabled the loop of
`ddtrace_close_all_open_spans` calls `ddtrace_close_span` on it, which returns
at once because the span is Closed, and the loop never ends: the call runs out
of fuel whatever fuel it is given. -/
theorem close_all_open_spans_loops_on_closed_active_span :
    is_ok (run_ops
      [.open_span DDTRACE_AUTOROOT_SPAN 6 0 0, .open_span DDTRACE_USER_SPAN 6 0 0,
        .open_span DDTRACE_USER_SPAN 6 0 0, .close_span 6 3, .close_span 6 2, .drop_span 6 3]
      (ddtrace_init_span_stacks (fresh_state true false (fun i => i % 100 + 10)))) = true
    ∧ (demo_closed_active.span_stacks 2).active = some 2
    ∧ (demo_closed_active.spans 2).stack = some 2
    ∧ (demo_closed_active.spans 2).type = DDTRACE_SPAN_CLOSED
    ∧ (demo_closed_active.spans 1).type = DDTRACE_AUTOROOT_SPAN
    ∧ ∀ fuel force_close_root_span,
        ddtrace_close_all_open_spans fuel demo_closed_active force_close_root_span
          = .error Fault.out_of_fuel := by
  have h0 : is_ok (run_ops
      [.open_span DDTRACE_AUTOROOT_SPAN 6 0 0, .open_span DDTRACE_USER_SPAN 6 0 0,
        .open_span DDTRACE_USER_SPAN 6 0 0, .close_span 6 3, .close_span 6 2, .drop_span 6 3]
      (ddtrace_init_span_stacks (fresh_state true false (fun i => i % 100 + 10)))) = true := by
    decide!
  have h1 : (demo_closed_active.span_stacks 2).active = some 2 := by decide!
  have h2 : (demo_closed_active.spans 2).stack = some 2 := by decide!
  have h3 : (demo_closed_active.spans 2).type = DDTRACE_SPAN_CLOSED := by decide!
  have h4 : (demo_closed_active.spans 1).type = DDTRACE_AUTOROOT_SPAN := by decide!
  have h5 : demo_closed_active.autofinish_spans = true := by decide!
  have h6 : demo_closed_active.stack_top - 1 = 1 + 1 := by decide!
  refine ⟨h0, h1, h2, h3, h4, fun fuel force => ?_⟩
  unfold ddtrace_close_all_open_spans
  rw [h6, close_all_loop, close_open_spans_stuck fuel force 2 2 fuel _ h1 h2 h3 h5]
  rfl

/-- C14: when the global worklist is the list of stacks `D`, each with its
sub-list, every listed stack has the well-formed staged ring `ring_of` gives
it, no stack is listed twice, the rings of different stacks share no span and
the stacks of the sub-lists have no sub-list of their own, then
`ddtrace_serialize_closed_spans` returns (given fuel for the lists and the
rings), the spans it hands over are the staged rings of the listed stacks one
after the other, every staged span exactly once, and afterwards the global
`top_closed_stack` is `NULL` and every drained stack has `closed_ring_flush`
and `top_closed_stack` `NULL`. -/
theorem serialize_closed_spans_drains_worklist (ring_of : Nat → List Nat)
    (D : List (Nat × List Nat)) (fuel : Nat) (s : State)
    (hw : worklist_ok s ring_of s.top_closed_stack D)
    (hsub : ∀ e ∈ D, ∀ j ∈ e.2, (s.span_stacks j).top_closed_stack = none)
    (hdis : ∀ i ∈ flat_stacks D, ∀ j ∈ flat_stacks D, i ≠ j → ∀ x ∈ ring_of i, x ∉ ring_of j)
    (hfuel : drain_fuel fuel ring_of D) :
    ∃ out s2, ddtrace_serialize_closed_spans fuel s = .ok (out, s2)
      ∧ out = rings_of ring_of (flat_stacks D)
      ∧ out.Nodup ∧ (∀ x, x ∈ out ↔ ∃ j ∈ flat_stacks D, x ∈ ring_of j)
      ∧ s2.top_closed_stack = none
      ∧ ∀ j ∈ flat_stacks D, (s2.span_stacks j).closed_ring_flush = none
          ∧ (s2.span_stacks j).top_closed_stack = none := by
  obtain ⟨f2, fD, fs, fr⟩ := hfuel
  obtain ⟨s2, e1, _, e3, e4, e5, _⟩ := serialize_closed_spans_ok ring_of D fuel s hw f2 fD fs fr
  have hcl := serialize_closed_spans_clears fuel s _ e1
  refine ⟨_, s2, e1, rfl, ?_, ?_, e3, fun j hj => ⟨e4 j hj, ?_⟩⟩
  · unfold rings_of
    rw [List.nodup_flatMap]
    refine ⟨fun j hj => ?_, ?_⟩
    · obtain ⟨f, _, hr⟩ := hw.2.2.1 j hj
      exact hr.2.2
    · refine List.Pairwise.imp_of_mem ?_ hw.2.2.2
      intro a b ha hb hab x hxa hxb
      exact hdis a ha b hb hab x hxa hxb
  · intro x
    simp [rings_of, List.mem_flatMap]
  · unfold flat_stacks at hj
    obtain ⟨e, he, hje⟩ := List.mem_flatMap.1 hj
    rcases List.mem_cons.1 hje with h | h
    · rw [h]
      exact e5 e he
    · rcases (hcl j).1 with h2 | h2
      · rw [h2]
        exact hsub e he j h
      · exact h2

/-- Witness for C14: the two independent root stacks of `demo_two_roots`; the
drain hands over two spans, span 2 of stack 3 and span 1 of stack 2. -/
theorem serialize_closed_spans_drains_worklist_witness :
    worklist_ok demo_two_roots demo_two_roots_rings demo_two_roots.top_closed_stack
      [(3, []), (2, [])]
    ∧ ∃ s2, ddtrace_serialize_closed_spans 4 demo_two_roots = .ok ([2, 1], s2)
      ∧ s2.top_closed_stack = none
      ∧ (s2.span_stacks 2).closed_ring_flush = none
      ∧ (s2.span_stacks 3).closed_ring_flush = none := by
  have h1 : worklist_ok demo_two_roots demo_two_roots_rings demo_two_roots.top_closed_stack
      [(3, []), (2, [])] := by decide!
  have h2 : ∀ e ∈ [((3 : Nat), ([] : List Nat)), (2, [])], ∀ j ∈ e.2,
      (demo_two_roots.span_stacks j).top_closed_stack = none := by decide
  have h3 : ∀ i ∈ flat_stacks [(3, []), (2, [])], ∀ j ∈ flat_stacks [(3, []), (2, [])],
      i ≠ j → ∀ x ∈ demo_two_roots_rings i, x ∉ demo_two_roots_rings j := by decide
  have h4 : drain_fuel 4 demo_two_roots_rings [(3, []), (2, [])] := by decide
  obtain ⟨out, s2, e1, e2, _, _, e5, e6⟩ :=
    serialize_closed_spans_drains_worklist demo_two_roots_rings [(3, []), (2, [])] 4
      demo_two_roots h1 h2 h3 h4
  have h5 : rings_of demo_two_roots_rings (flat_stacks [(3, []), (2, [])]) = [2, 1] := by
    decide
  rw [e2, h5] at e1
  exact ⟨h1, s2, e1, e5, (e6 2 (by decide)).1, (e6 3 (by decide)).1⟩

/-- Counterexample to C13: in `demo_forced_stage`, reached by stack creation,
switches, opens, closes and `ddtrace_mark_all_span_stacks_flushable`, the root
span 1 of the root stack 2 is still open, stack 3 is a child stack of root
stack 2, and `ddtrace_serialize_closed_spans` hands the serializer span 2, which
was closed on stack 3. -/
theorem forced_stage_flushes_child_stack_under_open_root_span :
    (demo_forced_stage.span_stacks 2).root_span = some 1
    ∧ (demo_forced_stage.spans 1).type = DDTRACE_AUTOROOT_SPAN
    ∧ (demo_forced_stage.span_stacks 3).root_stack = some 2
    ∧ (demo_forced_stage.spans 2).stack = some 3
    ∧ (demo_forced_stage.spans 2).type = DDTRACE_SPAN_CLOSED
    ∧ (ddtrace_serialize_closed_spans 6 demo_forced_stage).map
        (fun r => (r.1, (r.2.spans 1).type)) = .ok ([3, 2], DDTRACE_AUTOROOT_SPAN) := by
  decide!

/-- C13 (amended): when `dd_mark_closed_spans_flushable` stages a stack `k`
whose root span is open and belongs to another stack, it returns, `k` is
attached to the sub-list `top_closed_stack` of its root stack `R` and the global
worklist is left as it is; and as long as `R` is not on the worklist,
`ddtrace_serialize_closed_spans` hands over the rings of the listed stacks only
and leaves the ring of `k` staged. -/
theorem child_stack_staged_under_open_root_span_waits (fuel : Nat) (s : State)
    (k h r R : Nat) (ring_of : Nat → List Nat) (D : List (Nat × List Nat))
    (hc : (s.span_stacks k).closed_ring = some h)
    (hf : (s.span_stacks k).closed_ring_flush = none)
    (hr : (s.span_stacks k).root_span = some r) (hrs : (s.spans r).stack ≠ some k)
    (hty : (s.spans r).type ≠ DDTRACE_SPAN_CLOSED)
    (hR : (s.span_stacks k).root_stack = some R)
    (hw : worklist_ok s ring_of s.top_closed_stack D)
    (hk : k ∉ flat_stacks D) (hRD : R ∉ flat_stacks D)
    (hfuel : drain_fuel fuel ring_of D) :
    ∃ s1 s2, dd_mark_closed_spans_flushable s k = .ok s1
      ∧ s1.top_closed_stack = s.top_closed_stack
      ∧ (s1.span_stacks R).top_closed_stack = some k
      ∧ (s1.span_stacks k).next = (s.span_stacks R).top_closed_stack
      ∧ (s1.span_stacks k).closed_ring_flush = some h
      ∧ ddtrace_serialize_closed_spans fuel s1
          = .ok (rings_of ring_of (flat_stacks D), s2)
      ∧ (s2.span_stacks k).closed_ring_flush = some h
      ∧ (s2.span_stacks R).top_closed_stack = some k := by
  obtain ⟨f1, f2, f3, f4, f5, f6, f7, f8, f9, f10⟩ := stage_sub_facts s k h R
  have hw1 : worklist_ok (stage_sub s k h R) ring_of (stage_sub s k h R).top_closed_stack D := by
    rw [f2]
    refine worklist_ok_congr s _ ring_of _ D (fun j hj => ?_) (fun j _ x _ => by rw [f1]) hw
    have hjk : j ≠ k := fun e => hk (e ▸ hj)
    have hjR : j ≠ R := fun e => hRD (e ▸ hj)
    rw [f7 j hjk hjR]
    exact ⟨rfl, rfl, rfl⟩
  obtain ⟨g1, g2, g3, g4⟩ := hfuel
  obtain ⟨s2, e1, _, _, _, _, e6⟩ :=
    serialize_closed_spans_ok ring_of D fuel (stage_sub s k h R) hw1 g1 g2 g3 g4
  exact ⟨_, s2, mark_stage_sub s k h r R hc hf hr hrs hty hR, f2, f3, f4, f5, e1,
    by rw [e6 k hk]; exact f5, by rw [e6 R hRD]; exact f3⟩

/-- Witness for C13 (amended): stack 3 of `demo_child_ring`, whose root span 1
is open on stack 2; the worklist is empty. -/
theorem child_stack_staged_under_open_root_span_waits_witness :
    (demo_child_ring.span_stacks 3).closed_ring = some 2
    ∧ (demo_child_ring.span_stacks 3).root_span = some 1
    ∧ (demo_child_ring.spans 1).stack = some 2
    ∧ (demo_child_ring.spans 1).type = DDTRACE_AUTOROOT_SPAN
    ∧ ∃ s1 s2, dd_mark_closed_spans_flushable demo_child_ring 3 = .ok s1
      ∧ s1.top_closed_stack = none
      ∧ (s1.span_stacks 2).top_closed_stack = some 3
      ∧ ddtrace_serialize_closed_spans 2 s1 = .ok ([], s2)
      ∧ (s2.span_stacks 3).closed_ring_flush = some 2 := by
  have h1 : (demo_child_ring.span_stacks 3).closed_ring = some 2 := by decide!
  have h2 : (demo_child_ring.span_stacks 3).closed_ring_flush = none := by decide!
  have h3 : (demo_child_ring.span_stacks 3).root_span = some 1 := by decide!
  have h4 : (demo_child_ring.spans 1).stack = some 2 := by decide!
  have h5 : (demo_child_ring.spans 1).type = DDTRACE_AUTOROOT_SPAN := by decide!
  have h6 : (demo_child_ring.span_stacks 3).root_stack = some 2 := by decide!
  have h7 : worklist_ok demo_child_ring (fun _ => []) demo_child_ring.top_closed_stack [] := by
    decide!
  have h8 : demo_child_ring.top_closed_stack = none := by decide!
  obtain ⟨s1, s2, e1, e2, e3, _, _, e6, e7, _⟩ :=
    child_stack_staged_under_open_root_span_waits 2 demo_child_ring 3 2 1 2 (fun _ => []) []
      h1 h2 h3 (by rw [h4]; decide) (by rw [h5]; decide) h6 h7 (by simp [flat_stacks])
      (by simp [flat_stacks]) (by decide)
  exact ⟨h1, h3, h4, h5, s1, s2, e1, by rw [e2, h8], e3, e6, e7⟩

/-- The part of C18 that holds: in a state reached from
`ddtrace_init_span_stacks` by public operations (stack creations, switches,
opens, closes, drops, stagings of all stacks and drains), after a
`ddtrace_close_span` or `ddtrace_drop_span` call every stack whose active span
is `NULL` or belongs to a different stack has `closed_ring == NULL`. -/
theorem emptied_stack_has_no_closed_ring (autofinish auto_flush : Bool) (ids : Nat → Nat)
    (ops : List stack_op) (s s2 : State) (fuel span k : Nat)
    (hrun : run_stack_ops ops (ddtrace_init_span_stacks (fresh_state autofinish auto_flush ids))
      = .ok s)
    (h : ddtrace_close_span fuel s (some span) = .ok s2
      ∨ ddtrace_drop_span fuel s span = .ok s2)
    (he : chain_emptied s2 k = true) : (s2.span_stacks k).closed_ring = none := by
  have hi := ring_inv_run ops _ s (ring_inv_init autofinish auto_flush ids) hrun
  rcases h with h | h
  · exact (emptied_unringed_close_drop fuel).1 s (some span) s2 hi.2 h k he
  · exact (emptied_unringed_close_drop fuel).2.2 s span s2 hi.2 h k he

/-- An instance of `emptied_stack_has_no_closed_ring`: closing the root span 1
of `demo_ring_pending` empties the chain of stack 2, whose closed ring, which
held span 2, is `NULL` afterwards. -/
theorem emptied_stack_has_no_closed_ring_witness :
    run_stack_ops demo_child_closed_ops
        (ddtrace_init_span_stacks (fresh_state true false (fun i => i % 100 + 10)))
      = .ok demo_ring_pending
    ∧ (demo_ring_pending.span_stacks 2).closed_ring = some 2
    ∧ ddtrace_close_span 6 demo_ring_pending (some 1) = .ok demo_ring_staged
    ∧ chain_emptied demo_ring_staged 2 = true
    ∧ (demo_ring_staged.span_stacks 2).closed_ring = none := by
  have h1 : run_stack_ops demo_child_closed_ops
      (ddtrace_init_span_stacks (fresh_state true false (fun i => i % 100 + 10)))
      = .ok demo_ring_pending := state_of_ok _ _ (by decide!)
  have h2 : (demo_ring_pending.span_stacks 2).closed_ring = some 2 := by decide!
  have h3 : ddtrace_close_span 6 demo_ring_pending (some 1) = .ok demo_ring_staged :=
    state_of_ok _ _ (by decide!)
  have h4 : chain_emptied demo_ring_staged 2 = true := by decide!
  exact ⟨h1, h2, h3, h4,
    emptied_stack_has_no_closed_ring true false (fun i => i % 100 + 10) demo_child_closed_ops
      demo_ring_pending demo_ring_staged 6 1 2 h1 (Or.inl h3) h4⟩

/-- C11: on an active primary stack `P`, `ddtrace_open_span` of a span that is
not closed returns with a fresh root stack `S` active whose parent stack is
`P`; `ddtrace_close_span` of that span then returns too, and afterwards the
active stack is `P` again, `S` has neither a root span nor an active span, and
the open counter has the value it had before the span was opened. -/
theorem open_then_close_on_primary_stack_restores_context (fuel : Nat) (H : Hooks)
    (s : State) (span P pid tid : Nat) (ring_of : Nat → List Nat) (D : List (Nat × List Nat))
    (ha : s.active_stack = some P) (hps : (s.span_stacks P).parent_stack = none)
    (hpid : H.ddtrace_peek_span_id
      (open_span_ids_state (open_span_enter s P).2 (open_span_enter s P).1 span) = .ok pid)
    (htid : H.ddtrace_peek_trace_id
      (open_span_trace_state (open_span_enter s P).2 (open_span_enter s P).1 span pid)
        = .ok tid)
    (hty : (s.spans span).type ≠ DDTRACE_SPAN_CLOSED)
    (hcnt : s.open_spans_count < 2 ^ 32)
    (hfl : s.auto_flush_enabled = true →
      worklist_ok s ring_of s.top_closed_stack D ∧ s.stack_top ∉ flat_stacks D
      ∧ (∀ j ∈ flat_stacks D, span ∉ ring_of j)
      ∧ drain_fuel fuel (ring_of_upd ring_of s.stack_top [span]) ((s.stack_top, []) :: D))
    (hf : 2 ≤ fuel) :
    ∃ s1 s2, ddtrace_open_span H s span = .ok s1
      ∧ s1.active_stack = some s.stack_top
      ∧ (s1.span_stacks s.stack_top).parent_stack = some P
      ∧ (s1.span_stacks s.stack_top).root_stack = some s.stack_top
      ∧ ddtrace_close_span (fuel + 1) s1 (some span) = .ok s2
      ∧ s2.active_stack = some P
      ∧ (s2.span_stacks s.stack_top).root_span = none
      ∧ (s2.span_stacks s.stack_top).active = none
      ∧ s2.open_spans_count = s.open_spans_count := by
  obtain ⟨p1, p2, p3, p4⟩ := open_span_enter_primary s P hps
  have pf := open_span_enter_fresh s P ha hps
  obtain ⟨s1, e1, e2, e3, e4, e5, _, e7, _, _, e10, _, _, _, _, ek⟩ :=
    open_span_total H s span P pid tid ha (fun _ => ⟨hpid, htid⟩)
      (fun h => absurd hps h)
  rw [p1] at e2 e3 e4 e5 e7
  rw [p2] at e5 e7
  simp only [if_true] at e7
  obtain ⟨kx, kg, kj⟩ := ek
  have hS := kj s.stack_top
  rw [pf] at hS
  simp only at hS
  obtain ⟨hS1, hS2, hS3, hS4, hS5, hS6⟩ := hS
  have hother : ∀ j, j ≠ s.stack_top →
      (s1.span_stacks j).next = (s.span_stacks j).next
      ∧ (s1.span_stacks j).top_closed_stack = (s.span_stacks j).top_closed_stack
      ∧ (s1.span_stacks j).closed_ring_flush = (s.span_stacks j).closed_ring_flush := by
    intro j hj
    have := kj j
    rw [p4 j hj] at this
    exact ⟨this.2.2.2.2.1, this.2.2.2.2.2, this.2.2.2.1⟩
  have hnf : entry_nofault s1 s.stack_top := by
    refine ⟨fun _ => ⟨by rw [e5]; simp, by rw [hS1]; simp⟩, fun _ => by rw [hS2]; simp⟩
  have hentry : is_entry_span s1 s.stack_top span = true := by
    simp [is_entry_span, e7]
  obtain ⟨s2, c1, _, c3, c4⟩ :=
    close_span_chain_ok fuel s1 s.stack_top span s.stack_top [] [] [] ring_of D e4 e2
      (by rw [(kx span).1]; exact hty) e3 (fun _ u hu => by cases hu) hnf
      (fun hfe _ _ => by
        obtain ⟨w1, w2, w3, w4⟩ := hfl (by rw [← kg.2.2.2.2.1]; exact hfe)
        refine ⟨⟨hS4, ?_, ?_, ?_, ?_, ?_⟩, ⟨?_, ?_⟩, ?_⟩
        · simp [closed_ring_ok, hS3]
        · rw [kg.1]
          exact worklist_ok_congr s s1 ring_of _ D
            (fun j hj => hother j (fun e => w2 (e ▸ hj)))
            (fun j _ x _ => (kx x).2.1) w1
        · simp [stack_list, hS6]
        · intro j hj
          cases hj
        · simp only [List.append_nil, List.singleton_append, List.nodup_cons]
          exact ⟨w2, w1.2.2.2⟩
        · intro x hx
          cases hx
        · intro j hj x hx
          simp only [List.nil_append] at hj
          refine ⟨?_, by simp⟩
          simp only [List.nil_append, List.mem_singleton]
          rintro rfl
          exact w3 j hj hx
        · simpa [ring_after] using w4)
      (by simpa using hf)
  have c3 := c3 hentry
  have hch : chain_above s1 s.stack_top span (s1.span_stacks s.stack_top).active [] := e3
  obtain ⟨q1, q2, _, _, _, q6⟩ := close_chain_core_props s.stack_top s1 [] span hch
  have hfr := close_chain_core_frame s.stack_top s1 [] span
  obtain ⟨g1, _, _, _, g5, _, _, _, _, _, _, _, _, _, _, g16⟩ := hfr
  have hown : entry_owns (close_chain_core s.stack_top s1 [] span) s.stack_top = true := by
    have : entry_owns (close_chain_core s.stack_top s1 [] span) s.stack_top
        = entry_owns s1 s.stack_top :=
      entry_owns_congr s1 _ s.stack_top (g16 s.stack_top).1 (fun x => (g1 x).1)
    rw [this]
    simp [entry_owns, e5, e2]
  obtain ⟨x1, _, _⟩ := close_entry_context fuel _ s.stack_top s2 c3
  obtain ⟨y1, y2⟩ := x1 hown
  have hrs : ((close_chain_core s.stack_top s1 [] span).span_stacks s.stack_top).root_stack
      = some s.stack_top := by rw [(g16 s.stack_top).2.1]; exact hS1
  have hpp : ((close_chain_core s.stack_top s1 [] span).span_stacks s.stack_top).parent_stack
      = some P := by rw [(g16 s.stack_top).2.2.1]; exact hS2
  have hact : (close_chain_core s.stack_top s1 [] span).active_stack = some s.stack_top := g5
  rw [if_pos ⟨hrs, hact⟩, hpp] at y2
  obtain ⟨_, _, z3, z4, _⟩ := c4
  refine ⟨s1, s2, e1, e4, hS2, hS1, c1, y2, y1, ?_, ?_⟩
  · rw [(z3 s.stack_top).1, q2, e7]
  · rw [z4, q6, e10]
    simpa using decr32_incr32 _ hcnt

/-- Witness for C11: the first span of a request, opened on the primary stack 1
with automatic flushing enabled and closed again. -/
theorem open_then_close_on_primary_stack_restores_context_witness :
    demo_request_start_flush.active_stack = some 1
    ∧ (demo_request_start_flush.span_stacks 1).parent_stack = none
    ∧ demo_request_start_flush.stack_top = 2
    ∧ demo_request_start_flush.auto_flush_enabled = true
    ∧ ∃ s1 s2, ddtrace_open_span (active_span_hooks 4 7 9) demo_request_start_flush 1 = .ok s1
      ∧ s1.active_stack = some 2
      ∧ ddtrace_close_span 5 s1 (some 1) = .ok s2
      ∧ s2.active_stack = some 1
      ∧ (s2.span_stacks 2).root_span = none
      ∧ (s2.span_stacks 2).active = none
      ∧ s2.open_spans_count = 0 := by
  have h1 : demo_request_start_flush.active_stack = some 1 := by decide!
  have h2 : (demo_request_start_flush.span_stacks 1).parent_stack = none := by decide!
  have h3 : (active_span_hooks 4 7 9).ddtrace_peek_span_id
      (open_span_ids_state (open_span_enter demo_request_start_flush 1).2
        (open_span_enter demo_request_start_flush 1).1 1) = .ok 7 := by decide!
  have h4 : (active_span_hooks 4 7 9).ddtrace_peek_trace_id
      (open_span_trace_state (open_span_enter demo_request_start_flush 1).2
        (open_span_enter demo_request_start_flush 1).1 1 7) = .ok 9 := by decide!
  have h5 : (demo_request_start_flush.spans 1).type ≠ DDTRACE_SPAN_CLOSED := by decide!
  have h6 : demo_request_start_flush.open_spans_count = 0 := by decide!
  have h7 : demo_request_start_flush.stack_top = 2 := by decide!
  have h8 : demo_request_start_flush.top_closed_stack = none := by decide!
  have h9 : demo_request_start_flush.auto_flush_enabled = true := by decide!
  obtain ⟨s1, s2, e1, e2, _, _, e5, e6, e7, e8, e9⟩ :=
    open_then_close_on_primary_stack_restores_context 4 (active_span_hooks 4 7 9)
      demo_request_start_flush 1 1 7 9 (fun _ => []) [] h1 h2 h3 h4 h5
      (by rw [h6]; norm_num)
      (fun _ => by
        rw [h7, h8]
        refine ⟨⟨rfl, ?_, ?_, ?_⟩, ?_, ?_, ?_⟩
        · intro e he
          cases he
        · intro j hj
          cases hj
        · exact List.nodup_nil
        · intro hj
          cases hj
        · intro j hj
          cases hj
        · refine ⟨by norm_num, by simp, ?_, ?_⟩
          · intro e he
            simp only [List.mem_singleton] at he
            subst he
            simp
          · intro j hj
            simp [ring_of_upd]
            split_ifs <;> simp)
      (by norm_num)
  rw [h7] at e2 e7 e8
  exact ⟨h1, h2, h7, h9, s1, s2, e1, e2, e5, e6, e7, e8, by rw [e9, h6]⟩

/-- C15: with a non-null active stack and span stacks whose chains and rings
are well formed, `ddtrace_free_span_stacks` returns; afterwards the three
counters are zero, `active_stack` and the global `top_closed_stack` are null,
every span stack of the object store has neither a pending nor a staged ring
and an active span, if any, that is not of that stack, and the spans handed to
the serializer are those handed to it before. -/
theorem free_span_stacks_clears_registry (fuel : Nat) (s : State) (silent : Bool)
    (ha : s.active_stack ≠ none)
    (hw : ∀ k, 1 ≤ k → k < s.stack_top → teardown_ready fuel s k) :
    ∃ s2, ddtrace_free_span_stacks fuel s silent = .ok s2
      ∧ s2.open_spans_count = 0 ∧ s2.closed_spans_count = 0 ∧ s2.dropped_spans_count = 0
      ∧ s2.active_stack = none ∧ s2.top_closed_stack = none
      ∧ (∀ k, 1 ≤ k → k < s.stack_top →
          (s2.span_stacks k).closed_ring = none ∧ (s2.span_stacks k).closed_ring_flush = none
          ∧ ∀ a, (s2.span_stacks k).active = some a → (s2.spans a).stack ≠ some k)
      ∧ s2.sent = s.sent := by
  obtain ⟨a, ha2⟩ := Option.ne_none_iff_exists'.1 ha
  obtain ⟨s1, e1, e2, _, e4⟩ := free_span_stacks_loop_ok fuel silent (s.stack_top - 1) s
    (fun k h1 h2 => hw k h1 (by omega))
  refine ⟨{ s1 with open_spans_count := 0, dropped_spans_count := 0, closed_spans_count := 0,
                    active_stack := none, top_closed_stack := none },
    ?_, rfl, rfl, rfl, rfl, rfl, fun k h1 h2 => e4 k h1 (by omega), e2.2.1⟩
  simp only [ddtrace_free_span_stacks, ha2, deref, bind, Except.bind, e1]
  rfl

/-- Witness for C15: the teardown of `demo_teardown`, whose stack 2 has the
open spans 2 and 1 and the pending ring of span 3. -/
theorem free_span_stacks_clears_registry_witness :
    demo_teardown.active_stack = some 2 ∧ demo_teardown.stack_top = 3
    ∧ (demo_teardown.span_stacks 2).active = some 2
    ∧ (demo_teardown.span_stacks 2).closed_ring = some 3
    ∧ demo_teardown.open_spans_count = 2
    ∧ ∃ s2, ddtrace_free_span_stacks 3 demo_teardown false = .ok s2
      ∧ s2.open_spans_count = 0 ∧ s2.closed_spans_count = 0 ∧ s2.dropped_spans_count = 0
      ∧ s2.active_stack = none
      ∧ (s2.span_stacks 2).closed_ring = none
      ∧ (∀ a, (s2.span_stacks 2).active = some a → (s2.spans a).stack ≠ some 2)
      ∧ s2.sent = demo_teardown.sent := by
  have h1 : demo_teardown.active_stack = some 2 := by decide!
  have h2 : demo_teardown.stack_top = 3 := by decide!
  have h3 : (demo_teardown.span_stacks 2).active = some 2 := by decide!
  have h4 : (demo_teardown.span_stacks 2).closed_ring = some 3 := by decide!
  have h5 : demo_teardown.open_spans_count = 2 := by decide!
  have h6 : (demo_teardown.span_stacks 2).closed_ring_flush = none := by decide!
  have h7 : (demo_teardown.span_stacks 1).active = none := by decide!
  have h8 : (demo_teardown.span_stacks 1).closed_ring = none := by decide!
  have h9 : (demo_teardown.span_stacks 1).closed_ring_flush = none := by decide!
  have h10 : (demo_teardown.spans 2).parent = some 1 := by decide!
  have h11 : (demo_teardown.spans 1).stack = some 2 := by decide!
  have h12 : (demo_teardown.spans 1).parent = none := by decide!
  have h13 : (demo_teardown.spans 3).next = some 3 := by decide!
  obtain ⟨s2, e1, e2, e3, e4, e5, _, e7, e8⟩ :=
    free_span_stacks_clears_registry 3 demo_teardown false (by rw [h1]; simp)
      (fun k hk1 hk2 => by
        rw [h2] at hk2
        have hk : k = 1 ∨ k = 2 := by omega
        rcases hk with rfl | rfl
        · refine ⟨fun a ha _ => ?_, fun f hf => ?_, fun f hf => ?_⟩
          · rw [h7] at ha
            cases ha
          · rw [h8] at hf
            cases hf
          · rw [h9] at hf
            cases hf
        · refine ⟨fun a ha _ => ?_, fun f hf => ?_, fun f hf => ?_⟩
          · rw [h3] at ha
            cases ha
            refine ⟨[1], ?_, by decide⟩
            rw [h10]
            refine ⟨rfl, h11, ?_⟩
            rw [h12]
            intro x hx
            cases hx
          · rw [h4] at hf
            cases hf
            exact ⟨[3], ⟨⟨h13, trivial⟩, rfl, by simp⟩, by decide⟩
          · rw [h6] at hf
            cases hf)
  rw [h2] at e7
  obtain ⟨g1, _, g3⟩ := e7 2 (by decide) (by decide)
  exact ⟨h1, h2, h3, h4, h5, s2, e1, e2, e3, e4, e5, g1, g3, e8⟩

/-- C12: in every state reached from `ddtrace_init_span_stacks` by a run of
the public operations (opening, closing and dropping spans, creating and
switching span stacks, `ddtrace_mark_all_span_stacks_flushable` and
`ddtrace_serialize_closed_spans`) in which every switch targets a live span
stack, the global worklist and the sub-list of every stack are finite lists
`G` and `sub r`, a stack is on one of them exactly when its
`closed_ring_flush` is not null, and no stack is listed twice, neither within
a list nor on two lists. -/
theorem flush_worklist_lists_staged_stacks_once (autofinish auto_flush : Bool)
    (ids : Nat → Nat) (ops : List stack_op) (s : State)
    (hl : live_run ops (ddtrace_init_span_stacks (fresh_state autofinish auto_flush ids))
      = true)
    (h : run_stack_ops ops (ddtrace_init_span_stacks (fresh_state autofinish auto_flush ids))
      = .ok s) :
    ∃ G sub, worklist_members s G sub := by
  obtain ⟨_, G, sub, hw, _⟩ := flush_inv_run ops _ s (flush_inv_init autofinish auto_flush ids)
    hl h
  exact ⟨G, sub, hw⟩

/-- Witness for C12: after the run `demo_sub_list_ops` the child stack 3 has a
staged ring and hangs in the sub-list of the root stack 2, whose root span is
open; the global worklist is empty. -/
theorem flush_worklist_lists_staged_stacks_once_witness :
    live_run demo_sub_list_ops
        (ddtrace_init_span_stacks (fresh_state true false (fun i => i % 100 + 10))) = true
    ∧ run_stack_ops demo_sub_list_ops
        (ddtrace_init_span_stacks (fresh_state true false (fun i => i % 100 + 10)))
      = .ok demo_sub_list
    ∧ (demo_sub_list.span_stacks 3).closed_ring_flush = some 2
    ∧ (demo_sub_list.span_stacks 2).top_closed_stack = some 3
    ∧ demo_sub_list.top_closed_stack = none
    ∧ ∃ G sub, worklist_members demo_sub_list G sub := by
  have h1 : live_run demo_sub_list_ops
      (ddtrace_init_span_stacks (fresh_state true false (fun i => i % 100 + 10))) = true := by
    decide!
  have h2 : is_ok (run_stack_ops demo_sub_list_ops
      (ddtrace_init_span_stacks (fresh_state true false (fun i => i % 100 + 10)))) = true := by
    decide!
  have h3 := state_of_ok _ (fresh_state true false id) h2
  exact ⟨h1, h3, by decide!, by decide!, by decide!,
    flush_worklist_lists_staged_stacks_once true false (fun i => i % 100 + 10)
      demo_sub_list_ops demo_sub_list h1 h3⟩

/-- Counterexample to C24: the run `demo_stray_drop_ops` of opens, drops and
closes returns, and in the state it reaches stack 2 has a closed ring (span 2),
no staged ring and no root span; `dd_mark_closed_spans_flushable` of stack 2,
and with it `ddtrace_mark_all_span_stacks_flushable`, reads the null root
span. -/
theorem mark_reads_null_root_span_after_stray_drops :
    is_ok (run_stack_ops demo_stray_drop_ops
        (ddtrace_init_span_stacks (fresh_state true true (fun i => i % 100 + 10)))) = true
    ∧ ((demo_stray_drop.span_stacks 2).closed_ring,
        (demo_stray_drop.span_stacks 2).closed_ring_flush,
        (demo_stray_drop.span_stacks 2).root_span) = (some 2, none, none)
    ∧ (dd_mark_closed_spans_flushable demo_stray_drop 2).map (fun s => s.stack_top)
        = .error Fault.null_deref
    ∧ (ddtrace_mark_all_span_stacks_flushable demo_stray_drop).map (fun s => s.stack_top)
        = .error Fault.null_deref := by
  decide!

/-- C23: in every state reached from `ddtrace_init_span_stacks` by a run of
`ddtrace_init_root_span_stack`, `ddtrace_init_span_stack`,
`ddtrace_switch_span_stack` to live span stacks, opens, closes and drops (and
stagings and drains of the worklist), every allocated stack has a root stack
that the walk along the `parent_stack` links from the stack reaches; there is
an active stack, and with fuel for as many steps as there are stacks
`ddtrace_active_span` returns, without a fault, the active span of the first
stack on the walk from the active stack up to and including its root stack
whose active span belongs to that stack itself, and `NULL` when the walk has
no such stack. In any state without an active stack it returns `NULL`. -/
theorem active_span_walks_to_root_stack (autofinish auto_flush : Bool) (ids : Nat → Nat)
    (ops : List stack_op) (s : State)
    (hl : live_run ops (ddtrace_init_span_stacks (fresh_state autofinish auto_flush ids))
      = true)
    (h : run_stack_ops ops (ddtrace_init_span_stacks (fresh_state autofinish auto_flush ids))
      = .ok s) :
    (∀ k, 1 ≤ k → k < s.stack_top →
      ∃ r path, (s.span_stacks k).root_stack = some r
        ∧ is_parent_path s r (k :: path) = true)
    ∧ (∃ a r path, s.active_stack = some a ∧ (s.span_stacks a).root_stack = some r
        ∧ is_parent_path s r (a :: path) = true
        ∧ ∀ fuel, s.stack_top ≤ fuel →
            ddtrace_active_span fuel s = .ok (first_own_active s (a :: path)))
    ∧ ∀ fuel (s0 : State), s0.active_stack = none → ddtrace_active_span fuel s0 = .ok none := by
  have hi := stack_tree_run ops _ s (stack_tree_init autofinish auto_flush ids) hl h
  refine ⟨fun k h1 h2 => ?_, active_span_of_tree s hi, fun fuel s0 h0 => ?_⟩
  · obtain ⟨r, e1, _⟩ := hi.2.2 k h1 h2
    obtain ⟨path, p1, _⟩ := stack_tree_path s hi k k (le_refl _) h1 h2 r e1
    exact ⟨r, path, e1, p1⟩
  · unfold ddtrace_active_span
    rw [h0]
    rfl

/-- Witness for C23: after the run `demo_sub_list_ops` the active stack is the
child stack 3 of the root stack 2; its active span 1 belongs to stack 2, so
`ddtrace_active_span` passes stack 3 and returns span 1 from stack 2. -/
theorem active_span_walks_to_root_stack_witness :
    live_run demo_sub_list_ops
        (ddtrace_init_span_stacks (fresh_state true false (fun i => i % 100 + 10))) = true
    ∧ run_stack_ops demo_sub_list_ops
        (ddtrace_init_span_stacks (fresh_state true false (fun i => i % 100 + 10)))
      = .ok demo_sub_list
    ∧ (demo_sub_list.active_stack, (demo_sub_list.span_stacks 3).root_stack,
        (demo_sub_list.span_stacks 3).active, (demo_sub_list.spans 1).stack)
      = (some 3, some 2, some 1, some 2)
    ∧ is_parent_path demo_sub_list 2 [3, 2] = true
    ∧ ddtrace_active_span 4 demo_sub_list = .ok (some 1)
    ∧ ((∀ k, 1 ≤ k → k < demo_sub_list.stack_top →
        ∃ r path, (demo_sub_list.span_stacks k).root_stack = some r
          ∧ is_parent_path demo_sub_list r (k :: path) = true)
      ∧ (∃ a r path, demo_sub_list.active_stack = some a
          ∧ (demo_sub_list.span_stacks a).root_stack = some r
          ∧ is_parent_path demo_sub_list r (a :: path) = true
          ∧ ∀ fuel, demo_sub_list.stack_top ≤ fuel →
              ddtrace_active_span fuel demo_sub_list
                = .ok (first_own_active demo_sub_list (a :: path)))
      ∧ ∀ fuel (s0 : State), s0.active_stack = none →
          ddtrace_active_span fuel s0 = .ok none) := by
  have hl : live_run demo_sub_list_ops
      (ddtrace_init_span_stacks (fresh_state true false (fun i => i % 100 + 10))) = true := by
    decide!
  have h2 : is_ok (run_stack_ops demo_sub_list_ops
      (ddtrace_init_span_stacks (fresh_state true false (fun i => i % 100 + 10)))) = true := by
    decide!
  have h3 := state_of_ok _ (fresh_state true false id) h2
  exact ⟨hl, h3, by decide!, by decide!, by decide!,
    active_span_walks_to_root_stack true false (fun i => i % 100 + 10) demo_sub_list_ops
      demo_sub_list hl h3⟩

/-- C22: `ddtrace_close_top_span_without_stack_swap` preserves the invariant
of the closed rings. Let `ring_of j` list the spans closed on stack `j` since
its last staging and let every closed ring be the simple cycle through exactly
these spans (`rings_ok`). When a span that is not Closed is closed on its stack
and the chain of open spans of the stack is not emptied, the call returns, the
ring of the stack is the simple cycle through the closed span and the spans
listed before, one step longer than before, the ring head is the head from
before the call, or the closed span itself when the stack had no ring, and the
rings of the other stacks are as before. When the chain is emptied and the
call returns, the ring was staged: the stack has no closed ring and no span is
listed for it. -/
theorem close_top_span_keeps_closed_rings (fuel : Nat) (s : State) (span stack : Nat)
    (ring_of : Nat → List Nat) (hi : rings_ok s ring_of)
    (hs : (s.spans span).stack = some stack) (hk : stack < s.stack_top)
    (ht : (s.spans span).type ≠ DDTRACE_SPAN_CLOSED) :
    (chain_emptied (close_top_core s span stack) stack = false →
      ∃ s2 h, ddtrace_close_top_span_without_stack_swap fuel s span = .ok s2
        ∧ rings_ok s2 (upd ring_of stack (span :: ring_of stack))
        ∧ (s2.span_stacks stack).closed_ring = some h
        ∧ is_ring s2.spans h (span :: ring_of stack)
        ∧ (span :: ring_of stack).length = (ring_of stack).length + 1
        ∧ (s2.span_stacks stack).closed_ring
            = (match (s.span_stacks stack).closed_ring with
              | some h0 => some h0
              | none => some span))
    ∧ (chain_emptied (close_top_core s span stack) stack = true →
      ∀ s2, ddtrace_close_top_span_without_stack_swap fuel s span = .ok s2 →
        rings_ok s2 (upd ring_of stack []) ∧ (s2.span_stacks stack).closed_ring = none) := by
  have hc := rings_ok_close_top_core s span stack ring_of hi hk ht
  have hT : (close_top_core s span stack).stack_top = s.stack_top :=
    (close_top_core_frame s span stack).2.2.2.1
  refine ⟨fun hem => ?_, fun hem s2 h => ?_⟩
  · obtain ⟨h, hh⟩ := close_top_core_closed_ring s span stack
    have hr := hc.1 stack (by rw [hT]; exact hk)
    rw [upd_same] at hr
    unfold closed_ring_ok at hr
    rw [hh] at hr
    refine ⟨close_top_core s span stack, h, ?_, hc, hh, hr, rfl,
      close_top_core_head s span stack⟩
    rw [close_top_eq fuel s span stack hs, hem]
    rfl
  · rw [close_top_eq fuel s span stack hs, if_pos hem] at h
    have := rings_ok_entry fuel _ stack _ s2 hc (by rw [hT]; exact hk) h
    rw [upd_upd] at this
    exact this

/-- Witness for C22: in `demo_ring_one` the closed ring of stack 2 holds span 3
and span 2 is open above the root span 1; closing span 2 leaves the ring
`3 → 2 → 3` with head 3. -/
theorem close_top_span_keeps_closed_rings_witness :
    rings_ok demo_ring_one demo_ring_one_lists
    ∧ (demo_ring_one.spans 2).stack = some 2 ∧ 2 < demo_ring_one.stack_top
    ∧ (demo_ring_one.spans 2).type ≠ DDTRACE_SPAN_CLOSED
    ∧ (demo_ring_one.span_stacks 2).closed_ring = some 3
    ∧ chain_emptied (close_top_core demo_ring_one 2 2) 2 = false
    ∧ ∃ s2 h, ddtrace_close_top_span_without_stack_swap 6 demo_ring_one 2 = .ok s2
        ∧ rings_ok s2 (upd demo_ring_one_lists 2 (2 :: demo_ring_one_lists 2))
        ∧ (s2.span_stacks 2).closed_ring = some h
        ∧ is_ring s2.spans h (2 :: demo_ring_one_lists 2)
        ∧ (2 :: demo_ring_one_lists 2).length = (demo_ring_one_lists 2).length + 1
        ∧ (s2.span_stacks 2).closed_ring
            = (match (demo_ring_one.span_stacks 2).closed_ring with
              | some h0 => some h0
              | none => some 2) := by
  have h1 : rings_ok demo_ring_one demo_ring_one_lists := by decide!
  have h2 : (demo_ring_one.spans 2).stack = some 2 := by decide!
  have h3 : 2 < demo_ring_one.stack_top := by decide!
  have h4 : (demo_ring_one.spans 2).type ≠ DDTRACE_SPAN_CLOSED := by decide!
  have h5 : chain_emptied (close_top_core demo_ring_one 2 2) 2 = false := by decide!
  exact ⟨h1, h2, h3, h4, by decide!, h5,
    (close_top_span_keeps_closed_rings 6 demo_ring_one 2 2 demo_ring_one_lists h1 h2 h3 h4).1 h5⟩

/-- C21: after every run of opens, closes, drops, stack operations, stagings,
`ddtrace_close_all_open_spans` and `ddtrace_serialize_closed_spans` from
`ddtrace_init_span_stacks`, the sum of `open_spans_count`,
`closed_spans_count` and `dropped_spans_count` as a 32-bit wrapping sum is the
number of `ddtrace_open_span` calls of the run, wrapped to 32 bits. Call by
call, from any state: a `ddtrace_open_span` that returns has incremented the
open counter and kept the other two; a `ddtrace_close_span` that is rejected
(`NULL`, a span that is not reached from the top of its stack, a Closed span)
changes nothing; every `ddtrace_close_top_span_without_stack_swap` that
returns, the one place where a close is counted, has moved exactly one unit
from the open to the closed counter; a `ddtrace_drop_span` of a span that is
not the root span of its stack has moved exactly one unit from the open to the
dropped counter; and a `ddtrace_close_span` of an open span `t` below the
unfinished userland spans `us`, or a `ddtrace_drop_span` of such a root span,
has moved exactly one unit for each span it finished, `us.length + 1` in all:
one to the closed counter for `t`, and one for each span of `us` to the closed
counter with auto-finish and to the dropped counter without. -/
theorem span_counters_sum_to_open_calls (autofinish auto_flush : Bool) (ids : Nat → Nat)
    (ops : List request_op) (s : State)
    (h : run_request_ops ops (ddtrace_init_span_stacks (fresh_state autofinish auto_flush ids))
      = .ok s) :
    (s.open_spans_count + s.closed_spans_count + s.dropped_spans_count) % 2 ^ 32
        = open_calls ops % 2 ^ 32
    ∧ (∀ H s0 span s1, ddtrace_open_span H s0 span = .ok s1 →
        s1.open_spans_count = incr32 s0.open_spans_count
        ∧ s1.closed_spans_count = s0.closed_spans_count
        ∧ s1.dropped_spans_count = s0.dropped_spans_count)
    ∧ (∀ fuel s0 s1, ddtrace_close_span fuel s0 none = .ok s1 → s1 = s0)
    ∧ (∀ fuel s0 t s1 f b, ddtrace_close_span fuel s0 (some t) = .ok s1 →
        ddtrace_has_top_internal_span f s0 t = .ok b →
        b = false ∨ (s0.spans t).type = DDTRACE_SPAN_CLOSED → s1 = s0)
    ∧ (∀ fuel s0 span s1, ddtrace_close_top_span_without_stack_swap fuel s0 span = .ok s1 →
        s1.closed_spans_count = incr32 s0.closed_spans_count
        ∧ s1.open_spans_count = decr32 s0.open_spans_count
        ∧ s1.dropped_spans_count = s0.dropped_spans_count)
    ∧ (∀ fuel s0 k t a s1, s0.active_stack = some a → (s0.spans t).stack = some k →
        (s0.span_stacks k).root_span ≠ some t → ddtrace_drop_span (fuel + 1) s0 t = .ok s1 →
        s1.dropped_spans_count = incr32 s0.dropped_spans_count
        ∧ s1.open_spans_count = decr32 s0.open_spans_count
        ∧ s1.closed_spans_count = s0.closed_spans_count)
    ∧ (∀ fuel s0 k t a us s1, s0.active_stack = some a → (s0.spans t).stack = some k →
        (s0.spans t).type ≠ DDTRACE_SPAN_CLOSED →
        chain_above s0 k t (s0.span_stacks k).active us →
        (s0.autofinish_spans = false → ∀ u ∈ us, (s0.span_stacks k).root_span ≠ some u) →
        us.length + 2 ≤ fuel → ddtrace_close_span (fuel + 1) s0 (some t) = .ok s1 →
        s1.closed_spans_count
            = incr32^[if s0.autofinish_spans then us.length + 1 else 1] s0.closed_spans_count
        ∧ s1.dropped_spans_count
            = incr32^[if s0.autofinish_spans then 0 else us.length] s0.dropped_spans_count
        ∧ s1.open_spans_count = decr32^[us.length + 1] s0.open_spans_count)
    ∧ ∀ fuel s0 k t a us s1, s0.active_stack = some a → (s0.spans t).stack = some k →
        (s0.span_stacks k).root_span = some t →
        (s0.spans t).type ≠ DDTRACE_SPAN_CLOSED →
        chain_above s0 k t (s0.span_stacks k).active us →
        us.length + 2 ≤ fuel → ddtrace_drop_span (fuel + 2) s0 t = .ok s1 →
        s1.closed_spans_count
            = incr32^[if s0.autofinish_spans then us.length + 1 else 1] s0.closed_spans_count
        ∧ s1.dropped_spans_count
            = incr32^[if s0.autofinish_spans then 0 else us.length] s0.dropped_spans_count
        ∧ s1.open_spans_count = decr32^[us.length + 1] s0.open_spans_count := by
  have := counter_sum_run ops _ s h
  have h0 : counter_sum (ddtrace_init_span_stacks (fresh_state autofinish auto_flush ids))
      = 0 := rfl
  rw [h0, Nat.zero_add] at this
  refine ⟨this, fun H s0 span s1 ho => ?_, fun fuel s0 s1 hc => ?_,
    fun fuel s0 t s1 f b hc hb hr => close_span_rejected_same fuel s0 t s1 f b hc hb hr,
    fun fuel s0 span s1 hc => close_top_counts fuel s0 span s1 hc,
    fun fuel s0 k t a s1 ha ht hr hd => ?_,
    fun fuel s0 k t a us s1 ha ht hty hc hroot hf hcl =>
      close_span_chain_counts fuel s0 k t a us s1 ha ht hty hc hroot hf hcl,
    fun fuel s0 k t a us s1 ha ht hr hty hc hf hd =>
      drop_root_chain_counts fuel s0 k t a us s1 ha ht hr hty hc hf hd⟩
  · obtain ⟨k, _, _, _, _, _, _, _, _, _, e9, e10, e11, _⟩ := open_span_facts H s0 span s1 ho
    exact ⟨e9, e10, e11⟩
  · cases fuel with
    | zero => simp [ddtrace_close_span] at hc
    | succ n =>
      rw [ddtrace_close_span] at hc
      cases hc
      rfl
  · obtain ⟨d1, d2, d3, _⟩ := drop_not_root_counts fuel s0 k t a s1 ha ht hr hd
    exact ⟨d1, d2, d3⟩

/-- Witness for C21: the run `demo_counted_ops` makes three `ddtrace_open_span`
calls and ends with no open span, two closed spans and one dropped span; and
in `demo_chain`, where three spans are open, the close of the root span 1
below the userland spans 3 and 2 moves three units to the closed counter. -/
theorem span_counters_sum_to_open_calls_witness :
    run_request_ops demo_counted_ops
        (ddtrace_init_span_stacks (fresh_state true false (fun i => i % 100 + 10)))
      = .ok demo_counted
    ∧ open_calls demo_counted_ops = 3
    ∧ (demo_counted.open_spans_count, demo_counted.closed_spans_count,
        demo_counted.dropped_spans_count) = (0, 2, 1)
    ∧ (demo_counted.open_spans_count + demo_counted.closed_spans_count
        + demo_counted.dropped_spans_count) % 2 ^ 32 = open_calls demo_counted_ops % 2 ^ 32
    ∧ chain_above demo_chain 2 1 (demo_chain.span_stacks 2).active [3, 2]
    ∧ (demo_chain.open_spans_count, demo_chain.closed_spans_count,
        demo_chain.dropped_spans_count) = (3, 0, 0)
    ∧ ∃ s1, ddtrace_close_span 6 demo_chain (some 1) = .ok s1
        ∧ (s1.open_spans_count, s1.closed_spans_count, s1.dropped_spans_count) = (0, 3, 0) := by
  have h2 : is_ok (run_request_ops demo_counted_ops
      (ddtrace_init_span_stacks (fresh_state true false (fun i => i % 100 + 10)))) = true := by
    decide!
  have h3 := state_of_ok _ (fresh_state true false id) h2
  have h4 : is_ok (ddtrace_close_span 6 demo_chain (some 1)) = true := by decide!
  have h5 := state_of_ok _ (fresh_state true false id) h4
  have hc : chain_above demo_chain 2 1 (demo_chain.span_stacks 2).active [3, 2] := by decide!
  have hT := span_counters_sum_to_open_calls true false (fun i => i % 100 + 10)
    demo_counted_ops demo_counted h3
  exact ⟨h3, by decide!, by decide!, hT.1, hc, by decide!, _, h5, by decide!⟩

/-- C18, the code at the failing input: in `demo_staged_child`, a state reached
by public calls, `ddtrace_close_span` of the root span 1 empties the chain of
stack 2 and leaves the stack with `closed_ring == NULL`, but span 1, which it
closed on that stack, was not moved to `closed_ring_flush`: the staged ring is
`2 → 3 → 2`, span 1 is in no ring, nothing was sent, and the drain that follows
hands over the spans 3 and 2 only. -/
theorem close_that_empties_chain_loses_closed_span :
    is_ok (run_stack_ops demo_staged_child_ops
        (ddtrace_init_span_stacks (fresh_state true false (fun i => i % 100 + 10)))) = true
    ∧ ((demo_staged_child.span_stacks 2).active, (demo_staged_child.span_stacks 2).closed_ring,
        (demo_staged_child.span_stacks 2).closed_ring_flush, (demo_staged_child.spans 1).type)
      = (some 1, some 3, some 2, DDTRACE_AUTOROOT_SPAN)
    ∧ (ddtrace_close_span 6 demo_staged_child (some 1)).map (fun s2 =>
        (chain_emptied s2 2, (s2.span_stacks 2).closed_ring, (s2.spans 1).type,
          (s2.spans 1).stack))
      = .ok (true, none, DDTRACE_SPAN_CLOSED, some 2)
    ∧ (ddtrace_close_span 6 demo_staged_child (some 1)).map (fun s2 =>
        ((s2.span_stacks 2).closed_ring_flush, decide (is_ring s2.spans 2 [3, 2]),
          s2.top_closed_stack, s2.sent))
      = .ok (some 2, true, some 2, [])
    ∧ (ddtrace_close_span 6 demo_staged_child (some 1) >>= fun s2 =>
        (ddtrace_serialize_closed_spans 6 s2).map Prod.fst) = .ok [3, 2] := by
  decide!

/-- Counterexample to C20: at the first traced call of a request the span of
the call is the root span of its stack; a clear with `keep = false` returns
with the span Closed, the closed counter at 1 and the dropped counter at 0, the
span staged for the flush, and the drain that follows hands it over. -/
theorem clear_without_keep_closes_root_span :
    (demo_first_traced_call.traced_spans 7, (demo_first_traced_call.span_stacks 2).root_span,
        (demo_first_traced_call.spans 1).type, demo_first_traced_call.open_spans_count)
      = (some (1, 2), some 1, DDTRACE_INTERNAL_SPAN, 1)
    ∧ (ddtrace_clear_execute_data_span 6 demo_first_traced_call 7 false).map (fun d =>
        ((d.spans 1).type, d.closed_spans_count, d.dropped_spans_count, d.open_spans_count))
      = .ok (DDTRACE_SPAN_CLOSED, 1, 0, 0)
    ∧ (ddtrace_clear_execute_data_span 6 demo_first_traced_call 7 false).map (fun d =>
        ((d.spans 1).sampling_priority, (d.span_stacks 2).closed_ring_flush,
          d.top_closed_stack, d.traced_spans 7))
      = .ok (some PRIORITY_SAMPLING_USER_REJECT, some 1, some 2, none)
    ∧ (ddtrace_clear_execute_data_span 6 demo_first_traced_call 7 false >>= fun d =>
        (ddtrace_serialize_closed_spans 6 d).map Prod.fst) = .ok [1] := by
  decide!

/-- C20 (amended): on an index without a table entry, `n` calls of
`ddtrace_alloc_execute_data_span` return the same span each and open it once:
the state is the one after the single `ddtrace_open_span` with the use count
`n + 1` in the table. Of `n` following clears with `keep = true` the first
`n - 1` return that state with the use count 2, so the span is not closed and
the entry is in place, and the `n`-th returns with the span Closed and the
index removed from the table. A clear with `keep = false` at any use count `m`
returns with the span marked silently dropped. When the span is not the root
span of its stack it was dropped at once: the dropped counter has grown by one,
the open counter has shrunk by one, the closed counter is unchanged, the span
is not Closed and the active span of its stack is its parent. When it is the
root span of its stack it was closed with the user-reject override instead:
it is Closed and the closed counter has grown by one, the dropped counter not.
In both cases any clears after it change nothing but the table. -/
theorem execute_data_span_use_count (fuel n : Nat) (H : Hooks) (s : State)
    (index k pid tid : Nat)
    (h0 : s.traced_spans index = none) (hn : 1 ≤ n) (hn2 : n + 1 < 2 ^ 32)
    (ha : s.active_stack = some k)
    (hh : (s.span_stacks k).parent_stack = none ∨ (s.span_stacks k).root_span ≠ none →
      H.ddtrace_peek_span_id
          (open_span_ids_state
            (open_span_enter (ddtrace_init_span s DDTRACE_INTERNAL_SPAN).2 k).2
            (open_span_enter (ddtrace_init_span s DDTRACE_INTERNAL_SPAN).2 k).1 s.span_top)
        = .ok pid
      ∧ H.ddtrace_peek_trace_id
          (open_span_trace_state
            (open_span_enter (ddtrace_init_span s DDTRACE_INTERNAL_SPAN).2 k).2
            (open_span_enter (ddtrace_init_span s DDTRACE_INTERNAL_SPAN).2 k).1 s.span_top pid)
        = .ok tid)
    (hact : (s.span_stacks k).parent_stack ≠ none → (s.span_stacks k).root_span ≠ none →
      (s.span_stacks k).active ≠ none)
    (hready : ∀ s1,
      ddtrace_open_span H (ddtrace_init_span s DDTRACE_INTERNAL_SPAN).2 s.span_top = .ok s1 →
      top_span_ready fuel s1 s.span_top)
    (hf : 2 ≤ fuel) :
    ∃ s1 c,
      ddtrace_open_span H (ddtrace_init_span s DDTRACE_INTERNAL_SPAN).2 s.span_top = .ok s1
      ∧ alloc_execute_data_span_calls H index n s
          = .ok (List.replicate n s.span_top, with_entry s1 index (some (s.span_top, n + 1)))
      ∧ s1.open_spans_count = incr32 s.open_spans_count
      ∧ clear_execute_data_span_calls (fuel + 2) index (List.replicate (n - 1) true)
            (with_entry s1 index (some (s.span_top, n + 1)))
          = .ok (with_entry s1 index (some (s.span_top, 2)))
      ∧ (s1.spans s.span_top).type = DDTRACE_INTERNAL_SPAN
      ∧ ddtrace_clear_execute_data_span (fuel + 2)
            (with_entry s1 index (some (s.span_top, 2))) index true = .ok c
      ∧ (c.spans s.span_top).type = DDTRACE_SPAN_CLOSED
      ∧ c.traced_spans index = none
      ∧ c.open_spans_count = decr32 s1.open_spans_count
      ∧ c.closed_spans_count = incr32 s1.closed_spans_count
      ∧ ∀ m, 2 ≤ m → m ≤ n + 1 →
          ∃ d0 d,
            ddtrace_drop_span (fuel + 2) (with_entry s1 index (some (s.span_top, m - 1)))
              s.span_top = .ok d0
            ∧ ddtrace_clear_execute_data_span (fuel + 2)
                (with_entry s1 index (some (s.span_top, m))) index false = .ok d
            ∧ d = with_entry (mark_silently_dropped d0 s.span_top) index
                (if m = 2 then none else some (s.span_top, m - 1))
            ∧ ddtrace_span_is_dropped (d.spans s.span_top) = true
            ∧ (d.spans s.span_top).duration = DDTRACE_SILENTLY_DROPPED_SPAN
            ∧ (∀ K, (s1.spans s.span_top).stack = some K →
                (s1.span_stacks K).root_span ≠ some s.span_top →
                d.dropped_spans_count = incr32 s1.dropped_spans_count
                ∧ d.open_spans_count = decr32 s1.open_spans_count
                ∧ d.closed_spans_count = s1.closed_spans_count
                ∧ (d.spans s.span_top).type = DDTRACE_INTERNAL_SPAN
                ∧ (d.span_stacks K).active = (s1.spans s.span_top).parent)
            ∧ (∀ K, (s1.spans s.span_top).stack = some K →
                (s1.span_stacks K).root_span = some s.span_top →
                (d.spans s.span_top).type = DDTRACE_SPAN_CLOSED
                ∧ (d.spans s.span_top).sampling_priority = some PRIORITY_SAMPLING_USER_REJECT
                ∧ d.closed_spans_count = incr32 s1.closed_spans_count
                ∧ d.open_spans_count = decr32 s1.open_spans_count
                ∧ d.dropped_spans_count = s1.dropped_spans_count)
            ∧ ∀ keeps : List Bool, keeps.length < m - 1 →
                clear_execute_data_span_calls (fuel + 2) index keeps d
                  = .ok (with_entry d index
                      (if m - 1 - keeps.length = 1 then none
                        else some (s.span_top, m - 1 - keeps.length))) := by
  obtain ⟨s1, e1, e2, e3, e4, _, _, _, _, _, e10, _, _, _, _, ek⟩ :=
    open_span_total H (ddtrace_init_span s DDTRACE_INTERNAL_SPAN).2 s.span_top k pid tid ha hh
      hact
  obtain ⟨kx, kg, _⟩ := ek
  obtain ⟨K, R, subs, ring_of, D, r1, r2, r3⟩ := hready s1 e1
  have hK : (open_span_enter (ddtrace_init_span s DDTRACE_INTERNAL_SPAN).2 k).1 = K := by
    rw [e2] at r1
    exact Option.some.inj r1
  rw [hK] at e2 e3 e4
  have hinit : (ddtrace_init_span s DDTRACE_INTERNAL_SPAN).2.spans s.span_top
      = { type := DDTRACE_INTERNAL_SPAN } := by
    simp [ddtrace_init_span]
  have hty : (s1.spans s.span_top).type = DDTRACE_INTERNAL_SPAN := by
    rw [(kx s.span_top).1, hinit]
  have hty1 : ∀ e, ((with_entry s1 index e).spans s.span_top).type ≠ DDTRACE_SPAN_CLOSED := by
    intro e
    show (s1.spans s.span_top).type ≠ DDTRACE_SPAN_CLOSED
    rw [hty]
    decide
  have hdur : ddtrace_span_is_dropped (s1.spans s.span_top) = false := by
    unfold ddtrace_span_is_dropped
    rw [(kx s.span_top).2.2.1, hinit]
    decide
  have htab : s1.traced_spans index = none := by
    rw [kg.2.1]
    exact h0
  have hfirst := alloc_first H s index s1 h0 e1
  obtain ⟨n1, rfl⟩ : ∃ n1, n = n1 + 1 := ⟨n - 1, by omega⟩
  -- the closing clear
  obtain ⟨c0, c1, c2, c3, c4, _, c6, _⟩ :=
    close_top_span_ok (fuel + 1) (with_entry s1 index (some (s.span_top, 1))) K s.span_top K
      R subs ring_of D e4 e2 e3 (hty1 _) r2
      (fun x1 x2 x3 => flush_ready_mono fuel (fuel + 1) _ K s.span_top [] R subs ring_of D
        (by omega) (r3 x1 x2 x3)) (by omega)
  have hlast := clear_keep_last (fuel + 2) s1 index s.span_top c0 hdur c1 c6
  refine ⟨s1, with_entry c0 index none, e1, ?_, e10, ?_, hty, hlast, c2,
    with_entry_lookup c0 index none, c3, c4, ?_⟩
  · simp only [alloc_execute_data_span_calls, hfirst, bind, Except.bind,
      alloc_calls_existing H index s.span_top n1 s1 2 (by omega), pure, Except.pure,
      List.replicate_succ]
    rw [show 2 + n1 = n1 + 1 + 1 from by omega]
  · have := clear_calls_keep_above (fuel + 2) index s.span_top s1 n1 (n1 + 1 + 1) (by omega)
      hn2
    rw [show n1 + 1 + 1 - n1 = 2 from by omega] at this
    simpa using this
  · intro m hm1 hm2
    obtain ⟨d0, g1, g2⟩ :=
      drop_top_span_ok fuel (with_entry s1 index (some (s.span_top, m - 1))) K s.span_top K
        R subs ring_of D e4 e2 e3 (hty1 _) r2 r3 hf
    have hdrop := clear_drop (fuel + 2) s1 index s.span_top m d0 hm1 (by omega) hdur g1 g2
    have hdd := mark_silently_dropped_is_dropped d0 s.span_top
    refine ⟨d0, _, g1, hdrop, rfl, hdd, ?_, fun K0 hK0 hr0 => ?_, fun K0 hK0 hr0 => ?_,
      fun keeps hk => ?_⟩
    · simp [with_entry, mark_silently_dropped, set_span]
    · rw [e2] at hK0
      cases Option.some.inj hK0
      obtain ⟨q1, q2, q3, q4, q5, _⟩ := drop_not_root_counts (fuel + 1)
        (with_entry s1 index (some (s.span_top, m - 1))) K s.span_top K d0 e4 e2 hr0 g1
      refine ⟨q1, q2, q3, ?_, q5⟩
      show ((mark_silently_dropped d0 s.span_top).spans s.span_top).type = _
      simp only [mark_silently_dropped, set_span, upd_same]
      rw [q4 s.span_top]
      exact hty
    · rw [e2] at hK0
      cases Option.some.inj hK0
      obtain ⟨q1, q2, q3, q4, q5⟩ := drop_root_top_effects fuel
        (with_entry s1 index (some (s.span_top, m - 1))) K s.span_top K d0 e4 e2 hr0 (hty1 _)
        e3 hf g1
      refine ⟨?_, ?_, q3, q5, q4⟩
      · show ((mark_silently_dropped d0 s.span_top).spans s.span_top).type = _
        simp only [mark_silently_dropped, set_span, upd_same]
        exact q1
      · show ((mark_silently_dropped d0 s.span_top).spans s.span_top).sampling_priority = _
        simp only [mark_silently_dropped, set_span, upd_same]
        exact q2
    by_cases hm : m = 2
    · subst hm
      have hk0 : keeps = [] := List.eq_nil_of_length_eq_zero (by omega)
      subst hk0
      simp only [if_true, List.length_nil, clear_execute_data_span_calls, pure, Except.pure,
        with_entry_twice]
    · simp only [hm, if_false, with_entry_twice]
      exact clear_calls_dropped (fuel + 2) index s.span_top _ hdd keeps (m - 1) (by omega) hk
        (by omega)

/-- Witness for C20 (amended): two calls of a traced function on index 7 while
the root span 1 and its child 2 are open on stack 2; the span is 3, it is not
the root span of stack 2, and a clear with `keep = false` drops it. -/
theorem execute_data_span_use_count_witness :
    demo_root_child.traced_spans 7 = none ∧ demo_root_child.active_stack = some 2
    ∧ demo_root_child.span_top = 3
    ∧ ∃ s1 c d,
      alloc_execute_data_span_calls (active_span_hooks 4 0 0) 7 2 demo_root_child
        = .ok ([3, 3], with_entry s1 7 (some (3, 3)))
      ∧ clear_execute_data_span_calls 4 7 [true] (with_entry s1 7 (some (3, 3)))
          = .ok (with_entry s1 7 (some (3, 2)))
      ∧ ddtrace_clear_execute_data_span 4 (with_entry s1 7 (some (3, 2))) 7 true = .ok c
      ∧ (c.spans 3).type = DDTRACE_SPAN_CLOSED ∧ c.traced_spans 7 = none
      ∧ ddtrace_clear_execute_data_span 4 (with_entry s1 7 (some (3, 3))) 7 false = .ok d
      ∧ ddtrace_span_is_dropped (d.spans 3) = true
      ∧ d.dropped_spans_count = incr32 s1.dropped_spans_count
      ∧ d.open_spans_count = decr32 s1.open_spans_count
      ∧ d.closed_spans_count = s1.closed_spans_count
      ∧ (d.spans 3).type = DDTRACE_INTERNAL_SPAN := by
  have h1 : demo_root_child.traced_spans 7 = none := by decide!
  have h2 : demo_root_child.active_stack = some 2 := by decide!
  have h3 : demo_root_child.span_top = 3 := by decide!
  have h4 : (demo_root_child.span_stacks 2).active ≠ none := by decide!
  have h5 : (active_span_hooks 4 0 0).ddtrace_peek_span_id
      (open_span_ids_state
        (open_span_enter (ddtrace_init_span demo_root_child DDTRACE_INTERNAL_SPAN).2 2).2
        (open_span_enter (ddtrace_init_span demo_root_child DDTRACE_INTERNAL_SPAN).2 2).1
        demo_root_child.span_top) = .ok 11 := by decide!
  have h6 : (active_span_hooks 4 0 0).ddtrace_peek_trace_id
      (open_span_trace_state
        (open_span_enter (ddtrace_init_span demo_root_child DDTRACE_INTERNAL_SPAN).2 2).2
        (open_span_enter (ddtrace_init_span demo_root_child DDTRACE_INTERNAL_SPAN).2 2).1
        demo_root_child.span_top 11) = .ok 10 := by decide!
  have h7 : is_ok (ddtrace_open_span (active_span_hooks 4 0 0)
      (ddtrace_init_span demo_root_child DDTRACE_INTERNAL_SPAN).2 demo_root_child.span_top)
      = true := by decide!
  have h8 : ((state_of (ddtrace_open_span (active_span_hooks 4 0 0)
      (ddtrace_init_span demo_root_child DDTRACE_INTERNAL_SPAN).2 demo_root_child.span_top)
      demo_root_child).spans demo_root_child.span_top).stack = some 2 := by decide!
  have h9 : entry_nofault (state_of (ddtrace_open_span (active_span_hooks 4 0 0)
      (ddtrace_init_span demo_root_child DDTRACE_INTERNAL_SPAN).2 demo_root_child.span_top)
      demo_root_child) 2 := by decide!
  have h10 : is_entry_span (state_of (ddtrace_open_span (active_span_hooks 4 0 0)
      (ddtrace_init_span demo_root_child DDTRACE_INTERNAL_SPAN).2 demo_root_child.span_top)
      demo_root_child) 2 demo_root_child.span_top = false := by decide!
  have h11 : ((state_of (ddtrace_open_span (active_span_hooks 4 0 0)
      (ddtrace_init_span demo_root_child DDTRACE_INTERNAL_SPAN).2 demo_root_child.span_top)
      demo_root_child).span_stacks 2).root_span ≠ some demo_root_child.span_top := by decide!
  obtain ⟨s1, c, e1, e2, _, e4, _, e6, e7, e8, _, _, e11⟩ :=
    execute_data_span_use_count 2 2 (active_span_hooks 4 0 0) demo_root_child 7 2 11 10 h1
      (by decide) (by norm_num) h2 (fun _ => ⟨h5, h6⟩) (fun _ _ => h4)
      (fun s1 hs1 => by
        rw [state_of_ok _ demo_root_child h7] at hs1
        cases hs1
        refine ⟨2, [], [], fun _ => [], [], h8, h9, fun _ _ hx => ?_⟩
        rw [h10] at hx
        cases hx)
      (by decide)
  obtain ⟨d0, d, _, g2, _, g4, _, g6, _⟩ := e11 3 (by decide) (by decide)
  rw [state_of_ok _ demo_root_child h7] at e1
  have es : s1 = state_of (ddtrace_open_span (active_span_hooks 4 0 0)
      (ddtrace_init_span demo_root_child DDTRACE_INTERNAL_SPAN).2 demo_root_child.span_top)
      demo_root_child := (Except.ok.inj e1).symm
  obtain ⟨r1, r2, r3, r4, _⟩ := g6 2 (by rw [es]; exact h8) (by rw [es]; exact h11)
  rw [h3] at e2 e4 e6 e7 g2 g4 r4
  exact ⟨h1, h2, h3, s1, c, d, e2, e4, e6, e7, e8, g2, g4, r1, r2, r3, r4⟩

/-- Counterexample to C7: after the run `demo_foreign_parent_ops` the span X
(2) is not dropped and has the parent A (1), a span of another stack, yet
`ddtrace_active_span` skipped A when X was opened: X has the `trace_id` 11, its
own `span_id`, where A has 10, and the `parent_id` 0 where the `span_id` of A
is 10. After the run `demo_foreign_open_parent_ops` the span X (3) has the
parent A (1), a span of another stack that is still open, and
`ddtrace_active_span` returned the child B (2) of A when X was opened: X has
the `trace_id` 10 of A and B, but the `parent_id` 11, the `span_id` of B, where
the `span_id` of A is 10. -/
theorem span_below_foreign_parent_starts_new_trace :
    (run_ops demo_foreign_parent_ops
        (ddtrace_init_span_stacks (fresh_state true false (fun i => i % 100 + 10)))).map
      (fun s => ((s.spans 2).parent, ddtrace_span_is_dropped (s.spans 2), (s.spans 1).stack,
        (s.spans 2).stack)) = .ok (some 1, false, some 2, some 3)
    ∧ (run_ops demo_foreign_parent_ops
        (ddtrace_init_span_stacks (fresh_state true false (fun i => i % 100 + 10)))).map
      (fun s => ((s.spans 2).trace_id, (s.spans 1).trace_id, (s.spans 2).parent_id,
        (s.spans 1).span_id)) = .ok (11, 10, 0, 10)
    ∧ (run_ops demo_foreign_open_parent_ops
        (ddtrace_init_span_stacks (fresh_state true false (fun i => i % 100 + 10)))).map
      (fun s => ((s.spans 3).parent, ddtrace_span_is_dropped (s.spans 3), (s.spans 1).type,
        (s.spans 3).stack)) = .ok (some 1, false, DDTRACE_AUTOROOT_SPAN, some 3)
    ∧ (run_ops demo_foreign_open_parent_ops
        (ddtrace_init_span_stacks (fresh_state true false (fun i => i % 100 + 10)))).map
      (fun s => ((s.spans 3).trace_id, (s.spans 1).trace_id, (s.spans 3).parent_id,
        (s.spans 1).span_id)) = .ok (10, 10, 11, 10) := by
  decide!

/-- C7 (amended): take any run of stack creations, context switches, opens,
closes and drops from `ddtrace_init_span_stacks`, with the hooks reading the
span `ddtrace_active_span` returns and generated ids other than zero, and in
it any `ddtrace_open_span`, from the state `s`, of the span `s.span_top`, and
let `s2` be the state at the end of the run. In `s2` every span, dropped or
not, whose parent was opened on the same stack has the `trace_id` of its parent
and the `span_id` of its parent as `parent_id`. If the span opened from `s` has
a parent `p` in `s2`, then `p` was the active span of the stack the span was
opened on, `ddtrace_active_span` returned in `s`, and the span has in `s2` the
`trace_id` and, as `parent_id`, the `span_id` of the span `q` it returned, or
the distributed ids when it returned `NULL`; so the span agrees with its parent
whenever `ddtrace_active_span` returned the parent, on whatever stack the
parent was opened, and it did return the parent when the parent was opened on
the stack of the span. -/
theorem span_ids_are_those_of_active_span (autofinish auto_flush : Bool)
    (ids : Nat → Nat) (ops1 ops2 : List span_op) (type : ddtrace_span_dataype)
    (fuel dp dt : Nat) (s s1 s2 : State)
    (hids : ∀ i, ids i % 2 ^ 64 ≠ 0)
    (hrun1 : run_ops ops1 (ddtrace_init_span_stacks (fresh_state autofinish auto_flush ids))
      = .ok s)
    (hopen : apply_op s (.open_span type fuel dp dt) = .ok s1)
    (hrun2 : run_ops ops2 s1 = .ok s2) :
    (∀ x p, (s2.spans x).parent = some p → (s2.spans p).stack = (s2.spans x).stack →
      (s2.spans x).trace_id = (s2.spans p).trace_id
      ∧ (s2.spans x).parent_id = (s2.spans p).span_id)
    ∧ ∀ p, (s2.spans s.span_top).parent = some p →
        (∃ k, (s2.spans s.span_top).stack = some k ∧ (s.span_stacks k).active = some p
          ∧ s.active_stack = some k)
        ∧ ∃ r, ddtrace_active_span fuel s = .ok r
          ∧ (∀ q, r = some q →
              (s2.spans s.span_top).trace_id = (s2.spans q).trace_id
              ∧ (s2.spans s.span_top).parent_id = (s2.spans q).span_id)
          ∧ (r = some p →
              (s2.spans s.span_top).trace_id = (s2.spans p).trace_id
              ∧ (s2.spans s.span_top).parent_id = (s2.spans p).span_id)
          ∧ (r = none →
              (s2.spans s.span_top).parent_id = dp
              ∧ (s2.spans s.span_top).trace_id
                  = if dt = 0 then (s2.spans s.span_top).span_id else dt)
          ∧ ((s2.spans p).stack = (s2.spans s.span_top).stack → r = some p) := by
  have hi := trace_inv_run_ops ops1 _ s (trace_inv_init autofinish auto_flush ids hids) hrun1
  have hi1 := trace_inv_apply_op s s1 _ hi hopen
  have hi2 := trace_inv_run_ops ops2 s1 s2 hi1 hrun2
  have hop : open_new_span (active_span_hooks fuel dp dt) type s = .ok s1 := hopen
  obtain ⟨t1, t2⟩ := run_ops_static ops2 s1 s2 hrun2
  obtain ⟨u1, u2⟩ := apply_op_static s s1 _ hopen
  have htop : s.span_top < s1.span_top := by
    have h1 : ddtrace_open_span (active_span_hooks fuel dp dt) (ddtrace_init_span s type).2
        s.span_top = .ok s1 := hopen
    obtain ⟨_, _, _, g4, _, _⟩ := init_span_frame s type
    obtain ⟨k, _, _, _, _, _, _, _, _, _, _, _, _, f12, _⟩ := open_span_facts _ _ _ _ h1
    rw [f12, g4]
    exact Nat.lt_succ_self _
  have hold : ∀ y, y < s.span_top → (s2.spans y).stack = (s.spans y).stack
      ∧ (s2.spans y).span_id = (s.spans y).span_id
      ∧ (s2.spans y).trace_id = (s.spans y).trace_id := by
    intro y hy
    obtain ⟨c1, _, c3, c4, _⟩ := u2 y hy
    obtain ⟨d1, _, d3, d4, _⟩ := t2 y (lt_of_lt_of_le hy u1)
    exact ⟨by rw [d1, c1], by rw [d3, c3], by rw [d4, c4]⟩
  obtain ⟨x1, x2, x3, x4, x5⟩ := t2 s.span_top htop
  refine ⟨hi2.2.2.2.2, fun p hp => ?_⟩
  rw [x2] at hp
  obtain ⟨⟨k, k1, k2, k3⟩, r, hr, q1, q2⟩ := open_new_span_ids fuel dp dt type s s1 hi hop p hp
  have hpl : p < s.span_top := hi.2.2.1 k p k2
  have hq : ∀ q, r = some q →
      (s2.spans s.span_top).trace_id = (s2.spans q).trace_id
      ∧ (s2.spans s.span_top).parent_id = (s2.spans q).span_id := by
    intro q e
    obtain ⟨j, hj1, _⟩ := active_span_own fuel s q (by rw [hr, e])
    have hql : q < s.span_top := hi.2.2.1 j q hj1
    obtain ⟨_, o2, o3⟩ := hold q hql
    rw [x4, x5, o2, o3]
    exact q1 q e
  refine ⟨⟨k, by rw [x1]; exact k1, k2, k3⟩, r, hr, hq, fun e => hq p e, fun e => ?_,
    fun hst => ?_⟩
  · rw [x5, x4, x3]
    exact q2 e
  · rw [(hold p hpl).1, x1, k1] at hst
    exact active_span_first fuel s k p r k3 k2 hst hr

/-- Witness for C7 (amended): the span X (2) is opened on the child stack 3,
whose inherited active span A (1) belongs to the root stack 2 and is still the
active span there; `ddtrace_active_span` returns A, and X, closed afterwards,
has the `trace_id` of A and the `span_id` of A as `parent_id`. -/
theorem span_ids_are_those_of_active_span_witness :
    (∀ i : Nat, (i % 100 + 10) % 2 ^ 64 ≠ 0)
    ∧ run_ops demo_inherited_parent_ops
        (ddtrace_init_span_stacks (fresh_state true false (fun i => i % 100 + 10)))
      = .ok demo_inherited_parent
    ∧ apply_op demo_inherited_parent (.open_span DDTRACE_USER_SPAN 4 0 0)
      = .ok demo_inherited_parent_opened
    ∧ run_ops [.close_span 4 2] demo_inherited_parent_opened = .ok demo_inherited_parent_closed
    ∧ demo_inherited_parent.span_top = 2
    ∧ (demo_inherited_parent_closed.spans 2).parent = some 1
    ∧ ((demo_inherited_parent_closed.spans 1).stack, (demo_inherited_parent_closed.spans 2).stack)
        = (some 2, some 3)
    ∧ ddtrace_active_span 4 demo_inherited_parent = .ok (some 1)
    ∧ (demo_inherited_parent_closed.spans 2).trace_id
        = (demo_inherited_parent_closed.spans 1).trace_id
    ∧ (demo_inherited_parent_closed.spans 2).parent_id
        = (demo_inherited_parent_closed.spans 1).span_id := by
  have h0 : ∀ i : Nat, (i % 100 + 10) % 2 ^ 64 ≠ 0 := by
    intro i
    have h1 : i % 100 < 100 := Nat.mod_lt i (by decide)
    have h2 : i % 100 + 10 < 2 ^ 64 := by
      have : (110 : Nat) < 2 ^ 64 := by decide
      omega
    rw [Nat.mod_eq_of_lt h2]
    omega
  have h1 : run_ops demo_inherited_parent_ops
      (ddtrace_init_span_stacks (fresh_state true false (fun i => i % 100 + 10)))
      = .ok demo_inherited_parent := state_of_ok _ _ (by decide!)
  have h2 : apply_op demo_inherited_parent (.open_span DDTRACE_USER_SPAN 4 0 0)
      = .ok demo_inherited_parent_opened := state_of_ok _ _ (by decide!)
  have h3 : run_ops [.close_span 4 2] demo_inherited_parent_opened
      = .ok demo_inherited_parent_closed := state_of_ok _ _ (by decide!)
  have h4 : demo_inherited_parent.span_top = 2 := by decide!
  have h5 : (demo_inherited_parent_closed.spans 2).parent = some 1 := by decide!
  have h6 : ddtrace_active_span 4 demo_inherited_parent = .ok (some 1) := by decide!
  obtain ⟨_, hT⟩ := span_ids_are_those_of_active_span true false (fun i => i % 100 + 10)
    demo_inherited_parent_ops [.close_span 4 2] DDTRACE_USER_SPAN 4 0 0 demo_inherited_parent
    demo_inherited_parent_opened demo_inherited_parent_closed h0 h1 h2 h3
  rw [h4] at hT
  obtain ⟨_, r, hr, _, hq, _⟩ := hT 1 h5
  rw [h6] at hr
  obtain ⟨e1, e2⟩ := hq (Except.ok.inj hr).symm
  exact ⟨h0, h1, h2, h3, h4, h5, by decide!, h6, e1, e2⟩

/-- C1 (amended): in any state in which stack `k` has nothing staged, its
closed ring lists the spans `R` closed before, and the worklist is well formed
(the global list `D`, the sub-list `subs` of `k`, each listed stack with its
staged ring `ring_of`), let the distinct spans of `l` be the topmost open spans
of the chain of `k`, innermost first, and `z` the last of them. Closing the
spans of `l` in list order with `ddtrace_close_span` returns. When `z` is not
the entry span of `k`, nothing is staged or sent by the closes, the closed ring
of `k` then lists `l.reverse ++ R`, the span closed last first, and
`dd_mark_closed_spans_flushable` on `k` stages exactly this batch, which the
drain hands to the serializer en bloc and in this order (`hands_over_batch`).
When `z` is the entry span of `k`, the last close stages the batch itself: a
stack that owns its root span under auto-flush has sent the batch, first, at
once, and in every other case the batch is staged and handed over by the drain
as before. -/
theorem closed_spans_flush_in_reverse_closing_order
    (fuel : Nat) (s : State) (k a z : Nat) (l R subs : List Nat)
    (ring_of : Nat → List Nat) (D : List (Nat × List Nat))
    (ha : s.active_stack = some a)
    (hl : l.getLast? = some z) (hnd : l.Nodup)
    (hc : open_segment s k (s.span_stacks k).active l)
    (hd : drain_ready s k R subs ring_of D)
    (hsep : chain_separate l R subs ring_of D)
    (hn : entry_nofault s k)
    (hf2 : 2 ≤ fuel) (hfD : D.length < fuel) (hfs : subs.length < fuel)
    (hfe : ∀ e ∈ D, e.2.length + 1 < fuel)
    (hfr : ∀ j ∈ subs ++ flat_stacks D, (ring_of j).length ≤ fuel)
    (hfB : l.length + R.length ≤ fuel) :
    ∃ s2, l.foldlM (fun st x => ddtrace_close_span (fuel + 1) st (some x)) s = .ok s2
      ∧ (is_entry_span s k z = false →
          s2.sent = s.sent ∧ closed_ring_ok s2 k (l.reverse ++ R)
          ∧ (s2.span_stacks k).closed_ring_flush = none
          ∧ ∃ m, dd_mark_closed_spans_flushable s2 k = .ok m ∧ m.sent = s.sent
            ∧ hands_over_batch fuel s m k (l.reverse ++ R) subs ring_of D)
      ∧ (is_entry_span s k z = true →
          (entry_owns s k = true ∧ s.auto_flush_enabled = true →
            s2.sent = s.sent
              ++ (l.reverse ++ R ++ rings_of ring_of subs ++ rings_of ring_of (flat_stacks D))
            ∧ (s2.span_stacks k).closed_ring_flush = none)
          ∧ (¬ (entry_owns s k = true ∧ s.auto_flush_enabled = true) →
            s2.sent = s.sent
            ∧ hands_over_batch fuel s s2 k (l.reverse ++ R) subs ring_of D)) := by
  obtain ⟨c, i1, i2, i3, i4, h, i5⟩ :=
    close_segment fuel k subs ring_of D hf2 l s R a z ha hl hnd hc hd hsep
  obtain ⟨a0, _, _, _, a4, _, _, _, _, a9, _, _, _, _, a14, a15⟩ := i2
  have a14 : c.sent = s.sent := a14
  have a9 : c.auto_flush_enabled = s.auto_flush_enabled := a9
  have a4 : c.active_stack = some k := a4
  obtain ⟨hr0, hRt⟩ := hn.1 hd.1
  obtain ⟨r, hr⟩ := Option.ne_none_iff_exists'.1 hr0
  have hroot : (c.span_stacks k).root_span = (s.span_stacks k).root_span := (a15 k).1
  have hrs : (c.span_stacks k).root_stack = (s.span_stacks k).root_stack := (a15 k).2.1
  have hps : (c.span_stacks k).parent_stack = (s.span_stacks k).parent_stack := (a15 k).2.2.1
  have hrst : (c.spans r).stack = (s.spans r).stack := (a0 r).1
  have hrty : (s.spans r).stack ≠ some k → (c.spans r).type = (s.spans r).type :=
    fun hne => i3 r (fun hm => hne (open_segment_stack s k l _ hc r hm))
  have hkD : k ∉ subs ++ flat_stacks D := (List.nodup_cons.1 hd.2.2.2.2.2).1
  have hB : (l.reverse ++ R).length ≤ fuel := by simpa using hfB
  obtain ⟨m, m1, m2, m3, m4, m5⟩ := stage_hands_over fuel s c k h r (l.reverse ++ R) subs
    ring_of D i5 i4 hroot hrs hr hrst hrty hRt hf2 hfD hfs hfe hfr hB
  by_cases he : is_entry_span s k z = true
  · rw [if_pos he, close_entry_eq, m1] at i1
    have i1 : l.foldlM (fun st x => ddtrace_close_span (fuel + 1) st (some x)) s
        = (if entry_owns m k then
            entry_release m k >>= fun m2 =>
              if m2.auto_flush_enabled then ddtrace_flush_tracer fuel m2 else pure m2
          else pure m) := i1
    rw [m4] at i1
    by_cases hown : entry_owns s k = true
    · have hst : (s.spans r).stack = some k := by
        unfold entry_owns at hown
        rw [hr] at hown
        simpa using hown
      have hm := m5 hst
      subst hm
      obtain ⟨_, _, _, f4, _, _, _, f8⟩ := stage_global_facts c k h
      have hrel := entry_release_eq (stage_global c k h) k k (by rw [f4, a4])
        (fun e => by
          rw [(f8 k).2.2, hps]
          rw [(f8 k).2.1, hrs] at e
          exact hn.2 e)
      rw [if_pos hown, hrel] at i1
      have i1 : l.foldlM (fun st x => ddtrace_close_span (fuel + 1) st (some x)) s
          = (if (release_state (stage_global c k h) k).auto_flush_enabled then
              ddtrace_flush_tracer fuel (release_state (stage_global c k h) k)
            else pure (release_state (stage_global c k h) k)) := i1
      have hauto : (release_state (stage_global c k h) k).auto_flush_enabled
          = s.auto_flush_enabled := by
        rw [(release_stage_facts c k h).2.2.2.1, a9]
      rw [hauto] at i1
      by_cases hb : s.auto_flush_enabled = true
      · rw [if_pos hb] at i1
        obtain ⟨s2, q1, q2, _, q4⟩ := flush_after_stage fuel c k h (l.reverse ++ R) subs ring_of D
          i5 i4 (drain_fuel_pushed fuel ring_of k _ subs D hkD hf2 hfD hfs hfe hfr hB)
        refine ⟨s2, by rw [i1, q1], fun e => ?_, fun _ => ?_⟩
        · rw [he] at e; cases e
        · refine ⟨fun _ => ?_, fun hh => absurd ⟨hown, hb⟩ hh⟩
          rw [q2, rings_of_pushed ring_of k _ subs D hkD, a14]
          exact ⟨rfl, q4 k (by rw [flat_stacks_cons]; simp)⟩
      · rw [if_neg hb] at i1
        refine ⟨_, i1, fun e => ?_, fun _ => ?_⟩
        · rw [he] at e; cases e
        · exact ⟨fun hh => absurd hh.2 hb, fun _ =>
            ⟨by rw [(release_stage_facts c k h).2.2.1, a14],
              release_hands_over fuel s c k h r _ subs ring_of D i5 i4 hr hst hf2 hfD hfs hfe
                hfr hB⟩⟩
    · rw [if_neg hown] at i1
      refine ⟨m, i1, fun e => ?_, fun _ => ?_⟩
      · rw [he] at e; cases e
      · exact ⟨fun hh => absurd hh.1 hown, fun _ => ⟨by rw [m2, a14], m3⟩⟩
  · rw [if_neg he] at i1
    refine ⟨c, i1, fun _ => ⟨a14, i4.2.1, i4.1, m, m1, by rw [m2, a14], m3⟩,
      fun e => absurd e he⟩

/-- Witness for C1 (amended), two instances. On the root stack 2 of
`demo_closed_sibling`, whose closed ring already holds the span 2, the spans 4
and 3 are closed in that order while the root span 1 stays open: the closed
ring then lists `[3, 4, 2]`, and staging the stack (with
`dd_mark_closed_spans_flushable`, or with
`ddtrace_mark_all_span_stacks_flushable`) and draining hands the serializer
`[3, 4, 2]`, the span closed last first. On the child stack 3 of
`demo_child_batch`, whose root span lies open on the root stack 2 already on
the worklist, the close of the entry span 3 stages the stack on the sub-list
of stack 2, and the drain hands over the ring of stack 2 and then the batch
`[3]`. -/
theorem closed_spans_flush_in_reverse_closing_order_witness :
    (demo_closed_sibling.active_stack = some 2
    ∧ open_segment demo_closed_sibling 2 (demo_closed_sibling.span_stacks 2).active [4, 3]
    ∧ drain_ready demo_closed_sibling 2 [2] [] (fun _ => []) []
    ∧ chain_separate [4, 3] [2] [] (fun _ => []) []
    ∧ entry_nofault demo_closed_sibling 2
    ∧ is_entry_span demo_closed_sibling 2 3 = false
    ∧ (demo_closed_sibling.span_stacks 2).root_span = some 1
    ∧ (demo_closed_sibling.spans 1).stack = some 2
    ∧ (∃ s2 m s3,
      [4, 3].foldlM (fun st x => ddtrace_close_span 5 st (some x)) demo_closed_sibling = .ok s2
      ∧ closed_ring_ok s2 2 [3, 4, 2]
      ∧ dd_mark_closed_spans_flushable s2 2 = .ok m
      ∧ ddtrace_serialize_closed_spans 4 m = .ok ([3, 4, 2], s3))
    ∧ ([4, 3].foldlM (fun st x => ddtrace_close_span 5 st (some x)) demo_closed_sibling
        >>= ddtrace_mark_all_span_stacks_flushable
        >>= fun m => (ddtrace_serialize_closed_spans 4 m).map Prod.fst) = .ok [3, 4, 2])
    ∧ demo_child_batch.active_stack = some 3
    ∧ open_segment demo_child_batch 3 (demo_child_batch.span_stacks 3).active [3]
    ∧ drain_ready demo_child_batch 3 [] [] demo_child_batch_rings [(2, [])]
    ∧ chain_separate [3] [] [] demo_child_batch_rings [(2, [])]
    ∧ entry_nofault demo_child_batch 3
    ∧ is_entry_span demo_child_batch 3 3 = true
    ∧ entry_owns demo_child_batch 3 = false
    ∧ (demo_child_batch.span_stacks 3).root_span = some 1
    ∧ (demo_child_batch.spans 1).stack = some 2
    ∧ (demo_child_batch.spans 1).type = DDTRACE_AUTOROOT_SPAN
    ∧ (demo_child_batch.span_stacks 3).root_stack = some 2
    ∧ ∃ s2 s3,
      [3].foldlM (fun st x => ddtrace_close_span 5 st (some x)) demo_child_batch = .ok s2
      ∧ ddtrace_serialize_closed_spans 4 s2 = .ok ([2, 3], s3) := by
  have h1 : demo_closed_sibling.active_stack = some 2 := by decide!
  have h2 : open_segment demo_closed_sibling 2 (demo_closed_sibling.span_stacks 2).active
      [4, 3] := by decide!
  have h3 : drain_ready demo_closed_sibling 2 [2] [] (fun _ => []) [] := by decide!
  have h4 : chain_separate [4, 3] [2] [] (fun _ => []) [] := by decide!
  have h5 : entry_nofault demo_closed_sibling 2 := by decide!
  have h6 : is_entry_span demo_closed_sibling 2 3 = false := by decide!
  have h7 : (demo_closed_sibling.span_stacks 2).root_span = some 1 := by decide!
  have h8 : (demo_closed_sibling.spans 1).stack = some 2 := by decide!
  have h9 : ([4, 3].foldlM (fun st x => ddtrace_close_span 5 st (some x)) demo_closed_sibling
      >>= ddtrace_mark_all_span_stacks_flushable
      >>= fun m => (ddtrace_serialize_closed_spans 4 m).map Prod.fst) = .ok [3, 4, 2] := by
    decide!
  have g1 : demo_child_batch.active_stack = some 3 := by decide!
  have g2 : open_segment demo_child_batch 3 (demo_child_batch.span_stacks 3).active [3] := by
    decide!
  have g3 : drain_ready demo_child_batch 3 [] [] demo_child_batch_rings [(2, [])] := by decide!
  have g4 : chain_separate [3] [] [] demo_child_batch_rings [(2, [])] := by decide!
  have g5 : entry_nofault demo_child_batch 3 := by decide!
  have g6 : is_entry_span demo_child_batch 3 3 = true := by decide!
  have g7 : entry_owns demo_child_batch 3 = false := by decide!
  have g8 : (demo_child_batch.span_stacks 3).root_span = some 1 := by decide!
  have g9 : (demo_child_batch.spans 1).stack = some 2 := by decide!
  have g10 : (demo_child_batch.spans 1).type = DDTRACE_AUTOROOT_SPAN := by decide!
  have g11 : (demo_child_batch.span_stacks 3).root_stack = some 2 := by decide!
  obtain ⟨s2, e1, e2, _⟩ := closed_spans_flush_in_reverse_closing_order 4 demo_closed_sibling
    2 2 3 [4, 3] [2] [] (fun _ => []) [] h1 rfl (by decide) h2 h3 h4 h5 (by decide) (by decide)
    (by decide) (fun e he => by simp at he) (fun j hj => by simp [flat_stacks] at hj) (by decide)
  obtain ⟨_, e3, _, m, e4, _, e5⟩ := e2 h6
  obtain ⟨s3, e6⟩ := e5.2.2.1 1 h7 (Or.inl h8)
  obtain ⟨t2, d1, _, d3⟩ := closed_spans_flush_in_reverse_closing_order 4 demo_child_batch
    3 3 3 [3] [] [] demo_child_batch_rings [(2, [])] g1 rfl (by decide) g2 g3 g4 g5 (by decide)
    (by decide) (by decide) (by decide) (by decide) (by decide)
  have d4 := (d3 g6).2 (fun hh => by rw [g7] at hh; exact Bool.false_ne_true hh.1)
  obtain ⟨t3, d5⟩ := d4.2.2.2.2 1 2 [] [] [] g8
    (fun hh => by
      rcases hh with hh | hh
      · rw [g9] at hh; cases hh
      · rw [g10] at hh; cases hh) g11 rfl
  exact ⟨⟨h1, h2, h3, h4, h5, h6, h7, h8,
    ⟨s2, m, s3, e1, e3, e4, by simpa [rings_of, flat_stacks] using e6⟩, h9⟩,
    g1, g2, g3, g4, g5, g6, g7, g8, g9, g10, g11, t2, t3, d1,
    by simpa [rings_of, flat_stacks, demo_child_batch_rings] using d5⟩

end DDTrace
